import Mathlib

/-!
# WellStateMultiSegment::init

A shallow embedding of `Opm::WellStateMultiSegment::init`
(`opm/autodiff/WellStateMultiSegment.hpp`) and theorems about it.

Conventions of the embedding:

* `double` values are rationals (exact arithmetic); `std::vector<T>` is `List T`;
* `int` counts and offsets are natural numbers, control indices are integers;
* `std::map<std::string, SegmentedMapentryType>` is an association list with
  pairwise distinct keys, `operator[]` being find-or-insert;
* an `assert` that fails and an index outside a vector make the whole call fail
  with an `InitError`; the state is passed explicitly (`self` is the object the
  member function is called on);
* a property of the state after `init` is stated for the calls that return,
  `init self wells pressure prevState legacy = Except.ok st`; that the continuation
  returns for a well-formed previous state is `init_returns_of_wellFormed`, and that
  `init` returns for consistent inputs, or fails with the assertion the inputs violate,
  is `init_outcome`.
-/

namespace Opm

/-! ## External collaborators -/

/-- Well type, `enum WellType` of `opm/core/wells.h`; `OTHER` stands for any value
that is neither `INJECTOR` nor `PRODUCER` (the case the assertions of `init` reject). -/
inductive WellType where
  | INJECTOR
  | PRODUCER
  | OTHER
deriving DecidableEq, Repr

/-- Control type, `enum WellControlType` of `opm/core/well_controls.h`. -/
inductive WellControlType where
  | BHP
  | THP
  | RESERVOIR_RATE
  | SURFACE_RATE
deriving DecidableEq, Repr

/-- The control descriptor of a well, `struct WellControls`, seen through the accessors
`init` calls: `well_controls_well_is_stopped`, `well_controls_get_current`,
`well_controls_get_num`, `well_controls_get_current_type`,
`well_controls_get_current_target` and `well_controls_get_current_distr`. -/
structure WellControls where
  well_is_stopped : Bool
  current : Int
  num : Int
  current_type : WellControlType
  current_target : ℚ
  current_distr : List ℚ
deriving DecidableEq, Repr

/-- A multi-segment well, `WellMultiSegment`, seen through the accessors `init` calls.
`p2s_gather` is the matrix `wellOps().p2s_gather`, given by its rows. -/
structure WellMultiSegment where
  name : String
  wellType : WellType
  numberOfPhases : Nat
  numberOfPerforations : Nat
  numberOfSegments : Nat
  segmentPerforations : List (List Nat)
  wellCells : List Nat
  isMultiSegmented : Bool
  wellControls : WellControls
  p2s_gather : List (List ℚ)
deriving DecidableEq, Repr

/-! ## The state -/

/-- The map entry of one well, `SegmentedMapentryType`. -/
structure SegmentedMapentryType where
  well_number : Nat
  start_segment : Nat
  number_of_segments : Nat
  start_perforation : Nat
  number_of_perforations : Nat
  start_perforation_segment : List Nat
  number_of_perforations_segment : List Nat
deriving DecidableEq, Repr

/-- The value-initialised entry `operator[]` inserts for a new key. -/
def SegmentedMapentryType.fresh : SegmentedMapentryType :=
  ⟨0, 0, 0, 0, 0, [], []⟩

/-- The well map, `SegmentedWellMapType`. -/
abbrev SegmentedWellMapType := List (String × SegmentedMapentryType)

/-- The state `WellStateMultiSegment`, with the members of its base classes that
`init` touches (`wells_`, `bhp`, `thp`, `temperature`, `wellRates`, `currentControls`,
`perfPhaseRates`, `perfPress`). The legacy wells handle is an opaque token. -/
structure WellStateMultiSegment where
  wells_ : Option Nat
  bhp : List ℚ
  thp : List ℚ
  temperature : List ℚ
  wellRates : List ℚ
  currentControls : List Int
  perfPhaseRates : List ℚ
  perfPress : List ℚ
  segpress_ : List ℚ
  segphaserates_ : List ℚ
  top_segment_loc_ : List Nat
  segmentedWellMap_ : SegmentedWellMapType
  nseg_ : Nat
  nperf_ : Nat
deriving DecidableEq, Repr

/-- A default-constructed state: every vector and the map empty. -/
def WellStateMultiSegment.empty : WellStateMultiSegment :=
  ⟨none, [], [], [], [], [], [], [], [], [], [], [], 0, 0⟩

/-! ## Failure, vectors, loops and the map -/

/-- The ways a call of `init` can fail: one of its three assertions, an index outside
a vector, or a matrix-vector product of mismatching dimensions. -/
inductive InitError where
  | assertWellType
  | assertPerforationCount
  | assertWellInMap
  | outOfRange
  | dimensionMismatch
deriving DecidableEq, Repr

/-- The result of a fallible computation. -/
abbrev M (α : Type) := Except InitError α

/-- The read `v[i]`. -/
def readAt {α : Type} (v : List α) (i : Nat) : M α :=
  match v[i]? with
  | some x => Except.ok x
  | none => Except.error InitError.outOfRange

/-- The write `v[i] = x`. -/
def writeAt {α : Type} (v : List α) (i : Nat) (x : α) : M (List α) :=
  if i < v.length then Except.ok (v.set i x) else Except.error InitError.outOfRange

/-- The call `v.resize(n, x)`: a longer vector is cut, a shorter one is filled up with
`x`; elements already there keep their value. -/
def resize {α : Type} (v : List α) (n : Nat) (x : α) : List α :=
  v.take n ++ List.replicate (n - v.length) x

/-- The call `assert(c)`. -/
def assertThat (c : Bool) (e : InitError) : M Unit :=
  if c then Except.ok () else Except.error e

/-- The loop `for (i = 0; i < n; ++i) body`, as a transformation of the loop state. -/
def forUpTo {σ : Type} : Nat → (Nat → σ → M σ) → σ → M σ
  | 0, _, s => Except.ok s
  | n + 1, body, s =>
    match forUpTo n body s with
    | Except.ok t => body n t
    | Except.error e => Except.error e

/-- The loop `for (i = 0; i < n; ++i) dst[idx i] = val i`, where the value does not
depend on `dst`. -/
def writeLoop {α : Type} (n : Nat) (idx : Nat → Nat) (val : Nat → M α) (dst : List α) :
    M (List α) :=
  forUpTo n (fun i d => (val i).bind (fun x => writeAt d (idx i) x)) dst

/-- The lookup `m.find(k)`: the entry of the key, if there is one. -/
def mapFind : SegmentedWellMapType → String → Option SegmentedMapentryType
  | [], _ => none
  | (k1, e) :: rest, k => if k1 = k then some e else mapFind rest k

/-- Storing the entry `e` under the key `k`: replaces the entry of `k` if there is one,
inserts it otherwise. -/
def mapSet : SegmentedWellMapType → String → SegmentedMapentryType → SegmentedWellMapType
  | [], k, e => [(k, e)]
  | (k1, e1) :: rest, k, e => if k1 = k then (k, e) :: rest else (k1, e1) :: mapSet rest k e

/-- The product of a matrix, given by its rows, and a vector; the dimensions must fit. -/
def matVec (g : List (List ℚ)) (v : List ℚ) : M (List ℚ) :=
  if g.all (fun row => row.length == v.length) then
    Except.ok (g.map (fun row => ((row.zip v).map (fun rx => rx.1 * rx.2)).sum))
  else Except.error InitError.dimensionMismatch

/-! ## The initial guess (lines 85-250 of the source) -/

/-- The loop of lines 87-90: the total numbers of perforations and of segments. -/
def countSizes (wells : List WellMultiSegment) (s : WellStateMultiSegment) :
    WellStateMultiSegment :=
  wells.foldl (fun t well =>
    { t with nperf_ := t.nperf_ + well.numberOfPerforations,
             nseg_ := t.nseg_ + well.numberOfSegments }) s

/-- The loops of lines 100-102 and 248-250:
`currentControls()[iw] = well_controls_get_current(wells[iw]->wellControls())`. -/
def setCurrentControls (wells : List WellMultiSegment) (cc : List Int) : M (List Int) :=
  writeLoop wells.length (fun iw => iw)
    (fun iw => (readAt wells iw).bind (fun well => Except.ok well.wellControls.current)) cc

/-- The condition of the assertions of lines 105 and 118. -/
def validWellType (well : WellMultiSegment) : Bool :=
  well.wellType == WellType.INJECTOR || well.wellType == WellType.PRODUCER

/-- The loop of lines 104-106. -/
def checkWellTypes (wells : List WellMultiSegment) : M Unit :=
  forUpTo wells.length
    (fun iw _ => (readAt wells iw).bind
      (fun well => assertThat (validWellType well) InitError.assertWellType)) ()

/-- One round of the loop of lines 136-140; the loop state is the running
`start_perforation_segment` and the two vectors of the map entry. -/
def segmentLayoutStep (well : WellMultiSegment) (i : Nat) (s : Nat × List Nat × List Nat) :
    M (Nat × List Nat × List Nat) := do
  let starts ← writeAt s.2.1 i s.1
  let perfs ← readAt well.segmentPerforations i
  let counts ← writeAt s.2.2 i perfs.length
  pure (s.1 + perfs.length, starts, counts)

/-- Lines 124-128 and 132-141: the map entry of well number `w`, built in the entry
`e0` that `segmentedWellMap_[well_name]` refers to. -/
def buildMapEntry (well : WellMultiSegment) (w start_segment start_perforation : Nat)
    (e0 : SegmentedMapentryType) : M SegmentedMapentryType := do
  let number_of_segments := well.numberOfSegments
  let number_of_perforations := well.numberOfPerforations
  let s ← forUpTo number_of_segments (segmentLayoutStep well)
    (0, resize e0.start_perforation_segment number_of_segments 0,
        resize e0.number_of_perforations_segment number_of_segments 0)
  assertThat (s.1 == number_of_perforations) InitError.assertPerforationCount
  pure ⟨w, start_segment, number_of_segments, start_perforation, number_of_perforations,
    s.2.1, s.2.2⟩

/-- Lines 148-153: the bottom-hole pressure of a stopped well. -/
def stoppedBhp (wells : List WellMultiSegment) (ctrl : WellControls) (pressure : List ℚ)
    (w : Nat) (bhp : List ℚ) : M (List ℚ) :=
  if ctrl.current_type = WellControlType.BHP then
    writeAt bhp w ctrl.current_target
  else do
    let well0 ← readAt wells 0
    let first_cell ← readAt well0.wellCells 0
    let p ← readAt pressure first_cell
    writeAt bhp w p

/-- Lines 156-160 and 192-196: the tubing-head pressure. -/
def initThp (ctrl : WellControls) (w : Nat) (bhp thp : List ℚ) : M (List ℚ) :=
  if ctrl.current_type = WellControlType.THP then
    writeAt thp w ctrl.current_target
  else do
    let b ← readAt bhp w
    writeAt thp w b

/-- The rate `small_rate` of line 176, `1e-14`. -/
def small_rate : ℚ := 1 / 100000000000000

/-- The `sign` of line 177. -/
def rateSign (well : WellMultiSegment) : ℚ :=
  if well.wellType = WellType.INJECTOR then 1 else -1

/-- The `safety_factor` of lines 188 and 205. -/
def safety_factor (well : WellMultiSegment) : ℚ :=
  if well.wellType = WellType.INJECTOR then 101 / 100 else 99 / 100

/-- Lines 169-181: the phase rates of an open well. -/
def openWellRates (well : WellMultiSegment) (np w : Nat) (wellRates : List ℚ) : M (List ℚ) :=
  if well.wellControls.current_type = WellControlType.SURFACE_RATE then
    writeLoop np (fun p => np * w + p)
      (fun p => (readAt well.wellControls.current_distr p).bind
        (fun d => Except.ok (well.wellControls.current_target * d))) wellRates
  else
    writeLoop np (fun p => np * w + p) (fun _ => Except.ok (small_rate * rateSign well))
      wellRates

/-- Lines 184-190: the bottom-hole pressure of an open well. -/
def openBhp (well : WellMultiSegment) (pressure : List ℚ) (w : Nat) (bhp : List ℚ) :
    M (List ℚ) :=
  if well.wellControls.current_type = WellControlType.BHP then
    writeAt bhp w well.wellControls.current_target
  else do
    let first_cell ← readAt well.wellCells 0
    let p ← readAt pressure first_cell
    writeAt bhp w (safety_factor well * p)

/-- One round of the loop of lines 200-210; the loop state is the pair of
`perfPhaseRates()` and `perfPress()`. -/
def perfStep (well : WellMultiSegment) (np w start_perforation number_of_perforations : Nat)
    (pressure wellRates : List ℚ) (i : Nat) (s : List ℚ × List ℚ) : M (List ℚ × List ℚ) := do
  let rates ← writeLoop np (fun p => np * (i + start_perforation) + p)
    (fun p => (readAt wellRates (np * w + p)).bind
      (fun r => Except.ok (r / (number_of_perforations : ℚ)))) s.1
  let cell ← readAt well.wellCells i
  let pc ← readAt pressure cell
  let press ← writeAt s.2 (i + start_perforation)
    (if well.isMultiSegmented then safety_factor well * pc else pc)
  pure (rates, press)

/-- Lines 218-223: the segment pressures of an open well; the loop variable `i` of
line 219, which starts at 1, is `k + 1`. -/
def openSegPress (e : SegmentedMapentryType) (start_segment start_perforation w : Nat)
    (bhp perfPress segpress : List ℚ) : M (List ℚ) := do
  let b ← readAt bhp w
  let top ← writeAt segpress start_segment b
  writeLoop (e.number_of_segments - 1) (fun k => (k + 1) + start_segment)
    (fun k => (readAt e.start_perforation_segment (k + 1)).bind
      (fun off => readAt perfPress (start_perforation + off))) top

/-- One round of the loop of lines 225-236: the segment rates of phase `p`. -/
def segRatesStep (well : WellMultiSegment)
    (np start_segment start_perforation number_of_segments number_of_perforations : Nat)
    (perfPhaseRates : List ℚ) (p : Nat) (segphaserates : List ℚ) : M (List ℚ) := do
  let v_perf_rates ← writeLoop number_of_perforations (fun i => i)
    (fun i => readAt perfPhaseRates (np * (i + start_perforation) + p))
    (List.replicate number_of_perforations 0)
  let v_segment_rates ← matVec well.p2s_gather v_perf_rates
  writeLoop number_of_segments (fun i => np * (i + start_segment) + p)
    (fun i => readAt v_segment_rates i) segphaserates

/-- Lines 148-160: a stopped well. -/
def initStopped (wells : List WellMultiSegment) (well : WellMultiSegment) (pressure : List ℚ)
    (w : Nat) (st : WellStateMultiSegment) : M WellStateMultiSegment := do
  let bhp ← stoppedBhp wells well.wellControls pressure w st.bhp
  let thp ← initThp well.wellControls w bhp st.thp
  pure { st with bhp := bhp, thp := thp }

/-- Lines 169-236: an open well. -/
def initOpen (well : WellMultiSegment) (e : SegmentedMapentryType) (np : Nat)
    (pressure : List ℚ) (w start_segment start_perforation : Nat)
    (st : WellStateMultiSegment) : M WellStateMultiSegment := do
  let wellRates ← openWellRates well np w st.wellRates
  let bhp ← openBhp well pressure w st.bhp
  let thp ← initThp well.wellControls w bhp st.thp
  let number_of_perforations := e.number_of_perforations
  let perfs ← forUpTo number_of_perforations
    (perfStep well np w start_perforation number_of_perforations pressure wellRates)
    (st.perfPhaseRates, st.perfPress)
  let number_of_segments := e.number_of_segments
  let segpress ← openSegPress e start_segment start_perforation w bhp perfs.2 st.segpress_
  let segphaserates ← forUpTo np
    (segRatesStep well np start_segment start_perforation number_of_segments
      number_of_perforations perfs.1) st.segphaserates_
  pure { st with wellRates := wellRates, bhp := bhp, thp := thp, perfPhaseRates := perfs.1,
                 perfPress := perfs.2, segpress_ := segpress, segphaserates_ := segphaserates }

/-- Lines 144-237: the values of a stopped well, or of an open one. -/
def initValues (wells : List WellMultiSegment) (well : WellMultiSegment)
    (e : SegmentedMapentryType) (np : Nat) (pressure : List ℚ)
    (w start_segment start_perforation : Nat) (st : WellStateMultiSegment) :
    M WellStateMultiSegment :=
  if well.wellControls.well_is_stopped then initStopped wells well pressure w st
  else initOpen well e np pressure w start_segment start_perforation st

/-- The state of the loop of lines 117-242: the running offsets and the object. -/
structure InitLoop where
  start_segment : Nat
  start_perforation : Nat
  st : WellStateMultiSegment
deriving DecidableEq, Repr

/-- One round of the loop of lines 117-242. -/
def initWell (wells : List WellMultiSegment) (np : Nat) (pressure : List ℚ) (w : Nat)
    (L : InitLoop) : M InitLoop := do
  let well ← readAt wells w
  assertThat (validWellType well) InitError.assertWellType
  let top ← writeAt L.st.top_segment_loc_ w L.start_segment
  let e ← buildMapEntry well w L.start_segment L.start_perforation
    ((mapFind L.st.segmentedWellMap_ well.name).getD SegmentedMapentryType.fresh)
  let st2 ← initValues wells well e np pressure w L.start_segment L.start_perforation
    { L.st with segmentedWellMap_ := mapSet L.st.segmentedWellMap_ well.name e,
                top_segment_loc_ := top }
  pure ⟨L.start_segment + e.number_of_segments,
        L.start_perforation + e.number_of_perforations, st2⟩

/-- The sentinel `-1.0e100` of lines 112 and 114. -/
def sentinel : ℚ := -(10 ^ 100)

/-- Lines 92-97 and 111-114: the vectors get their sizes. -/
def resizeVectors (nw np : Nat) (s1 : WellStateMultiSegment) : WellStateMultiSegment :=
  { s1 with bhp := resize s1.bhp nw 0,
            thp := resize s1.thp nw 0,
            top_segment_loc_ := resize s1.top_segment_loc_ nw 0,
            temperature := resize s1.temperature nw (27315 / 100 + 20),
            wellRates := resize s1.wellRates (nw * np) 0,
            perfPhaseRates := resize s1.perfPhaseRates (s1.nperf_ * np) 0,
            perfPress := resize s1.perfPress s1.nperf_ sentinel,
            segphaserates_ := resize s1.segphaserates_ (s1.nseg_ * np) 0,
            segpress_ := resize s1.segpress_ s1.nseg_ sentinel }

/-- Lines 87-250: sizes, resizing, the loop over the wells, the control indices. -/
def initGuess (wells : List WellMultiSegment) (np : Nat) (pressure : List ℚ)
    (s0 : WellStateMultiSegment) : M WellStateMultiSegment := do
  let cc ← setCurrentControls wells
    (resize (countSizes wells s0).currentControls wells.length 0)
  checkWellTypes wells
  let L ← forUpTo wells.length (initWell wells np pressure)
    ⟨0, 0, resizeVectors wells.length np { countSizes wells s0 with currentControls := cc }⟩
  let cc2 ← setCurrentControls wells (resize L.st.currentControls wells.length 0)
  pure { L.st with currentControls := cc2 }

/-! ## Continuation from the previous state (lines 254-326) -/

/-- Lines 317-322: the control index is carried over if it is still valid. -/
def carryOverControl (well : WellMultiSegment) (prevState : WellStateMultiSegment)
    (oldIndex newIndex : Nat) (cc : List Int) : M (List Int) := do
  let old_control_index ← readAt prevState.currentControls oldIndex
  if old_control_index < well.wellControls.num then writeAt cc newIndex old_control_index
  else pure cc

/-- Lines 289-322: the carry-over for a well whose counts are unchanged. -/
def carryOverStructure (well : WellMultiSegment) (np : Nat) (prevState : WellStateMultiSegment)
    (old this : SegmentedMapentryType) (newIndex : Nat) (st : WellStateMultiSegment) :
    M WellStateMultiSegment := do
  let num_seg_this_well := this.number_of_segments
  let num_perf_this_well := this.number_of_perforations
  let segphaserates ← writeLoop (num_seg_this_well * np) (fun i => this.start_segment * np + i)
    (fun i => readAt prevState.segphaserates_ (old.start_segment * np + i)) st.segphaserates_
  let perfPhaseRates ← writeLoop (num_perf_this_well * np)
    (fun i => this.start_perforation * np + i)
    (fun i => readAt prevState.perfPhaseRates (old.start_perforation * np + i)) st.perfPhaseRates
  let perfPress ← writeLoop num_perf_this_well (fun i => this.start_perforation + i)
    (fun i => readAt prevState.perfPress (old.start_perforation + i)) st.perfPress
  let segpress ← writeLoop num_seg_this_well (fun i => this.start_segment + i)
    (fun i => readAt prevState.segpress_ (old.start_segment + i)) st.segpress_
  let cc ← carryOverControl well prevState old.well_number newIndex st.currentControls
  pure { st with segphaserates_ := segphaserates, perfPhaseRates := perfPhaseRates,
                 perfPress := perfPress, segpress_ := segpress, currentControls := cc }

/-- Lines 267-323: the carry-over for a well found in the previous state. -/
def carryOverFound (well : WellMultiSegment) (np : Nat) (prevState : WellStateMultiSegment)
    (old this : SegmentedMapentryType) (w : Nat) (st : WellStateMultiSegment) :
    M WellStateMultiSegment := do
  let oldIndex := old.well_number
  let newIndex := w
  let b ← readAt prevState.bhp oldIndex
  let bhp ← writeAt st.bhp newIndex b
  let wellRates ← writeLoop np (fun i => newIndex * np + i)
    (fun i => readAt prevState.wellRates (oldIndex * np + i)) st.wellRates
  let st1 := { st with bhp := bhp, wellRates := wellRates }
  if old.number_of_perforations = this.number_of_perforations
      ∧ old.number_of_segments = this.number_of_segments then
    carryOverStructure well np prevState old this newIndex st1
  else pure st1

/-- One round of the loop of lines 259-325. -/
def carryOverWell (wells : List WellMultiSegment) (np : Nat) (prevState : WellStateMultiSegment)
    (w : Nat) (st : WellStateMultiSegment) : M WellStateMultiSegment := do
  let well ← readAt wells w
  match mapFind st.segmentedWellMap_ well.name with
  | none => Except.error InitError.assertWellInMap
  | some this =>
    match mapFind prevState.segmentedWellMap_ well.name with
    | none => pure st
    | some old => carryOverFound well np prevState old this w st

/-- Lines 254-326. -/
def carryOver (wells : List WellMultiSegment) (np : Nat) (prevState : WellStateMultiSegment)
    (st : WellStateMultiSegment) : M WellStateMultiSegment :=
  if prevState.segmentedWellMap_.isEmpty then pure st
  else forUpTo wells.length (carryOverWell wells np prevState) st

/-! ## init -/

/-- The member function `WellStateMultiSegment::init`, called on `self`: `wells` is
`ms_wells.msWells()`, `pressure` is `state.pressure()`. -/
def init (self : WellStateMultiSegment) (wells : List WellMultiSegment) (pressure : List ℚ)
    (prevState : WellStateMultiSegment) (legacy_wells_ptr : Option Nat) :
    M WellStateMultiSegment :=
  let s0 := { self with wells_ := legacy_wells_ptr, nseg_ := 0, nperf_ := 0 }
  match wells with
  | [] => Except.ok { s0 with perfPhaseRates := [], perfPress := [], segphaserates_ := [],
                              segpress_ := [] }
  | well0 :: _ =>
    (initGuess wells well0.numberOfPhases pressure s0).bind
      (carryOver wells well0.numberOfPhases prevState)

/-! ## Notions used to state the properties -/

/-- The sum of the segment counts of the wells before well number `w`. -/
def segmentOffset (wells : List WellMultiSegment) (w : Nat) : Nat :=
  ((wells.take w).map (fun well => well.numberOfSegments)).sum

/-- The sum of the perforation counts of the wells before well number `w`. -/
def perforationOffset (wells : List WellMultiSegment) (w : Nat) : Nat :=
  ((wells.take w).map (fun well => well.numberOfPerforations)).sum

/-- The sum of the sizes of the perforation lists of the segments before segment `s`. -/
def perforationOffsetInWell (well : WellMultiSegment) : Nat → Nat
  | 0 => 0
  | s + 1 => perforationOffsetInWell well s + (well.segmentPerforations.getD s []).length

/-- The segment-level layout of a map entry `e` of the well `well`: both vectors have one
element per segment, the count of a segment is the size of its perforation list, its start
is the sum of the counts of the segments before it, and the counts add up to the number of
perforations of the well. -/
def SegmentLayout (well : WellMultiSegment) (e : SegmentedMapentryType) : Prop :=
  e.start_perforation_segment.length = well.numberOfSegments ∧
  e.number_of_perforations_segment.length = well.numberOfSegments ∧
  (∀ s, s < well.numberOfSegments →
    ∃ l, well.segmentPerforations[s]? = some l ∧
      e.number_of_perforations_segment[s]? = some l.length) ∧
  (∀ s, s < well.numberOfSegments →
    e.start_perforation_segment[s]? = some ((e.number_of_perforations_segment.take s).sum)) ∧
  e.number_of_perforations_segment.sum = well.numberOfPerforations

/-- The well-level layout of the map entry `e` of well number `w`. -/
def WellLayout (wells : List WellMultiSegment) (w : Nat) (well : WellMultiSegment)
    (e : SegmentedMapentryType) : Prop :=
  e.well_number = w ∧
  e.start_segment = segmentOffset wells w ∧
  e.number_of_segments = well.numberOfSegments ∧
  e.start_perforation = perforationOffset wells w ∧
  e.number_of_perforations = well.numberOfPerforations

/-- The initial guess `x` of the bottom-hole pressure of the well `well`: the control target
under a bottom-hole-pressure control; otherwise, for a stopped well the pressure of the first
cell of the first well of the sequence, and for an open well the pressure of its own first
cell times the safety factor. -/
def BhpGuess (wells : List WellMultiSegment) (pressure : List ℚ) (well : WellMultiSegment)
    (x : ℚ) : Prop :=
  (well.wellControls.current_type = WellControlType.BHP →
    x = well.wellControls.current_target) ∧
  (well.wellControls.current_type ≠ WellControlType.BHP →
    well.wellControls.well_is_stopped = true →
    ∃ well0 c, wells[0]? = some well0 ∧ well0.wellCells[0]? = some c ∧ pressure[c]? = some x) ∧
  (well.wellControls.current_type ≠ WellControlType.BHP →
    well.wellControls.well_is_stopped = false →
    ∃ c p, well.wellCells[0]? = some c ∧ pressure[c]? = some p ∧ x = safety_factor well * p)

/-- The initial guess `x` of the rate of phase `p` of the open well `well`. -/
def OpenRateGuess (well : WellMultiSegment) (p : Nat) (x : ℚ) : Prop :=
  (well.wellControls.current_type = WellControlType.SURFACE_RATE →
    ∃ d, well.wellControls.current_distr[p]? = some d ∧
      x = well.wellControls.current_target * d) ∧
  (well.wellControls.current_type ≠ WellControlType.SURFACE_RATE →
    x = small_rate * rateSign well)

/-- What one round of the loop of lines 117-242 does: the round of well number `w`, the
`w`-th well being `well`, with the running offsets `ss` and `sp`, builds the map entry `e`
and takes the state `st` to `st2`. -/
structure WellRound (wells : List WellMultiSegment) (np : Nat) (pressure : List ℚ)
    (w ss sp : Nat) (well : WellMultiSegment) (e : SegmentedMapentryType)
    (st st2 : WellStateMultiSegment) : Prop where
  well_eq : wells[w]? = some well
  valid : validWellType well = true
  entry : buildMapEntry well w ss sp
    ((mapFind st.segmentedWellMap_ well.name).getD SegmentedMapentryType.fresh) = Except.ok e
  map_eq : st2.segmentedWellMap_ = mapSet st.segmentedWellMap_ well.name e
  top_lt : w < st.top_segment_loc_.length
  top_eq : st2.top_segment_loc_ = st.top_segment_loc_.set w ss
  nseg_eq : st2.nseg_ = st.nseg_
  nperf_eq : st2.nperf_ = st.nperf_
  cc_eq : st2.currentControls = st.currentControls
  temperature_eq : st2.temperature = st.temperature
  wells_eq : st2.wells_ = st.wells_
  bhp_lt : w < st.bhp.length
  bhp_eq : ∃ x, st2.bhp = st.bhp.set w x ∧ BhpGuess wells pressure well x
  thp_lt : w < st.thp.length
  thp_eq : ∃ y, st2.thp = st.thp.set w y ∧
    (well.wellControls.current_type = WellControlType.THP →
      y = well.wellControls.current_target) ∧
    (well.wellControls.current_type ≠ WellControlType.THP → st2.bhp[w]? = some y)
  rates_length : st2.wellRates.length = st.wellRates.length
  rates_frame : ∀ j, (j < np * w ∨ np * w + np ≤ j) → st2.wellRates[j]? = st.wellRates[j]?
  rates_stopped : well.wellControls.well_is_stopped = true → st2.wellRates = st.wellRates
  rates_open : well.wellControls.well_is_stopped = false → ∀ p, p < np →
    ∃ x, st2.wellRates[np * w + p]? = some x ∧ OpenRateGuess well p x
  segpress_length : st2.segpress_.length = st.segpress_.length
  segpress_frame : ∀ j, j < ss → st2.segpress_[j]? = st.segpress_[j]?
  segpress_stopped : well.wellControls.well_is_stopped = true → st2.segpress_ = st.segpress_
  segpress_open : well.wellControls.well_is_stopped = false →
    ∃ b, st2.bhp[w]? = some b ∧ st2.segpress_[ss]? = some b

/-- The states `a` and `b` have vectors of the same sizes. -/
def SameSizes (a b : WellStateMultiSegment) : Prop :=
  a.bhp.length = b.bhp.length ∧ a.thp.length = b.thp.length ∧
  a.top_segment_loc_.length = b.top_segment_loc_.length ∧
  a.temperature.length = b.temperature.length ∧
  a.wellRates.length = b.wellRates.length ∧
  a.currentControls.length = b.currentControls.length ∧
  a.perfPhaseRates.length = b.perfPhaseRates.length ∧
  a.perfPress.length = b.perfPress.length ∧
  a.segphaserates_.length = b.segphaserates_.length ∧
  a.segpress_.length = b.segpress_.length

/-- The vector `out` is `dst` with the `n` elements from position `a` on replaced by the
`n` elements of `src` from position `b` on. -/
def CopiedSlice {α : Type} (dst src out : List α) (a b n : Nat) : Prop :=
  out.length = dst.length ∧
  (∀ j, (j < a ∨ a + n ≤ j) → out[j]? = dst[j]?) ∧
  (∀ i, i < n → ∃ x, src[b + i]? = some x ∧ out[a + i]? = some x)

/-- The test of line 288: the previous entry `old` and the current entry `this` of a well have
the same number of perforations and the same number of segments. -/
def Matched (old this : SegmentedMapentryType) : Prop :=
  old.number_of_perforations = this.number_of_perforations ∧
  old.number_of_segments = this.number_of_segments

/-- What one round of the loop of lines 259-325 does: the round of well number `w`, the
`w`-th well being `well` and its current map entry `this`, takes the state `st` to `st2`. -/
structure CarryRound (wells : List WellMultiSegment) (np : Nat)
    (prevState : WellStateMultiSegment) (w : Nat) (well : WellMultiSegment)
    (this : SegmentedMapentryType) (st st2 : WellStateMultiSegment) : Prop where
  well_eq : wells[w]? = some well
  this_eq : mapFind st.segmentedWellMap_ well.name = some this
  map_eq : st2.segmentedWellMap_ = st.segmentedWellMap_
  thp_eq : st2.thp = st.thp
  top_eq : st2.top_segment_loc_ = st.top_segment_loc_
  nseg_eq : st2.nseg_ = st.nseg_
  nperf_eq : st2.nperf_ = st.nperf_
  temperature_eq : st2.temperature = st.temperature
  wells_eq : st2.wells_ = st.wells_
  absent : mapFind prevState.segmentedWellMap_ well.name = none → st2 = st
  bhp : ∀ old, mapFind prevState.segmentedWellMap_ well.name = some old →
    CopiedSlice st.bhp prevState.bhp st2.bhp w old.well_number 1
  rates : ∀ old, mapFind prevState.segmentedWellMap_ well.name = some old →
    CopiedSlice st.wellRates prevState.wellRates st2.wellRates (w * np)
      (old.well_number * np) np
  mismatch : ∀ old, mapFind prevState.segmentedWellMap_ well.name = some old →
    ¬ Matched old this →
    st2.segpress_ = st.segpress_ ∧ st2.segphaserates_ = st.segphaserates_ ∧
    st2.perfPress = st.perfPress ∧ st2.perfPhaseRates = st.perfPhaseRates ∧
    st2.currentControls = st.currentControls
  segpress : ∀ old, mapFind prevState.segmentedWellMap_ well.name = some old →
    Matched old this →
    CopiedSlice st.segpress_ prevState.segpress_ st2.segpress_ this.start_segment
      old.start_segment this.number_of_segments
  segphaserates : ∀ old, mapFind prevState.segmentedWellMap_ well.name = some old →
    Matched old this →
    CopiedSlice st.segphaserates_ prevState.segphaserates_ st2.segphaserates_
      (this.start_segment * np) (old.start_segment * np) (this.number_of_segments * np)
  perfPress : ∀ old, mapFind prevState.segmentedWellMap_ well.name = some old →
    Matched old this →
    CopiedSlice st.perfPress prevState.perfPress st2.perfPress this.start_perforation
      old.start_perforation this.number_of_perforations
  perfPhaseRates : ∀ old, mapFind prevState.segmentedWellMap_ well.name = some old →
    Matched old this →
    CopiedSlice st.perfPhaseRates prevState.perfPhaseRates st2.perfPhaseRates
      (this.start_perforation * np) (old.start_perforation * np)
      (this.number_of_perforations * np)
  control : ∀ old, mapFind prevState.segmentedWellMap_ well.name = some old →
    Matched old this →
    ∃ c, prevState.currentControls[old.well_number]? = some c ∧
      (c < well.wellControls.num →
        w < st.currentControls.length ∧ st2.currentControls = st.currentControls.set w c) ∧
      (¬ c < well.wellControls.num → st2.currentControls = st.currentControls)

/-- The states `a` and `b` agree on everything that belongs to well number `w` with map
entry `e`: its bottom-hole pressure, phase rates and control index, and its slices of the
segment and perforation vectors. -/
def SameSlices (np w : Nat) (e : SegmentedMapentryType) (a b : WellStateMultiSegment) : Prop :=
  a.bhp[w]? = b.bhp[w]? ∧
  (∀ i, i < np → a.wellRates[w * np + i]? = b.wellRates[w * np + i]?) ∧
  a.currentControls[w]? = b.currentControls[w]? ∧
  (∀ i, i < e.number_of_segments →
    a.segpress_[e.start_segment + i]? = b.segpress_[e.start_segment + i]?) ∧
  (∀ i, i < e.number_of_segments * np →
    a.segphaserates_[e.start_segment * np + i]? = b.segphaserates_[e.start_segment * np + i]?) ∧
  (∀ i, i < e.number_of_perforations →
    a.perfPress[e.start_perforation + i]? = b.perfPress[e.start_perforation + i]?) ∧
  (∀ i, i < e.number_of_perforations * np →
    a.perfPhaseRates[e.start_perforation * np + i]? =
      b.perfPhaseRates[e.start_perforation * np + i]?)

/-- The map of the state holds, for every well of the sequence, an entry with the
well-level layout of that well. -/
def HasLayout (wells : List WellMultiSegment) (m : SegmentedWellMapType) : Prop :=
  ∀ (v : Nat) (well : WellMultiSegment), wells[v]? = some well →
    ∃ e, mapFind m well.name = some e ∧ WellLayout wells v well e

/-- A well-formed previous state: its vectors are sized according to its own well map, for
`np` phases. Every entry of its map has its well number inside the per-well vectors and its
segment and perforation slices inside the per-segment and per-perforation vectors. -/
def PrevWellFormed (np : Nat) (prevState : WellStateMultiSegment) : Prop :=
  ∀ (k : String) (old : SegmentedMapentryType),
    mapFind prevState.segmentedWellMap_ k = some old →
    old.well_number < prevState.bhp.length ∧
    old.well_number < prevState.currentControls.length ∧
    old.well_number * np + np ≤ prevState.wellRates.length ∧
    old.start_segment + old.number_of_segments ≤ prevState.segpress_.length ∧
    old.start_segment * np + old.number_of_segments * np ≤ prevState.segphaserates_.length ∧
    old.start_perforation + old.number_of_perforations ≤ prevState.perfPress.length ∧
    old.start_perforation * np + old.number_of_perforations * np
      ≤ prevState.perfPhaseRates.length

/-- The sum of the products of the first `n` elements of `row` and of `v`. -/
def dotUpTo (n : Nat) (row v : List ℚ) : ℚ :=
  ((List.range n).map (fun i => row.getD i 0 * v.getD i 0)).sum

/-- The perforation and segment values of the open well `well`, number `w`, whose segment
slice starts at `ss` and whose perforation slice starts at `sp`, in the state `st`: every
perforation has the phase rates of the well divided by the number of perforations, and
the pressure of its cell, times the safety factor for a multi-segment well; a segment other
than the top one whose start lies inside the perforation slice has the pressure of the
perforation at its start; the phase rates of a segment are the row of the segment in the
matrix `p2s_gather` applied to the phase rates of the perforations. -/
def OpenArrays (np : Nat) (pressure : List ℚ) (well : WellMultiSegment) (w ss sp : Nat)
    (st : WellStateMultiSegment) : Prop :=
  (∀ i p, i < well.numberOfPerforations → p < np →
    ∃ r, st.wellRates[np * w + p]? = some r ∧
      st.perfPhaseRates[np * (i + sp) + p]? = some (r / (well.numberOfPerforations : ℚ))) ∧
  (∀ i, i < well.numberOfPerforations →
    ∃ c x, well.wellCells[i]? = some c ∧ pressure[c]? = some x ∧
      st.perfPress[i + sp]? =
        some (if well.isMultiSegmented then safety_factor well * x else x)) ∧
  (∀ s, 1 ≤ s → s < well.numberOfSegments →
    perforationOffsetInWell well s < well.numberOfPerforations →
    ∃ x, st.perfPress[sp + perforationOffsetInWell well s]? = some x ∧
      st.segpress_[s + ss]? = some x) ∧
  (∀ s p, s < well.numberOfSegments → p < np →
    ∃ row, well.p2s_gather[s]? = some row ∧ row.length = well.numberOfPerforations ∧
      st.segphaserates_[np * (s + ss) + p]? =
        some (dotUpTo well.numberOfPerforations row
          ((List.range well.numberOfPerforations).map
            (fun i => st.perfPhaseRates.getD (np * (i + sp) + p) 0))))

/-- What one round of the loop of lines 117-242 does to the perforation and segment
vectors: the round of well number `w`, the `w`-th well being `well`, with the running
offsets `ss` and `sp`, takes the state `st` to `st2`. -/
structure WellRoundArrays (np : Nat) (pressure : List ℚ) (w ss sp : Nat)
    (well : WellMultiSegment) (st st2 : WellStateMultiSegment) : Prop where
  perfRates_frame : ∀ j, (j < np * sp ∨ np * (sp + well.numberOfPerforations) ≤ j) →
    st2.perfPhaseRates[j]? = st.perfPhaseRates[j]?
  perfPress_frame : ∀ j, (j < sp ∨ sp + well.numberOfPerforations ≤ j) →
    st2.perfPress[j]? = st.perfPress[j]?
  segRates_frame : ∀ j, (j < np * ss ∨ np * (ss + well.numberOfSegments) ≤ j) →
    st2.segphaserates_[j]? = st.segphaserates_[j]?
  stopped : well.wellControls.well_is_stopped = true →
    st2.perfPhaseRates = st.perfPhaseRates ∧ st2.perfPress = st.perfPress ∧
    st2.segphaserates_ = st.segphaserates_
  opened : well.wellControls.well_is_stopped = false →
    OpenArrays np pressure well w ss sp st2

/-- The external inputs of the well `well` have the dimensions `init` relies on, for `np`
phases and the reservoir pressures `pressure`: one perforation list per segment, one cell per
perforation, each a valid index of `pressure`, one distribution factor per phase, and a
matrix `p2s_gather` with one row per segment and one column per perforation. -/
def DimensionsConsistent (np : Nat) (pressure : List ℚ) (well : WellMultiSegment) : Prop :=
  well.segmentPerforations.length = well.numberOfSegments ∧
  well.wellCells.length = well.numberOfPerforations ∧
  (∀ c, c ∈ well.wellCells → c < pressure.length) ∧
  well.wellControls.current_distr.length = np ∧
  well.p2s_gather.length = well.numberOfSegments ∧
  (∀ row, row ∈ well.p2s_gather → row.length = well.numberOfPerforations)

/-- What lines 144-236 take for granted about the well `well` beyond the dimensions of its
inputs: an open well has a top segment; each other segment of an open well starts inside the
perforations of the well, as it does when it has a perforation of its own; an open well that
is not under a bottom-hole-pressure control has a perforation; and when a stopped well is
not under a bottom-hole-pressure control, the first well of the sequence has a
perforation. -/
def TopologyConsistent (wells : List WellMultiSegment) (well : WellMultiSegment) : Prop :=
  (well.wellControls.well_is_stopped = false → 1 ≤ well.numberOfSegments) ∧
  (well.wellControls.well_is_stopped = false → ∀ s, 1 ≤ s → s < well.numberOfSegments →
    perforationOffsetInWell well s < well.numberOfPerforations) ∧
  (well.wellControls.well_is_stopped = false →
    well.wellControls.current_type ≠ WellControlType.BHP → 1 ≤ well.numberOfPerforations) ∧
  (well.wellControls.well_is_stopped = true →
    well.wellControls.current_type ≠ WellControlType.BHP →
    ∃ well0, wells.head? = some well0 ∧ 1 ≤ well0.numberOfPerforations)

/-- Every well of the sequence has consistent dimensions and a consistent topology. -/
def ConsistentInputs (wells : List WellMultiSegment) (np : Nat) (pressure : List ℚ) : Prop :=
  ∀ well, well ∈ wells → DimensionsConsistent np pressure well ∧ TopologyConsistent wells well

/-- The condition of the assertion of line 141: the sizes of the perforation lists of the
segments of the well add up to its number of perforations. -/
def SumsConsistent (well : WellMultiSegment) : Prop :=
  perforationOffsetInWell well well.numberOfSegments = well.numberOfPerforations

/-- What the round of well number `w` of lines 144-236 indexes without a check, for the
well `well` at that place in the sequence: for an open well, line 218 writes the first
element of its segment slice, which has to lie inside the segment vectors, and line 221
reads, for every segment but the top one, the perforation pressure at the start of the
segment, which has to lie inside the perforation vectors; an open well that is not under a
bottom-hole-pressure control has a perforation; and when a stopped well is not under a
bottom-hole-pressure control, the first well of the sequence has a perforation. -/
def IndexSafe (wells : List WellMultiSegment) (w : Nat) (well : WellMultiSegment) : Prop :=
  (well.wellControls.well_is_stopped = false →
    segmentOffset wells w < segmentOffset wells wells.length) ∧
  (well.wellControls.well_is_stopped = false → ∀ s, 1 ≤ s → s < well.numberOfSegments →
    perforationOffset wells w + perforationOffsetInWell well s
      < perforationOffset wells wells.length) ∧
  (well.wellControls.well_is_stopped = false →
    well.wellControls.current_type ≠ WellControlType.BHP → 1 ≤ well.numberOfPerforations) ∧
  (well.wellControls.well_is_stopped = true →
    well.wellControls.current_type ≠ WellControlType.BHP →
    ∃ well0, wells.head? = some well0 ∧ 1 ≤ well0.numberOfPerforations)

/-- The loop of lines 117-242 gets to a well with inconsistent sums: some well has
inconsistent sums, and every well before it has consistent sums and is indexed safely. -/
def ReachesInconsistentSums (wells : List WellMultiSegment) : Prop :=
  ∃ (k : Nat) (well : WellMultiSegment), wells[k]? = some well ∧ ¬ SumsConsistent well ∧
    ∀ (v : Nat) (wv : WellMultiSegment), v < k → wells[v]? = some wv →
      SumsConsistent wv ∧ IndexSafe wells v wv

/-- The error `e` is the failure of one of the three assertions of `init`. -/
def IsAssertion (e : InitError) : Prop :=
  e = InitError.assertWellType ∨ e = InitError.assertPerforationCount ∨
    e = InitError.assertWellInMap

/-- The vectors of the state `st` have room for the wells `wells` with `np` phases. -/
def Sized (wells : List WellMultiSegment) (np : Nat) (st : WellStateMultiSegment) : Prop :=
  wells.length ≤ st.bhp.length ∧ wells.length ≤ st.thp.length ∧
  wells.length ≤ st.top_segment_loc_.length ∧
  np * wells.length ≤ st.wellRates.length ∧
  perforationOffset wells wells.length ≤ st.perfPress.length ∧
  np * perforationOffset wells wells.length ≤ st.perfPhaseRates.length ∧
  segmentOffset wells wells.length ≤ st.segpress_.length ∧
  np * segmentOffset wells wells.length ≤ st.segphaserates_.length

/-- What a vector that `init` has resized with the fill value `fill`, and has not written at
position `j`, holds there: the element the vector `old` held at `j` before the call, or
`fill` where `old` held none. -/
def TakenOver {α : Type} (old out : List α) (fill : α) (j : Nat) : Prop :=
  out[j]? = some (old[j]?.getD fill)

/-- The previous state holds the well with the same numbers of perforations and of segments:
the test of line 288 passes, and lines 289-322 copy the perforation and segment values of the
well from the previous state. -/
def CarriedOver (prevState : WellStateMultiSegment) (well : WellMultiSegment) : Prop :=
  ∃ old, mapFind prevState.segmentedWellMap_ well.name = some old ∧
    old.number_of_perforations = well.numberOfPerforations ∧
    old.number_of_segments = well.numberOfSegments

/-- Two computations have the same outcome up to `P`: both fail, with the same error, or
both return, with results related by `P`. -/
def SameOutcome {α : Type} (P : α → α → Prop) (x y : M α) : Prop :=
  match x, y with
  | Except.ok u, Except.ok v => P u v
  | Except.error e, Except.error f => e = f
  | _, _ => False

/-- The vectors `x` and `y` have `n` elements each and agree at the positions below `m`. -/
def AgreeBelow {α : Type} (n m : Nat) (x y : List α) : Prop :=
  x.length = n ∧ y.length = n ∧ ∀ j, j < m → x[j]? = y[j]?

/-- The states `s1` and `s2` are the same but for `bhp`, `thp` and `top_segment_loc_`, which
have `n` elements each and agree at the positions below `m`. -/
def AgreeButWellSlots (n m : Nat) (s1 s2 : WellStateMultiSegment) : Prop :=
  ∃ (a : WellStateMultiSegment) (b1 b2 t1 t2 : List ℚ) (p1 p2 : List Nat),
    s1 = { a with bhp := b1, thp := t1, top_segment_loc_ := p1 } ∧
    s2 = { a with bhp := b2, thp := t2, top_segment_loc_ := p2 } ∧
    AgreeBelow n m b1 b2 ∧ AgreeBelow n m t1 t2 ∧ AgreeBelow n m p1 p2

/-! ## A scenario with three wells and a previous timestep -/

/-- The reservoir pressures of the scenario, eight cells. -/
def exPressure : List ℚ := [100, 110, 120, 130, 140, 150, 160, 170]

/-- Well `A`: an open multi-segment producer under a bottom-hole-pressure control, with a
root segment without perforations and two segments of two perforations each. -/
def exA : WellMultiSegment :=
  ⟨"A", WellType.PRODUCER, 2, 4, 3, [[], [0, 1], [2, 3]], [1, 2, 3, 4], true,
    ⟨false, 0, 2, WellControlType.BHP, 20000000, [1, 0]⟩,
    [[1, 1, 1, 1], [1, 1, 0, 0], [0, 0, 1, 1]]⟩

/-- Well `B`: an open injector with one segment under a surface-rate control. -/
def exB : WellMultiSegment :=
  ⟨"B", WellType.INJECTOR, 2, 2, 1, [[0, 1]], [5, 6], false,
    ⟨false, 1, 2, WellControlType.SURFACE_RATE, 50, [1, 0]⟩, [[1, 1]]⟩

/-- Well `C`: a stopped producer with one segment under a reservoir-rate control. -/
def exC : WellMultiSegment :=
  ⟨"C", WellType.PRODUCER, 2, 1, 1, [[0]], [7], false,
    ⟨true, 0, 1, WellControlType.RESERVOIR_RATE, 5, [0, 1]⟩, [[1]]⟩

/-- The wells of the current timestep. -/
def exWells : List WellMultiSegment := [exA, exB, exC]

/-- Well `A` at the previous timestep: same counts, but stopped under a reservoir-rate
control, its second control being the current one. -/
def exA0 : WellMultiSegment :=
  ⟨"A", WellType.PRODUCER, 2, 4, 3, [[], [0, 1], [2, 3]], [1, 2, 3, 4], true,
    ⟨true, 1, 2, WellControlType.RESERVOIR_RATE, 7, [1, 0]⟩,
    [[1, 1, 1, 1], [1, 1, 0, 0], [0, 0, 1, 1]]⟩

/-- Well `B` at the previous timestep: two segments and three perforations. -/
def exB0 : WellMultiSegment :=
  ⟨"B", WellType.INJECTOR, 2, 3, 2, [[0], [1, 2]], [6, 5, 7], true,
    ⟨false, 0, 2, WellControlType.SURFACE_RATE, 30, [1, 0]⟩, [[1, 1, 1], [0, 1, 1]]⟩

/-- The wells of the previous timestep, in another order. -/
def exPrevWells : List WellMultiSegment := [exB0, exA0]

/-- The state after the previous timestep: `init` on a default-constructed state with the
wells of the previous timestep. -/
def exPrev : WellStateMultiSegment := {
  wells_ := none,
  bhp := [808 / 5, 160],
  thp := [808 / 5, 160],
  temperature := [5863 / 20, 5863 / 20],
  wellRates := [30, 0, 0, 0],
  currentControls := [0, 1],
  perfPhaseRates := [10, 0, 10, 0, 10, 0, 0, 0, 0, 0, 0, 0, 0, 0],
  perfPress := [808 / 5, 303 / 2, 1717 / 10, sentinel, sentinel, sentinel, sentinel],
  segpress_ := [808 / 5, 303 / 2, sentinel, sentinel, sentinel],
  segphaserates_ := [30, 0, 20, 0, 0, 0, 0, 0, 0, 0],
  top_segment_loc_ := [0, 2],
  segmentedWellMap_ := [("B", ⟨0, 0, 2, 0, 3, [0, 1], [1, 2]⟩), ("A",
    ⟨1, 2, 3, 3, 4, [0, 0, 2], [0, 2, 2]⟩)],
  nseg_ := 5,
  nperf_ := 7 }

/-- The state `init` yields for the current wells with an empty previous state. -/
def exFresh : WellStateMultiSegment := {
  wells_ := none,
  bhp := [20000000, 303 / 2, 110],
  thp := [20000000, 303 / 2, 110],
  temperature := [5863 / 20, 5863 / 20, 5863 / 20],
  wellRates := [-1 / 100000000000000, -1 / 100000000000000, 50, 0, 0, 0],
  currentControls := [0, 1, 0],
  perfPhaseRates := [-1 / 400000000000000, -1 / 400000000000000, -1 / 400000000000000,
    -1 / 400000000000000, -1 / 400000000000000, -1 / 400000000000000, -1 / 400000000000000,
    -1 / 400000000000000, 25, 0, 25, 0, 0, 0],
  perfPress := [1089 / 10, 594 / 5, 1287 / 10, 693 / 5, 150, 160, sentinel],
  segpress_ := [20000000, 1089 / 10, 1287 / 10, 303 / 2, sentinel],
  segphaserates_ := [-1 / 100000000000000, -1 / 100000000000000, -1 / 200000000000000,
    -1 / 200000000000000, -1 / 200000000000000, -1 / 200000000000000, 50, 0, 0, 0],
  top_segment_loc_ := [0, 3, 4],
  segmentedWellMap_ := [("A", ⟨0, 0, 3, 0, 4, [0, 0, 2], [0, 2, 2]⟩), ("B",
    ⟨1, 3, 1, 4, 2, [0], [2]⟩), ("C", ⟨2, 4, 1, 6, 1, [0], [1]⟩)],
  nseg_ := 5,
  nperf_ := 7 }

/-- The state `init` yields for the current wells with the previous state `exPrev`. -/
def exCont : WellStateMultiSegment := {
  wells_ := none,
  bhp := [160, 808 / 5, 110],
  thp := [20000000, 303 / 2, 110],
  temperature := [5863 / 20, 5863 / 20, 5863 / 20],
  wellRates := [0, 0, 30, 0, 0, 0],
  currentControls := [1, 1, 0],
  perfPhaseRates := [0, 0, 0, 0, 0, 0, 0, 0, 25, 0, 25, 0, 0, 0],
  perfPress := [sentinel, sentinel, sentinel, sentinel, 150, 160, sentinel],
  segpress_ := [sentinel, sentinel, sentinel, 303 / 2, sentinel],
  segphaserates_ := [0, 0, 0, 0, 0, 0, 50, 0, 0, 0],
  top_segment_loc_ := [0, 3, 4],
  segmentedWellMap_ := [("A", ⟨0, 0, 3, 0, 4, [0, 0, 2], [0, 2, 2]⟩), ("B",
    ⟨1, 3, 1, 4, 2, [0], [2]⟩), ("C", ⟨2, 4, 1, 6, 1, [0], [1]⟩)],
  nseg_ := 5,
  nperf_ := 7 }

/-! ## Further scenarios -/

/-- Well `X`: an open multi-segment producer with two perforations, both on its top
segment; its second segment has no perforation. -/
def exX : WellMultiSegment :=
  ⟨"X", WellType.PRODUCER, 2, 2, 2, [[0, 1], []], [1, 2], true,
    ⟨false, 0, 1, WellControlType.BHP, 20000000, [1, 0]⟩, [[1, 1], [0, 0]]⟩

/-- Well `Y`: an open producer with one segment and one perforation. -/
def exY : WellMultiSegment :=
  ⟨"Y", WellType.PRODUCER, 2, 1, 1, [[0]], [3], false,
    ⟨false, 0, 1, WellControlType.BHP, 15000000, [1, 0]⟩, [[1]]⟩

/-- Well `Z`: an open producer without segments and without perforations. -/
def exZ : WellMultiSegment :=
  ⟨"Z", WellType.PRODUCER, 2, 0, 0, [], [], false,
    ⟨false, 0, 1, WellControlType.BHP, 15000000, [1, 0]⟩, []⟩

/-- Well `D`: an open producer that declares three perforations while its one segment lists
two. -/
def exD : WellMultiSegment :=
  ⟨"D", WellType.PRODUCER, 2, 3, 1, [[0, 1]], [1, 2, 3], false,
    ⟨false, 0, 1, WellControlType.BHP, 15000000, [1, 0]⟩, [[1, 1, 1]]⟩

/-- The state `init` yields for the wells `X` and `Y` with an empty previous state. -/
def exTwo : WellStateMultiSegment := {
  wells_ := none,
  bhp := [20000000, 15000000],
  thp := [20000000, 15000000],
  temperature := [5863 / 20, 5863 / 20],
  wellRates := [-1 / 100000000000000, -1 / 100000000000000, -1 / 100000000000000,
    -1 / 100000000000000],
  currentControls := [0, 0],
  perfPhaseRates := [-1 / 200000000000000, -1 / 200000000000000, -1 / 200000000000000,
    -1 / 200000000000000, -1 / 100000000000000, -1 / 100000000000000],
  perfPress := [1089 / 10, 594 / 5, 130],
  segpress_ := [20000000, sentinel, 15000000],
  segphaserates_ := [-1 / 100000000000000, -1 / 100000000000000, 0, 0, -1 / 100000000000000,
    -1 / 100000000000000],
  top_segment_loc_ := [0, 2],
  segmentedWellMap_ := [("X", ⟨0, 0, 2, 0, 2, [0, 2], [2, 0]⟩), ("Y",
    ⟨1, 2, 1, 2, 1, [0], [1]⟩)],
  nseg_ := 3,
  nperf_ := 3 }

/-- The state `init` yields for well `A` alone with an empty previous state. -/
def exSingle : WellStateMultiSegment := {
  wells_ := none,
  bhp := [20000000],
  thp := [20000000],
  temperature := [5863 / 20],
  wellRates := [-1 / 100000000000000, -1 / 100000000000000],
  currentControls := [0],
  perfPhaseRates := [-1 / 400000000000000, -1 / 400000000000000, -1 / 400000000000000,
    -1 / 400000000000000, -1 / 400000000000000, -1 / 400000000000000, -1 / 400000000000000,
    -1 / 400000000000000],
  perfPress := [1089 / 10, 594 / 5, 1287 / 10, 693 / 5],
  segpress_ := [20000000, 1089 / 10, 1287 / 10],
  segphaserates_ := [-1 / 100000000000000, -1 / 100000000000000, -1 / 200000000000000,
    -1 / 200000000000000, -1 / 200000000000000, -1 / 200000000000000],
  top_segment_loc_ := [0],
  segmentedWellMap_ := [("A", ⟨0, 0, 3, 0, 4, [0, 0, 2], [0, 2, 2]⟩)],
  nseg_ := 3,
  nperf_ := 4 }

/-- The state `init` yields when it is called on the state `exPrev` with no wells. -/
def exCleared : WellStateMultiSegment := {
  wells_ := none,
  bhp := [808 / 5, 160],
  thp := [808 / 5, 160],
  temperature := [5863 / 20, 5863 / 20],
  wellRates := [30, 0, 0, 0],
  currentControls := [0, 1],
  perfPhaseRates := [],
  perfPress := [],
  segpress_ := [],
  segphaserates_ := [],
  top_segment_loc_ := [0, 2],
  segmentedWellMap_ := [("B", ⟨0, 0, 2, 0, 3, [0, 1], [1, 2]⟩), ("A",
    ⟨1, 2, 3, 3, 4, [0, 0, 2], [0, 2, 2]⟩)],
  nseg_ := 0,
  nperf_ := 0 }

/-- The state `init` yields for well `C` alone when it is called on a default-constructed
state. -/
def exLone : WellStateMultiSegment := {
  wells_ := none,
  bhp := [170],
  thp := [170],
  temperature := [5863 / 20],
  wellRates := [0, 0],
  currentControls := [0],
  perfPhaseRates := [0, 0],
  perfPress := [sentinel],
  segpress_ := [sentinel],
  segphaserates_ := [0, 0],
  top_segment_loc_ := [0],
  segmentedWellMap_ := [("C", ⟨0, 0, 1, 0, 1, [0], [1]⟩)],
  nseg_ := 1,
  nperf_ := 1 }

/-- The state `init` yields for well `C` alone when it is called on the state `exPrev`. -/
def exStale : WellStateMultiSegment := {
  wells_ := none,
  bhp := [170],
  thp := [170],
  temperature := [5863 / 20],
  wellRates := [30, 0],
  currentControls := [0],
  perfPhaseRates := [10, 0],
  perfPress := [808 / 5],
  segpress_ := [808 / 5],
  segphaserates_ := [30, 0],
  top_segment_loc_ := [0],
  segmentedWellMap_ := [("B", ⟨0, 0, 2, 0, 3, [0, 1], [1, 2]⟩), ("A",
    ⟨1, 2, 3, 3, 4, [0, 0, 2], [0, 2, 2]⟩), ("C", ⟨0, 0, 1, 0, 1, [0], [1]⟩)],
  nseg_ := 1,
  nperf_ := 1 }

/-- A state that has been in use, with recognisable values everywhere; its vectors of
temperatures, perforation phase rates and segment phase rates are one element shorter than
the wells of the scenario need. -/
def exUsed : WellStateMultiSegment := {
  wells_ := some 1,
  bhp := [1, 2, 3],
  thp := [4, 5, 6],
  temperature := [300, 301],
  wellRates := [11, 12, 13, 14, 15, 16],
  currentControls := [7, 7, 7],
  perfPhaseRates := [21, 22, 23, 24, 25, 26, 27, 28, 29, 30, 31, 32, 33],
  perfPress := [41, 42, 43, 44, 45, 46, 47],
  segpress_ := [51, 52, 53, 54, 55],
  segphaserates_ := [61, 62, 63, 64, 65, 66, 67, 68, 69],
  top_segment_loc_ := [9, 9, 9],
  segmentedWellMap_ := [("Q", ⟨3, 1, 4, 1, 5, [9], [2, 6]⟩)],
  nseg_ := 5,
  nperf_ := 7 }

/-- The state `init` yields for the current wells with the previous state `exPrev` when it
is called on the state `exUsed`. -/
def exReused : WellStateMultiSegment := {
  wells_ := none,
  bhp := [160, 808 / 5, 110],
  thp := [20000000, 303 / 2, 110],
  temperature := [300, 301, 5863 / 20],
  wellRates := [0, 0, 30, 0, 15, 16],
  currentControls := [1, 1, 0],
  perfPhaseRates := [0, 0, 0, 0, 0, 0, 0, 0, 25, 0, 25, 0, 33, 0],
  perfPress := [sentinel, sentinel, sentinel, sentinel, 150, 160, 47],
  segpress_ := [sentinel, sentinel, sentinel, 303 / 2, 55],
  segphaserates_ := [0, 0, 0, 0, 0, 0, 50, 0, 69, 0],
  top_segment_loc_ := [0, 3, 4],
  segmentedWellMap_ := [("Q", ⟨3, 1, 4, 1, 5, [9], [2, 6]⟩), ("A",
    ⟨0, 0, 3, 0, 4, [0, 0, 2], [0, 2, 2]⟩), ("B", ⟨1, 3, 1, 4, 2, [0], [2]⟩), ("C",
    ⟨2, 4, 1, 6, 1, [0], [1]⟩)],
  nseg_ := 5,
  nperf_ := 7 }

/-! # Theorems -/

/-! ## Basic facts about the fallible operations -/

theorem bind_eq_ok {α β : Type} {x : M α} {f : α → M β} {b : β} :
    x.bind f = Except.ok b ↔ ∃ a, x = Except.ok a ∧ f a = Except.ok b := by
  cases x <;> simp [Except.bind]

theorem bind_eq_ok2 {α β : Type} {x : M α} {f : α → M β} {b : β} :
    (x >>= f) = Except.ok b ↔ ∃ a, x = Except.ok a ∧ f a = Except.ok b := by
  cases x <;> simp [bind, Except.bind]

theorem pure_eq_ok {α : Type} {a b : α} : (pure a : M α) = Except.ok b ↔ a = b := by
  simp [pure, Except.pure]

theorem readAt_eq_ok {α : Type} {v : List α} {i : Nat} {x : α} :
    readAt v i = Except.ok x ↔ v[i]? = some x := by
  unfold readAt
  cases h : v[i]? <;> simp

theorem writeAt_eq_ok {α : Type} {v v1 : List α} {i : Nat} {x : α} :
    writeAt v i x = Except.ok v1 ↔ i < v.length ∧ v1 = v.set i x := by
  unfold writeAt
  split <;> simp_all [eq_comm]

theorem assertThat_eq_ok {c : Bool} {e : InitError} {u : Unit} :
    assertThat c e = Except.ok u ↔ c = true := by
  unfold assertThat
  split <;> simp_all

theorem forUpTo_succ_eq_ok {σ : Type} {n : Nat} {body : Nat → σ → M σ} {s t : σ} :
    forUpTo (n + 1) body s = Except.ok t ↔
      ∃ u, forUpTo n body s = Except.ok u ∧ body n u = Except.ok t := by
  rw [forUpTo]
  cases forUpTo n body s <;> simp

/-- Invariant rule for a loop that returns. -/
theorem forUpTo_inv {σ : Type} (Inv : Nat → σ → Prop) {n : Nat} {body : Nat → σ → M σ}
    {s t : σ} (h : forUpTo n body s = Except.ok t) (h0 : Inv 0 s)
    (hstep : ∀ i u v, i < n → Inv i u → body i u = Except.ok v → Inv (i + 1) v) :
    Inv n t := by
  induction n generalizing t with
  | zero =>
    simp [forUpTo] at h
    subst h
    exact h0
  | succ n ih =>
    obtain ⟨u, hu, hb⟩ := forUpTo_succ_eq_ok.mp h
    have hu1 : Inv n u := ih hu (fun i a b hi => hstep i a b (Nat.lt_succ_of_lt hi))
    exact hstep n u t (Nat.lt_succ_self n) hu1 hb

/-- What a write loop that returns has done. -/
theorem writeLoop_eq_ok {α : Type} {n : Nat} {idx : Nat → Nat} {val : Nat → M α}
    {dst out : List α} (h : writeLoop n idx val dst = Except.ok out) :
    out.length = dst.length ∧
    (∀ j, (∀ i, i < n → idx i ≠ j) → out[j]? = dst[j]?) ∧
    (∀ i, i < n → (∀ k, i < k → k < n → idx k ≠ idx i) →
      ∃ x, val i = Except.ok x ∧ out[idx i]? = some x) := by
  unfold writeLoop at h
  have key := forUpTo_inv
    (fun m (d : List α) => d.length = dst.length ∧
      (∀ j, (∀ i, i < m → idx i ≠ j) → d[j]? = dst[j]?) ∧
      (∀ i, i < m → (∀ k, i < k → k < m → idx k ≠ idx i) →
        ∃ x, val i = Except.ok x ∧ d[idx i]? = some x)) h
    ⟨rfl, fun _ _ => rfl, fun i hi => absurd hi (Nat.not_lt_zero i)⟩
  apply key
  intro m u v hm ⟨hlen, hframe, hval⟩ hbody
  obtain ⟨x, hx, hw⟩ := bind_eq_ok.mp hbody
  obtain ⟨hlt, rfl⟩ := writeAt_eq_ok.mp hw
  refine ⟨by simp [hlen], ?_, ?_⟩
  · intro j hj
    have hne : idx m ≠ j := hj m (Nat.lt_succ_self m)
    rw [List.getElem?_set_ne hne]
    exact hframe j (fun i hi => hj i (Nat.lt_succ_of_lt hi))
  · intro i hi hinj
    rcases Nat.lt_succ_iff_lt_or_eq.mp hi with hlt2 | rfl
    · obtain ⟨y, hy, hy2⟩ := hval i hlt2 (fun k hik hk => hinj k hik (Nat.lt_succ_of_lt hk))
      refine ⟨y, hy, ?_⟩
      rw [List.getElem?_set_ne (hinj m hlt2 (Nat.lt_succ_self m))]
      exact hy2
    · exact ⟨x, hx, by simp [hlt]⟩

/-! ## The well map -/

theorem mapFind_mapSet (m : SegmentedWellMapType) (k : String) (e : SegmentedMapentryType)
    (k2 : String) : mapFind (mapSet m k e) k2 = if k = k2 then some e else mapFind m k2 := by
  induction m with
  | nil => simp [mapSet, mapFind]
  | cons a rest ih =>
    obtain ⟨k1, e1⟩ := a
    by_cases h1 : k1 = k
    · subst h1
      by_cases h2 : k1 = k2 <;> simp [mapSet, mapFind, h2]
    · by_cases h2 : k1 = k2
      · subst h2
        have h3 : ¬ k = k1 := fun h => h1 h.symm
        simp [mapSet, mapFind, h1, h3]
      · simp [mapSet, mapFind, h1, h2, ih]

theorem mapSet_keys_of_not_mem (m : SegmentedWellMapType) (k : String)
    (e : SegmentedMapentryType) (h : k ∉ m.map Prod.fst) :
    (mapSet m k e).map Prod.fst = m.map Prod.fst ++ [k] := by
  induction m with
  | nil => simp [mapSet]
  | cons a rest ih =>
    obtain ⟨k1, e1⟩ := a
    simp only [List.map_cons, List.mem_cons, not_or] at h
    have h1 : ¬ k1 = k := fun hk => h.1 hk.symm
    simp [mapSet, h1, ih h.2]

/-! ## Vectors -/

theorem length_resize {α : Type} (v : List α) (n : Nat) (x : α) : (resize v n x).length = n := by
  simp [resize]
  omega

theorem resize_nil {α : Type} (n : Nat) (x : α) : resize [] n x = List.replicate n x := by
  simp [resize]

theorem getElem?_replicate_of_lt {α : Type} {n i : Nat} (x : α) (h : i < n) :
    (List.replicate n x)[i]? = some x := by
  simp [List.getElem?_replicate, h]

/-! ## The map entry of a well -/

theorem sum_take_eq_perforationOffsetInWell (well : WellMultiSegment) (counts : List Nat)
    (n : Nat) (hlen : counts.length = n)
    (hc : ∀ s, s < n → ∃ l, well.segmentPerforations[s]? = some l ∧ counts[s]? = some l.length)
    (s : Nat) (hs : s ≤ n) : (counts.take s).sum = perforationOffsetInWell well s := by
  induction s with
  | zero => simp [perforationOffsetInWell]
  | succ s ih =>
    have hlt : s < n := hs
    obtain ⟨l, hl, hcs⟩ := hc s hlt
    have hs2 : s < counts.length := by omega
    have hget : counts[s] = l.length := by
      have := List.getElem?_eq_getElem hs2
      rw [this] at hcs
      exact Option.some.inj hcs
    rw [List.take_succ, List.sum_append, ih (Nat.le_of_lt hlt), perforationOffsetInWell]
    simp [List.getElem?_eq_getElem hs2, hget, List.getD_eq_getElem?_getD, hl]

theorem segmentLayout_loop {well : WellMultiSegment} {n : Nat} {starts counts : List Nat}
    {t : Nat × List Nat × List Nat} (hs : starts.length = n) (hc : counts.length = n)
    (h : forUpTo n (segmentLayoutStep well) (0, starts, counts) = Except.ok t) :
    t.1 = perforationOffsetInWell well n ∧ t.2.1.length = n ∧ t.2.2.length = n ∧
    (∀ s, s < n → ∃ l, well.segmentPerforations[s]? = some l ∧ t.2.2[s]? = some l.length) ∧
    (∀ s, s < n → t.2.1[s]? = some (perforationOffsetInWell well s)) := by
  have key := forUpTo_inv
    (fun m (u : Nat × List Nat × List Nat) =>
      u.1 = perforationOffsetInWell well m ∧ u.2.1.length = n ∧ u.2.2.length = n ∧
      (∀ s, s < m → ∃ l, well.segmentPerforations[s]? = some l ∧ u.2.2[s]? = some l.length) ∧
      (∀ s, s < m → u.2.1[s]? = some (perforationOffsetInWell well s))) h
    ⟨rfl, hs, hc, fun s hs0 => absurd hs0 (Nat.not_lt_zero s),
      fun s hs0 => absurd hs0 (Nat.not_lt_zero s)⟩
  have key2 := key ?_
  · obtain ⟨h1, h2, h3, h4, h5⟩ := key2
    exact ⟨h1, h2, h3, h4, h5⟩
  intro m u v hm ⟨h1, h2, h3, h4, h5⟩ hbody
  unfold segmentLayoutStep at hbody
  obtain ⟨st1, hst, hbody⟩ := bind_eq_ok2.mp hbody
  obtain ⟨perfs, hperfs, hbody⟩ := bind_eq_ok2.mp hbody
  obtain ⟨ct1, hct, hbody⟩ := bind_eq_ok2.mp hbody
  obtain ⟨hlt1, rfl⟩ := writeAt_eq_ok.mp hst
  obtain ⟨hlt2, rfl⟩ := writeAt_eq_ok.mp hct
  have hperfs2 := readAt_eq_ok.mp hperfs
  have hv := pure_eq_ok.mp hbody
  subst hv
  refine ⟨?_, by simp [h2], by simp [h3], ?_, ?_⟩
  · simp [perforationOffsetInWell, h1, List.getD_eq_getElem?_getD, hperfs2]
  · intro s hs1
    rcases Nat.lt_succ_iff_lt_or_eq.mp hs1 with hlt | rfl
    · obtain ⟨l, hl, hl2⟩ := h4 s hlt
      refine ⟨l, hl, ?_⟩
      simp only
      rw [List.getElem?_set_ne (by omega)]
      exact hl2
    · exact ⟨perfs, hperfs2, by simp [hlt2]⟩
  · intro s hs1
    rcases Nat.lt_succ_iff_lt_or_eq.mp hs1 with hlt | rfl
    · simp only
      rw [List.getElem?_set_ne (by omega)]
      exact h5 s hlt
    · simp [hlt1, h1]

theorem buildMapEntry_eq_ok {well : WellMultiSegment} {w ss sp : Nat}
    {e0 e : SegmentedMapentryType} (h : buildMapEntry well w ss sp e0 = Except.ok e) :
    e.well_number = w ∧ e.start_segment = ss ∧ e.number_of_segments = well.numberOfSegments ∧
    e.start_perforation = sp ∧ e.number_of_perforations = well.numberOfPerforations ∧
    SegmentLayout well e := by
  unfold buildMapEntry at h
  obtain ⟨t, ht, h⟩ := bind_eq_ok2.mp h
  obtain ⟨u, hu, h⟩ := bind_eq_ok2.mp h
  have he := pure_eq_ok.mp h
  subst he
  have hcount := assertThat_eq_ok.mp hu
  obtain ⟨h1, h2, h3, h4, h5⟩ :=
    segmentLayout_loop (length_resize _ _ _) (length_resize _ _ _) ht
  have hsum := sum_take_eq_perforationOffsetInWell well t.2.2 well.numberOfSegments h3 h4
  refine ⟨rfl, rfl, rfl, rfl, rfl, h2, h3, h4, ?_, ?_⟩
  · intro s hs
    simp only
    rw [h5 s hs, hsum s (Nat.le_of_lt hs)]
  · simp only
    have := hsum well.numberOfSegments (Nat.le_refl _)
    rw [← h3, List.take_length] at this
    rw [this, h3, ← h1]
    simpa using hcount

/-! ## The steps of one round of the loop over the wells -/

theorem stoppedBhp_eq_ok {wells : List WellMultiSegment} {ctrl : WellControls}
    {pressure : List ℚ} {w : Nat} {bhp out : List ℚ}
    (h : stoppedBhp wells ctrl pressure w bhp = Except.ok out) :
    w < bhp.length ∧ ∃ x, out = bhp.set w x ∧
      (ctrl.current_type = WellControlType.BHP → x = ctrl.current_target) ∧
      (ctrl.current_type ≠ WellControlType.BHP →
        ∃ well0 c, wells[0]? = some well0 ∧ well0.wellCells[0]? = some c ∧
          pressure[c]? = some x) := by
  unfold stoppedBhp at h
  split at h
  · rename_i hb
    obtain ⟨hlt, rfl⟩ := writeAt_eq_ok.mp h
    exact ⟨hlt, _, rfl, fun _ => rfl, fun hne => absurd hb hne⟩
  · rename_i hb
    obtain ⟨well0, h0, h⟩ := bind_eq_ok2.mp h
    obtain ⟨c, hc, h⟩ := bind_eq_ok2.mp h
    obtain ⟨p, hp, h⟩ := bind_eq_ok2.mp h
    obtain ⟨hlt, rfl⟩ := writeAt_eq_ok.mp h
    exact ⟨hlt, p, rfl, fun hbb => absurd hbb hb,
      fun _ => ⟨well0, c, readAt_eq_ok.mp h0, readAt_eq_ok.mp hc, readAt_eq_ok.mp hp⟩⟩

theorem openBhp_eq_ok {well : WellMultiSegment} {pressure : List ℚ} {w : Nat}
    {bhp out : List ℚ} (h : openBhp well pressure w bhp = Except.ok out) :
    w < bhp.length ∧ ∃ x, out = bhp.set w x ∧
      (well.wellControls.current_type = WellControlType.BHP →
        x = well.wellControls.current_target) ∧
      (well.wellControls.current_type ≠ WellControlType.BHP →
        ∃ c p, well.wellCells[0]? = some c ∧ pressure[c]? = some p ∧
          x = safety_factor well * p) := by
  unfold openBhp at h
  split at h
  · rename_i hb
    obtain ⟨hlt, rfl⟩ := writeAt_eq_ok.mp h
    exact ⟨hlt, _, rfl, fun _ => rfl, fun hne => absurd hb hne⟩
  · rename_i hb
    obtain ⟨c, hc, h⟩ := bind_eq_ok2.mp h
    obtain ⟨p, hp, h⟩ := bind_eq_ok2.mp h
    obtain ⟨hlt, rfl⟩ := writeAt_eq_ok.mp h
    exact ⟨hlt, _, rfl, fun hbb => absurd hbb hb,
      fun _ => ⟨c, p, readAt_eq_ok.mp hc, readAt_eq_ok.mp hp, rfl⟩⟩

theorem initThp_eq_ok {ctrl : WellControls} {w : Nat} {bhp thp out : List ℚ}
    (h : initThp ctrl w bhp thp = Except.ok out) :
    w < thp.length ∧ ∃ x, out = thp.set w x ∧
      (ctrl.current_type = WellControlType.THP → x = ctrl.current_target) ∧
      (ctrl.current_type ≠ WellControlType.THP → bhp[w]? = some x) := by
  unfold initThp at h
  split at h
  · rename_i hb
    obtain ⟨hlt, rfl⟩ := writeAt_eq_ok.mp h
    exact ⟨hlt, _, rfl, fun _ => rfl, fun hne => absurd hb hne⟩
  · rename_i hb
    obtain ⟨b, hb2, h⟩ := bind_eq_ok2.mp h
    obtain ⟨hlt, rfl⟩ := writeAt_eq_ok.mp h
    exact ⟨hlt, b, rfl, fun hbb => absurd hbb hb, fun _ => readAt_eq_ok.mp hb2⟩

theorem openWellRates_eq_ok {well : WellMultiSegment} {np w : Nat} {wellRates out : List ℚ}
    (h : openWellRates well np w wellRates = Except.ok out) :
    out.length = wellRates.length ∧
    (∀ j, (j < np * w ∨ np * w + np ≤ j) → out[j]? = wellRates[j]?) ∧
    (∀ p, p < np →
      (well.wellControls.current_type = WellControlType.SURFACE_RATE →
        ∃ d, well.wellControls.current_distr[p]? = some d ∧
          out[np * w + p]? = some (well.wellControls.current_target * d)) ∧
      (well.wellControls.current_type ≠ WellControlType.SURFACE_RATE →
        out[np * w + p]? = some (small_rate * rateSign well))) := by
  unfold openWellRates at h
  split at h
  · rename_i hb
    obtain ⟨hlen, hframe, hval⟩ := writeLoop_eq_ok h
    refine ⟨hlen, fun j hj => hframe j (fun i hi => by omega), fun p hp => ⟨fun _ => ?_,
      fun hne => absurd hb hne⟩⟩
    obtain ⟨x, hx, hx2⟩ := hval p hp (fun k hk _ => by omega)
    obtain ⟨d, hd, hxd⟩ := bind_eq_ok.mp hx
    refine ⟨d, readAt_eq_ok.mp hd, ?_⟩
    rw [hx2]
    simpa using hxd.symm
  · rename_i hb
    obtain ⟨hlen, hframe, hval⟩ := writeLoop_eq_ok h
    refine ⟨hlen, fun j hj => hframe j (fun i hi => by omega), fun p hp =>
      ⟨fun hbb => absurd hbb hb, fun _ => ?_⟩⟩
    obtain ⟨x, hx, hx2⟩ := hval p hp (fun k hk _ => by omega)
    rw [hx2]
    simpa using hx.symm

theorem openSegPress_eq_ok {e : SegmentedMapentryType} {ss sp w : Nat}
    {bhp perfPress segpress out : List ℚ}
    (h : openSegPress e ss sp w bhp perfPress segpress = Except.ok out) :
    out.length = segpress.length ∧ ss < segpress.length ∧
    (∀ j, (j < ss ∨ (ss + e.number_of_segments ≤ j ∧ j ≠ ss)) → out[j]? = segpress[j]?) ∧
    (∃ b, bhp[w]? = some b ∧ out[ss]? = some b) ∧
    (∀ s, 1 ≤ s → s < e.number_of_segments →
      ∃ off x, e.start_perforation_segment[s]? = some off ∧ perfPress[sp + off]? = some x ∧
        out[s + ss]? = some x) := by
  unfold openSegPress at h
  obtain ⟨b, hb, h⟩ := bind_eq_ok2.mp h
  obtain ⟨top, htop, h⟩ := bind_eq_ok2.mp h
  obtain ⟨hlt, rfl⟩ := writeAt_eq_ok.mp htop
  obtain ⟨hlen, hframe, hval⟩ := writeLoop_eq_ok h
  refine ⟨by simpa using hlen, hlt, ?_, ⟨b, readAt_eq_ok.mp hb, ?_⟩, ?_⟩
  · intro j hj
    rw [hframe j (fun i hi => by omega)]
    exact List.getElem?_set_ne (by omega)
  · rw [hframe ss (fun i hi => by omega)]
    simp [hlt]
  · intro s hs1 hs2
    obtain ⟨x, hx, hx2⟩ := hval (s - 1) (by omega) (fun k hk _ => by omega)
    obtain ⟨off, hoff, hx3⟩ := bind_eq_ok.mp hx
    have e1 : s - 1 + 1 = s := by omega
    rw [e1] at hoff hx2
    exact ⟨off, x, readAt_eq_ok.mp hoff, readAt_eq_ok.mp hx3, hx2⟩

theorem initStopped_eq_ok {wells : List WellMultiSegment} {well : WellMultiSegment}
    {pressure : List ℚ} {w : Nat} {st out : WellStateMultiSegment}
    (h : initStopped wells well pressure w st = Except.ok out) :
    ∃ bhp thp, stoppedBhp wells well.wellControls pressure w st.bhp = Except.ok bhp ∧
      initThp well.wellControls w bhp st.thp = Except.ok thp ∧
      out = { st with bhp := bhp, thp := thp } := by
  unfold initStopped at h
  obtain ⟨bhp, hb, h⟩ := bind_eq_ok2.mp h
  obtain ⟨thp, ht, h⟩ := bind_eq_ok2.mp h
  exact ⟨bhp, thp, hb, ht, (pure_eq_ok.mp h).symm⟩

theorem initOpen_eq_ok {well : WellMultiSegment} {e : SegmentedMapentryType} {np : Nat}
    {pressure : List ℚ} {w ss sp : Nat} {st out : WellStateMultiSegment}
    (h : initOpen well e np pressure w ss sp st = Except.ok out) :
    ∃ wellRates bhp thp perfs segpress segphaserates,
      openWellRates well np w st.wellRates = Except.ok wellRates ∧
      openBhp well pressure w st.bhp = Except.ok bhp ∧
      initThp well.wellControls w bhp st.thp = Except.ok thp ∧
      forUpTo e.number_of_perforations
        (perfStep well np w sp e.number_of_perforations pressure wellRates)
        (st.perfPhaseRates, st.perfPress) = Except.ok perfs ∧
      openSegPress e ss sp w bhp perfs.2 st.segpress_ = Except.ok segpress ∧
      forUpTo np
        (segRatesStep well np ss sp e.number_of_segments e.number_of_perforations perfs.1)
        st.segphaserates_ = Except.ok segphaserates ∧
      out = { st with wellRates := wellRates, bhp := bhp, thp := thp,
                      perfPhaseRates := perfs.1, perfPress := perfs.2,
                      segpress_ := segpress, segphaserates_ := segphaserates } := by
  unfold initOpen at h
  obtain ⟨wellRates, h1, h⟩ := bind_eq_ok2.mp h
  obtain ⟨bhp, h2, h⟩ := bind_eq_ok2.mp h
  obtain ⟨thp, h3, h⟩ := bind_eq_ok2.mp h
  obtain ⟨perfs, h4, h⟩ := bind_eq_ok2.mp h
  obtain ⟨segpress, h5, h⟩ := bind_eq_ok2.mp h
  obtain ⟨segphaserates, h6, h⟩ := bind_eq_ok2.mp h
  exact ⟨wellRates, bhp, thp, perfs, segpress, segphaserates, h1, h2, h3, h4, h5, h6,
    (pure_eq_ok.mp h).symm⟩

theorem initWell_eq_ok {wells : List WellMultiSegment} {np : Nat} {pressure : List ℚ}
    {w : Nat} {L out : InitLoop} (h : initWell wells np pressure w L = Except.ok out) :
    ∃ well e, wells[w]? = some well ∧ validWellType well = true ∧
      w < L.st.top_segment_loc_.length ∧
      buildMapEntry well w L.start_segment L.start_perforation
        ((mapFind L.st.segmentedWellMap_ well.name).getD SegmentedMapentryType.fresh)
        = Except.ok e ∧
      out.start_segment = L.start_segment + well.numberOfSegments ∧
      out.start_perforation = L.start_perforation + well.numberOfPerforations ∧
      initValues wells well e np pressure w L.start_segment L.start_perforation
        { L.st with segmentedWellMap_ := mapSet L.st.segmentedWellMap_ well.name e,
                    top_segment_loc_ := L.st.top_segment_loc_.set w L.start_segment }
        = Except.ok out.st := by
  unfold initWell at h
  obtain ⟨well, h1, ha⟩ := bind_eq_ok2.mp h
  obtain ⟨u, h2, hb⟩ := bind_eq_ok2.mp ha
  obtain ⟨top, h3, hc⟩ := bind_eq_ok2.mp hb
  obtain ⟨e, h4, hd⟩ := bind_eq_ok2.mp hc
  obtain ⟨st2, h5, he⟩ := bind_eq_ok2.mp hd
  clear h ha hb hc hd
  have hout := pure_eq_ok.mp he
  obtain ⟨hlt, rfl⟩ := writeAt_eq_ok.mp h3
  subst hout
  obtain ⟨-, -, he3, -, he5, -⟩ := buildMapEntry_eq_ok h4
  refine ⟨well, e, readAt_eq_ok.mp h1, assertThat_eq_ok.mp h2, hlt, h4, ?_, ?_, h5⟩
  · simp [he3]
  · simp [he5]

theorem initWell_round {wells : List WellMultiSegment} {np : Nat} {pressure : List ℚ}
    {w ss sp ss2 sp2 : Nat} {st st2 : WellStateMultiSegment}
    (h : initWell wells np pressure w ⟨ss, sp, st⟩ = Except.ok ⟨ss2, sp2, st2⟩) :
    ∃ well e, WellRound wells np pressure w ss sp well e st st2 := by
  obtain ⟨well, e, hw, hv, htop, he, -, -, hval⟩ := initWell_eq_ok h
  simp only at htop he hval
  refine ⟨well, e, ?_⟩
  unfold initValues at hval
  by_cases hs : well.wellControls.well_is_stopped = true
  · rw [if_pos hs] at hval
    obtain ⟨bhp, thp, hb, ht, rfl⟩ := initStopped_eq_ok hval
    simp only at hb ht
    obtain ⟨hblt, x, rfl, hx1, hx2⟩ := stoppedBhp_eq_ok hb
    obtain ⟨htlt, y, rfl, hy1, hy2⟩ := initThp_eq_ok ht
    exact {
      well_eq := hw, valid := hv, entry := he, map_eq := rfl, top_lt := htop, top_eq := rfl,
      nseg_eq := rfl, nperf_eq := rfl, cc_eq := rfl, temperature_eq := rfl, wells_eq := rfl,
      bhp_lt := hblt,
      bhp_eq := ⟨x, rfl, hx1, fun hne _ => hx2 hne, fun _ hf => by simp [hs] at hf⟩,
      thp_lt := htlt, thp_eq := ⟨y, rfl, hy1, hy2⟩,
      rates_length := rfl, rates_frame := fun _ _ => rfl, rates_stopped := fun _ => rfl,
      rates_open := fun hf => by simp [hs] at hf,
      segpress_length := rfl, segpress_frame := fun _ _ => rfl,
      segpress_stopped := fun _ => rfl, segpress_open := fun hf => by simp [hs] at hf }
  · rw [if_neg hs] at hval
    obtain ⟨wellRates, bhp, thp, perfs, segpress, segphaserates, hr, hb, ht, -, hsp, -, rfl⟩ :=
      initOpen_eq_ok hval
    simp only at hr hb ht hsp
    obtain ⟨hblt, x, rfl, hx1, hx2⟩ := openBhp_eq_ok hb
    obtain ⟨htlt, y, rfl, hy1, hy2⟩ := initThp_eq_ok ht
    obtain ⟨hrlen, hrframe, hrval⟩ := openWellRates_eq_ok hr
    obtain ⟨hslen, -, hsframe, hstop, -⟩ := openSegPress_eq_ok hsp
    exact {
      well_eq := hw, valid := hv, entry := he, map_eq := rfl, top_lt := htop, top_eq := rfl,
      nseg_eq := rfl, nperf_eq := rfl, cc_eq := rfl, temperature_eq := rfl, wells_eq := rfl,
      bhp_lt := hblt,
      bhp_eq := ⟨x, rfl, hx1, fun _ ht => absurd ht hs, fun hne _ => hx2 hne⟩,
      thp_lt := htlt, thp_eq := ⟨y, rfl, hy1, hy2⟩,
      rates_length := hrlen, rates_frame := hrframe,
      rates_stopped := fun ht => absurd ht hs,
      rates_open := fun _ p hp => by
        by_cases hc : well.wellControls.current_type = WellControlType.SURFACE_RATE
        · obtain ⟨d, hd, hd2⟩ := (hrval p hp).1 hc
          exact ⟨_, hd2, fun _ => ⟨d, hd, rfl⟩, fun hne => absurd hc hne⟩
        · exact ⟨_, (hrval p hp).2 hc, fun hcc => absurd hcc hc, fun _ => rfl⟩,
      segpress_length := hslen,
      segpress_frame := fun j hj => hsframe j (Or.inl hj),
      segpress_stopped := fun ht => absurd ht hs,
      segpress_open := fun _ => hstop }

/-! ## Offsets -/

theorem segmentOffset_zero (wells : List WellMultiSegment) : segmentOffset wells 0 = 0 := by
  simp [segmentOffset]

theorem perforationOffset_zero (wells : List WellMultiSegment) :
    perforationOffset wells 0 = 0 := by
  simp [perforationOffset]

theorem segmentOffset_succ {wells : List WellMultiSegment} {w : Nat} {well : WellMultiSegment}
    (h : wells[w]? = some well) :
    segmentOffset wells (w + 1) = segmentOffset wells w + well.numberOfSegments := by
  simp [segmentOffset, List.take_succ, h]

theorem perforationOffset_succ {wells : List WellMultiSegment} {w : Nat}
    {well : WellMultiSegment} (h : wells[w]? = some well) :
    perforationOffset wells (w + 1) = perforationOffset wells w + well.numberOfPerforations := by
  simp [perforationOffset, List.take_succ, h]

theorem segmentOffset_mono (wells : List WellMultiSegment) {v w : Nat} (h : v ≤ w) :
    segmentOffset wells v ≤ segmentOffset wells w := by
  induction w with
  | zero =>
    have : v = 0 := by omega
    subst this
    exact Nat.le_refl _
  | succ w ih =>
    rcases Nat.lt_or_ge v (w + 1) with hlt | hge
    · have h1 := ih (by omega)
      cases hw : wells[w]? with
      | none =>
        have h2 : segmentOffset wells (w + 1) = segmentOffset wells w := by
          simp [segmentOffset, List.take_succ, hw]
        omega
      | some well =>
        rw [segmentOffset_succ hw]
        omega
    · have : v = w + 1 := by omega
      subst this
      exact Nat.le_refl _

theorem perforationOffset_mono (wells : List WellMultiSegment) {v w : Nat} (h : v ≤ w) :
    perforationOffset wells v ≤ perforationOffset wells w := by
  induction w with
  | zero =>
    have : v = 0 := by omega
    subst this
    exact Nat.le_refl _
  | succ w ih =>
    rcases Nat.lt_or_ge v (w + 1) with hlt | hge
    · have h1 := ih (by omega)
      cases hw : wells[w]? with
      | none =>
        have h2 : perforationOffset wells (w + 1) = perforationOffset wells w := by
          simp [perforationOffset, List.take_succ, hw]
        omega
      | some well =>
        rw [perforationOffset_succ hw]
        omega
    · have : v = w + 1 := by omega
      subst this
      exact Nat.le_refl _

/-- The segment slice of an earlier well ends before the slice of a later well starts. -/
theorem segmentOffset_add_le {wells : List WellMultiSegment} {v w : Nat}
    {well : WellMultiSegment} (hv : wells[v]? = some well) (h : v < w) :
    segmentOffset wells v + well.numberOfSegments ≤ segmentOffset wells w := by
  rw [← segmentOffset_succ hv]
  exact segmentOffset_mono wells h

/-- The perforation slice of an earlier well ends before the slice of a later well starts. -/
theorem perforationOffset_add_le {wells : List WellMultiSegment} {v w : Nat}
    {well : WellMultiSegment} (hv : wells[v]? = some well) (h : v < w) :
    perforationOffset wells v + well.numberOfPerforations ≤ perforationOffset wells w := by
  rw [← perforationOffset_succ hv]
  exact perforationOffset_mono wells h

theorem slot_lt {np v w p : Nat} (h : v < w) (hp : p < np) : np * v + p < np * w := by
  have h1 : np * (v + 1) ≤ np * w := Nat.mul_le_mul_left np h
  rw [Nat.mul_succ] at h1
  omega

theorem name_ne_of_nodup {wells : List WellMultiSegment}
    (hn : (wells.map (fun well => well.name)).Nodup) {v w : Nat} {a b : WellMultiSegment}
    (ha : wells[v]? = some a) (hb : wells[w]? = some b) (hne : v ≠ w) : a.name ≠ b.name := by
  intro heq
  have hv : v < (wells.map (fun well => well.name)).length := by
    have := (List.getElem?_eq_some_iff.mp ha).1
    simpa using this
  have hw : w < (wells.map (fun well => well.name)).length := by
    have := (List.getElem?_eq_some_iff.mp hb).1
    simpa using this
  have e1 : (wells.map (fun well => well.name))[v] = a.name := by
    have := (List.getElem?_eq_some_iff.mp ha).2
    simp [this]
  have e2 : (wells.map (fun well => well.name))[w] = b.name := by
    have := (List.getElem?_eq_some_iff.mp hb).2
    simp [this]
  have := (@List.Nodup.getElem_inj_iff _ _ hn v hv w hw).mp (by rw [e1, e2, heq])
  exact hne this

/-! ## The loop over the wells -/

/-- Invariant rule for the loop of lines 117-242: the running offsets are the sums of the
counts of the wells already treated. -/
theorem mainLoop_inv (Inv : Nat → WellStateMultiSegment → Prop) {wells : List WellMultiSegment}
    {np : Nat} {pressure : List ℚ} {n : Nat} {s : WellStateMultiSegment} {L : InitLoop}
    (h : forUpTo n (initWell wells np pressure) ⟨0, 0, s⟩ = Except.ok L) (h0 : Inv 0 s)
    (hstep : ∀ i st st2, i < n → Inv i st →
      initWell wells np pressure i ⟨segmentOffset wells i, perforationOffset wells i, st⟩
        = Except.ok ⟨segmentOffset wells (i + 1), perforationOffset wells (i + 1), st2⟩ →
      Inv (i + 1) st2) :
    Inv n L.st ∧ L.start_segment = segmentOffset wells n ∧
      L.start_perforation = perforationOffset wells n := by
  apply forUpTo_inv
    (fun m (K : InitLoop) => Inv m K.st ∧ K.start_segment = segmentOffset wells m ∧
      K.start_perforation = perforationOffset wells m) h
    ⟨h0, (segmentOffset_zero wells).symm, (perforationOffset_zero wells).symm⟩
  intro i u v hi ⟨hinv, hss, hsp⟩ hbody
  obtain ⟨well, e, hw, -, -, -, h1, h2, -⟩ := initWell_eq_ok hbody
  have e1 : v.start_segment = segmentOffset wells (i + 1) := by
    rw [segmentOffset_succ hw, h1, hss]
  have e2 : v.start_perforation = perforationOffset wells (i + 1) := by
    rw [perforationOffset_succ hw, h2, hsp]
  refine ⟨?_, e1, e2⟩
  apply hstep i u.st v.st hi hinv
  rw [← hss, ← hsp, ← e1, ← e2]
  exact hbody

/-- Layout after the loop over the wells: counts untouched, top-segment locations and map
entries of the wells treated. -/
theorem mainLoop_layout {wells : List WellMultiSegment} {np : Nat} {pressure : List ℚ}
    {n : Nat} {s : WellStateMultiSegment} {L : InitLoop}
    (hn : (wells.map (fun well => well.name)).Nodup)
    (h : forUpTo n (initWell wells np pressure) ⟨0, 0, s⟩ = Except.ok L) :
    L.st.nseg_ = s.nseg_ ∧ L.st.nperf_ = s.nperf_ ∧
    L.st.top_segment_loc_.length = s.top_segment_loc_.length ∧
    (∀ v, v < n → L.st.top_segment_loc_[v]? = some (segmentOffset wells v)) ∧
    (∀ v well, v < n → wells[v]? = some well →
      ∃ e, mapFind L.st.segmentedWellMap_ well.name = some e ∧ WellLayout wells v well e ∧
        SegmentLayout well e) := by
  refine (mainLoop_inv
    (fun m st => st.nseg_ = s.nseg_ ∧ st.nperf_ = s.nperf_ ∧
      st.top_segment_loc_.length = s.top_segment_loc_.length ∧
      (∀ v, v < m → st.top_segment_loc_[v]? = some (segmentOffset wells v)) ∧
      (∀ v well, v < m → wells[v]? = some well →
        ∃ e, mapFind st.segmentedWellMap_ well.name = some e ∧ WellLayout wells v well e ∧
          SegmentLayout well e)) h
    ⟨rfl, rfl, rfl, fun v hv => absurd hv (Nat.not_lt_zero v),
      fun v _ hv => absurd hv (Nat.not_lt_zero v)⟩ ?_).1
  intro i st st2 hi ⟨h1, h2, h3, h4, h5⟩ hbody
  obtain ⟨well, e, R⟩ := initWell_round hbody
  obtain ⟨e1, e2, e3, e4, e5, e6⟩ := buildMapEntry_eq_ok R.entry
  refine ⟨R.nseg_eq.trans h1, R.nperf_eq.trans h2, ?_, ?_, ?_⟩
  · rw [R.top_eq, List.length_set, h3]
  · intro v hv
    rw [R.top_eq]
    rcases Nat.lt_succ_iff_lt_or_eq.mp hv with hlt | rfl
    · rw [List.getElem?_set_ne (by omega)]
      exact h4 v hlt
    · simp [R.top_lt]
  · intro v well2 hv hw2
    rw [R.map_eq, mapFind_mapSet]
    rcases Nat.lt_succ_iff_lt_or_eq.mp hv with hlt | rfl
    · have hne : well.name ≠ well2.name := name_ne_of_nodup hn R.well_eq hw2 (by omega)
      rw [if_neg hne]
      exact h5 v well2 hlt hw2
    · have : well2 = well := by
        rw [R.well_eq] at hw2
        exact (Option.some.inj hw2).symm
      subst this
      rw [if_pos rfl]
      exact ⟨e, rfl, ⟨e1, e2, e3, e4, e5⟩, e6⟩

/-- Keys of the map after the loop over the wells, when the map was empty before. -/
theorem mainLoop_keys {wells : List WellMultiSegment} {np : Nat} {pressure : List ℚ}
    {n : Nat} {s : WellStateMultiSegment} {L : InitLoop}
    (hn : (wells.map (fun well => well.name)).Nodup) (hs : s.segmentedWellMap_ = [])
    (h : forUpTo n (initWell wells np pressure) ⟨0, 0, s⟩ = Except.ok L) :
    L.st.segmentedWellMap_.map Prod.fst = (wells.take n).map (fun well => well.name) := by
  refine (mainLoop_inv
    (fun m st => st.segmentedWellMap_.map Prod.fst = (wells.take m).map (fun well => well.name))
    h (by simp [hs]) ?_).1
  intro i st st2 hi hinv hbody
  obtain ⟨well, e, R⟩ := initWell_round hbody
  have hnot : well.name ∉ st.segmentedWellMap_.map Prod.fst := by
    rw [hinv]
    intro hmem
    obtain ⟨a, ha, hname⟩ := List.mem_map.mp hmem
    obtain ⟨v, hv, hget⟩ := List.getElem_of_mem ha
    have hv2 : v < i := by
      have := hv
      simp at this
      omega
    have hv3 : wells[v]? = some a := by
      rw [List.getElem_take] at hget
      rw [← hget]
      exact List.getElem?_eq_getElem _
    exact name_ne_of_nodup hn hv3 R.well_eq (by omega) hname
  rw [R.map_eq, mapSet_keys_of_not_mem _ _ _ hnot, hinv, List.take_succ, R.well_eq]
  simp

/-- Bottom-hole pressures after the loop over the wells. -/
theorem mainLoop_bhp {wells : List WellMultiSegment} {np : Nat} {pressure : List ℚ}
    {n : Nat} {s : WellStateMultiSegment} {L : InitLoop}
    (h : forUpTo n (initWell wells np pressure) ⟨0, 0, s⟩ = Except.ok L) :
    L.st.bhp.length = s.bhp.length ∧
    (∀ v well, v < n → wells[v]? = some well →
      ∃ x, L.st.bhp[v]? = some x ∧ BhpGuess wells pressure well x) := by
  refine (mainLoop_inv
    (fun m st => st.bhp.length = s.bhp.length ∧
      (∀ v well, v < m → wells[v]? = some well →
        ∃ x, st.bhp[v]? = some x ∧ BhpGuess wells pressure well x)) h
    ⟨rfl, fun v _ hv => absurd hv (Nat.not_lt_zero v)⟩ ?_).1
  intro i st st2 hi ⟨h1, h2⟩ hbody
  obtain ⟨well, e, R⟩ := initWell_round hbody
  obtain ⟨x, hx, hg⟩ := R.bhp_eq
  refine ⟨by rw [hx, List.length_set, h1], ?_⟩
  intro v well2 hv hw2
  rw [hx]
  rcases Nat.lt_succ_iff_lt_or_eq.mp hv with hlt | rfl
  · rw [List.getElem?_set_ne (by omega)]
    exact h2 v well2 hlt hw2
  · have : well2 = well := by
      rw [R.well_eq] at hw2
      exact (Option.some.inj hw2).symm
    subst this
    exact ⟨x, by simp [R.bhp_lt], hg⟩

/-- Phase rates after the loop over the wells. -/
theorem mainLoop_rates {wells : List WellMultiSegment} {np : Nat} {pressure : List ℚ}
    {n : Nat} {s : WellStateMultiSegment} {L : InitLoop}
    (h : forUpTo n (initWell wells np pressure) ⟨0, 0, s⟩ = Except.ok L) :
    L.st.wellRates.length = s.wellRates.length ∧
    (∀ j, np * n ≤ j → L.st.wellRates[j]? = s.wellRates[j]?) ∧
    (∀ v well p, v < n → wells[v]? = some well → p < np →
      (well.wellControls.well_is_stopped = true →
        L.st.wellRates[np * v + p]? = s.wellRates[np * v + p]?) ∧
      (well.wellControls.well_is_stopped = false →
        ∃ x, L.st.wellRates[np * v + p]? = some x ∧ OpenRateGuess well p x)) := by
  refine (mainLoop_inv
    (fun m st => st.wellRates.length = s.wellRates.length ∧
      (∀ j, np * m ≤ j → st.wellRates[j]? = s.wellRates[j]?) ∧
      (∀ v well p, v < m → wells[v]? = some well → p < np →
        (well.wellControls.well_is_stopped = true →
          st.wellRates[np * v + p]? = s.wellRates[np * v + p]?) ∧
        (well.wellControls.well_is_stopped = false →
          ∃ x, st.wellRates[np * v + p]? = some x ∧ OpenRateGuess well p x))) h
    ⟨rfl, fun _ _ => rfl, fun v _ _ hv => absurd hv (Nat.not_lt_zero v)⟩ ?_).1
  intro i st st2 hi ⟨h1, h2, h3⟩ hbody
  obtain ⟨well, e, R⟩ := initWell_round hbody
  refine ⟨R.rates_length.trans h1, ?_, ?_⟩
  · intro j hj
    rw [Nat.mul_succ] at hj
    rw [R.rates_frame j (Or.inr hj)]
    exact h2 j (by omega)
  · intro v well2 p hv hw2 hp
    rcases Nat.lt_succ_iff_lt_or_eq.mp hv with hlt | rfl
    · rw [R.rates_frame _ (Or.inl (slot_lt hlt hp))]
      exact h3 v well2 p hlt hw2 hp
    · have : well2 = well := by
        rw [R.well_eq] at hw2
        exact (Option.some.inj hw2).symm
      subst this
      refine ⟨fun hst => ?_, fun hop => R.rates_open hop p hp⟩
      rw [R.rates_stopped hst]
      exact h2 _ (by omega)

/-- Top-segment pressures after the loop over the wells: the top segment of an open well
with a segment has the bottom-hole pressure of the well. -/
theorem mainLoop_top {wells : List WellMultiSegment} {np : Nat} {pressure : List ℚ}
    {n : Nat} {s : WellStateMultiSegment} {L : InitLoop}
    (h : forUpTo n (initWell wells np pressure) ⟨0, 0, s⟩ = Except.ok L) :
    ∀ v well, v < n → wells[v]? = some well → well.wellControls.well_is_stopped = false →
      1 ≤ well.numberOfSegments →
      ∃ b, L.st.bhp[v]? = some b ∧ L.st.segpress_[segmentOffset wells v]? = some b := by
  refine (mainLoop_inv
    (fun m st => ∀ v well, v < m → wells[v]? = some well →
      well.wellControls.well_is_stopped = false → 1 ≤ well.numberOfSegments →
      ∃ b, st.bhp[v]? = some b ∧ st.segpress_[segmentOffset wells v]? = some b) h
    (fun v _ hv => absurd hv (Nat.not_lt_zero v)) ?_).1
  intro i st st2 hi hinv hbody
  obtain ⟨well, e, R⟩ := initWell_round hbody
  intro v well2 hv hw2 hop hseg
  rcases Nat.lt_succ_iff_lt_or_eq.mp hv with hlt | rfl
  · obtain ⟨b, hb1, hb2⟩ := hinv v well2 hlt hw2 hop hseg
    obtain ⟨x, hx, -⟩ := R.bhp_eq
    refine ⟨b, ?_, ?_⟩
    · rw [hx, List.getElem?_set_ne (by omega)]
      exact hb1
    · have := segmentOffset_add_le hw2 hlt
      rw [R.segpress_frame _ (by omega)]
      exact hb2
  · have : well2 = well := by
      rw [R.well_eq] at hw2
      exact (Option.some.inj hw2).symm
    subst this
    exact R.segpress_open hop

/-! ## The initial guess as a whole -/

theorem foldl_counts (wells : List WellMultiSegment) (s : WellStateMultiSegment) :
    wells.foldl (fun t well =>
      { t with nperf_ := t.nperf_ + well.numberOfPerforations,
               nseg_ := t.nseg_ + well.numberOfSegments }) s =
    { s with nperf_ := s.nperf_ + (wells.map (fun well => well.numberOfPerforations)).sum,
             nseg_ := s.nseg_ + (wells.map (fun well => well.numberOfSegments)).sum } := by
  induction wells generalizing s with
  | nil => simp
  | cons a rest ih =>
    rw [List.foldl_cons, ih]
    simp [Nat.add_assoc]

theorem countSizes_eq (wells : List WellMultiSegment) (s : WellStateMultiSegment) :
    countSizes wells s =
    { s with nperf_ := s.nperf_ + perforationOffset wells wells.length,
             nseg_ := s.nseg_ + segmentOffset wells wells.length } := by
  unfold countSizes
  rw [foldl_counts]
  simp [perforationOffset, segmentOffset]

theorem setCurrentControls_eq_ok {wells : List WellMultiSegment} {cc out : List Int}
    (h : setCurrentControls wells cc = Except.ok out) :
    out.length = cc.length ∧
    (∀ (w : Nat) (well : WellMultiSegment), wells[w]? = some well →
      out[w]? = some well.wellControls.current) := by
  unfold setCurrentControls at h
  obtain ⟨hlen, -, hval⟩ := writeLoop_eq_ok h
  refine ⟨hlen, fun w well hw => ?_⟩
  have hlt : w < wells.length := (List.getElem?_eq_some_iff.mp hw).1
  obtain ⟨x, hx, hx2⟩ := hval w hlt (fun k hk _ => by omega)
  obtain ⟨well2, h2, hx3⟩ := bind_eq_ok.mp hx
  have h3 := readAt_eq_ok.mp h2
  rw [hw] at h3
  have h4 := Option.some.inj h3
  subst h4
  rw [hx2]
  simpa using hx3.symm

theorem initGuess_eq_ok {wells : List WellMultiSegment} {np : Nat} {pressure : List ℚ}
    {s0 st : WellStateMultiSegment} (h : initGuess wells np pressure s0 = Except.ok st) :
    ∃ cc L cc2,
      setCurrentControls wells (resize (countSizes wells s0).currentControls wells.length 0)
        = Except.ok cc ∧
      checkWellTypes wells = Except.ok () ∧
      forUpTo wells.length (initWell wells np pressure)
        ⟨0, 0, resizeVectors wells.length np { countSizes wells s0 with currentControls := cc }⟩
        = Except.ok L ∧
      setCurrentControls wells (resize L.st.currentControls wells.length 0) = Except.ok cc2 ∧
      st = { L.st with currentControls := cc2 } := by
  unfold initGuess at h
  obtain ⟨cc, h1, ha⟩ := bind_eq_ok2.mp h
  obtain ⟨u, h2, hb⟩ := bind_eq_ok2.mp ha
  obtain ⟨L, h3, hc⟩ := bind_eq_ok2.mp hb
  obtain ⟨cc2, h4, hd⟩ := bind_eq_ok2.mp hc
  exact ⟨cc, L, cc2, h1, h2, h3, h4, (pure_eq_ok.mp hd).symm⟩

/-! ## The steps of one round of the continuation -/

theorem copyLoop_eq_ok {α : Type} {n a b : Nat} {src dst out : List α}
    (h : writeLoop n (fun i => a + i) (fun i => readAt src (b + i)) dst = Except.ok out) :
    CopiedSlice dst src out a b n := by
  obtain ⟨hlen, hframe, hval⟩ := writeLoop_eq_ok h
  refine ⟨hlen, fun j hj => hframe j (fun i hi => by omega), fun i hi => ?_⟩
  obtain ⟨x, hx, hx2⟩ := hval i hi (fun k hk _ => by omega)
  exact ⟨x, readAt_eq_ok.mp hx, hx2⟩

theorem carryOverControl_eq_ok {well : WellMultiSegment} {prevState : WellStateMultiSegment}
    {oldIndex newIndex : Nat} {cc out : List Int}
    (h : carryOverControl well prevState oldIndex newIndex cc = Except.ok out) :
    ∃ c, prevState.currentControls[oldIndex]? = some c ∧
      (c < well.wellControls.num → newIndex < cc.length ∧ out = cc.set newIndex c) ∧
      (¬ c < well.wellControls.num → out = cc) := by
  unfold carryOverControl at h
  obtain ⟨c, hc, ha⟩ := bind_eq_ok2.mp h
  refine ⟨c, readAt_eq_ok.mp hc, ?_, ?_⟩
  · intro hlt
    rw [if_pos hlt] at ha
    exact writeAt_eq_ok.mp ha
  · intro hlt
    rw [if_neg hlt] at ha
    exact (pure_eq_ok.mp ha).symm

theorem carryOverStructure_eq_ok {well : WellMultiSegment} {np : Nat}
    {prevState : WellStateMultiSegment} {old this : SegmentedMapentryType} {newIndex : Nat}
    {st out : WellStateMultiSegment}
    (h : carryOverStructure well np prevState old this newIndex st = Except.ok out) :
    ∃ segphaserates perfPhaseRates perfPress segpress cc,
      CopiedSlice st.segphaserates_ prevState.segphaserates_ segphaserates
        (this.start_segment * np) (old.start_segment * np) (this.number_of_segments * np) ∧
      CopiedSlice st.perfPhaseRates prevState.perfPhaseRates perfPhaseRates
        (this.start_perforation * np) (old.start_perforation * np)
        (this.number_of_perforations * np) ∧
      CopiedSlice st.perfPress prevState.perfPress perfPress this.start_perforation
        old.start_perforation this.number_of_perforations ∧
      CopiedSlice st.segpress_ prevState.segpress_ segpress this.start_segment
        old.start_segment this.number_of_segments ∧
      carryOverControl well prevState old.well_number newIndex st.currentControls
        = Except.ok cc ∧
      out = { st with segphaserates_ := segphaserates, perfPhaseRates := perfPhaseRates,
                      perfPress := perfPress, segpress_ := segpress,
                      currentControls := cc } := by
  unfold carryOverStructure at h
  obtain ⟨a1, h1, ha⟩ := bind_eq_ok2.mp h
  obtain ⟨a2, h2, hb⟩ := bind_eq_ok2.mp ha
  obtain ⟨a3, h3, hc⟩ := bind_eq_ok2.mp hb
  obtain ⟨a4, h4, hd⟩ := bind_eq_ok2.mp hc
  obtain ⟨a5, h5, he⟩ := bind_eq_ok2.mp hd
  exact ⟨a1, a2, a3, a4, a5, copyLoop_eq_ok h1, copyLoop_eq_ok h2, copyLoop_eq_ok h3,
    copyLoop_eq_ok h4, h5, (pure_eq_ok.mp he).symm⟩

theorem carryOverFound_eq_ok {well : WellMultiSegment} {np : Nat}
    {prevState : WellStateMultiSegment} {old this : SegmentedMapentryType} {w : Nat}
    {st out : WellStateMultiSegment}
    (h : carryOverFound well np prevState old this w st = Except.ok out) :
    ∃ bhp wellRates,
      CopiedSlice st.bhp prevState.bhp bhp w old.well_number 1 ∧
      CopiedSlice st.wellRates prevState.wellRates wellRates (w * np)
        (old.well_number * np) np ∧
      (Matched old this →
        carryOverStructure well np prevState old this w
          { st with bhp := bhp, wellRates := wellRates } = Except.ok out) ∧
      (¬ Matched old this → out = { st with bhp := bhp, wellRates := wellRates }) := by
  unfold carryOverFound at h
  obtain ⟨b, h1, ha⟩ := bind_eq_ok2.mp h
  obtain ⟨bhp, h2, hb⟩ := bind_eq_ok2.mp ha
  obtain ⟨wellRates, h3, hc⟩ := bind_eq_ok2.mp hb
  obtain ⟨hlt, rfl⟩ := writeAt_eq_ok.mp h2
  have hb1 := readAt_eq_ok.mp h1
  refine ⟨st.bhp.set w b, wellRates, ?_, copyLoop_eq_ok h3, ?_, ?_⟩
  · refine ⟨by simp, fun j hj => List.getElem?_set_ne (by omega), fun i hi => ?_⟩
    have : i = 0 := by omega
    subst this
    exact ⟨b, hb1, by simp [hlt]⟩
  · intro hm
    unfold Matched at hm
    rw [if_pos hm] at hc
    exact hc
  · intro hm
    unfold Matched at hm
    rw [if_neg hm] at hc
    exact (pure_eq_ok.mp hc).symm

theorem carryOverWell_eq_ok {wells : List WellMultiSegment} {np : Nat}
    {prevState : WellStateMultiSegment} {w : Nat} {st out : WellStateMultiSegment}
    (h : carryOverWell wells np prevState w st = Except.ok out) :
    ∃ well this, wells[w]? = some well ∧
      mapFind st.segmentedWellMap_ well.name = some this ∧
      (mapFind prevState.segmentedWellMap_ well.name = none → out = st) ∧
      (∀ old, mapFind prevState.segmentedWellMap_ well.name = some old →
        carryOverFound well np prevState old this w st = Except.ok out) := by
  unfold carryOverWell at h
  obtain ⟨well, h1, ha⟩ := bind_eq_ok2.mp h
  refine ⟨well, ?_⟩
  cases hthis : mapFind st.segmentedWellMap_ well.name with
  | none =>
    rw [hthis] at ha
    simp at ha
  | some this =>
    rw [hthis] at ha
    refine ⟨this, readAt_eq_ok.mp h1, rfl, ?_, ?_⟩
    · intro hnone
      rw [hnone] at ha
      exact (pure_eq_ok.mp ha).symm
    · intro old hold
      rw [hold] at ha
      exact ha

theorem carryOverWell_round {wells : List WellMultiSegment} {np : Nat}
    {prevState : WellStateMultiSegment} {w : Nat} {st st2 : WellStateMultiSegment}
    (h : carryOverWell wells np prevState w st = Except.ok st2) :
    ∃ well this, CarryRound wells np prevState w well this st st2 := by
  obtain ⟨well, this, hw, hthis, hnone, hsome⟩ := carryOverWell_eq_ok h
  refine ⟨well, this, ?_⟩
  cases hold : mapFind prevState.segmentedWellMap_ well.name with
  | none =>
    have e := hnone hold
    subst e
    have hno : ∀ o, mapFind prevState.segmentedWellMap_ well.name = some o → False := by
      intro o ho
      rw [hold] at ho
      cases ho
    exact {
      well_eq := hw, this_eq := hthis, map_eq := rfl, thp_eq := rfl, top_eq := rfl,
      nseg_eq := rfl, nperf_eq := rfl, temperature_eq := rfl, wells_eq := rfl,
      absent := fun _ => rfl,
      bhp := fun o ho => (hno o ho).elim,
      rates := fun o ho => (hno o ho).elim,
      mismatch := fun o ho => (hno o ho).elim,
      segpress := fun o ho => (hno o ho).elim,
      segphaserates := fun o ho => (hno o ho).elim,
      perfPress := fun o ho => (hno o ho).elim,
      perfPhaseRates := fun o ho => (hno o ho).elim,
      control := fun o ho => (hno o ho).elim }
  | some old =>
    have huniq : ∀ o, mapFind prevState.segmentedWellMap_ well.name = some o → o = old := by
      intro o ho
      rw [hold] at ho
      exact (Option.some.inj ho).symm
    have hnn : mapFind prevState.segmentedWellMap_ well.name = none → False := by
      intro hn
      rw [hold] at hn
      cases hn
    obtain ⟨bhp, wellRates, hb, hr, hm, hnm⟩ := carryOverFound_eq_ok (hsome old hold)
    by_cases hmat : Matched old this
    · obtain ⟨a1, a2, a3, a4, a5, c1, c2, c3, c4, c5, rfl⟩ :=
        carryOverStructure_eq_ok (hm hmat)
      simp only at c1 c2 c3 c4 c5
      exact {
        well_eq := hw, this_eq := hthis, map_eq := rfl, thp_eq := rfl, top_eq := rfl,
        nseg_eq := rfl, nperf_eq := rfl, temperature_eq := rfl, wells_eq := rfl,
        absent := fun hn => (hnn hn).elim,
        bhp := fun o ho => by
          rw [huniq o ho]
          exact hb,
        rates := fun o ho => by
          rw [huniq o ho]
          exact hr,
        mismatch := fun o ho hno => by
          rw [huniq o ho] at hno
          exact absurd hmat hno,
        segpress := fun o ho _ => by
          rw [huniq o ho]
          exact c4,
        segphaserates := fun o ho _ => by
          rw [huniq o ho]
          exact c1,
        perfPress := fun o ho _ => by
          rw [huniq o ho]
          exact c3,
        perfPhaseRates := fun o ho _ => by
          rw [huniq o ho]
          exact c2,
        control := fun o ho _ => by
          rw [huniq o ho]
          exact carryOverControl_eq_ok c5 }
    · have e := hnm hmat
      subst e
      exact {
        well_eq := hw, this_eq := hthis, map_eq := rfl, thp_eq := rfl, top_eq := rfl,
        nseg_eq := rfl, nperf_eq := rfl, temperature_eq := rfl, wells_eq := rfl,
        absent := fun hn => (hnn hn).elim,
        bhp := fun o ho => by
          rw [huniq o ho]
          exact hb,
        rates := fun o ho => by
          rw [huniq o ho]
          exact hr,
        mismatch := fun _ _ _ => ⟨rfl, rfl, rfl, rfl, rfl⟩,
        segpress := fun o ho hyes => by
          rw [huniq o ho] at hyes
          exact absurd hyes hmat,
        segphaserates := fun o ho hyes => by
          rw [huniq o ho] at hyes
          exact absurd hyes hmat,
        perfPress := fun o ho hyes => by
          rw [huniq o ho] at hyes
          exact absurd hyes hmat,
        perfPhaseRates := fun o ho hyes => by
          rw [huniq o ho] at hyes
          exact absurd hyes hmat,
        control := fun o ho hyes => by
          rw [huniq o ho] at hyes
          exact absurd hyes hmat }

/-- What a round of the continuation leaves alone, whatever the previous state holds for
the well: everything outside the slots and slices of the well of the round. -/
theorem CarryRound.frames {wells : List WellMultiSegment} {np : Nat}
    {prevState : WellStateMultiSegment} {w : Nat} {well : WellMultiSegment}
    {this : SegmentedMapentryType} {st st2 : WellStateMultiSegment}
    (R : CarryRound wells np prevState w well this st st2) :
    (∀ j, j ≠ w → st2.bhp[j]? = st.bhp[j]?) ∧
    (∀ j, (j < w * np ∨ w * np + np ≤ j) → st2.wellRates[j]? = st.wellRates[j]?) ∧
    (∀ j, j ≠ w → st2.currentControls[j]? = st.currentControls[j]?) ∧
    (∀ j, (j < this.start_segment ∨ this.start_segment + this.number_of_segments ≤ j) →
      st2.segpress_[j]? = st.segpress_[j]?) ∧
    (∀ j, (j < this.start_segment * np ∨
        this.start_segment * np + this.number_of_segments * np ≤ j) →
      st2.segphaserates_[j]? = st.segphaserates_[j]?) ∧
    (∀ j, (j < this.start_perforation ∨
        this.start_perforation + this.number_of_perforations ≤ j) →
      st2.perfPress[j]? = st.perfPress[j]?) ∧
    (∀ j, (j < this.start_perforation * np ∨
        this.start_perforation * np + this.number_of_perforations * np ≤ j) →
      st2.perfPhaseRates[j]? = st.perfPhaseRates[j]?) := by
  cases hold : mapFind prevState.segmentedWellMap_ well.name with
  | none =>
    rw [R.absent hold]
    exact ⟨fun _ _ => rfl, fun _ _ => rfl, fun _ _ => rfl, fun _ _ => rfl, fun _ _ => rfl,
      fun _ _ => rfl, fun _ _ => rfl⟩
  | some old =>
    have hb := (R.bhp old hold).2.1
    have hr := (R.rates old hold).2.1
    refine ⟨fun j hj => hb j (by omega), hr, ?_⟩
    by_cases hmat : Matched old this
    · obtain ⟨c, -, hc1, hc2⟩ := R.control old hold hmat
      refine ⟨?_, (R.segpress old hold hmat).2.1, (R.segphaserates old hold hmat).2.1,
        (R.perfPress old hold hmat).2.1, (R.perfPhaseRates old hold hmat).2.1⟩
      intro j hj
      by_cases hlt : c < well.wellControls.num
      · rw [(hc1 hlt).2]
        exact List.getElem?_set_ne (fun h => hj h.symm)
      · rw [hc2 hlt]
    · obtain ⟨e1, e2, e3, e4, e5⟩ := R.mismatch old hold hmat
      rw [e1, e2, e3, e4, e5]
      exact ⟨fun _ _ => rfl, fun _ _ => rfl, fun _ _ => rfl, fun _ _ => rfl, fun _ _ => rfl⟩

/-! ## The loop of the continuation -/

theorem scaled_lt {a n b np i : Nat} (h : a + n ≤ b) (hi : i < n * np) :
    a * np + i < b * np := by
  have := Nat.mul_le_mul_right np h
  rw [Nat.add_mul] at this
  omega

theorem scaled_le {a n b np : Nat} (h : a + n ≤ b) : a * np + n * np ≤ b * np := by
  have := Nat.mul_le_mul_right np h
  rw [Nat.add_mul] at this
  exact this

theorem sameSlices_refl (np w : Nat) (e : SegmentedMapentryType) (a : WellStateMultiSegment) :
    SameSlices np w e a a :=
  ⟨rfl, fun _ _ => rfl, rfl, fun _ _ => rfl, fun _ _ => rfl, fun _ _ => rfl, fun _ _ => rfl⟩

theorem sameSlices_trans {np w : Nat} {e : SegmentedMapentryType}
    {a b c : WellStateMultiSegment} (h1 : SameSlices np w e a b) (h2 : SameSlices np w e b c) :
    SameSlices np w e a c := by
  obtain ⟨a1, a2, a3, a4, a5, a6, a7⟩ := h1
  obtain ⟨b1, b2, b3, b4, b5, b6, b7⟩ := h2
  exact ⟨a1.trans b1, fun i hi => (a2 i hi).trans (b2 i hi), a3.trans b3,
    fun i hi => (a4 i hi).trans (b4 i hi), fun i hi => (a5 i hi).trans (b5 i hi),
    fun i hi => (a6 i hi).trans (b6 i hi), fun i hi => (a7 i hi).trans (b7 i hi)⟩

/-- The round of one well leaves alone what belongs to another well. -/
theorem carryRound_other {wells : List WellMultiSegment} {np : Nat}
    {prevState : WellStateMultiSegment} {v w : Nat} {wellv wellw : WellMultiSegment}
    {ev ew : SegmentedMapentryType} {st st2 : WellStateMultiSegment}
    (R : CarryRound wells np prevState v wellv ev st st2)
    (hv : WellLayout wells v wellv ev) (hw : wells[w]? = some wellw)
    (hlw : WellLayout wells w wellw ew) (hne : v ≠ w) : SameSlices np w ew st2 st := by
  obtain ⟨f1, f2, f3, f4, f5, f6, f7⟩ := R.frames
  obtain ⟨-, v2, v3, v4, v5⟩ := hv
  obtain ⟨-, w2, w3, w4, w5⟩ := hlw
  rw [v2, v3] at f4 f5
  rw [v4, v5] at f6 f7
  rw [SameSlices, w2, w3, w4, w5]
  rcases Nat.lt_or_gt_of_ne hne with hlt | hgt
  · have hs := segmentOffset_add_le R.well_eq hlt
    have hp := perforationOffset_add_le R.well_eq hlt
    refine ⟨f1 w (by omega), fun i hi => f2 _ (Or.inr ?_), f3 w (by omega),
      fun i hi => f4 _ (Or.inr (by omega)), fun i hi => f5 _ (Or.inr ?_),
      fun i hi => f6 _ (Or.inr (by omega)), fun i hi => f7 _ (Or.inr ?_)⟩
    · have := @scaled_le v 1 w np hlt
      omega
    · have := @scaled_le _ _ _ np hs
      omega
    · have := @scaled_le _ _ _ np hp
      omega
  · have hs := segmentOffset_add_le hw hgt
    have hp := perforationOffset_add_le hw hgt
    refine ⟨f1 w (by omega), fun i hi => f2 _ (Or.inl ?_), f3 w (by omega),
      fun i hi => f4 _ (Or.inl (by omega)), fun i hi => f5 _ (Or.inl ?_),
      fun i hi => f6 _ (Or.inl (by omega)), fun i hi => f7 _ (Or.inl ?_)⟩
    · exact scaled_lt (show w + 1 ≤ v from hgt) (by omega)
    · exact scaled_lt hs hi
    · exact scaled_lt hp hi

/-- What the loop of the continuation leaves alone altogether. -/
theorem carryLoop_global {wells : List WellMultiSegment} {np : Nat}
    {prevState : WellStateMultiSegment} {n : Nat} {st0 st : WellStateMultiSegment}
    (h : forUpTo n (carryOverWell wells np prevState) st0 = Except.ok st) :
    st.segmentedWellMap_ = st0.segmentedWellMap_ ∧ st.thp = st0.thp ∧
    st.top_segment_loc_ = st0.top_segment_loc_ ∧ st.nseg_ = st0.nseg_ ∧
    st.nperf_ = st0.nperf_ ∧ st.temperature = st0.temperature ∧ st.wells_ = st0.wells_ := by
  apply forUpTo_inv
    (fun _ (t : WellStateMultiSegment) =>
      t.segmentedWellMap_ = st0.segmentedWellMap_ ∧ t.thp = st0.thp ∧
      t.top_segment_loc_ = st0.top_segment_loc_ ∧ t.nseg_ = st0.nseg_ ∧
      t.nperf_ = st0.nperf_ ∧ t.temperature = st0.temperature ∧ t.wells_ = st0.wells_) h
    ⟨rfl, rfl, rfl, rfl, rfl, rfl, rfl⟩
  intro i u v _ ⟨h1, h2, h3, h4, h5, h6, h7⟩ hbody
  obtain ⟨well, this, R⟩ := carryOverWell_round hbody
  exact ⟨R.map_eq.trans h1, R.thp_eq.trans h2, R.top_eq.trans h3, R.nseg_eq.trans h4,
    R.nperf_eq.trans h5, R.temperature_eq.trans h6, R.wells_eq.trans h7⟩

/-- The loop of the continuation, seen from one well: only the round of the well itself
changes what belongs to it. -/
theorem carryLoop_target {wells : List WellMultiSegment} {np : Nat}
    {prevState : WellStateMultiSegment} {n : Nat} {st0 st : WellStateMultiSegment}
    (h : forUpTo n (carryOverWell wells np prevState) st0 = Except.ok st)
    (hlay : HasLayout wells st0.segmentedWellMap_)
    {w : Nat} {well : WellMultiSegment} {e : SegmentedMapentryType} (hwn : w < n)
    (hw : wells[w]? = some well) (he : mapFind st0.segmentedWellMap_ well.name = some e)
    (hle : WellLayout wells w well e) :
    ∃ sa sb, sa.segmentedWellMap_ = st0.segmentedWellMap_ ∧ SameSlices np w e sa st0 ∧
      CarryRound wells np prevState w well e sa sb ∧ SameSlices np w e st sb := by
  have key := forUpTo_inv
    (fun m (t : WellStateMultiSegment) =>
      t.segmentedWellMap_ = st0.segmentedWellMap_ ∧
      (m ≤ w → SameSlices np w e t st0) ∧
      (w < m → ∃ sa sb, sa.segmentedWellMap_ = st0.segmentedWellMap_ ∧
        SameSlices np w e sa st0 ∧ CarryRound wells np prevState w well e sa sb ∧
        SameSlices np w e t sb)) h
    ⟨rfl, fun _ => sameSlices_refl np w e st0, fun hlt => absurd hlt (Nat.not_lt_zero w)⟩ ?_
  · exact key.2.2 hwn
  intro i u v hi ⟨hmap, hbefore, hafter⟩ hbody
  obtain ⟨welli, thisi, R⟩ := carryOverWell_round hbody
  obtain ⟨ei, hei, hli⟩ := hlay i welli R.well_eq
  have hthis : thisi = ei := by
    have h1 := R.this_eq
    rw [hmap, hei] at h1
    exact (Option.some.inj h1).symm
  subst hthis
  refine ⟨R.map_eq.trans hmap, ?_, ?_⟩
  · intro hle2
    have hne : i ≠ w := by omega
    exact sameSlices_trans (carryRound_other R hli hw hle hne) (hbefore (by omega))
  · intro hlt
    rcases Nat.lt_succ_iff_lt_or_eq.mp hlt with hlt2 | heq
    · obtain ⟨sa, sb, h1, h2, h3, h4⟩ := hafter hlt2
      have hne : i ≠ w := by omega
      exact ⟨sa, sb, h1, h2, h3, sameSlices_trans (carryRound_other R hli hw hle hne) h4⟩
    · subst heq
      have hwell : welli = well := by
        have h1 := R.well_eq
        rw [hw] at h1
        exact (Option.some.inj h1).symm
      subst hwell
      have hee : thisi = e := by
        rw [he] at hei
        exact (Option.some.inj hei).symm
      subst hee
      exact ⟨u, v, hmap, hbefore (Nat.le_refl _), R, sameSlices_refl np w thisi v⟩

/-! ## Facts about the initial guess -/

theorem lt_length_of_getElem? {α : Type} {l : List α} {i : Nat} {x : α} (h : l[i]? = some x) :
    i < l.length :=
  (List.getElem?_eq_some_iff.mp h).1

/-- Layout after the initial guess. -/
theorem initGuess_layout {wells : List WellMultiSegment} {np : Nat} {pressure : List ℚ}
    {s0 st : WellStateMultiSegment} (hn : (wells.map (fun well => well.name)).Nodup)
    (h : initGuess wells np pressure s0 = Except.ok st) :
    ∀ (w : Nat) (well : WellMultiSegment), wells[w]? = some well →
      ∃ e, mapFind st.segmentedWellMap_ well.name = some e ∧ WellLayout wells w well e ∧
        SegmentLayout well e := by
  obtain ⟨cc, L, cc2, -, -, hloop, -, rfl⟩ := initGuess_eq_ok h
  obtain ⟨-, -, -, -, h5⟩ := mainLoop_layout hn hloop
  intro w well hw
  exact h5 w well (lt_length_of_getElem? hw) hw

/-- Top-segment locations after the initial guess. -/
theorem initGuess_topLoc {wells : List WellMultiSegment} {np : Nat} {pressure : List ℚ}
    {s0 st : WellStateMultiSegment} (h : initGuess wells np pressure s0 = Except.ok st) :
    ∀ w, w < wells.length → st.top_segment_loc_[w]? = some (segmentOffset wells w) := by
  obtain ⟨cc, L, cc2, -, -, hloop, -, rfl⟩ := initGuess_eq_ok h
  refine (mainLoop_inv
    (fun m t => ∀ v, v < m → t.top_segment_loc_[v]? = some (segmentOffset wells v)) hloop
    (fun v hv => absurd hv (Nat.not_lt_zero v)) ?_).1
  intro i t t2 hi hinv hbody v hv
  obtain ⟨well, e, R⟩ := initWell_round hbody
  rw [R.top_eq]
  rcases Nat.lt_succ_iff_lt_or_eq.mp hv with hlt | rfl
  · rw [List.getElem?_set_ne (by omega)]
    exact hinv v hlt
  · simp [R.top_lt]

/-- Totals after the initial guess. -/
theorem initGuess_counts {wells : List WellMultiSegment} {np : Nat} {pressure : List ℚ}
    {s0 st : WellStateMultiSegment} (h : initGuess wells np pressure s0 = Except.ok st) :
    st.nseg_ = s0.nseg_ + segmentOffset wells wells.length ∧
    st.nperf_ = s0.nperf_ + perforationOffset wells wells.length := by
  obtain ⟨cc, L, cc2, -, -, hloop, -, rfl⟩ := initGuess_eq_ok h
  have key := (mainLoop_inv
    (fun _ t => t.nseg_ = s0.nseg_ + segmentOffset wells wells.length ∧
      t.nperf_ = s0.nperf_ + perforationOffset wells wells.length) hloop
    (by simp [resizeVectors, countSizes_eq]) ?_).1
  · exact key
  intro i t t2 hi ⟨h1, h2⟩ hbody
  obtain ⟨well, e, R⟩ := initWell_round hbody
  exact ⟨R.nseg_eq.trans h1, R.nperf_eq.trans h2⟩

/-- Keys of the map after the initial guess on a state whose map was empty. -/
theorem initGuess_keys {wells : List WellMultiSegment} {np : Nat} {pressure : List ℚ}
    {s0 st : WellStateMultiSegment} (hn : (wells.map (fun well => well.name)).Nodup)
    (hs : s0.segmentedWellMap_ = [])
    (h : initGuess wells np pressure s0 = Except.ok st) :
    st.segmentedWellMap_.map Prod.fst = wells.map (fun well => well.name) := by
  obtain ⟨cc, L, cc2, -, -, hloop, -, rfl⟩ := initGuess_eq_ok h
  have := mainLoop_keys hn (by simp [resizeVectors, countSizes_eq, hs]) hloop
  simpa using this

/-- Bottom-hole pressures after the initial guess. -/
theorem initGuess_bhp {wells : List WellMultiSegment} {np : Nat} {pressure : List ℚ}
    {s0 st : WellStateMultiSegment} (h : initGuess wells np pressure s0 = Except.ok st) :
    ∀ (w : Nat) (well : WellMultiSegment), wells[w]? = some well →
      ∃ x, st.bhp[w]? = some x ∧ BhpGuess wells pressure well x := by
  obtain ⟨cc, L, cc2, -, -, hloop, -, rfl⟩ := initGuess_eq_ok h
  intro w well hw
  exact (mainLoop_bhp hloop).2 w well (lt_length_of_getElem? hw) hw

/-- Top-segment pressures after the initial guess. -/
theorem initGuess_top {wells : List WellMultiSegment} {np : Nat} {pressure : List ℚ}
    {s0 st : WellStateMultiSegment} (h : initGuess wells np pressure s0 = Except.ok st) :
    ∀ (w : Nat) (well : WellMultiSegment), wells[w]? = some well →
      well.wellControls.well_is_stopped = false → 1 ≤ well.numberOfSegments →
      ∃ b, st.bhp[w]? = some b ∧ st.segpress_[segmentOffset wells w]? = some b := by
  obtain ⟨cc, L, cc2, -, -, hloop, -, rfl⟩ := initGuess_eq_ok h
  intro w well hw
  exact mainLoop_top hloop w well (lt_length_of_getElem? hw) hw

/-- Control indices after the initial guess. -/
theorem initGuess_cc {wells : List WellMultiSegment} {np : Nat} {pressure : List ℚ}
    {s0 st : WellStateMultiSegment} (h : initGuess wells np pressure s0 = Except.ok st) :
    ∀ (w : Nat) (well : WellMultiSegment), wells[w]? = some well →
      st.currentControls[w]? = some well.wellControls.current := by
  obtain ⟨cc, L, cc2, -, -, -, hcc, rfl⟩ := initGuess_eq_ok h
  exact (setCurrentControls_eq_ok hcc).2

/-- Phase rates after the initial guess on a state whose rate vector was empty. -/
theorem initGuess_rates {wells : List WellMultiSegment} {np : Nat} {pressure : List ℚ}
    {s0 st : WellStateMultiSegment} (hs : s0.wellRates = [])
    (h : initGuess wells np pressure s0 = Except.ok st) :
    ∀ (w : Nat) (well : WellMultiSegment) (p : Nat), wells[w]? = some well → p < np →
      (well.wellControls.well_is_stopped = true → st.wellRates[np * w + p]? = some 0) ∧
      (well.wellControls.well_is_stopped = false →
        ∃ x, st.wellRates[np * w + p]? = some x ∧ OpenRateGuess well p x) := by
  obtain ⟨cc, L, cc2, -, -, hloop, -, rfl⟩ := initGuess_eq_ok h
  intro w well p hw hp
  have hlt := lt_length_of_getElem? hw
  obtain ⟨h1, h2⟩ := (mainLoop_rates hloop).2.2 w well p hlt hw hp
  refine ⟨fun hst => ?_, h2⟩
  have h3 := h1 hst
  simp only [resizeVectors, countSizes_eq, hs, resize_nil] at h3
  rw [h3]
  apply getElem?_replicate_of_lt
  have := slot_lt hlt hp
  rw [Nat.mul_comm wells.length np]
  exact this

/-! ## init as a whole -/

theorem init_eq_ok {self prevState st : WellStateMultiSegment} {wells : List WellMultiSegment}
    {pressure : List ℚ} {legacy : Option Nat} {well0 : WellMultiSegment}
    (h0 : wells.head? = some well0)
    (h : init self wells pressure prevState legacy = Except.ok st) :
    ∃ st0, initGuess wells well0.numberOfPhases pressure
        { self with wells_ := legacy, nseg_ := 0, nperf_ := 0 } = Except.ok st0 ∧
      carryOver wells well0.numberOfPhases prevState st0 = Except.ok st := by
  cases wells with
  | nil => simp at h0
  | cons a rest =>
    simp only [List.head?_cons, Option.some.injEq] at h0
    subst h0
    unfold init at h
    exact bind_eq_ok.mp h

theorem carryOver_of_empty {wells : List WellMultiSegment} {np : Nat}
    {prevState st0 st : WellStateMultiSegment} (hp : prevState.segmentedWellMap_ = [])
    (h : carryOver wells np prevState st0 = Except.ok st) : st = st0 := by
  unfold carryOver at h
  rw [hp] at h
  simp only [List.isEmpty_nil, if_true] at h
  exact (pure_eq_ok.mp h).symm

theorem carryOver_of_ne_empty {wells : List WellMultiSegment} {np : Nat}
    {prevState st0 st : WellStateMultiSegment} (hp : prevState.segmentedWellMap_ ≠ [])
    (h : carryOver wells np prevState st0 = Except.ok st) :
    forUpTo wells.length (carryOverWell wells np prevState) st0 = Except.ok st := by
  unfold carryOver at h
  cases hm : prevState.segmentedWellMap_ with
  | nil => exact absurd hm hp
  | cons a rest =>
    rw [hm] at h
    simpa using h

/-- With an empty previous state `init` yields the initial guess. -/
theorem init_of_empty {self prevState st : WellStateMultiSegment}
    {wells : List WellMultiSegment} {pressure : List ℚ} {legacy : Option Nat}
    {well0 : WellMultiSegment} (h0 : wells.head? = some well0)
    (hp : prevState.segmentedWellMap_ = [])
    (h : init self wells pressure prevState legacy = Except.ok st) :
    initGuess wells well0.numberOfPhases pressure
      { self with wells_ := legacy, nseg_ := 0, nperf_ := 0 } = Except.ok st := by
  obtain ⟨st0, h1, h2⟩ := init_eq_ok h0 h
  rw [carryOver_of_empty hp h2]
  exact h1

/-- What the continuation leaves alone altogether. -/
theorem carryOver_global {wells : List WellMultiSegment} {np : Nat}
    {prevState st0 st : WellStateMultiSegment}
    (h : carryOver wells np prevState st0 = Except.ok st) :
    st.segmentedWellMap_ = st0.segmentedWellMap_ ∧ st.thp = st0.thp ∧
    st.top_segment_loc_ = st0.top_segment_loc_ ∧ st.nseg_ = st0.nseg_ ∧
    st.nperf_ = st0.nperf_ ∧ st.temperature = st0.temperature ∧ st.wells_ = st0.wells_ := by
  by_cases hp : prevState.segmentedWellMap_ = []
  · rw [carryOver_of_empty hp h]
    exact ⟨rfl, rfl, rfl, rfl, rfl, rfl, rfl⟩
  · exact carryLoop_global (carryOver_of_ne_empty hp h)

/-- The continuation, seen from one well: the state before the round of the well agrees
with the initial guess on what belongs to the well, and the final state agrees on it with
the state after that round. -/
theorem carryOver_target {wells : List WellMultiSegment} {np : Nat}
    {prevState st0 st : WellStateMultiSegment}
    (h : carryOver wells np prevState st0 = Except.ok st)
    (hlay : prevState.segmentedWellMap_ ≠ [] → HasLayout wells st0.segmentedWellMap_)
    {w : Nat} {well : WellMultiSegment} {e : SegmentedMapentryType}
    (hw : wells[w]? = some well) (he : mapFind st0.segmentedWellMap_ well.name = some e)
    (hle : WellLayout wells w well e) :
    ∃ sa sb, SameSlices np w e sa st0 ∧ CarryRound wells np prevState w well e sa sb ∧
      SameSlices np w e st sb := by
  by_cases hp : prevState.segmentedWellMap_ = []
  · have hst := carryOver_of_empty hp h
    subst hst
    have hno : ∀ o, mapFind prevState.segmentedWellMap_ well.name = some o → False := by
      intro o ho
      rw [hp] at ho
      simp [mapFind] at ho
    refine ⟨st, st, sameSlices_refl np w e st, ?_, sameSlices_refl np w e st⟩
    exact {
      well_eq := hw, this_eq := he, map_eq := rfl, thp_eq := rfl, top_eq := rfl,
      nseg_eq := rfl, nperf_eq := rfl, temperature_eq := rfl, wells_eq := rfl,
      absent := fun _ => rfl,
      bhp := fun o ho => (hno o ho).elim,
      rates := fun o ho => (hno o ho).elim,
      mismatch := fun o ho => (hno o ho).elim,
      segpress := fun o ho => (hno o ho).elim,
      segphaserates := fun o ho => (hno o ho).elim,
      perfPress := fun o ho => (hno o ho).elim,
      perfPhaseRates := fun o ho => (hno o ho).elim,
      control := fun o ho => (hno o ho).elim }
  · obtain ⟨sa, sb, -, h2, h3, h4⟩ :=
      carryLoop_target (carryOver_of_ne_empty hp h) (hlay hp) (lt_length_of_getElem? hw) hw he
        hle
    exact ⟨sa, sb, h2, h3, h4⟩

theorem hasLayout_of_initGuess {wells : List WellMultiSegment} {np : Nat} {pressure : List ℚ}
    {s0 st : WellStateMultiSegment} (hn : (wells.map (fun well => well.name)).Nodup)
    (h : initGuess wells np pressure s0 = Except.ok st) :
    HasLayout wells st.segmentedWellMap_ := by
  intro v well hv
  obtain ⟨e, h1, h2, -⟩ := initGuess_layout hn h v well hv
  exact ⟨e, h1, h2⟩

/-! ## Sizes of the vectors -/

theorem perfLoop_lengths {well : WellMultiSegment} {np w sp nperf n : Nat}
    {pressure wellRates : List ℚ} {s t : List ℚ × List ℚ}
    (h : forUpTo n (perfStep well np w sp nperf pressure wellRates) s = Except.ok t) :
    t.1.length = s.1.length ∧ t.2.length = s.2.length := by
  apply forUpTo_inv
    (fun _ (u : List ℚ × List ℚ) => u.1.length = s.1.length ∧ u.2.length = s.2.length) h
    ⟨rfl, rfl⟩
  intro i u v _ ⟨h1, h2⟩ hbody
  unfold perfStep at hbody
  obtain ⟨rates, hr, ha⟩ := bind_eq_ok2.mp hbody
  obtain ⟨cell, -, hb⟩ := bind_eq_ok2.mp ha
  obtain ⟨pc, -, hc⟩ := bind_eq_ok2.mp hb
  obtain ⟨press, hp, hd⟩ := bind_eq_ok2.mp hc
  have hv := pure_eq_ok.mp hd
  subst hv
  obtain ⟨-, rfl⟩ := writeAt_eq_ok.mp hp
  exact ⟨(writeLoop_eq_ok hr).1.trans h1, by simpa using h2⟩

theorem segRatesLoop_length {well : WellMultiSegment} {np ss sp nseg nperf n : Nat}
    {perfPhaseRates v t : List ℚ}
    (h : forUpTo n (segRatesStep well np ss sp nseg nperf perfPhaseRates) v = Except.ok t) :
    t.length = v.length := by
  apply forUpTo_inv (fun _ (u : List ℚ) => u.length = v.length) h rfl
  intro i u x _ h1 hbody
  unfold segRatesStep at hbody
  obtain ⟨a, -, ha⟩ := bind_eq_ok2.mp hbody
  obtain ⟨b, -, hb⟩ := bind_eq_ok2.mp ha
  exact (writeLoop_eq_ok hb).1.trans h1

/-- One round of the loop over the wells keeps the sizes of the vectors. -/
theorem initWell_lengths {wells : List WellMultiSegment} {np : Nat} {pressure : List ℚ}
    {w : Nat} {L out : InitLoop} (h : initWell wells np pressure w L = Except.ok out) :
    SameSizes out.st L.st := by
  obtain ⟨well, e, -, -, -, -, -, -, hval⟩ := initWell_eq_ok h
  unfold initValues at hval
  by_cases hs : well.wellControls.well_is_stopped = true
  · rw [if_pos hs] at hval
    obtain ⟨bhp, thp, hb, ht, hout⟩ := initStopped_eq_ok hval
    obtain ⟨-, x, rfl, -⟩ := stoppedBhp_eq_ok hb
    obtain ⟨-, y, rfl, -⟩ := initThp_eq_ok ht
    rw [hout]
    simp [SameSizes]
  · rw [if_neg hs] at hval
    obtain ⟨wellRates, bhp, thp, perfs, segpress, segphaserates, hr, hb, ht, hp, hsp, hsr,
      hout⟩ := initOpen_eq_ok hval
    obtain ⟨-, x, rfl, -⟩ := openBhp_eq_ok hb
    obtain ⟨-, y, rfl, -⟩ := initThp_eq_ok ht
    obtain ⟨p1, p2⟩ := perfLoop_lengths hp
    have r1 := (openWellRates_eq_ok hr).1
    have s1 := (openSegPress_eq_ok hsp).1
    have s2 := segRatesLoop_length hsr
    rw [hout]
    simp only at r1 s1 s2 p1 p2
    simp [SameSizes, r1, s1, s2, p1, p2]

theorem sameSizes_refl (a : WellStateMultiSegment) : SameSizes a a :=
  ⟨rfl, rfl, rfl, rfl, rfl, rfl, rfl, rfl, rfl, rfl⟩

theorem sameSizes_trans {a b c : WellStateMultiSegment} (h1 : SameSizes a b)
    (h2 : SameSizes b c) : SameSizes a c := by
  obtain ⟨a1, a2, a3, a4, a5, a6, a7, a8, a9, a10⟩ := h1
  obtain ⟨b1, b2, b3, b4, b5, b6, b7, b8, b9, b10⟩ := h2
  exact ⟨a1.trans b1, a2.trans b2, a3.trans b3, a4.trans b4, a5.trans b5, a6.trans b6,
    a7.trans b7, a8.trans b8, a9.trans b9, a10.trans b10⟩

/-- The loop over the wells keeps the sizes of the vectors. -/
theorem mainLoop_lengths {wells : List WellMultiSegment} {np : Nat} {pressure : List ℚ}
    {n : Nat} {K L : InitLoop} (h : forUpTo n (initWell wells np pressure) K = Except.ok L) :
    SameSizes L.st K.st := by
  apply forUpTo_inv (fun _ (u : InitLoop) => SameSizes u.st K.st) h (sameSizes_refl K.st)
  intro i u v _ h1 hbody
  exact sameSizes_trans (initWell_lengths hbody) h1

/-- Sizes of the vectors after the initial guess: one element per well, per well and
phase, per segment, per segment and phase, per perforation, per perforation and phase. -/
theorem initGuess_lengths {wells : List WellMultiSegment} {np : Nat} {pressure : List ℚ}
    {s0 st : WellStateMultiSegment} (h : initGuess wells np pressure s0 = Except.ok st) :
    st.bhp.length = wells.length ∧ st.thp.length = wells.length ∧
    st.top_segment_loc_.length = wells.length ∧ st.temperature.length = wells.length ∧
    st.wellRates.length = wells.length * np ∧ st.currentControls.length = wells.length ∧
    st.perfPhaseRates.length = st.nperf_ * np ∧ st.perfPress.length = st.nperf_ ∧
    st.segphaserates_.length = st.nseg_ * np ∧ st.segpress_.length = st.nseg_ := by
  obtain ⟨c1, c2⟩ := initGuess_counts h
  obtain ⟨cc, L, cc2, -, -, hloop, hcc, rfl⟩ := initGuess_eq_ok h
  obtain ⟨a1, a2, a3, a4, a5, a6, a7, a8, a9, a10⟩ := mainLoop_lengths hloop
  have hcc2 := (setCurrentControls_eq_ok hcc).1
  simp only at c1 c2
  simp only [resizeVectors, countSizes_eq, length_resize] at a1 a2 a3 a4 a5 a7 a8 a9 a10
  simp only [length_resize] at hcc2
  refine ⟨a1, a2, a3, a4, a5, hcc2, ?_, ?_, ?_, ?_⟩
  · rw [a7, c2]
  · rw [a8, c2]
  · rw [a9, c1]
  · rw [a10, c1]

/-- A round of the continuation keeps the sizes of the vectors. -/
theorem CarryRound.lengths {wells : List WellMultiSegment} {np : Nat}
    {prevState : WellStateMultiSegment} {w : Nat} {well : WellMultiSegment}
    {this : SegmentedMapentryType} {st st2 : WellStateMultiSegment}
    (R : CarryRound wells np prevState w well this st st2) : SameSizes st2 st := by
  cases hold : mapFind prevState.segmentedWellMap_ well.name with
  | none =>
    rw [R.absent hold]
    exact sameSizes_refl st
  | some old =>
    have hb := (R.bhp old hold).1
    have hr := (R.rates old hold).1
    by_cases hmat : Matched old this
    · obtain ⟨c, -, hc1, hc2⟩ := R.control old hold hmat
      have hcc : st2.currentControls.length = st.currentControls.length := by
        by_cases hlt : c < well.wellControls.num
        · rw [(hc1 hlt).2, List.length_set]
        · rw [hc2 hlt]
      refine ⟨hb, ?_, ?_, ?_, hr, hcc, (R.perfPhaseRates old hold hmat).1,
        (R.perfPress old hold hmat).1, (R.segphaserates old hold hmat).1,
        (R.segpress old hold hmat).1⟩
      · rw [R.thp_eq]
      · rw [R.top_eq]
      · rw [R.temperature_eq]
    · obtain ⟨e1, e2, e3, e4, e5⟩ := R.mismatch old hold hmat
      refine ⟨hb, ?_, ?_, ?_, hr, ?_, ?_, ?_, ?_, ?_⟩
      · rw [R.thp_eq]
      · rw [R.top_eq]
      · rw [R.temperature_eq]
      · rw [e5]
      · rw [e4]
      · rw [e3]
      · rw [e2]
      · rw [e1]

/-- The continuation keeps the sizes of the vectors. -/
theorem carryOver_lengths {wells : List WellMultiSegment} {np : Nat}
    {prevState st0 st : WellStateMultiSegment}
    (h : carryOver wells np prevState st0 = Except.ok st) : SameSizes st st0 := by
  by_cases hp : prevState.segmentedWellMap_ = []
  · rw [carryOver_of_empty hp h]
    exact sameSizes_refl st0
  · apply forUpTo_inv (fun _ (u : WellStateMultiSegment) => SameSizes u st0)
      (carryOver_of_ne_empty hp h) (sameSizes_refl st0)
    intro i u v _ h1 hbody
    obtain ⟨well, this, R⟩ := carryOverWell_round hbody
    exact sameSizes_trans R.lengths h1

/-- Sizes of the vectors after `init` for a non-empty sequence of wells. -/
theorem init_lengths {self prevState st : WellStateMultiSegment}
    {wells : List WellMultiSegment} {pressure : List ℚ} {legacy : Option Nat}
    {well0 : WellMultiSegment} (h0 : wells.head? = some well0)
    (h : init self wells pressure prevState legacy = Except.ok st) :
    st.bhp.length = wells.length ∧ st.thp.length = wells.length ∧
    st.top_segment_loc_.length = wells.length ∧ st.temperature.length = wells.length ∧
    st.wellRates.length = wells.length * well0.numberOfPhases ∧
    st.currentControls.length = wells.length ∧
    st.perfPhaseRates.length = st.nperf_ * well0.numberOfPhases ∧
    st.perfPress.length = st.nperf_ ∧
    st.segphaserates_.length = st.nseg_ * well0.numberOfPhases ∧
    st.segpress_.length = st.nseg_ ∧
    st.nseg_ = segmentOffset wells wells.length ∧
    st.nperf_ = perforationOffset wells wells.length := by
  obtain ⟨st0, hg, hc⟩ := init_eq_ok h0 h
  obtain ⟨-, -, -, g4, g5, -, -⟩ := carryOver_global hc
  obtain ⟨a1, a2, a3, a4, a5, a6, a7, a8, a9, a10⟩ := carryOver_lengths hc
  obtain ⟨b1, b2, b3, b4, b5, b6, b7, b8, b9, b10⟩ := initGuess_lengths hg
  obtain ⟨c1, c2⟩ := initGuess_counts hg
  simp only [Nat.zero_add] at c1 c2
  rw [g4, g5]
  exact ⟨a1.trans b1, a2.trans b2, a3.trans b3, a4.trans b4, a5.trans b5, a6.trans b6,
    a7.trans b7, a8.trans b8, a9.trans b9, a10.trans b10, c1, c2⟩

/-! ## The continuation returns for a well-formed previous state -/

theorem ok_bind {α β : Type} (a : α) (f : α → M β) : (Except.ok a >>= f) = f a := rfl

/-- Rule for a loop that is to return: an invariant that every round keeps, returning. -/
theorem forUpTo_returns {σ : Type} (Inv : Nat → σ → Prop) {n : Nat} {body : Nat → σ → M σ}
    {s : σ} (h0 : Inv 0 s)
    (hstep : ∀ i u, i < n → Inv i u → ∃ v, body i u = Except.ok v ∧ Inv (i + 1) v) :
    ∃ t, forUpTo n body s = Except.ok t ∧ Inv n t := by
  induction n with
  | zero => exact ⟨s, rfl, h0⟩
  | succ n ih =>
    obtain ⟨u, hu, hinv⟩ := ih (fun i a hi => hstep i a (Nat.lt_succ_of_lt hi))
    obtain ⟨v, hv, hinv2⟩ := hstep n u (Nat.lt_succ_self n) hinv
    exact ⟨v, forUpTo_succ_eq_ok.mpr ⟨u, hu, hv⟩, hinv2⟩

/-- A write loop returns when every index is inside the vector and every value is there. -/
theorem writeLoop_returns {α : Type} {n : Nat} {idx : Nat → Nat} {val : Nat → M α}
    {dst : List α} (hidx : ∀ i, i < n → idx i < dst.length)
    (hval : ∀ i, i < n → ∃ x, val i = Except.ok x) :
    ∃ out, writeLoop n idx val dst = Except.ok out := by
  obtain ⟨t, ht, -⟩ := @forUpTo_returns (List α) (fun _ d => d.length = dst.length) n
    (fun i d => (val i).bind (fun x => writeAt d (idx i) x)) dst rfl
    (fun i u hi hlen => by
      obtain ⟨x, hx⟩ := hval i hi
      refine ⟨u.set (idx i) x, ?_, by simpa using hlen⟩
      show (val i).bind (fun x => writeAt u (idx i) x) = Except.ok (u.set (idx i) x)
      rw [hx]
      exact writeAt_eq_ok.mpr ⟨by rw [hlen]; exact hidx i hi, rfl⟩)
  exact ⟨t, ht⟩

/-- A copy loop returns when both slices lie inside their vectors. -/
theorem copyLoop_returns {α : Type} (n a b : Nat) (src dst : List α)
    (hdst : a + n ≤ dst.length) (hsrc : b + n ≤ src.length) :
    ∃ out, writeLoop n (fun i => a + i) (fun i => readAt src (b + i)) dst = Except.ok out := by
  apply writeLoop_returns
  · intro i hi
    omega
  · intro i hi
    have hlt : b + i < src.length := by omega
    exact ⟨src[b + i], readAt_eq_ok.mpr (List.getElem?_eq_getElem hlt)⟩

/-- One round of the continuation returns, for a well-formed previous state and a current
state whose vectors hold the slots and slices of the well. -/
theorem carryOverWell_returns {wells : List WellMultiSegment} {np : Nat}
    {prevState st : WellStateMultiSegment} {w : Nat} {well : WellMultiSegment}
    {e : SegmentedMapentryType} (hwf : PrevWellFormed np prevState)
    (hw : wells[w]? = some well) (he : mapFind st.segmentedWellMap_ well.name = some e)
    (h1 : w < st.bhp.length) (h2 : w < st.currentControls.length)
    (h3 : w * np + np ≤ st.wellRates.length)
    (h4 : e.start_segment + e.number_of_segments ≤ st.segpress_.length)
    (h5 : e.start_segment * np + e.number_of_segments * np ≤ st.segphaserates_.length)
    (h6 : e.start_perforation + e.number_of_perforations ≤ st.perfPress.length)
    (h7 : e.start_perforation * np + e.number_of_perforations * np
      ≤ st.perfPhaseRates.length) :
    ∃ st2, carryOverWell wells np prevState w st = Except.ok st2 := by
  unfold carryOverWell
  rw [readAt_eq_ok.mpr hw, ok_bind]
  simp only [he]
  cases hold : mapFind prevState.segmentedWellMap_ well.name with
  | none => exact ⟨st, rfl⟩
  | some old =>
    obtain ⟨p1, p2, p3, p4, p5, p6, p7⟩ := hwf well.name old hold
    simp only
    unfold carryOverFound
    obtain ⟨rates, hrates⟩ := copyLoop_returns np (w * np) (old.well_number * np)
      prevState.wellRates st.wellRates h3 p3
    simp only [readAt_eq_ok.mpr (List.getElem?_eq_getElem p1), ok_bind,
      writeAt_eq_ok.mpr ⟨h1, rfl⟩, hrates]
    by_cases hm : old.number_of_perforations = e.number_of_perforations ∧
        old.number_of_segments = e.number_of_segments
    · rw [if_pos hm]
      obtain ⟨m1, m2⟩ := hm
      rw [m1] at p6 p7
      rw [m2] at p4 p5
      unfold carryOverStructure
      obtain ⟨a1, ha1⟩ := copyLoop_returns (e.number_of_segments * np)
        (e.start_segment * np) (old.start_segment * np) prevState.segphaserates_
        st.segphaserates_ h5 p5
      obtain ⟨a2, ha2⟩ := copyLoop_returns (e.number_of_perforations * np)
        (e.start_perforation * np) (old.start_perforation * np) prevState.perfPhaseRates
        st.perfPhaseRates h7 p7
      obtain ⟨a3, ha3⟩ := copyLoop_returns e.number_of_perforations
        e.start_perforation old.start_perforation prevState.perfPress st.perfPress h6 p6
      obtain ⟨a4, ha4⟩ := copyLoop_returns e.number_of_segments
        e.start_segment old.start_segment prevState.segpress_ st.segpress_ h4 p4
      simp only [ha1, ha2, ha3, ha4, ok_bind]
      unfold carryOverControl
      simp only [readAt_eq_ok.mpr (List.getElem?_eq_getElem p2), ok_bind]
      by_cases hc : prevState.currentControls[old.well_number] < well.wellControls.num
      · rw [if_pos hc, writeAt_eq_ok.mpr ⟨h2, rfl⟩]
        exact ⟨_, rfl⟩
      · rw [if_neg hc]
        exact ⟨_, rfl⟩
    · rw [if_neg hm]
      exact ⟨_, rfl⟩

/-- After the initial guess the continuation returns, for a well-formed previous state. -/
theorem carryOver_returns {wells : List WellMultiSegment} {np : Nat} {pressure : List ℚ}
    {s0 st0 prevState : WellStateMultiSegment}
    (hn : (wells.map (fun v => v.name)).Nodup)
    (hg : initGuess wells np pressure s0 = Except.ok st0)
    (hwf : PrevWellFormed np prevState) :
    ∃ st, carryOver wells np prevState st0 = Except.ok st := by
  unfold carryOver
  by_cases hp : prevState.segmentedWellMap_.isEmpty = true
  · rw [if_pos hp]
    exact ⟨st0, rfl⟩
  rw [if_neg hp]
  obtain ⟨b1, -, -, -, b5, b6, b7, b8, b9, b10⟩ := initGuess_lengths hg
  obtain ⟨c1, c2⟩ := initGuess_counts hg
  obtain ⟨t, ht, -⟩ := @forUpTo_returns WellStateMultiSegment
    (fun _ u => u.segmentedWellMap_ = st0.segmentedWellMap_ ∧ SameSizes u st0) wells.length
    (carryOverWell wells np prevState) st0 ⟨rfl, sameSizes_refl st0⟩
    (fun i u hi ⟨hmap, hsz⟩ => by
      have hw : wells[i]? = some wells[i] := List.getElem?_eq_getElem hi
      obtain ⟨e, he, ⟨-, l2, l3, l4, l5⟩, -⟩ := initGuess_layout hn hg i wells[i] hw
      have hsz2 := hsz
      obtain ⟨a1, -, -, -, a5, a6, a7, a8, a9, a10⟩ := hsz
      have hs := segmentOffset_add_le hw hi
      have hp2 := perforationOffset_add_le hw hi
      rw [← l2, ← l3] at hs
      rw [← l4, ← l5] at hp2
      have hs2 : e.start_segment + e.number_of_segments ≤ st0.nseg_ := by omega
      have hp3 : e.start_perforation + e.number_of_perforations ≤ st0.nperf_ := by omega
      have k3 : i * np + np ≤ wells.length * np := @scaled_le i 1 wells.length np hi |>.trans'
        (by omega)
      have k5 := @scaled_le _ _ _ np hs2
      have k7 := @scaled_le _ _ _ np hp3
      obtain ⟨st2, hst2⟩ := carryOverWell_returns hwf hw (by rw [hmap]; exact he)
        (by rw [a1, b1]; exact hi) (by rw [a6, b6]; exact hi) (by rw [a5, b5]; exact k3)
        (by rw [a10, b10]; exact hs2) (by rw [a9, b9]; exact k5)
        (by rw [a8, b8]; exact hp3) (by rw [a7, b7]; exact k7)
      obtain ⟨well, this, R⟩ := carryOverWell_round hst2
      exact ⟨st2, hst2, R.map_eq.trans hmap, sameSizes_trans R.lengths hsz2⟩)
  exact ⟨t, ht⟩

/-- For a well-formed previous state `init` returns whenever it returns for the same wells
and reservoir state with an empty previous state. -/
theorem init_returns_of_wellFormed {self prevState prev0 st0 : WellStateMultiSegment}
    {wells : List WellMultiSegment} {pressure : List ℚ} {legacy : Option Nat}
    {well0 : WellMultiSegment} (h0 : wells.head? = some well0)
    (hn : (wells.map (fun v => v.name)).Nodup)
    (hp0 : prev0.segmentedWellMap_ = [])
    (hf : init self wells pressure prev0 legacy = Except.ok st0)
    (hwf : PrevWellFormed well0.numberOfPhases prevState) :
    ∃ st, init self wells pressure prevState legacy = Except.ok st := by
  have hg := init_of_empty h0 hp0 hf
  obtain ⟨st, hst⟩ := carryOver_returns hn hg hwf
  cases wells with
  | nil => simp at h0
  | cons a rest =>
    simp only [List.head?_cons, Option.some.injEq] at h0
    subst h0
    exact ⟨st, bind_eq_ok.mpr ⟨st0, hg, hst⟩⟩

/-! ## The scenario, evaluated -/

theorem exPrev_eq :
    init WellStateMultiSegment.empty exPrevWells exPressure WellStateMultiSegment.empty none
      = Except.ok exPrev := by
  with_unfolding_all rfl

theorem exFresh_eq :
    init WellStateMultiSegment.empty exWells exPressure WellStateMultiSegment.empty none
      = Except.ok exFresh := by
  with_unfolding_all rfl

theorem exCont_eq :
    init WellStateMultiSegment.empty exWells exPressure exPrev none = Except.ok exCont := by
  with_unfolding_all rfl

theorem exWells_nodup : (exWells.map (fun well => well.name)).Nodup := by
  decide

/-- The previous state of the scenario is well formed. -/
theorem exPrev_wellFormed : PrevWellFormed 2 exPrev := by
  intro k old h
  simp only [exPrev, mapFind] at h
  split at h
  · cases h
    simp [exPrev]
  · split at h
    · cases h
      simp [exPrev]
    · cases h

/-! ## C1, C2: the layout -/

/-- C1 (well-level layout). For a non-empty sequence of wells with pairwise distinct names,
when `init`, called on a state whose well map is empty, returns: the keys of the well map
are exactly the names of the wells, one entry per well; the entry of the `w`-th well has
`well_number = w`, the declared counts of the well, and as `start_segment` and
`start_perforation` the sums of the counts of the wells before it; `topSegmentLoc[w]` is
that `start_segment`; `numSegments()` and `numPerforations()` are the totals. Hence the
slices tile the segment and the perforation vectors: the first slice starts at 0, each
slice starts where the slice of the well before it ends, and the last slice ends at the
total. -/
theorem init_well_level_layout (self prevState st : WellStateMultiSegment)
    (wells : List WellMultiSegment) (pressure : List ℚ) (legacy : Option Nat)
    (hne : wells ≠ []) (hn : (wells.map (fun well => well.name)).Nodup)
    (hs : self.segmentedWellMap_ = [])
    (h : init self wells pressure prevState legacy = Except.ok st) :
    st.segmentedWellMap_.map Prod.fst = wells.map (fun well => well.name) ∧
    (∀ (w : Nat) (well : WellMultiSegment), wells[w]? = some well →
      ∃ e, mapFind st.segmentedWellMap_ well.name = some e ∧
        e.well_number = w ∧
        e.number_of_segments = well.numberOfSegments ∧
        e.number_of_perforations = well.numberOfPerforations ∧
        e.start_segment = ((wells.take w).map (fun v => v.numberOfSegments)).sum ∧
        e.start_perforation = ((wells.take w).map (fun v => v.numberOfPerforations)).sum ∧
        st.top_segment_loc_[w]? = some e.start_segment) ∧
    st.nseg_ = (wells.map (fun v => v.numberOfSegments)).sum ∧
    st.nperf_ = (wells.map (fun v => v.numberOfPerforations)).sum ∧
    (∀ (a : WellMultiSegment) (ea : SegmentedMapentryType), wells[0]? = some a →
      mapFind st.segmentedWellMap_ a.name = some ea →
      ea.start_segment = 0 ∧ ea.start_perforation = 0) ∧
    (∀ (w : Nat) (a b : WellMultiSegment) (ea eb : SegmentedMapentryType),
      wells[w]? = some a → wells[w + 1]? = some b →
      mapFind st.segmentedWellMap_ a.name = some ea →
      mapFind st.segmentedWellMap_ b.name = some eb →
      eb.start_segment = ea.start_segment + ea.number_of_segments ∧
      eb.start_perforation = ea.start_perforation + ea.number_of_perforations) ∧
    (∀ (a : WellMultiSegment) (ea : SegmentedMapentryType),
      wells[wells.length - 1]? = some a → mapFind st.segmentedWellMap_ a.name = some ea →
      ea.start_segment + ea.number_of_segments = st.nseg_ ∧
      ea.start_perforation + ea.number_of_perforations = st.nperf_) := by
  obtain ⟨well0, h0⟩ : ∃ well0, wells.head? = some well0 := by
    cases wells with
    | nil => exact absurd rfl hne
    | cons a rest => exact ⟨a, rfl⟩
  obtain ⟨st0, hg, hc⟩ := init_eq_ok h0 h
  obtain ⟨g1, -, g3, g4, g5, -, -⟩ := carryOver_global hc
  have hkeys := initGuess_keys hn (by simpa using hs) hg
  have hlay := initGuess_layout hn hg
  have htop := initGuess_topLoc hg
  obtain ⟨c1, c2⟩ := initGuess_counts hg
  have hlen : wells.length ≠ 0 := fun hz => hne (List.length_eq_zero.mp hz)
  have entry : ∀ (w : Nat) (a : WellMultiSegment) (ea : SegmentedMapentryType),
      wells[w]? = some a → mapFind st.segmentedWellMap_ a.name = some ea →
      WellLayout wells w a ea := by
    intro w a ea hw hea
    obtain ⟨e, he1, he2, -⟩ := hlay w a hw
    rw [g1, he1] at hea
    rw [← Option.some.inj hea]
    exact he2
  rw [g1, g3, g4, g5]
  refine ⟨hkeys, ?_, ?_, ?_, ?_, ?_, ?_⟩
  · intro w well hw
    obtain ⟨e, he1, ⟨l1, l2, l3, l4, l5⟩, -⟩ := hlay w well hw
    refine ⟨e, he1, l1, l3, l5, l2, l4, ?_⟩
    rw [htop w (lt_length_of_getElem? hw), l2]
  · rw [c1]
    simp [segmentOffset]
  · rw [c2]
    simp [perforationOffset]
  · intro a ea ha hea
    rw [← g1] at hea
    obtain ⟨-, l2, -, l4, -⟩ := entry 0 a ea ha hea
    rw [l2, l4, segmentOffset_zero, perforationOffset_zero]
    exact ⟨rfl, rfl⟩
  · intro w a b ea eb ha hb hea heb
    rw [← g1] at hea heb
    obtain ⟨-, a2, a3, a4, a5⟩ := entry w a ea ha hea
    obtain ⟨-, b2, -, b4, -⟩ := entry (w + 1) b eb hb heb
    rw [b2, b4, a2, a3, a4, a5, segmentOffset_succ ha, perforationOffset_succ ha]
    exact ⟨rfl, rfl⟩
  · intro a ea ha hea
    rw [← g1] at hea
    obtain ⟨-, a2, a3, a4, a5⟩ := entry _ a ea ha hea
    have e1 : wells.length - 1 + 1 = wells.length := by omega
    rw [a2, a3, a4, a5, ← segmentOffset_succ ha, ← perforationOffset_succ ha, e1, c1, c2]
    simp

/-- Witness of C1: the scenario, where the three wells `A`, `B`, `C` get the slices
`[0, 3)`, `[3, 4)`, `[4, 5)` of the five segments. -/
theorem init_well_level_layout_witness :
    (exWells ≠ [] ∧ (exWells.map (fun well => well.name)).Nodup ∧
      WellStateMultiSegment.empty.segmentedWellMap_ = [] ∧
      init WellStateMultiSegment.empty exWells exPressure exPrev none = Except.ok exCont) ∧
    exCont.segmentedWellMap_.map Prod.fst = exWells.map (fun well => well.name) ∧
    exCont.nseg_ = (exWells.map (fun v => v.numberOfSegments)).sum :=
  have hne : exWells ≠ [] := by decide
  have key := init_well_level_layout WellStateMultiSegment.empty exPrev exCont exWells
    exPressure none hne exWells_nodup rfl exCont_eq
  ⟨⟨hne, exWells_nodup, rfl, exCont_eq⟩, key.1, key.2.2.1⟩

theorem head?_of_getElem? {α : Type} {l : List α} {i : Nat} {x : α} (h : l[i]? = some x) :
    ∃ y, l.head? = some y := by
  cases l with
  | nil => simp at h
  | cons a rest => exact ⟨a, rfl⟩

/-- C2 (segment-level layout). For wells with pairwise distinct names, whenever `init`
returns, the map entry of every well has two vectors of `number_of_segments` elements each;
for every segment `s` of the well, `number_of_perforations_segment[s]` is the size of the
perforation list of the segment and `start_perforation_segment[s]` is the sum of
`number_of_perforations_segment[t]` over `t < s`; and `number_of_perforations_segment` adds
up to `number_of_perforations`. So the sub-slices of the segments tile the perforation
slice of the well. -/
theorem init_segment_level_layout (self prevState st : WellStateMultiSegment)
    (wells : List WellMultiSegment) (pressure : List ℚ) (legacy : Option Nat)
    (hn : (wells.map (fun well => well.name)).Nodup)
    (h : init self wells pressure prevState legacy = Except.ok st) :
    ∀ (w : Nat) (well : WellMultiSegment), wells[w]? = some well →
      ∃ e, mapFind st.segmentedWellMap_ well.name = some e ∧
        e.number_of_segments = well.numberOfSegments ∧
        e.start_perforation_segment.length = e.number_of_segments ∧
        e.number_of_perforations_segment.length = e.number_of_segments ∧
        (∀ s, s < e.number_of_segments →
          ∃ l, well.segmentPerforations[s]? = some l ∧
            e.number_of_perforations_segment[s]? = some l.length) ∧
        (∀ s, s < e.number_of_segments →
          e.start_perforation_segment[s]? =
            some ((e.number_of_perforations_segment.take s).sum)) ∧
        e.number_of_perforations_segment.sum = e.number_of_perforations := by
  intro w well hw
  obtain ⟨well0, h0⟩ := head?_of_getElem? hw
  obtain ⟨st0, hg, hc⟩ := init_eq_ok h0 h
  obtain ⟨g1, -⟩ := carryOver_global hc
  obtain ⟨e, he, ⟨-, -, l3, -, l5⟩, s1, s2, s3, s4, s5⟩ := initGuess_layout hn hg w well hw
  rw [g1]
  refine ⟨e, he, l3, ?_, ?_, ?_, ?_, ?_⟩
  · rw [s1, l3]
  · rw [s2, l3]
  · rw [l3]
    exact s3
  · rw [l3]
    exact s4
  · rw [s5, l5]

/-- Witness of C2: the scenario, where the entry of well `A` has the counts `[0, 2, 2]` and
the starts `[0, 0, 2]`. -/
theorem init_segment_level_layout_witness :
    ((exWells.map (fun well => well.name)).Nodup ∧
      init WellStateMultiSegment.empty exWells exPressure exPrev none = Except.ok exCont ∧
      exWells[0]? = some exA) ∧
    ∃ e, mapFind exCont.segmentedWellMap_ exA.name = some e ∧
      e.number_of_segments = exA.numberOfSegments ∧
      e.start_perforation_segment.length = e.number_of_segments ∧
      e.number_of_perforations_segment.length = e.number_of_segments ∧
      (∀ s, s < e.number_of_segments →
        ∃ l, exA.segmentPerforations[s]? = some l ∧
          e.number_of_perforations_segment[s]? = some l.length) ∧
      (∀ s, s < e.number_of_segments →
        e.start_perforation_segment[s]? =
          some ((e.number_of_perforations_segment.take s).sum)) ∧
      e.number_of_perforations_segment.sum = e.number_of_perforations :=
  ⟨⟨exWells_nodup, exCont_eq, rfl⟩,
    init_segment_level_layout WellStateMultiSegment.empty exPrev exCont exWells exPressure none
      exWells_nodup exCont_eq 0 exA rfl⟩

/-! ## C3 to C7: the continuation -/

theorem flat_index (np a i p : Nat) : np * (a + i) + p = a * np + (i * np + p) := by
  ring

theorem flat_lt {np n i p : Nat} (hi : i < n) (hp : p < np) : i * np + p < n * np :=
  scaled_lt (show i + 1 ≤ n from hi) (by omega)

/-- One well through `init`: the initial guess `st0`, the current map entry `e` of the well,
and the round of the well in the continuation, from `sa` to `sb`. -/
theorem init_target {self prevState st : WellStateMultiSegment}
    {wells : List WellMultiSegment} {pressure : List ℚ} {legacy : Option Nat}
    {well0 : WellMultiSegment} (h0 : wells.head? = some well0)
    (hn : (wells.map (fun well => well.name)).Nodup)
    (h : init self wells pressure prevState legacy = Except.ok st)
    {w : Nat} {well : WellMultiSegment} (hw : wells[w]? = some well) :
    ∃ st0 e sa sb,
      initGuess wells well0.numberOfPhases pressure
        { self with wells_ := legacy, nseg_ := 0, nperf_ := 0 } = Except.ok st0 ∧
      mapFind st.segmentedWellMap_ well.name = some e ∧
      WellLayout wells w well e ∧
      SameSlices well0.numberOfPhases w e sa st0 ∧
      CarryRound wells well0.numberOfPhases prevState w well e sa sb ∧
      SameSlices well0.numberOfPhases w e st sb := by
  obtain ⟨st0, hg, hc⟩ := init_eq_ok h0 h
  obtain ⟨g1, -⟩ := carryOver_global hc
  obtain ⟨e, he, hl, -⟩ := initGuess_layout hn hg w well hw
  obtain ⟨sa, sb, s1, R, s2⟩ :=
    carryOver_target hc (fun _ => hasLayout_of_initGuess hn hg) hw he hl
  exact ⟨st0, e, sa, sb, hg, by rw [g1]; exact he, hl, s1, R, s2⟩

/-- C3 (continuation on a structural match). Let the current wells have pairwise distinct
names, let `init` return, let `np` be the number of phases (of the first well), and let the
`w`-th well be found by its name in the map of the previous state, with entry `old` of the
same number of segments and the same number of perforations. Then the bottom-hole pressure
and the `np` phase rates of the well are those the previous state holds at the well number
of `old`, and the segment pressures, segment phase rates, perforation pressures and
perforation phase rates at every position of the slices of the well (which start at the
offsets of its current map entry `e`) are those the previous state holds at the same
position of the slices of `old`; wherever well number and offsets lie in the two states. -/
theorem init_continuation_on_match (self prevState st : WellStateMultiSegment)
    (wells : List WellMultiSegment) (pressure : List ℚ) (legacy : Option Nat)
    (well0 well : WellMultiSegment) (w : Nat) (old : SegmentedMapentryType)
    (h0 : wells.head? = some well0)
    (hn : (wells.map (fun v => v.name)).Nodup)
    (h : init self wells pressure prevState legacy = Except.ok st)
    (hw : wells[w]? = some well)
    (hold : mapFind prevState.segmentedWellMap_ well.name = some old)
    (hseg : old.number_of_segments = well.numberOfSegments)
    (hperf : old.number_of_perforations = well.numberOfPerforations) :
    (∃ b, prevState.bhp[old.well_number]? = some b ∧ st.bhp[w]? = some b) ∧
    (∀ p, p < well0.numberOfPhases →
      ∃ x, prevState.wellRates[well0.numberOfPhases * old.well_number + p]? = some x ∧
        st.wellRates[well0.numberOfPhases * w + p]? = some x) ∧
    ∃ e, mapFind st.segmentedWellMap_ well.name = some e ∧
      e.well_number = w ∧
      e.start_segment = ((wells.take w).map (fun v => v.numberOfSegments)).sum ∧
      e.start_perforation = ((wells.take w).map (fun v => v.numberOfPerforations)).sum ∧
      (∀ i, i < well.numberOfSegments →
        (∃ x, prevState.segpress_[old.start_segment + i]? = some x ∧
          st.segpress_[e.start_segment + i]? = some x) ∧
        (∀ p, p < well0.numberOfPhases →
          ∃ x, prevState.segphaserates_[well0.numberOfPhases * (old.start_segment + i) + p]?
              = some x ∧
            st.segphaserates_[well0.numberOfPhases * (e.start_segment + i) + p]? = some x)) ∧
      (∀ i, i < well.numberOfPerforations →
        (∃ x, prevState.perfPress[old.start_perforation + i]? = some x ∧
          st.perfPress[e.start_perforation + i]? = some x) ∧
        (∀ p, p < well0.numberOfPhases →
          ∃ x, prevState.perfPhaseRates[well0.numberOfPhases * (old.start_perforation + i) + p]?
              = some x ∧
            st.perfPhaseRates[well0.numberOfPhases * (e.start_perforation + i) + p]?
              = some x)) := by
  obtain ⟨st0, e, sa, sb, -, he, hl, -, R, s2⟩ := init_target h0 hn h hw
  obtain ⟨l1, l2, l3, l4, l5⟩ := hl
  have hm : Matched old e := ⟨hperf.trans l5.symm, hseg.trans l3.symm⟩
  obtain ⟨t1, t2, -, t4, t5, t6, t7⟩ := s2
  refine ⟨?_, ?_, e, he, l1, l2, l4, ?_, ?_⟩
  · obtain ⟨x, hx1, hx2⟩ := (R.bhp old hold).2.2 0 (by omega)
    exact ⟨x, hx1, by rw [t1]; exact hx2⟩
  · intro p hp
    obtain ⟨x, hx1, hx2⟩ := (R.rates old hold).2.2 p hp
    refine ⟨x, ?_, ?_⟩
    · rw [Nat.mul_comm]
      exact hx1
    · rw [Nat.mul_comm, t2 p hp]
      exact hx2
  · intro i hi
    rw [← l3] at hi
    refine ⟨?_, fun p hp => ?_⟩
    · obtain ⟨x, hx1, hx2⟩ := (R.segpress old hold hm).2.2 i hi
      exact ⟨x, hx1, by rw [t4 i hi]; exact hx2⟩
    · have hlt := flat_lt hi hp
      obtain ⟨x, hx1, hx2⟩ := (R.segphaserates old hold hm).2.2 _ hlt
      refine ⟨x, ?_, ?_⟩
      · rw [flat_index]
        exact hx1
      · rw [flat_index, t5 _ hlt]
        exact hx2
  · intro i hi
    rw [← l5] at hi
    refine ⟨?_, fun p hp => ?_⟩
    · obtain ⟨x, hx1, hx2⟩ := (R.perfPress old hold hm).2.2 i hi
      exact ⟨x, hx1, by rw [t6 i hi]; exact hx2⟩
    · have hlt := flat_lt hi hp
      obtain ⟨x, hx1, hx2⟩ := (R.perfPhaseRates old hold hm).2.2 _ hlt
      refine ⟨x, ?_, ?_⟩
      · rw [flat_index]
        exact hx1
      · rw [flat_index, t7 _ hlt]
        exact hx2

/-- Witness of C3: well `A` of the scenario, number 0 now and number 1 at the previous
timestep, with three segments and four perforations at both. -/
theorem init_continuation_on_match_witness :
    (exWells.head? = some exA ∧ (exWells.map (fun v => v.name)).Nodup ∧
      init WellStateMultiSegment.empty exWells exPressure exPrev none = Except.ok exCont ∧
      exWells[0]? = some exA ∧
      mapFind exPrev.segmentedWellMap_ exA.name = some ⟨1, 2, 3, 3, 4, [0, 0, 2], [0, 2, 2]⟩) ∧
    (∃ b, exPrev.bhp[1]? = some b ∧ exCont.bhp[0]? = some b) :=
  ⟨⟨rfl, exWells_nodup, exCont_eq, rfl, rfl⟩,
    (init_continuation_on_match WellStateMultiSegment.empty exPrev exCont exWells exPressure
      none exA exA 0 ⟨1, 2, 3, 3, 4, [0, 0, 2], [0, 2, 2]⟩ rfl exWells_nodup exCont_eq rfl rfl
      rfl rfl).1⟩

theorem exists_both {α : Type} {a b : List α} {k : Nat} (h : a[k]? = b[k]?)
    (hk : k < a.length) : ∃ x, a[k]? = some x ∧ b[k]? = some x :=
  ⟨a[k], List.getElem?_eq_getElem hk, by rw [← h]; exact List.getElem?_eq_getElem hk⟩

/-- The slots and slices of a well lie inside the vectors `init` returns. -/
theorem init_in_bounds {self prevState st : WellStateMultiSegment}
    {wells : List WellMultiSegment} {pressure : List ℚ} {legacy : Option Nat}
    {well0 well : WellMultiSegment} {w : Nat} (h0 : wells.head? = some well0)
    (h : init self wells pressure prevState legacy = Except.ok st)
    (hw : wells[w]? = some well) :
    w < st.bhp.length ∧ w < st.currentControls.length ∧
    (∀ p, p < well0.numberOfPhases → well0.numberOfPhases * w + p < st.wellRates.length) ∧
    (∀ i, i < well.numberOfSegments → segmentOffset wells w + i < st.segpress_.length) ∧
    (∀ i p, i < well.numberOfSegments → p < well0.numberOfPhases →
      well0.numberOfPhases * (segmentOffset wells w + i) + p < st.segphaserates_.length) ∧
    (∀ i, i < well.numberOfPerforations →
      perforationOffset wells w + i < st.perfPress.length) ∧
    (∀ i p, i < well.numberOfPerforations → p < well0.numberOfPhases →
      well0.numberOfPhases * (perforationOffset wells w + i) + p
        < st.perfPhaseRates.length) := by
  obtain ⟨a1, -, -, -, a5, a6, a7, a8, a9, a10, a11, a12⟩ := init_lengths h0 h
  have hlt := lt_length_of_getElem? hw
  have hs := segmentOffset_add_le hw hlt
  have hp := perforationOffset_add_le hw hlt
  rw [a1, a5, a6, a7, a8, a9, a10, a11, a12]
  refine ⟨hlt, hlt, fun p hp1 => ?_, fun i hi => by omega, fun i p hi hp1 => ?_,
    fun i hi => by omega, fun i p hi hp1 => ?_⟩
  · rw [Nat.mul_comm wells.length]
    exact slot_lt hlt hp1
  · rw [flat_index]
    exact scaled_lt hs (flat_lt hi hp1)
  · rw [flat_index]
    exact scaled_lt hp (flat_lt hi hp1)

/-- C4 (continuation on a structural mismatch). Let the current wells have pairwise distinct
names, let `init` return `st` with the previous state `prevState` and `st0` with a previous
state whose map is empty, and let the `w`-th well be found by its name in the map of
`prevState`, with an entry `old` whose number of segments or number of perforations is not
that of the well. Then the bottom-hole pressure and the `np` phase rates of the well in `st`
are those `prevState` holds at the well number of `old`, while the control index of the
well and every segment pressure, segment phase rate, perforation pressure and perforation
phase rate of the slices of the well are in `st` what they are in `st0`. -/
theorem init_continuation_on_mismatch (self prevState prev0 st st0 : WellStateMultiSegment)
    (wells : List WellMultiSegment) (pressure : List ℚ) (legacy : Option Nat)
    (well0 well : WellMultiSegment) (w : Nat) (old : SegmentedMapentryType)
    (h0 : wells.head? = some well0)
    (hn : (wells.map (fun v => v.name)).Nodup)
    (h : init self wells pressure prevState legacy = Except.ok st)
    (hp0 : prev0.segmentedWellMap_ = [])
    (hf : init self wells pressure prev0 legacy = Except.ok st0)
    (hw : wells[w]? = some well)
    (hold : mapFind prevState.segmentedWellMap_ well.name = some old)
    (hmis : old.number_of_segments ≠ well.numberOfSegments ∨
      old.number_of_perforations ≠ well.numberOfPerforations) :
    (∃ b, prevState.bhp[old.well_number]? = some b ∧ st.bhp[w]? = some b) ∧
    (∀ p, p < well0.numberOfPhases →
      ∃ x, prevState.wellRates[well0.numberOfPhases * old.well_number + p]? = some x ∧
        st.wellRates[well0.numberOfPhases * w + p]? = some x) ∧
    (∃ c, st.currentControls[w]? = some c ∧ st0.currentControls[w]? = some c) ∧
    ∃ e, mapFind st.segmentedWellMap_ well.name = some e ∧
      e.well_number = w ∧
      e.start_segment = ((wells.take w).map (fun v => v.numberOfSegments)).sum ∧
      e.start_perforation = ((wells.take w).map (fun v => v.numberOfPerforations)).sum ∧
      (∀ i, i < well.numberOfSegments →
        (∃ x, st.segpress_[e.start_segment + i]? = some x ∧
          st0.segpress_[e.start_segment + i]? = some x) ∧
        (∀ p, p < well0.numberOfPhases →
          ∃ x, st.segphaserates_[well0.numberOfPhases * (e.start_segment + i) + p]?
              = some x ∧
            st0.segphaserates_[well0.numberOfPhases * (e.start_segment + i) + p]?
              = some x)) ∧
      (∀ i, i < well.numberOfPerforations →
        (∃ x, st.perfPress[e.start_perforation + i]? = some x ∧
          st0.perfPress[e.start_perforation + i]? = some x) ∧
        (∀ p, p < well0.numberOfPhases →
          ∃ x, st.perfPhaseRates[well0.numberOfPhases * (e.start_perforation + i) + p]?
              = some x ∧
            st0.perfPhaseRates[well0.numberOfPhases * (e.start_perforation + i) + p]?
              = some x)) := by
  obtain ⟨st1, e, sa, sb, hg, he, hl, s1, R, s2⟩ := init_target h0 hn h hw
  have hst : st1 = st0 := by
    have := init_of_empty h0 hp0 hf
    rw [hg] at this
    exact Except.ok.inj this
  subst hst
  obtain ⟨-, b2, -, b4, b5, b6, b7⟩ := init_in_bounds h0 h hw
  obtain ⟨l1, l2, l3, l4, l5⟩ := hl
  have hm : ¬ Matched old e := by
    rintro ⟨m1, m2⟩
    rcases hmis with hs | hp
    · exact hs (m2.trans l3)
    · exact hp (m1.trans l5)
  obtain ⟨m1, m2, m3, m4, m5⟩ := R.mismatch old hold hm
  obtain ⟨t1, t2, t3, t4, t5, t6, t7⟩ := s2
  obtain ⟨-, -, u3, u4, u5, u6, u7⟩ := s1
  rw [← l2] at b4 b5
  rw [← l4] at b6 b7
  refine ⟨?_, ?_, ?_, e, he, l1, l2, l4, ?_, ?_⟩
  · obtain ⟨x, hx1, hx2⟩ := (R.bhp old hold).2.2 0 (by omega)
    exact ⟨x, hx1, by rw [t1]; exact hx2⟩
  · intro p hp
    obtain ⟨x, hx1, hx2⟩ := (R.rates old hold).2.2 p hp
    refine ⟨x, ?_, ?_⟩
    · rw [Nat.mul_comm]
      exact hx1
    · rw [Nat.mul_comm, t2 p hp]
      exact hx2
  · exact exists_both (by rw [t3, m5, u3]) b2
  · intro i hi
    have hi2 := hi
    rw [← l3] at hi2
    refine ⟨exists_both (by rw [t4 i hi2, m1, u4 i hi2]) (b4 i hi), fun p hp => ?_⟩
    have hlt := flat_lt hi2 hp
    exact exists_both (by rw [flat_index, t5 _ hlt, m2, u5 _ hlt]) (b5 i p hi hp)
  · intro i hi
    have hi2 := hi
    rw [← l5] at hi2
    refine ⟨exists_both (by rw [t6 i hi2, m3, u6 i hi2]) (b6 i hi), fun p hp => ?_⟩
    have hlt := flat_lt hi2 hp
    exact exists_both (by rw [flat_index, t7 _ hlt, m4, u7 _ hlt]) (b7 i p hi hp)

/-- Witness of C4: well `B` of the scenario, with one segment and two perforations now and
two segments and three perforations at the previous timestep. -/
theorem init_continuation_on_mismatch_witness :
    (exWells.head? = some exA ∧ (exWells.map (fun v => v.name)).Nodup ∧
      init WellStateMultiSegment.empty exWells exPressure exPrev none = Except.ok exCont ∧
      WellStateMultiSegment.empty.segmentedWellMap_ = [] ∧
      init WellStateMultiSegment.empty exWells exPressure WellStateMultiSegment.empty none
        = Except.ok exFresh ∧
      exWells[1]? = some exB ∧
      mapFind exPrev.segmentedWellMap_ exB.name = some ⟨0, 0, 2, 0, 3, [0, 1], [1, 2]⟩ ∧
      (2 ≠ exB.numberOfSegments ∨ 3 ≠ exB.numberOfPerforations)) ∧
    (∃ b, exPrev.bhp[0]? = some b ∧ exCont.bhp[1]? = some b) ∧
    (∃ c, exCont.currentControls[1]? = some c ∧ exFresh.currentControls[1]? = some c) :=
  have hmis : (2 ≠ exB.numberOfSegments ∨ 3 ≠ exB.numberOfPerforations) :=
    Or.inl (by decide)
  have key := init_continuation_on_mismatch WellStateMultiSegment.empty exPrev
    WellStateMultiSegment.empty exCont exFresh exWells exPressure none exA exB 1
    ⟨0, 0, 2, 0, 3, [0, 1], [1, 2]⟩ rfl exWells_nodup exCont_eq rfl exFresh_eq rfl rfl hmis
  ⟨⟨rfl, exWells_nodup, exCont_eq, rfl, exFresh_eq, rfl, rfl, hmis⟩, key.1, key.2.2.1⟩

/-- C5 (frame of the continuation). Let the current wells have pairwise distinct names and
let `init` return `st` with the previous state `prevState` and `st0` with a previous state
whose map is empty, everything else being the same. Then `st` and `st0` have the same
tubing-head pressures, top-segment locations, well map and totals; and for every well whose
name is not a key of the map of `prevState`, they have the same bottom-hole pressure, phase
rates and control index of the well and the same elements at every position of the segment
and perforation slices of the well. -/
theorem init_continuation_frame (self prevState prev0 st st0 : WellStateMultiSegment)
    (wells : List WellMultiSegment) (pressure : List ℚ) (legacy : Option Nat)
    (hn : (wells.map (fun v => v.name)).Nodup)
    (h : init self wells pressure prevState legacy = Except.ok st)
    (hp0 : prev0.segmentedWellMap_ = [])
    (hf : init self wells pressure prev0 legacy = Except.ok st0) :
    (st.thp = st0.thp ∧ st.top_segment_loc_ = st0.top_segment_loc_ ∧
      st.segmentedWellMap_ = st0.segmentedWellMap_ ∧ st.nseg_ = st0.nseg_ ∧
      st.nperf_ = st0.nperf_) ∧
    ∀ (w : Nat) (well0 well : WellMultiSegment), wells.head? = some well0 →
      wells[w]? = some well → mapFind prevState.segmentedWellMap_ well.name = none →
      (∃ b, st.bhp[w]? = some b ∧ st0.bhp[w]? = some b) ∧
      (∀ p, p < well0.numberOfPhases →
        ∃ x, st.wellRates[well0.numberOfPhases * w + p]? = some x ∧
          st0.wellRates[well0.numberOfPhases * w + p]? = some x) ∧
      (∃ c, st.currentControls[w]? = some c ∧ st0.currentControls[w]? = some c) ∧
      ∃ e, mapFind st.segmentedWellMap_ well.name = some e ∧
        e.well_number = w ∧
        e.start_segment = ((wells.take w).map (fun v => v.numberOfSegments)).sum ∧
        e.start_perforation = ((wells.take w).map (fun v => v.numberOfPerforations)).sum ∧
        (∀ i, i < well.numberOfSegments →
          (∃ x, st.segpress_[e.start_segment + i]? = some x ∧
            st0.segpress_[e.start_segment + i]? = some x) ∧
          (∀ p, p < well0.numberOfPhases →
            ∃ x, st.segphaserates_[well0.numberOfPhases * (e.start_segment + i) + p]?
                = some x ∧
              st0.segphaserates_[well0.numberOfPhases * (e.start_segment + i) + p]?
                = some x)) ∧
        (∀ i, i < well.numberOfPerforations →
          (∃ x, st.perfPress[e.start_perforation + i]? = some x ∧
            st0.perfPress[e.start_perforation + i]? = some x) ∧
          (∀ p, p < well0.numberOfPhases →
            ∃ x, st.perfPhaseRates[well0.numberOfPhases * (e.start_perforation + i) + p]?
                = some x ∧
              st0.perfPhaseRates[well0.numberOfPhases * (e.start_perforation + i) + p]?
                = some x)) := by
  constructor
  · cases hwells : wells with
    | nil =>
      rw [hwells] at h hf
      simp only [init] at h hf
      rw [← Except.ok.inj h, ← Except.ok.inj hf]
      exact ⟨rfl, rfl, rfl, rfl, rfl⟩
    | cons a rest =>
      have h0 : wells.head? = some a := by rw [hwells]; rfl
      obtain ⟨st1, hg, hc⟩ := init_eq_ok h0 h
      have hst : st1 = st0 := by
        have := init_of_empty h0 hp0 hf
        rw [hg] at this
        exact Except.ok.inj this
      subst hst
      obtain ⟨g1, g2, g3, g4, g5, -, -⟩ := carryOver_global hc
      exact ⟨g2, g3, g1, g4, g5⟩
  · intro w well0 well h0 hw hnone
    obtain ⟨st1, e, sa, sb, hg, he, hl, s1, R, s2⟩ := init_target h0 hn h hw
    have hst : st1 = st0 := by
      have := init_of_empty h0 hp0 hf
      rw [hg] at this
      exact Except.ok.inj this
    subst hst
    have hsb : sb = sa := R.absent hnone
    subst hsb
    obtain ⟨b1, b2, b3, b4, b5, b6, b7⟩ := init_in_bounds h0 h hw
    obtain ⟨l1, l2, l3, l4, l5⟩ := hl
    obtain ⟨t1, t2, t3, t4, t5, t6, t7⟩ := sameSlices_trans s2 s1
    rw [← l2] at b4 b5
    rw [← l4] at b6 b7
    refine ⟨exists_both t1 b1, ?_, exists_both t3 b2, e, he, l1, l2, l4, ?_, ?_⟩
    · intro p hp
      exact exists_both (by rw [Nat.mul_comm]; exact t2 p hp) (b3 p hp)
    · intro i hi
      have hi2 := hi
      rw [← l3] at hi2
      refine ⟨exists_both (t4 i hi2) (b4 i hi), fun p hp => ?_⟩
      exact exists_both (by rw [flat_index]; exact t5 _ (flat_lt hi2 hp)) (b5 i p hi hp)
    · intro i hi
      have hi2 := hi
      rw [← l5] at hi2
      refine ⟨exists_both (t6 i hi2) (b6 i hi), fun p hp => ?_⟩
      exact exists_both (by rw [flat_index]; exact t7 _ (flat_lt hi2 hp)) (b7 i p hi hp)

/-- Witness of C5: the scenario, whose well `C` is not in the previous state. -/
theorem init_continuation_frame_witness :
    ((exWells.map (fun v => v.name)).Nodup ∧
      init WellStateMultiSegment.empty exWells exPressure exPrev none = Except.ok exCont ∧
      WellStateMultiSegment.empty.segmentedWellMap_ = [] ∧
      init WellStateMultiSegment.empty exWells exPressure WellStateMultiSegment.empty none
        = Except.ok exFresh) ∧
    (exCont.thp = exFresh.thp ∧ exCont.top_segment_loc_ = exFresh.top_segment_loc_ ∧
      exCont.segmentedWellMap_ = exFresh.segmentedWellMap_ ∧ exCont.nseg_ = exFresh.nseg_ ∧
      exCont.nperf_ = exFresh.nperf_) ∧
    (∃ b, exCont.bhp[2]? = some b ∧ exFresh.bhp[2]? = some b) :=
  have key := init_continuation_frame WellStateMultiSegment.empty exPrev
    WellStateMultiSegment.empty exCont exFresh exWells exPressure none exWells_nodup exCont_eq
    rfl exFresh_eq
  ⟨⟨exWells_nodup, exCont_eq, rfl, exFresh_eq⟩, key.1, (key.2 2 exA exC rfl rfl rfl).1⟩

/-- C6 (carry-over of the control index). Let the current wells have pairwise distinct
names, let `init` return, and let the `w`-th well be found by its name in the map of the
previous state, with an entry `old` of the same number of segments and of perforations.
Let `c_old` be the control index the previous state holds at the well number of `old` and
`n` the number of controls of the current well. If `c_old < n`, then `currentControls[w]`
is `c_old` after `init`; otherwise it is the current control index of the control set of
the well and, when that index is below `n`, differs from `c_old`. -/
theorem init_control_index_carry_over (self prevState st : WellStateMultiSegment)
    (wells : List WellMultiSegment) (pressure : List ℚ) (legacy : Option Nat)
    (well0 well : WellMultiSegment) (w : Nat) (old : SegmentedMapentryType)
    (h0 : wells.head? = some well0)
    (hn : (wells.map (fun v => v.name)).Nodup)
    (h : init self wells pressure prevState legacy = Except.ok st)
    (hw : wells[w]? = some well)
    (hold : mapFind prevState.segmentedWellMap_ well.name = some old)
    (hseg : old.number_of_segments = well.numberOfSegments)
    (hperf : old.number_of_perforations = well.numberOfPerforations) :
    ∃ c_old, prevState.currentControls[old.well_number]? = some c_old ∧
      (c_old < well.wellControls.num → st.currentControls[w]? = some c_old) ∧
      (¬ c_old < well.wellControls.num →
        st.currentControls[w]? = some well.wellControls.current ∧
        (well.wellControls.current < well.wellControls.num →
          well.wellControls.current ≠ c_old)) := by
  obtain ⟨st0, e, sa, sb, hg, he, hl, s1, R, s2⟩ := init_target h0 hn h hw
  obtain ⟨l1, l2, l3, l4, l5⟩ := hl
  have hm : Matched old e := ⟨hperf.trans l5.symm, hseg.trans l3.symm⟩
  obtain ⟨c, hc, hc1, hc2⟩ := R.control old hold hm
  have t3 := s2.2.2.1
  have u3 := s1.2.2.1
  refine ⟨c, hc, ?_, ?_⟩
  · intro hlt
    obtain ⟨hlen, hset⟩ := hc1 hlt
    rw [t3, hset]
    simp [hlen]
  · intro hge
    refine ⟨?_, fun hcur heq => hge (heq ▸ hcur)⟩
    rw [t3, hc2 hge, u3]
    exact initGuess_cc hg w well hw

/-- Witness of C6: well `A` of the scenario, whose previous control index 1 is below its
number of controls 2 and is carried over. -/
theorem init_control_index_carry_over_witness :
    (exWells.head? = some exA ∧ (exWells.map (fun v => v.name)).Nodup ∧
      init WellStateMultiSegment.empty exWells exPressure exPrev none = Except.ok exCont ∧
      exWells[0]? = some exA ∧
      mapFind exPrev.segmentedWellMap_ exA.name = some ⟨1, 2, 3, 3, 4, [0, 0, 2], [0, 2, 2]⟩) ∧
    ∃ c_old, exPrev.currentControls[1]? = some c_old ∧
      (c_old < exA.wellControls.num → exCont.currentControls[0]? = some c_old) ∧
      (¬ c_old < exA.wellControls.num →
        exCont.currentControls[0]? = some exA.wellControls.current ∧
        (exA.wellControls.current < exA.wellControls.num →
          exA.wellControls.current ≠ c_old)) :=
  ⟨⟨rfl, exWells_nodup, exCont_eq, rfl, rfl⟩,
    init_control_index_carry_over WellStateMultiSegment.empty exPrev exCont exWells exPressure
      none exA exA 0 ⟨1, 2, 3, 3, 4, [0, 0, 2], [0, 2, 2]⟩ rfl exWells_nodup exCont_eq rfl rfl
      rfl rfl⟩

/-- C7, as stated, fails. In the scenario well `A` is open, under a bottom-hole-pressure
control and has three segments; the previous state `exPrev`, itself the outcome of `init`
at the previous timestep, holds a well of the same name with the same counts, which was
stopped then, and is well formed. After `init` the top segment of `A` has the pressure
carried over from the previous state, the sentinel, while its bottom-hole pressure is the
carried-over 160. -/
theorem top_segment_identity_counterexample :
    exWells[0]? = some exA ∧ exA.wellControls.well_is_stopped = false ∧
    exA.wellControls.current_type = WellControlType.BHP ∧ 1 ≤ exA.numberOfSegments ∧
    init WellStateMultiSegment.empty exPrevWells exPressure WellStateMultiSegment.empty none
      = Except.ok exPrev ∧
    PrevWellFormed 2 exPrev ∧
    init WellStateMultiSegment.empty exWells exPressure exPrev none = Except.ok exCont ∧
    exCont.top_segment_loc_[0]? = some 0 ∧
    exCont.segpress_[0]? = some sentinel ∧ exCont.bhp[0]? = some 160 ∧
    exCont.segpress_[0]? ≠ exCont.bhp[0]? := by
  refine ⟨rfl, rfl, rfl, by decide, exPrev_eq, exPrev_wellFormed, exCont_eq, rfl, rfl, rfl,
    ?_⟩
  simp only [exCont, List.getElem?_cons_zero, ne_eq, Option.some.injEq, sentinel]
  norm_num

/-- C7 as amended (top-segment identity). Let `init` return, the wells having pairwise
distinct names unless the map of the previous state is empty, and let the `w`-th well be
open, under a bottom-hole-pressure control, with at least one segment. If the name of the
well is not a key of the map of the previous state, then its bottom-hole pressure and the
pressure of its top segment, the segment at `topSegmentLoc[w]`, both are the control
target. If the previous state holds the well with the same number of segments and of
perforations, then both are carried over: the bottom-hole pressure is the one the previous
state holds at the old well number and the top-segment pressure the one it holds at the old
start of the segments of the well. -/
theorem init_top_segment_identity (self prevState st : WellStateMultiSegment)
    (wells : List WellMultiSegment) (pressure : List ℚ) (legacy : Option Nat)
    (well : WellMultiSegment) (w : Nat)
    (hn : prevState.segmentedWellMap_ = [] ∨ (wells.map (fun v => v.name)).Nodup)
    (h : init self wells pressure prevState legacy = Except.ok st)
    (hw : wells[w]? = some well)
    (hopen : well.wellControls.well_is_stopped = false)
    (hbhp : well.wellControls.current_type = WellControlType.BHP)
    (hseg : 1 ≤ well.numberOfSegments) :
    ∃ t, st.top_segment_loc_[w]? = some t ∧
      (mapFind prevState.segmentedWellMap_ well.name = none →
        st.bhp[w]? = some well.wellControls.current_target ∧
        st.segpress_[t]? = some well.wellControls.current_target) ∧
      (∀ old, mapFind prevState.segmentedWellMap_ well.name = some old →
        old.number_of_segments = well.numberOfSegments →
        old.number_of_perforations = well.numberOfPerforations →
        ∃ b s, prevState.bhp[old.well_number]? = some b ∧
          prevState.segpress_[old.start_segment]? = some s ∧
          st.bhp[w]? = some b ∧ st.segpress_[t]? = some s) := by
  obtain ⟨well0, h0⟩ := head?_of_getElem? hw
  obtain ⟨st0, hg, hc⟩ := init_eq_ok h0 h
  obtain ⟨-, -, g3, -⟩ := carryOver_global hc
  have htop := initGuess_topLoc hg w (lt_length_of_getElem? hw)
  obtain ⟨b, hb1, hb2⟩ := initGuess_top hg w well hw hopen hseg
  obtain ⟨x, hx1, hx2, -, -⟩ := initGuess_bhp hg w well hw
  have hbx : b = well.wellControls.current_target := by
    rw [hb1] at hx1
    rw [Option.some.inj hx1]
    exact hx2 hbhp
  subst hbx
  refine ⟨segmentOffset wells w, by rw [g3]; exact htop, ?_, ?_⟩
  · intro hnone
    by_cases hp : prevState.segmentedWellMap_ = []
    · rw [carryOver_of_empty hp hc]
      exact ⟨hb1, hb2⟩
    · have hnd := hn.resolve_left hp
      obtain ⟨e, he, hl, -⟩ := initGuess_layout hnd hg w well hw
      obtain ⟨sa, sb, s1, R, s2⟩ :=
        carryOver_target hc (fun _ => hasLayout_of_initGuess hnd hg) hw he hl
      have hsb : sb = sa := R.absent hnone
      subst hsb
      obtain ⟨t1, -, -, t4, -⟩ := sameSlices_trans s2 s1
      obtain ⟨-, l2, l3, -, -⟩ := hl
      have h4 := t4 0 (by omega)
      rw [l2] at h4
      exact ⟨t1.trans hb1, h4.trans hb2⟩
  · intro old hold hs hpf
    have hp : prevState.segmentedWellMap_ ≠ [] := by
      intro hp
      rw [hp] at hold
      simp [mapFind] at hold
    have hnd := hn.resolve_left hp
    obtain ⟨e, he, hl, -⟩ := initGuess_layout hnd hg w well hw
    obtain ⟨sa, sb, s1, R, s2⟩ :=
      carryOver_target hc (fun _ => hasLayout_of_initGuess hnd hg) hw he hl
    obtain ⟨-, l2, l3, -, l5⟩ := hl
    have hm : Matched old e := ⟨hpf.trans l5.symm, hs.trans l3.symm⟩
    obtain ⟨y, hy1, hy2⟩ := (R.bhp old hold).2.2 0 (by omega)
    obtain ⟨z, hz1, hz2⟩ := (R.segpress old hold hm).2.2 0 (by omega)
    refine ⟨y, z, hy1, hz1, ?_, ?_⟩
    · rw [s2.1]
      exact hy2
    · have h4 := s2.2.2.2.1 0 (by omega)
      rw [l2] at h4 hz2
      exact h4.trans hz2

/-- Witness of C7 as amended: well `A` of the scenario with an empty previous state. -/
theorem init_top_segment_identity_witness :
    ((WellStateMultiSegment.empty.segmentedWellMap_ = [] ∨
        (exWells.map (fun v => v.name)).Nodup) ∧
      init WellStateMultiSegment.empty exWells exPressure WellStateMultiSegment.empty none
        = Except.ok exFresh ∧
      exWells[0]? = some exA ∧ exA.wellControls.well_is_stopped = false ∧
      exA.wellControls.current_type = WellControlType.BHP ∧ 1 ≤ exA.numberOfSegments) ∧
    ∃ t, exFresh.top_segment_loc_[0]? = some t ∧
      (mapFind WellStateMultiSegment.empty.segmentedWellMap_ exA.name = none →
        exFresh.bhp[0]? = some exA.wellControls.current_target ∧
        exFresh.segpress_[t]? = some exA.wellControls.current_target) ∧
      (∀ old, mapFind WellStateMultiSegment.empty.segmentedWellMap_ exA.name = some old →
        old.number_of_segments = exA.numberOfSegments →
        old.number_of_perforations = exA.numberOfPerforations →
        ∃ b s, WellStateMultiSegment.empty.bhp[old.well_number]? = some b ∧
          WellStateMultiSegment.empty.segpress_[old.start_segment]? = some s ∧
          exFresh.bhp[0]? = some b ∧ exFresh.segpress_[t]? = some s) :=
  have hseg : 1 ≤ exA.numberOfSegments := by decide
  ⟨⟨Or.inl rfl, exFresh_eq, rfl, rfl, rfl, hseg⟩,
    init_top_segment_identity WellStateMultiSegment.empty WellStateMultiSegment.empty exFresh
      exWells exPressure none exA 0 (Or.inl rfl) exFresh_eq rfl rfl rfl hseg⟩

/-! ## C8 to C10: the initial guess of the well values -/

/-- What `init` does for the bottom-hole pressure of a stopped well, with an empty previous
state: the control target under a bottom-hole-pressure control, and otherwise the reservoir
pressure at the first cell of the first well of the sequence (line 151 reads
`wells[0]->wellCells()[0]`), whichever well is being treated. -/
theorem init_stopped_well_bhp (self prevState st : WellStateMultiSegment)
    (wells : List WellMultiSegment) (pressure : List ℚ) (legacy : Option Nat)
    (well : WellMultiSegment) (w : Nat)
    (hp0 : prevState.segmentedWellMap_ = [])
    (h : init self wells pressure prevState legacy = Except.ok st)
    (hw : wells[w]? = some well)
    (hstopped : well.wellControls.well_is_stopped = true) :
    (well.wellControls.current_type = WellControlType.BHP →
      st.bhp[w]? = some well.wellControls.current_target) ∧
    (well.wellControls.current_type ≠ WellControlType.BHP →
      ∃ well0 c x, wells[0]? = some well0 ∧ well0.wellCells[0]? = some c ∧
        pressure[c]? = some x ∧ st.bhp[w]? = some x) := by
  obtain ⟨well0, h0⟩ := head?_of_getElem? hw
  have hg := init_of_empty h0 hp0 h
  obtain ⟨x, hx, g1, g2, -⟩ := initGuess_bhp hg w well hw
  refine ⟨fun hb => ?_, fun hb => ?_⟩
  · rw [hx, g1 hb]
  · obtain ⟨a, c, ha, hc, hpc⟩ := g2 hb hstopped
    exact ⟨a, c, x, ha, hc, hpc, hx⟩

/-- C8 fails on the code. In the scenario, with an empty previous state, the stopped well
`C`, the third of the sequence, is under a reservoir-rate control and its first cell is
cell 7, of pressure 170; `init` gives it the bottom-hole pressure 110, the pressure of
cell 1, the first cell of the first well `A`. -/
theorem stopped_bhp_reads_first_well :
    exWells[2]? = some exC ∧ exC.wellControls.well_is_stopped = true ∧
    exC.wellControls.current_type ≠ WellControlType.BHP ∧
    init WellStateMultiSegment.empty exWells exPressure WellStateMultiSegment.empty none
      = Except.ok exFresh ∧
    exC.wellCells[0]? = some 7 ∧ exPressure[7]? = some 170 ∧
    exWells[0]? = some exA ∧ exA.wellCells[0]? = some 1 ∧ exPressure[1]? = some 110 ∧
    exFresh.bhp[2]? = some 110 ∧ exFresh.bhp[2]? ≠ exPressure[7]? := by
  refine ⟨rfl, rfl, by decide, exFresh_eq, rfl, rfl, rfl, rfl, rfl, rfl, ?_⟩
  simp only [exFresh, exPressure, List.getElem?_cons_succ, List.getElem?_cons_zero, ne_eq,
    Option.some.injEq]
  norm_num

/-- C9 (initial guess of the well rates). Let `init`, called on a state whose rate vector
is empty, with a previous state whose map is empty, return, and let `np` be the number of
phases (of the first well). Then for the `w`-th well and every phase `p < np`,
`wellRates[np * w + p]` is: 0 if the well is stopped; the target times `distr[p]` if the
well is open under a surface-rate control; `1e-14` if it is open, not under a surface-rate
control and an injector; `-1e-14` if it is open, not under a surface-rate control and a
producer. -/
theorem init_well_rate_guess (self prevState st : WellStateMultiSegment)
    (wells : List WellMultiSegment) (pressure : List ℚ) (legacy : Option Nat)
    (well0 well : WellMultiSegment) (w p : Nat)
    (h0 : wells.head? = some well0)
    (hs : self.wellRates = [])
    (hp0 : prevState.segmentedWellMap_ = [])
    (h : init self wells pressure prevState legacy = Except.ok st)
    (hw : wells[w]? = some well)
    (hp : p < well0.numberOfPhases) :
    (well.wellControls.well_is_stopped = true →
      st.wellRates[well0.numberOfPhases * w + p]? = some 0) ∧
    (well.wellControls.well_is_stopped = false →
      well.wellControls.current_type = WellControlType.SURFACE_RATE →
      ∃ d, well.wellControls.current_distr[p]? = some d ∧
        st.wellRates[well0.numberOfPhases * w + p]? =
          some (well.wellControls.current_target * d)) ∧
    (well.wellControls.well_is_stopped = false →
      well.wellControls.current_type ≠ WellControlType.SURFACE_RATE →
      well.wellType = WellType.INJECTOR →
      st.wellRates[well0.numberOfPhases * w + p]? = some (1 / 100000000000000)) ∧
    (well.wellControls.well_is_stopped = false →
      well.wellControls.current_type ≠ WellControlType.SURFACE_RATE →
      well.wellType = WellType.PRODUCER →
      st.wellRates[well0.numberOfPhases * w + p]? = some (-(1 / 100000000000000))) := by
  have hg := init_of_empty h0 hp0 h
  obtain ⟨r1, r2⟩ := initGuess_rates (by simpa using hs) hg w well p hw hp
  refine ⟨r1, ?_, ?_, ?_⟩
  · intro hopen hsr
    obtain ⟨x, hx, g1, -⟩ := r2 hopen
    obtain ⟨d, hd, hxd⟩ := g1 hsr
    exact ⟨d, hd, by rw [hx, hxd]⟩
  · intro hopen hsr hinj
    obtain ⟨x, hx, -, g2⟩ := r2 hopen
    rw [hx, g2 hsr]
    simp [small_rate, rateSign, hinj]
  · intro hopen hsr hprod
    obtain ⟨x, hx, -, g2⟩ := r2 hopen
    rw [hx, g2 hsr]
    simp [small_rate, rateSign, hprod]

/-- Witness of C9: the first phase of well `B` of the scenario, an open injector under a
surface-rate control with target 50 and distribution `[1, 0]`. -/
theorem init_well_rate_guess_witness :
    (exWells.head? = some exA ∧ WellStateMultiSegment.empty.wellRates = [] ∧
      WellStateMultiSegment.empty.segmentedWellMap_ = [] ∧
      init WellStateMultiSegment.empty exWells exPressure WellStateMultiSegment.empty none
        = Except.ok exFresh ∧
      exWells[1]? = some exB ∧ 0 < exA.numberOfPhases ∧
      exB.wellControls.well_is_stopped = false ∧
      exB.wellControls.current_type = WellControlType.SURFACE_RATE) ∧
    ∃ d, exB.wellControls.current_distr[0]? = some d ∧
      exFresh.wellRates[exA.numberOfPhases * 1 + 0]? =
        some (exB.wellControls.current_target * d) :=
  have hp : 0 < exA.numberOfPhases := by decide
  ⟨⟨rfl, rfl, rfl, exFresh_eq, rfl, hp, rfl, rfl⟩,
    (init_well_rate_guess WellStateMultiSegment.empty WellStateMultiSegment.empty exFresh
      exWells exPressure none exA exB 1 0 rfl rfl rfl exFresh_eq rfl hp).2.1 rfl rfl⟩

/-- C10 (bottom-hole pressure of an open well). Let `init`, with a previous state whose map
is empty, return, and let the `w`-th well be open. Then `bhp[w]` is the control target if
the well is under a bottom-hole-pressure control; otherwise it is the reservoir pressure at
the first cell of the well itself times 1.01 for an injector and times 0.99 for a producer,
which for a positive pressure lies strictly above the pressure for an injector and strictly
below it for a producer. -/
theorem init_open_well_bhp (self prevState st : WellStateMultiSegment)
    (wells : List WellMultiSegment) (pressure : List ℚ) (legacy : Option Nat)
    (well : WellMultiSegment) (w : Nat)
    (hp0 : prevState.segmentedWellMap_ = [])
    (h : init self wells pressure prevState legacy = Except.ok st)
    (hw : wells[w]? = some well)
    (hopen : well.wellControls.well_is_stopped = false) :
    (well.wellControls.current_type = WellControlType.BHP →
      st.bhp[w]? = some well.wellControls.current_target) ∧
    (well.wellControls.current_type ≠ WellControlType.BHP →
      ∃ c x, well.wellCells[0]? = some c ∧ pressure[c]? = some x ∧
        (well.wellType = WellType.INJECTOR →
          st.bhp[w]? = some (101 / 100 * x) ∧ (0 < x → x < 101 / 100 * x)) ∧
        (well.wellType = WellType.PRODUCER →
          st.bhp[w]? = some (99 / 100 * x) ∧ (0 < x → 99 / 100 * x < x))) := by
  obtain ⟨well0, h0⟩ := head?_of_getElem? hw
  have hg := init_of_empty h0 hp0 h
  obtain ⟨y, hy, g1, -, g3⟩ := initGuess_bhp hg w well hw
  refine ⟨fun hb => ?_, fun hb => ?_⟩
  · rw [hy, g1 hb]
  · obtain ⟨c, x, hc, hx, hyx⟩ := g3 hb hopen
    refine ⟨c, x, hc, hx, fun hinj => ⟨?_, fun hpos => ?_⟩, fun hprod => ⟨?_, fun hpos => ?_⟩⟩
    · rw [hy, hyx]
      simp [safety_factor, hinj]
    · linarith
    · rw [hy, hyx]
      simp [safety_factor, hprod]
    · linarith

/-- Witness of C10: well `B` of the scenario, an open injector under a surface-rate
control, whose first cell is cell 5. -/
theorem init_open_well_bhp_witness :
    (WellStateMultiSegment.empty.segmentedWellMap_ = [] ∧
      init WellStateMultiSegment.empty exWells exPressure WellStateMultiSegment.empty none
        = Except.ok exFresh ∧
      exWells[1]? = some exB ∧ exB.wellControls.well_is_stopped = false ∧
      exB.wellControls.current_type ≠ WellControlType.BHP) ∧
    ∃ c x, exB.wellCells[0]? = some c ∧ exPressure[c]? = some x ∧
      (exB.wellType = WellType.INJECTOR →
        exFresh.bhp[1]? = some (101 / 100 * x) ∧ (0 < x → x < 101 / 100 * x)) ∧
      (exB.wellType = WellType.PRODUCER →
        exFresh.bhp[1]? = some (99 / 100 * x) ∧ (0 < x → 99 / 100 * x < x)) :=
  have hb : exB.wellControls.current_type ≠ WellControlType.BHP := by decide
  ⟨⟨rfl, exFresh_eq, rfl, rfl, hb⟩,
    (init_open_well_bhp WellStateMultiSegment.empty WellStateMultiSegment.empty exFresh
      exWells exPressure none exB 1 rfl exFresh_eq rfl rfl).2 hb⟩

/-! ## C11: the tubing-head pressure -/

/-- Tubing-head pressures after the loop over the wells. -/
theorem mainLoop_thp {wells : List WellMultiSegment} {np : Nat} {pressure : List ℚ}
    {n : Nat} {s : WellStateMultiSegment} {L : InitLoop}
    (h : forUpTo n (initWell wells np pressure) ⟨0, 0, s⟩ = Except.ok L) :
    ∀ (v : Nat) (well : WellMultiSegment), v < n → wells[v]? = some well →
      ∃ y, L.st.thp[v]? = some y ∧
        (well.wellControls.current_type = WellControlType.THP →
          y = well.wellControls.current_target) ∧
        (well.wellControls.current_type ≠ WellControlType.THP → L.st.bhp[v]? = some y) := by
  refine (mainLoop_inv
    (fun m st => ∀ (v : Nat) (well : WellMultiSegment), v < m → wells[v]? = some well →
      ∃ y, st.thp[v]? = some y ∧
        (well.wellControls.current_type = WellControlType.THP →
          y = well.wellControls.current_target) ∧
        (well.wellControls.current_type ≠ WellControlType.THP → st.bhp[v]? = some y)) h
    (fun v _ hv => absurd hv (Nat.not_lt_zero v)) ?_).1
  intro i st st2 hi hinv hbody v well2 hv hw2
  obtain ⟨well, e, R⟩ := initWell_round hbody
  obtain ⟨y, hy, hy1, hy2⟩ := R.thp_eq
  obtain ⟨x, hx, -⟩ := R.bhp_eq
  rcases Nat.lt_succ_iff_lt_or_eq.mp hv with hlt | rfl
  · obtain ⟨z, hz, hz1, hz2⟩ := hinv v well2 hlt hw2
    refine ⟨z, ?_, hz1, fun hne => ?_⟩
    · rw [hy, List.getElem?_set_ne (by omega)]
      exact hz
    · rw [hx, List.getElem?_set_ne (by omega)]
      exact hz2 hne
  · have : well2 = well := by
      rw [R.well_eq] at hw2
      exact (Option.some.inj hw2).symm
    subst this
    exact ⟨y, by rw [hy]; simp [R.thp_lt], hy1, hy2⟩

/-- Tubing-head pressures after the initial guess. -/
theorem initGuess_thp {wells : List WellMultiSegment} {np : Nat} {pressure : List ℚ}
    {s0 st : WellStateMultiSegment} (h : initGuess wells np pressure s0 = Except.ok st) :
    ∀ (w : Nat) (well : WellMultiSegment), wells[w]? = some well →
      ∃ y, st.thp[w]? = some y ∧
        (well.wellControls.current_type = WellControlType.THP →
          y = well.wellControls.current_target) ∧
        (well.wellControls.current_type ≠ WellControlType.THP → st.bhp[w]? = some y) := by
  obtain ⟨cc, L, cc2, -, -, hloop, -, rfl⟩ := initGuess_eq_ok h
  intro w well hw
  exact mainLoop_thp hloop w well (lt_length_of_getElem? hw) hw

/-- C11, as stated, fails. In the scenario well `A` is under a bottom-hole-pressure control,
not a tubing-head-pressure control, and the well-formed previous state `exPrev` holds a well
of the same name. After `init` the tubing-head pressure of `A` is the initial guess of its
bottom-hole pressure, 20000000, while its bottom-hole pressure is the 160 carried over from
the previous state. -/
theorem thp_equals_bhp_counterexample :
    exWells[0]? = some exA ∧ exA.wellControls.current_type ≠ WellControlType.THP ∧
    PrevWellFormed 2 exPrev ∧
    init WellStateMultiSegment.empty exWells exPressure exPrev none = Except.ok exCont ∧
    exCont.thp[0]? = some 20000000 ∧ exCont.bhp[0]? = some 160 ∧
    exCont.thp[0]? ≠ exCont.bhp[0]? := by
  refine ⟨rfl, by decide, exPrev_wellFormed, exCont_eq, rfl, rfl, ?_⟩
  simp only [exCont, List.getElem?_cons_zero, ne_eq, Option.some.injEq]
  norm_num

/-- C11 as amended (tubing-head pressure). Let `init` return `st` with the previous state
`prevState` and `st0` with a previous state whose map is empty, the wells having pairwise
distinct names unless the map of `prevState` is empty. Then for every well, stopped or
open, `thp[w]` in `st` is the control target under a tubing-head-pressure control, and
otherwise the bottom-hole pressure of the initial guess, `bhp[w]` in `st0`; this is `bhp[w]`
in `st` itself whenever the name of the well is not a key of the map of `prevState`. -/
theorem init_tubing_head_pressure (self prevState prev0 st st0 : WellStateMultiSegment)
    (wells : List WellMultiSegment) (pressure : List ℚ) (legacy : Option Nat)
    (well : WellMultiSegment) (w : Nat)
    (hn : prevState.segmentedWellMap_ = [] ∨ (wells.map (fun v => v.name)).Nodup)
    (h : init self wells pressure prevState legacy = Except.ok st)
    (hp0 : prev0.segmentedWellMap_ = [])
    (hf : init self wells pressure prev0 legacy = Except.ok st0)
    (hw : wells[w]? = some well) :
    (well.wellControls.current_type = WellControlType.THP →
      st.thp[w]? = some well.wellControls.current_target) ∧
    (well.wellControls.current_type ≠ WellControlType.THP →
      ∃ x, st.thp[w]? = some x ∧ st0.bhp[w]? = some x) ∧
    (well.wellControls.current_type ≠ WellControlType.THP →
      mapFind prevState.segmentedWellMap_ well.name = none →
      ∃ x, st.thp[w]? = some x ∧ st.bhp[w]? = some x) := by
  obtain ⟨well0, h0⟩ := head?_of_getElem? hw
  obtain ⟨st1, hg, hc⟩ := init_eq_ok h0 h
  have hst : st1 = st0 := by
    have := init_of_empty h0 hp0 hf
    rw [hg] at this
    exact Except.ok.inj this
  subst hst
  obtain ⟨-, g2, -⟩ := carryOver_global hc
  obtain ⟨y, hy, hy1, hy2⟩ := initGuess_thp hg w well hw
  rw [g2]
  refine ⟨fun ht => by rw [hy, hy1 ht], fun hne => ⟨y, hy, hy2 hne⟩, fun hne hnone => ?_⟩
  refine ⟨y, hy, ?_⟩
  by_cases hp : prevState.segmentedWellMap_ = []
  · rw [carryOver_of_empty hp hc]
    exact hy2 hne
  · have hnd := hn.resolve_left hp
    obtain ⟨e, he, hl, -⟩ := initGuess_layout hnd hg w well hw
    obtain ⟨sa, sb, s1, R, s2⟩ :=
      carryOver_target hc (fun _ => hasLayout_of_initGuess hnd hg) hw he hl
    have hsb : sb = sa := R.absent hnone
    subst hsb
    rw [(sameSlices_trans s2 s1).1]
    exact hy2 hne

/-- Witness of C11 as amended: well `A` of the scenario, with the previous state `exPrev`. -/
theorem init_tubing_head_pressure_witness :
    ((exPrev.segmentedWellMap_ = [] ∨ (exWells.map (fun v => v.name)).Nodup) ∧
      init WellStateMultiSegment.empty exWells exPressure exPrev none = Except.ok exCont ∧
      WellStateMultiSegment.empty.segmentedWellMap_ = [] ∧
      init WellStateMultiSegment.empty exWells exPressure WellStateMultiSegment.empty none
        = Except.ok exFresh ∧
      exWells[0]? = some exA ∧ exA.wellControls.current_type ≠ WellControlType.THP) ∧
    ∃ x, exCont.thp[0]? = some x ∧ exFresh.bhp[0]? = some x :=
  have hne : exA.wellControls.current_type ≠ WellControlType.THP := by decide
  ⟨⟨Or.inr exWells_nodup, exCont_eq, rfl, exFresh_eq, rfl, hne⟩,
    (init_tubing_head_pressure WellStateMultiSegment.empty exPrev WellStateMultiSegment.empty
      exCont exFresh exWells exPressure none exA 0 (Or.inr exWells_nodup) exCont_eq rfl
      exFresh_eq rfl).2.1 hne⟩

/-! ## The perforation and segment values of an open well -/

theorem flat_inj {np a b p q : Nat} (h : np * a + p = np * b + q) (hp : p < np)
    (hq : q < np) : a = b ∧ p = q := by
  have h1 : (np * a + p) % np = (np * b + q) % np := by rw [h]
  rw [Nat.mul_add_mod, Nat.mul_add_mod, Nat.mod_eq_of_lt hp, Nat.mod_eq_of_lt hq] at h1
  subst h1
  have h2 : np * a = np * b := by omega
  exact ⟨Nat.eq_of_mul_eq_mul_left (by omega) h2, rfl⟩

theorem flat_ne_of_lt {np a b p q : Nat} (hab : a < b) (hp : p < np) :
    np * a + p ≠ np * b + q := by
  have := slot_lt hab hp
  omega

/-- What the loop of lines 200-210 has done when it returns. -/
theorem perfLoop_eq_ok {well : WellMultiSegment} {np w sp nperf n : Nat}
    {pressure wellRates : List ℚ} {s t : List ℚ × List ℚ}
    (h : forUpTo n (perfStep well np w sp nperf pressure wellRates) s = Except.ok t) :
    (∀ j, (j < np * sp ∨ np * (sp + n) ≤ j) → t.1[j]? = s.1[j]?) ∧
    (∀ j, (j < sp ∨ sp + n ≤ j) → t.2[j]? = s.2[j]?) ∧
    (∀ i p, i < n → p < np →
      ∃ r, wellRates[np * w + p]? = some r ∧
        t.1[np * (i + sp) + p]? = some (r / (nperf : ℚ))) ∧
    (∀ i, i < n →
      ∃ c x, well.wellCells[i]? = some c ∧ pressure[c]? = some x ∧
        t.2[i + sp]? = some (if well.isMultiSegmented then safety_factor well * x else x)) := by
  apply forUpTo_inv
    (fun m (u : List ℚ × List ℚ) =>
      (∀ j, (j < np * sp ∨ np * (sp + m) ≤ j) → u.1[j]? = s.1[j]?) ∧
      (∀ j, (j < sp ∨ sp + m ≤ j) → u.2[j]? = s.2[j]?) ∧
      (∀ i p, i < m → p < np →
        ∃ r, wellRates[np * w + p]? = some r ∧
          u.1[np * (i + sp) + p]? = some (r / (nperf : ℚ))) ∧
      (∀ i, i < m →
        ∃ c x, well.wellCells[i]? = some c ∧ pressure[c]? = some x ∧
          u.2[i + sp]? =
            some (if well.isMultiSegmented then safety_factor well * x else x))) h
    ⟨fun _ _ => rfl, fun _ _ => rfl, fun i _ hi => absurd hi (Nat.not_lt_zero i),
      fun i hi => absurd hi (Nat.not_lt_zero i)⟩
  intro m u v hm ⟨h1, h2, h3, h4⟩ hbody
  unfold perfStep at hbody
  obtain ⟨rates, hr, ha⟩ := bind_eq_ok2.mp hbody
  obtain ⟨cell, hcell, hb⟩ := bind_eq_ok2.mp ha
  obtain ⟨pc, hpc, hc⟩ := bind_eq_ok2.mp hb
  obtain ⟨press, hp, hd⟩ := bind_eq_ok2.mp hc
  have hv := pure_eq_ok.mp hd
  subst hv
  obtain ⟨hlt, rfl⟩ := writeAt_eq_ok.mp hp
  obtain ⟨-, hframe, hval⟩ := writeLoop_eq_ok hr
  have e1 : np * (sp + (m + 1)) = np * (m + sp) + np := by ring
  have e2 : np * sp ≤ np * (m + sp) := Nat.mul_le_mul_left np (by omega)
  refine ⟨?_, ?_, ?_, ?_⟩
  · intro j hj
    simp only
    rw [hframe j (fun q hq => by omega)]
    apply h1 j
    have e3 : np * (sp + m) = np * (m + sp) := by ring
    omega
  · intro j hj
    simp only
    rw [List.getElem?_set_ne (by omega)]
    exact h2 j (by omega)
  · intro i p hi hp1
    simp only
    rcases Nat.lt_succ_iff_lt_or_eq.mp hi with hlt2 | rfl
    · rw [hframe _ (fun q _ => (flat_ne_of_lt (by omega) hp1).symm)]
      exact h3 i p hlt2 hp1
    · obtain ⟨x, hx, hx2⟩ := hval p hp1 (fun k _ _ => by omega)
      obtain ⟨r, hr1, hr2⟩ := bind_eq_ok.mp hx
      refine ⟨r, readAt_eq_ok.mp hr1, ?_⟩
      rw [hx2]
      simpa using hr2.symm
  · intro i hi
    simp only
    rcases Nat.lt_succ_iff_lt_or_eq.mp hi with hlt2 | rfl
    · rw [List.getElem?_set_ne (by omega)]
      exact h4 i hlt2
    · exact ⟨cell, pc, readAt_eq_ok.mp hcell, readAt_eq_ok.mp hpc, by simp [hlt]⟩

theorem matVec_eq_ok {g : List (List ℚ)} {v out : List ℚ}
    (h : matVec g v = Except.ok out) :
    out.length = g.length ∧
    ∀ (s : Nat) (row : List ℚ), g[s]? = some row →
      row.length = v.length ∧
      out[s]? = some (((row.zip v).map (fun rx => rx.1 * rx.2)).sum) := by
  unfold matVec at h
  split at h
  · rename_i hall
    have hout := Except.ok.inj h
    subst hout
    refine ⟨by simp, fun s row hs => ⟨?_, by simp [hs]⟩⟩
    have hmem : row ∈ g := List.getElem?_mem hs
    have := List.all_eq_true.mp hall row hmem
    simpa using this
  · cases h

theorem zip_sum_eq_dotUpTo (row v : List ℚ) (n : Nat) (hr : row.length = n)
    (hv : v.length = n) :
    ((row.zip v).map (fun rx => rx.1 * rx.2)).sum = dotUpTo n row v := by
  induction row generalizing v n with
  | nil =>
    simp at hr
    subst hr
    simp [dotUpTo]
  | cons a r ih =>
    cases v with
    | nil =>
      simp at hv
      subst hv
      simp at hr
    | cons b u =>
      cases n with
      | zero => simp at hr
      | succ m =>
        simp only [List.length_cons, Nat.add_right_cancel_iff] at hr hv
        have := ih u m hr hv
        simp only [dotUpTo] at this ⊢
        rw [List.range_succ_eq_map]
        simp [this, Function.comp_def]

/-- The vector `v_perf_rates` of lines 227-230. -/
theorem gather_eq_ok {np sp p nperf : Nat} {perfPhaseRates v : List ℚ}
    (h : writeLoop nperf (fun i => i)
      (fun i => readAt perfPhaseRates (np * (i + sp) + p)) (List.replicate nperf 0)
        = Except.ok v) :
    v = (List.range nperf).map (fun i => perfPhaseRates.getD (np * (i + sp) + p) 0) := by
  obtain ⟨hlen, -, hval⟩ := writeLoop_eq_ok h
  apply List.ext_getElem?
  intro i
  by_cases hi : i < nperf
  · obtain ⟨x, hx, hx2⟩ := hval i hi (fun k hk _ => by omega)
    rw [hx2]
    have := readAt_eq_ok.mp hx
    simp [hi, List.getD_eq_getElem?_getD, this]
  · have h1 : v.length ≤ i := by
      simp at hlen
      omega
    rw [List.getElem?_eq_none h1, List.getElem?_eq_none (by simp; omega)]

/-- What one round of the loop of lines 225-236 has done when it returns. -/
theorem segRatesStep_eq_ok {well : WellMultiSegment} {np ss sp nseg nperf p : Nat}
    {perfPhaseRates seg out : List ℚ} (hp : p < np)
    (h : segRatesStep well np ss sp nseg nperf perfPhaseRates p seg = Except.ok out) :
    out.length = seg.length ∧
    (∀ j, (∀ s, s < nseg → np * (s + ss) + p ≠ j) → out[j]? = seg[j]?) ∧
    (∀ s, s < nseg → ∃ row, well.p2s_gather[s]? = some row ∧ row.length = nperf ∧
      out[np * (s + ss) + p]? = some (dotUpTo nperf row
        ((List.range nperf).map (fun i => perfPhaseRates.getD (np * (i + sp) + p) 0)))) := by
  unfold segRatesStep at h
  obtain ⟨v, hv, ha⟩ := bind_eq_ok2.mp h
  obtain ⟨vs, hvs, hb⟩ := bind_eq_ok2.mp ha
  have hveq := gather_eq_ok hv
  obtain ⟨hlen, hframe, hval⟩ := writeLoop_eq_ok hb
  obtain ⟨hmlen, hmval⟩ := matVec_eq_ok hvs
  refine ⟨hlen, hframe, fun s hs => ?_⟩
  obtain ⟨x, hx, hx2⟩ := hval s hs (fun k hk _ heq => by
    have := (flat_inj heq hp hp).1
    omega)
  have hx3 := readAt_eq_ok.mp hx
  have hslt : s < well.p2s_gather.length := by
    rw [← hmlen]
    exact lt_length_of_getElem? hx3
  obtain ⟨hrl, hrv⟩ := hmval s _ (List.getElem?_eq_getElem hslt)
  have hvlen : v.length = nperf := by
    rw [hveq]
    simp
  refine ⟨_, List.getElem?_eq_getElem hslt, hrl.trans hvlen, ?_⟩
  rw [hx2]
  rw [hrv] at hx3
  rw [← Option.some.inj hx3, zip_sum_eq_dotUpTo _ _ nperf (hrl.trans hvlen) hvlen, hveq]

/-- What the loop of lines 225-236 has done when it returns. -/
theorem segRatesLoop_eq_ok {well : WellMultiSegment} {np ss sp nseg nperf : Nat}
    {perfPhaseRates s t : List ℚ}
    (h : forUpTo np (segRatesStep well np ss sp nseg nperf perfPhaseRates) s = Except.ok t) :
    (∀ j, (j < np * ss ∨ np * (ss + nseg) ≤ j) → t[j]? = s[j]?) ∧
    (∀ g p, g < nseg → p < np → ∃ row, well.p2s_gather[g]? = some row ∧
      row.length = nperf ∧
      t[np * (g + ss) + p]? = some (dotUpTo nperf row
        ((List.range nperf).map (fun i => perfPhaseRates.getD (np * (i + sp) + p) 0)))) := by
  have key := forUpTo_inv
    (fun m (u : List ℚ) =>
      (∀ j, (j < np * ss ∨ np * (ss + nseg) ≤ j) → u[j]? = s[j]?) ∧
      (∀ g p, g < nseg → p < m → p < np → ∃ row, well.p2s_gather[g]? = some row ∧
        row.length = nperf ∧
        u[np * (g + ss) + p]? = some (dotUpTo nperf row
          ((List.range nperf).map (fun i => perfPhaseRates.getD (np * (i + sp) + p) 0))))) h
    ⟨fun _ _ => rfl, fun g p _ hp => absurd hp (Nat.not_lt_zero p)⟩ ?_
  · exact ⟨key.1, fun g p hg hp => key.2 g p hg hp hp⟩
  intro m u v hm ⟨h1, h2⟩ hbody
  obtain ⟨-, hframe, hval⟩ := segRatesStep_eq_ok hm hbody
  refine ⟨?_, ?_⟩
  · intro j hj
    rw [hframe j ?_]
    · exact h1 j hj
    intro g hg
    have e1 : np * ss ≤ np * (g + ss) := Nat.mul_le_mul_left np (by omega)
    have e2 : np * (g + ss) + m < np * (ss + nseg) := slot_lt (by omega) hm
    omega
  · intro g p hg hp hp2
    rcases Nat.lt_succ_iff_lt_or_eq.mp hp with hlt | rfl
    · rw [hframe _ ?_]
      · exact h2 g p hg hlt hp2
      intro g2 _ heq
      have := (flat_inj heq hm hp2).2
      omega
    · exact hval g hg

/-- What one round of the loop of lines 117-242 does to the perforation and segment
vectors. -/
theorem initWell_arrays {wells : List WellMultiSegment} {np : Nat} {pressure : List ℚ}
    {w ss sp ss2 sp2 : Nat} {st st2 : WellStateMultiSegment}
    (h : initWell wells np pressure w ⟨ss, sp, st⟩ = Except.ok ⟨ss2, sp2, st2⟩) :
    ∃ well, wells[w]? = some well ∧ WellRoundArrays np pressure w ss sp well st st2 := by
  obtain ⟨well, e, hw, hv, htop, he, -, -, hval⟩ := initWell_eq_ok h
  simp only at htop he hval
  refine ⟨well, hw, ?_⟩
  unfold initValues at hval
  by_cases hs : well.wellControls.well_is_stopped = true
  · rw [if_pos hs] at hval
    obtain ⟨bhp, thp, hb, ht, rfl⟩ := initStopped_eq_ok hval
    exact {
      perfRates_frame := fun _ _ => rfl, perfPress_frame := fun _ _ => rfl,
      segRates_frame := fun _ _ => rfl, stopped := fun _ => ⟨rfl, rfl, rfl⟩,
      opened := fun hf => by simp [hs] at hf }
  · rw [if_neg hs] at hval
    obtain ⟨wellRates, bhp, thp, perfs, segpress, segphaserates, hr, hb, ht, hpl, hsp, hsl,
      rfl⟩ := initOpen_eq_ok hval
    obtain ⟨-, -, e3, -, e5, hlay⟩ := buildMapEntry_eq_ok he
    rw [e5] at hpl hsl
    rw [e3] at hsl
    simp only at hpl hsp hsl
    obtain ⟨p1, p2, p3, p4⟩ := perfLoop_eq_ok hpl
    obtain ⟨-, -, -, -, q5⟩ := openSegPress_eq_ok hsp
    obtain ⟨r1, r2⟩ := segRatesLoop_eq_ok hsl
    obtain ⟨l1, l2, l3, l4, l5⟩ := hlay
    have hsum := sum_take_eq_perforationOffsetInWell well e.number_of_perforations_segment
      well.numberOfSegments l2 l3
    exact {
      perfRates_frame := p1, perfPress_frame := p2, segRates_frame := r1,
      stopped := fun hst => absurd hst hs,
      opened := fun _ => ⟨p3, p4, fun s hs1 hs2 _ => by
        obtain ⟨off, x, ho, hx, hx2⟩ := q5 s hs1 (by rw [e3]; exact hs2)
        rw [l4 s hs2, hsum s (Nat.le_of_lt hs2)] at ho
        have := Option.some.inj ho
        subst this
        exact ⟨x, hx, hx2⟩, r2⟩ }

/-- The perforation and segment values of an open well depend only on the slot and the
slices of the well and on what lies before them. -/
theorem openArrays_congr {np : Nat} {pressure : List ℚ} {well : WellMultiSegment}
    {w ss sp : Nat} {a b : WellStateMultiSegment}
    (h1 : ∀ p, p < np → b.wellRates[np * w + p]? = a.wellRates[np * w + p]?)
    (h2 : ∀ j, j < np * (sp + well.numberOfPerforations) →
      b.perfPhaseRates[j]? = a.perfPhaseRates[j]?)
    (h3 : ∀ j, j < sp + well.numberOfPerforations → b.perfPress[j]? = a.perfPress[j]?)
    (h4 : ∀ j, j < ss + well.numberOfSegments → b.segpress_[j]? = a.segpress_[j]?)
    (h5 : ∀ j, j < np * (ss + well.numberOfSegments) →
      b.segphaserates_[j]? = a.segphaserates_[j]?)
    (h : OpenArrays np pressure well w ss sp a) : OpenArrays np pressure well w ss sp b := by
  obtain ⟨o1, o2, o3, o4⟩ := h
  refine ⟨?_, ?_, ?_, ?_⟩
  · intro i p hi hp
    obtain ⟨r, hr1, hr2⟩ := o1 i p hi hp
    refine ⟨r, by rw [h1 p hp]; exact hr1, ?_⟩
    rw [h2 _ (slot_lt (by omega) hp)]
    exact hr2
  · intro i hi
    obtain ⟨c, x, hc, hx, hxx⟩ := o2 i hi
    exact ⟨c, x, hc, hx, by rw [h3 _ (by omega)]; exact hxx⟩
  · intro s hs1 hs2 hs3
    obtain ⟨x, hx1, hx2⟩ := o3 s hs1 hs2 hs3
    exact ⟨x, by rw [h3 _ (by omega)]; exact hx1, by rw [h4 _ (by omega)]; exact hx2⟩
  · intro s p hs hp
    obtain ⟨row, hr, hl, hv⟩ := o4 s p hs hp
    refine ⟨row, hr, hl, ?_⟩
    have e : (List.range well.numberOfPerforations).map
          (fun i => b.perfPhaseRates.getD (np * (i + sp) + p) 0) =
        (List.range well.numberOfPerforations).map
          (fun i => a.perfPhaseRates.getD (np * (i + sp) + p) 0) := by
      apply List.map_congr_left
      intro i hi
      have hi2 := List.mem_range.mp hi
      simp only [List.getD_eq_getElem?_getD]
      rw [h2 _ (slot_lt (by omega) hp)]
    rw [h5 _ (slot_lt (by omega) hp), hv, e]

/-- The perforation and segment vectors after the loop over the wells: untouched from the
end of the slices of the wells treated on and in the slices of the stopped wells; the
values of the open wells. -/
theorem mainLoop_arrays {wells : List WellMultiSegment} {np : Nat} {pressure : List ℚ}
    {n : Nat} {s : WellStateMultiSegment} {L : InitLoop}
    (h : forUpTo n (initWell wells np pressure) ⟨0, 0, s⟩ = Except.ok L) :
    (∀ j, perforationOffset wells n ≤ j → L.st.perfPress[j]? = s.perfPress[j]?) ∧
    (∀ j, np * perforationOffset wells n ≤ j →
      L.st.perfPhaseRates[j]? = s.perfPhaseRates[j]?) ∧
    (∀ (v : Nat) (well : WellMultiSegment), v < n → wells[v]? = some well →
      well.wellControls.well_is_stopped = true →
      (∀ j, perforationOffset wells v ≤ j →
        j < perforationOffset wells v + well.numberOfPerforations →
        L.st.perfPress[j]? = s.perfPress[j]?) ∧
      (∀ j, np * perforationOffset wells v ≤ j →
        j < np * (perforationOffset wells v + well.numberOfPerforations) →
        L.st.perfPhaseRates[j]? = s.perfPhaseRates[j]?)) ∧
    (∀ (v : Nat) (well : WellMultiSegment), v < n → wells[v]? = some well →
      well.wellControls.well_is_stopped = false →
      OpenArrays np pressure well v (segmentOffset wells v) (perforationOffset wells v)
        L.st) := by
  refine (mainLoop_inv
    (fun m st =>
      (∀ j, perforationOffset wells m ≤ j → st.perfPress[j]? = s.perfPress[j]?) ∧
      (∀ j, np * perforationOffset wells m ≤ j →
        st.perfPhaseRates[j]? = s.perfPhaseRates[j]?) ∧
      (∀ (v : Nat) (well : WellMultiSegment), v < m → wells[v]? = some well →
        well.wellControls.well_is_stopped = true →
        (∀ j, perforationOffset wells v ≤ j →
          j < perforationOffset wells v + well.numberOfPerforations →
          st.perfPress[j]? = s.perfPress[j]?) ∧
        (∀ j, np * perforationOffset wells v ≤ j →
          j < np * (perforationOffset wells v + well.numberOfPerforations) →
          st.perfPhaseRates[j]? = s.perfPhaseRates[j]?)) ∧
      (∀ (v : Nat) (well : WellMultiSegment), v < m → wells[v]? = some well →
        well.wellControls.well_is_stopped = false →
        OpenArrays np pressure well v (segmentOffset wells v) (perforationOffset wells v)
          st)) h
    ⟨fun _ _ => rfl, fun _ _ => rfl, fun v _ hv => absurd hv (Nat.not_lt_zero v),
      fun v _ hv => absurd hv (Nat.not_lt_zero v)⟩ ?_).1
  intro i st st2 hi ⟨i1, i2, i3, i4⟩ hbody
  obtain ⟨well, e, R⟩ := initWell_round hbody
  obtain ⟨well1, hw1, A⟩ := initWell_arrays hbody
  have hwe : well1 = well := by
    rw [R.well_eq] at hw1
    exact (Option.some.inj hw1).symm
  subst hwe
  have hoff := perforationOffset_succ hw1
  have hmul : np * perforationOffset wells i ≤
      np * (perforationOffset wells i + well1.numberOfPerforations) :=
    Nat.mul_le_mul_left np (by omega)
  refine ⟨?_, ?_, ?_, ?_⟩
  · intro j hj
    rw [A.perfPress_frame j (Or.inr (by omega))]
    exact i1 j (by omega)
  · intro j hj
    rw [hoff] at hj
    rw [A.perfRates_frame j (Or.inr hj)]
    exact i2 j (by omega)
  · intro v well2 hv hw2 hst
    rcases Nat.lt_succ_iff_lt_or_eq.mp hv with hlt | rfl
    · have hle := perforationOffset_add_le hw2 hlt
      have hle2 : np * (perforationOffset wells v + well2.numberOfPerforations) ≤
          np * perforationOffset wells i := Nat.mul_le_mul_left np hle
      obtain ⟨a1, a2⟩ := i3 v well2 hlt hw2 hst
      refine ⟨fun j hj1 hj2 => ?_, fun j hj1 hj2 => ?_⟩
      · rw [A.perfPress_frame j (Or.inl (by omega))]
        exact a1 j hj1 hj2
      · rw [A.perfRates_frame j (Or.inl (by omega))]
        exact a2 j hj1 hj2
    · have hwe : well2 = well1 := by
        rw [hw1] at hw2
        exact (Option.some.inj hw2).symm
      subst hwe
      obtain ⟨b1, b2, -⟩ := A.stopped hst
      rw [b1, b2]
      exact ⟨fun j hj1 _ => i1 j hj1, fun j hj1 _ => i2 j hj1⟩
  · intro v well2 hv hw2 hop
    rcases Nat.lt_succ_iff_lt_or_eq.mp hv with hlt | rfl
    · have hle := perforationOffset_add_le hw2 hlt
      have hle2 : np * (perforationOffset wells v + well2.numberOfPerforations) ≤
          np * perforationOffset wells i := Nat.mul_le_mul_left np hle
      have hse := segmentOffset_add_le hw2 hlt
      have hse2 : np * (segmentOffset wells v + well2.numberOfSegments) ≤
          np * segmentOffset wells i := Nat.mul_le_mul_left np hse
      apply openArrays_congr ?_ ?_ ?_ ?_ ?_ (i4 v well2 hlt hw2 hop)
      · intro p hp
        exact R.rates_frame _ (Or.inl (slot_lt hlt hp))
      · intro j hj
        exact A.perfRates_frame j (Or.inl (by omega))
      · intro j hj
        exact A.perfPress_frame j (Or.inl (by omega))
      · intro j hj
        exact R.segpress_frame j (by omega)
      · intro j hj
        exact A.segRates_frame j (Or.inl (by omega))
    · have hwe : well2 = well1 := by
        rw [hw1] at hw2
        exact (Option.some.inj hw2).symm
      subst hwe
      exact A.opened hop

/-- The perforation and segment values after the initial guess: those of the open wells,
and, when the perforation vectors were empty before, the fill values for the stopped
wells. -/
theorem initGuess_arrays {wells : List WellMultiSegment} {np : Nat} {pressure : List ℚ}
    {s0 st : WellStateMultiSegment} (h : initGuess wells np pressure s0 = Except.ok st) :
    ∀ (w : Nat) (well : WellMultiSegment), wells[w]? = some well →
      (well.wellControls.well_is_stopped = false →
        OpenArrays np pressure well w (segmentOffset wells w) (perforationOffset wells w)
          st) ∧
      (well.wellControls.well_is_stopped = true → s0.perfPress = [] →
        s0.perfPhaseRates = [] →
        (∀ i, i < well.numberOfPerforations →
          st.perfPress[perforationOffset wells w + i]? = some sentinel) ∧
        (∀ i p, i < well.numberOfPerforations → p < np →
          st.perfPhaseRates[np * (perforationOffset wells w + i) + p]? = some 0)) := by
  obtain ⟨cc, L, cc2, -, -, hloop, -, rfl⟩ := initGuess_eq_ok h
  intro w well hw
  have hlt := lt_length_of_getElem? hw
  obtain ⟨-, -, m3, m4⟩ := mainLoop_arrays hloop
  refine ⟨fun hop => ?_, fun hst hp1 hp2 => ?_⟩
  · exact m4 w well hlt hw hop
  · obtain ⟨a1, a2⟩ := m3 w well hlt hw hst
    have hle : perforationOffset wells w + well.numberOfPerforations ≤
        perforationOffset wells wells.length := by
      rw [← perforationOffset_succ hw]
      exact perforationOffset_mono wells hlt
    refine ⟨fun i hi => ?_, fun i p hi hp => ?_⟩
    · have := a1 (perforationOffset wells w + i) (by omega) (by omega)
      simp only [resizeVectors, countSizes_eq, hp1, resize_nil] at this
      simp only
      rw [this]
      exact getElem?_replicate_of_lt _ (by omega)
    · have hidx : np * (perforationOffset wells w + i) + p <
          np * (perforationOffset wells w + well.numberOfPerforations) :=
        slot_lt (by omega) hp
      have hle2 : np * (perforationOffset wells w + well.numberOfPerforations) ≤
          np * perforationOffset wells wells.length := Nat.mul_le_mul_left np hle
      have hle3 : np * perforationOffset wells w ≤ np * (perforationOffset wells w + i) :=
        Nat.mul_le_mul_left np (by omega)
      have := a2 (np * (perforationOffset wells w + i) + p) (by omega) hidx
      simp only [resizeVectors, countSizes_eq, hp2, resize_nil] at this
      simp only
      rw [this]
      apply getElem?_replicate_of_lt
      have e1 : (s0.nperf_ + perforationOffset wells wells.length) * np =
          np * s0.nperf_ + np * perforationOffset wells wells.length := by ring
      omega

/-! ## C12 to C14 and C18: the perforation and segment values -/

theorem segmentLayout_offsets {well : WellMultiSegment} {e : SegmentedMapentryType}
    (h : SegmentLayout well e) :
    perforationOffsetInWell well well.numberOfSegments = well.numberOfPerforations ∧
    (∀ s, s < well.numberOfSegments →
      e.start_perforation_segment[s]? = some (perforationOffsetInWell well s)) := by
  obtain ⟨-, l2, l3, l4, l5⟩ := h
  have hsum := sum_take_eq_perforationOffsetInWell well e.number_of_perforations_segment
    well.numberOfSegments l2 l3
  refine ⟨?_, fun s hs => by rw [l4 s hs, hsum s (Nat.le_of_lt hs)]⟩
  have h1 := hsum well.numberOfSegments (Nat.le_refl _)
  have h2 : e.number_of_perforations_segment.take well.numberOfSegments =
      e.number_of_perforations_segment := by
    rw [← l2]
    exact List.take_length _
  rw [h2, l5] at h1
  exact h1.symm

theorem perforationOffsetInWell_mono (well : WellMultiSegment) {a b : Nat} (h : a ≤ b) :
    perforationOffsetInWell well a ≤ perforationOffsetInWell well b := by
  induction b with
  | zero =>
    have : a = 0 := by omega
    subst this
    exact Nat.le_refl _
  | succ b ih =>
    rcases Nat.lt_or_ge a (b + 1) with hlt | hge
    · have := ih (by omega)
      rw [perforationOffsetInWell]
      omega
    · have : a = b + 1 := by omega
      subst this
      exact Nat.le_refl _

/-- The sub-slice of a segment ends inside the perforations counted up to a later
segment. -/
theorem perforationOffsetInWell_add_le {well : WellMultiSegment} {s n : Nat} {l : List Nat}
    (hl : well.segmentPerforations[s]? = some l) (hs : s < n) :
    perforationOffsetInWell well s + l.length ≤ perforationOffsetInWell well n := by
  have h1 : perforationOffsetInWell well (s + 1) = perforationOffsetInWell well s + l.length := by
    rw [perforationOffsetInWell]
    simp [List.getD_eq_getElem?_getD, hl]
  rw [← h1]
  exact perforationOffsetInWell_mono well hs

/-- Every well the loop has treated has passed the assertions of lines 118 and 141. -/
theorem mainLoop_sums {wells : List WellMultiSegment} {np : Nat} {pressure : List ℚ}
    {n : Nat} {s : WellStateMultiSegment} {L : InitLoop}
    (h : forUpTo n (initWell wells np pressure) ⟨0, 0, s⟩ = Except.ok L) :
    ∀ (v : Nat) (well : WellMultiSegment), v < n → wells[v]? = some well →
      validWellType well = true ∧
      perforationOffsetInWell well well.numberOfSegments = well.numberOfPerforations ∧
      (∀ g, g < well.numberOfSegments → ∃ l, well.segmentPerforations[g]? = some l) := by
  refine (mainLoop_inv
    (fun m _ => ∀ (v : Nat) (well : WellMultiSegment), v < m → wells[v]? = some well →
      validWellType well = true ∧
      perforationOffsetInWell well well.numberOfSegments = well.numberOfPerforations ∧
      (∀ g, g < well.numberOfSegments → ∃ l, well.segmentPerforations[g]? = some l)) h
    (fun v _ hv => absurd hv (Nat.not_lt_zero v)) ?_).1
  intro i st st2 hi hinv hbody v well2 hv hw2
  obtain ⟨well, e, R⟩ := initWell_round hbody
  rcases Nat.lt_succ_iff_lt_or_eq.mp hv with hlt | rfl
  · exact hinv v well2 hlt hw2
  · have : well2 = well := by
      rw [R.well_eq] at hw2
      exact (Option.some.inj hw2).symm
    subst this
    obtain ⟨-, -, -, -, -, hlay⟩ := buildMapEntry_eq_ok R.entry
    refine ⟨R.valid, (segmentLayout_offsets hlay).1, fun g hg => ?_⟩
    obtain ⟨l, hl, -⟩ := hlay.2.2.1 g hg
    exact ⟨l, hl⟩

/-- Every well has passed the assertions of lines 118 and 141 when the initial guess
returns. -/
theorem initGuess_sums {wells : List WellMultiSegment} {np : Nat} {pressure : List ℚ}
    {s0 st : WellStateMultiSegment} (h : initGuess wells np pressure s0 = Except.ok st) :
    ∀ (w : Nat) (well : WellMultiSegment), wells[w]? = some well →
      validWellType well = true ∧
      perforationOffsetInWell well well.numberOfSegments = well.numberOfPerforations ∧
      (∀ g, g < well.numberOfSegments → ∃ l, well.segmentPerforations[g]? = some l) := by
  obtain ⟨cc, L, cc2, -, -, hloop, -, rfl⟩ := initGuess_eq_ok h
  intro w well hw
  exact mainLoop_sums hloop w well (lt_length_of_getElem? hw) hw

/-- The map entry of a well when `init` returns, for wells with distinct names. -/
theorem init_entry {self prevState st : WellStateMultiSegment}
    {wells : List WellMultiSegment} {pressure : List ℚ} {legacy : Option Nat}
    {well : WellMultiSegment} {w : Nat}
    (hn : (wells.map (fun v => v.name)).Nodup)
    (h : init self wells pressure prevState legacy = Except.ok st)
    (hw : wells[w]? = some well) :
    ∃ e, mapFind st.segmentedWellMap_ well.name = some e ∧ WellLayout wells w well e ∧
      SegmentLayout well e := by
  obtain ⟨well0, h0⟩ := head?_of_getElem? hw
  obtain ⟨st0, hg, hc⟩ := init_eq_ok h0 h
  obtain ⟨g1, -⟩ := carryOver_global hc
  rw [g1]
  exact initGuess_layout hn hg w well hw

/-- Equal shares add up to the whole. -/
theorem sum_of_equal_shares (k : Nat) (hk : 1 ≤ k) (r : ℚ) (f : Nat → ℚ)
    (hf : ∀ i, i < k → f i = r / (k : ℚ)) : ((List.range k).map f).sum = r := by
  have e : (List.range k).map f = (List.range k).map (fun _ => r / (k : ℚ)) :=
    List.map_congr_left (fun i hi => hf i (List.mem_range.mp hi))
  have hk0 : (k : ℚ) ≠ 0 := by
    have : (0 : ℚ) < (k : ℚ) := by exact_mod_cast hk
    exact ne_of_gt this
  rw [e]
  simp only [List.map_const', List.length_range, List.sum_replicate, nsmul_eq_mul]
  field_simp

/-- C12 (perforation split). Let `init`, with a previous state whose map is empty, return,
and let the `w`-th well be open with `k ≥ 1` perforations. Then for every phase `p` the
rate `r = wellRates[np * w + p]` is there, every perforation `i` of the well has
`perfPhaseRates[np * (perforationStart + i) + p] = r / k`, and the sum of these over the `k`
perforations of the well is `r`, in the arithmetic of the rationals. The start of the
perforation slice is the sum of the perforation counts of the wells before `w`, which is
`start_perforation` of the map entry of the well when the names are distinct. -/
theorem init_perforation_split (self prevState st : WellStateMultiSegment)
    (wells : List WellMultiSegment) (pressure : List ℚ) (legacy : Option Nat)
    (well0 well : WellMultiSegment) (w p : Nat)
    (h0 : wells.head? = some well0)
    (hp0 : prevState.segmentedWellMap_ = [])
    (h : init self wells pressure prevState legacy = Except.ok st)
    (hw : wells[w]? = some well)
    (hopen : well.wellControls.well_is_stopped = false)
    (hk : 1 ≤ well.numberOfPerforations)
    (hp : p < well0.numberOfPhases) :
    ∃ r, st.wellRates[well0.numberOfPhases * w + p]? = some r ∧
      (∀ i, i < well.numberOfPerforations →
        st.perfPhaseRates[well0.numberOfPhases * (perforationOffset wells w + i) + p]? =
          some (r / (well.numberOfPerforations : ℚ))) ∧
      ((List.range well.numberOfPerforations).map (fun i =>
        st.perfPhaseRates.getD
          (well0.numberOfPhases * (perforationOffset wells w + i) + p) 0)).sum = r ∧
      ((wells.map (fun v => v.name)).Nodup →
        ∃ e, mapFind st.segmentedWellMap_ well.name = some e ∧
          e.start_perforation = perforationOffset wells w ∧
          e.number_of_perforations = well.numberOfPerforations) := by
  have hg := init_of_empty h0 hp0 h
  obtain ⟨o1, -, -, -⟩ := (initGuess_arrays hg w well hw).1 hopen
  obtain ⟨r, hr, -⟩ := o1 0 p hk hp
  have hall : ∀ i, i < well.numberOfPerforations →
      st.perfPhaseRates[well0.numberOfPhases * (perforationOffset wells w + i) + p]? =
        some (r / (well.numberOfPerforations : ℚ)) := by
    intro i hi
    obtain ⟨r2, hr2, hv⟩ := o1 i p hi hp
    rw [hr] at hr2
    rw [Option.some.inj hr2, Nat.add_comm (perforationOffset wells w) i]
    exact hv
  refine ⟨r, hr, hall, ?_, fun hn => ?_⟩
  · apply sum_of_equal_shares _ hk
    intro i hi
    simp [List.getD_eq_getElem?_getD, hall i hi]
  · obtain ⟨e, he, ⟨-, -, -, l4, l5⟩, -⟩ := init_entry hn h hw
    exact ⟨e, he, l4, l5⟩

/-- Witness of C12: the first phase of well `B` of the scenario, whose rate 50 is split
over two perforations. -/
theorem init_perforation_split_witness :
    (exWells.head? = some exA ∧ WellStateMultiSegment.empty.segmentedWellMap_ = [] ∧
      init WellStateMultiSegment.empty exWells exPressure WellStateMultiSegment.empty none
        = Except.ok exFresh ∧
      exWells[1]? = some exB ∧ exB.wellControls.well_is_stopped = false ∧
      1 ≤ exB.numberOfPerforations ∧ 0 < exA.numberOfPhases) ∧
    ∃ r, exFresh.wellRates[exA.numberOfPhases * 1 + 0]? = some r ∧
      (∀ i, i < exB.numberOfPerforations →
        exFresh.perfPhaseRates[exA.numberOfPhases * (perforationOffset exWells 1 + i) + 0]? =
          some (r / (exB.numberOfPerforations : ℚ))) ∧
      ((List.range exB.numberOfPerforations).map (fun i =>
        exFresh.perfPhaseRates.getD
          (exA.numberOfPhases * (perforationOffset exWells 1 + i) + 0) 0)).sum = r ∧
      ((exWells.map (fun v => v.name)).Nodup →
        ∃ e, mapFind exFresh.segmentedWellMap_ exB.name = some e ∧
          e.start_perforation = perforationOffset exWells 1 ∧
          e.number_of_perforations = exB.numberOfPerforations) :=
  have hk : 1 ≤ exB.numberOfPerforations := by decide
  have hp : 0 < exA.numberOfPhases := by decide
  ⟨⟨rfl, rfl, exFresh_eq, rfl, rfl, hk, hp⟩,
    init_perforation_split WellStateMultiSegment.empty WellStateMultiSegment.empty exFresh
      exWells exPressure none exA exB 1 0 rfl rfl exFresh_eq rfl rfl hk hp⟩

theorem getD_map_range {k i : Nat} (f : Nat → ℚ) (hi : i < k) :
    ((List.range k).map f).getD i 0 = f i := by
  simp [List.getD_eq_getElem?_getD, List.getElem?_range hi]

theorem getD_of_all_ones {row : List ℚ} {i : Nat} (h : ∀ x, x ∈ row → x = 1)
    (hi : i < row.length) : row.getD i 0 = 1 := by
  have h1 : row[i]? = some row[i] := List.getElem?_eq_getElem hi
  rw [List.getD_eq_getElem?_getD, h1]
  exact h _ (List.getElem_mem hi)

/-- C13 as amended (non-root segment pressures). Let `init`, with a previous state whose map
is empty, return, let the `w`-th well be open and let `s` be a segment of it other than the
top one that has at least one perforation. Then `segPress[segmentStart + s]` equals
`perfPress[perforationStart + start_perforation_segment[s]]`, both being there, and that
perforation is the first one of the sub-slice of the segment: the sub-slice is not empty and
lies inside the perforations of the well. Here `start_perforation_segment[s]` is the sum of
the sizes of the perforation lists of the segments before `s`, and the starts of the slices
are the sums of the counts of the wells before `w`; for distinct names these are the values
held by the map entry of the well. -/
theorem init_segment_pressure (self prevState st : WellStateMultiSegment)
    (wells : List WellMultiSegment) (pressure : List ℚ) (legacy : Option Nat)
    (well : WellMultiSegment) (w s : Nat) (l : List Nat)
    (hp0 : prevState.segmentedWellMap_ = [])
    (h : init self wells pressure prevState legacy = Except.ok st)
    (hw : wells[w]? = some well)
    (hopen : well.wellControls.well_is_stopped = false)
    (hs1 : 1 ≤ s) (hs2 : s < well.numberOfSegments)
    (hl : well.segmentPerforations[s]? = some l) (hl1 : 1 ≤ l.length) :
    (∃ x, st.perfPress[perforationOffset wells w + perforationOffsetInWell well s]? = some x ∧
      st.segpress_[segmentOffset wells w + s]? = some x) ∧
    perforationOffsetInWell well s < perforationOffsetInWell well s + l.length ∧
    perforationOffsetInWell well s + l.length ≤ well.numberOfPerforations ∧
    ((wells.map (fun v => v.name)).Nodup →
      ∃ e, mapFind st.segmentedWellMap_ well.name = some e ∧
        e.start_segment = segmentOffset wells w ∧
        e.start_perforation = perforationOffset wells w ∧
        e.start_perforation_segment[s]? = some (perforationOffsetInWell well s) ∧
        e.number_of_perforations_segment[s]? = some l.length) := by
  obtain ⟨well0, h0⟩ := head?_of_getElem? hw
  have hg := init_of_empty h0 hp0 h
  obtain ⟨-, -, o3, -⟩ := (initGuess_arrays hg w well hw).1 hopen
  obtain ⟨-, hsum, -⟩ := initGuess_sums hg w well hw
  have hle := perforationOffsetInWell_add_le hl hs2
  rw [hsum] at hle
  refine ⟨?_, by omega, hle, fun hn => ?_⟩
  · obtain ⟨x, hx1, hx2⟩ := o3 s hs1 hs2 (by omega)
    exact ⟨x, hx1, by rw [Nat.add_comm (segmentOffset wells w) s]; exact hx2⟩
  · obtain ⟨e, he, ⟨-, l2, -, l4, -⟩, hlay⟩ := init_entry hn h hw
    obtain ⟨l0, hl0, hc⟩ := hlay.2.2.1 s hs2
    rw [hl] at hl0
    rw [← Option.some.inj hl0] at hc
    exact ⟨e, he, l2, l4, (segmentLayout_offsets hlay).2 s hs2, hc⟩

/-- Witness of C13 as amended: the second segment of well `A` of the scenario, which has the
perforations 0 and 1 of the well. -/
theorem init_segment_pressure_witness :
    (WellStateMultiSegment.empty.segmentedWellMap_ = [] ∧
      init WellStateMultiSegment.empty exWells exPressure WellStateMultiSegment.empty none
        = Except.ok exFresh ∧
      exWells[0]? = some exA ∧ exA.wellControls.well_is_stopped = false ∧
      1 ≤ 1 ∧ 1 < exA.numberOfSegments ∧ exA.segmentPerforations[1]? = some [0, 1] ∧
      1 ≤ [0, 1].length) ∧
    ∃ x, exFresh.perfPress[perforationOffset exWells 0 + perforationOffsetInWell exA 1]?
        = some x ∧
      exFresh.segpress_[segmentOffset exWells 0 + 1]? = some x :=
  have hs : 1 < exA.numberOfSegments := by decide
  have hl : 1 ≤ [0, 1].length := by decide
  ⟨⟨rfl, exFresh_eq, rfl, rfl, Nat.le_refl 1, hs, rfl, hl⟩,
    (init_segment_pressure WellStateMultiSegment.empty WellStateMultiSegment.empty exFresh
      exWells exPressure none exA 0 1 [0, 1] rfl exFresh_eq rfl rfl (Nat.le_refl 1) hs rfl
      hl).1⟩

/-- C14 (segment aggregation). Let `init`, with a previous state whose map is empty, return,
and let the `w`-th well be open. Then for every segment `s` of the well and every phase `p`
the matrix `p2s_gather` of the well has a row `s` with one element per perforation of the
well, and `segPhaseRates[np * (segmentStart + s) + p]` is the sum over the perforations `i`
of the well of `row[i] * perfPhaseRates[np * (perforationStart + i) + p]`, all these elements being
there. When the row of
the top segment consists of ones and the well has at least one perforation, the phase rate
of the top segment is the phase rate `wellRates[np * w + p]` of the well. -/
theorem init_segment_aggregation (self prevState st : WellStateMultiSegment)
    (wells : List WellMultiSegment) (pressure : List ℚ) (legacy : Option Nat)
    (well0 well : WellMultiSegment) (w s p : Nat)
    (h0 : wells.head? = some well0)
    (hp0 : prevState.segmentedWellMap_ = [])
    (h : init self wells pressure prevState legacy = Except.ok st)
    (hw : wells[w]? = some well)
    (hopen : well.wellControls.well_is_stopped = false)
    (hs : s < well.numberOfSegments)
    (hp : p < well0.numberOfPhases) :
    ∃ row, well.p2s_gather[s]? = some row ∧ row.length = well.numberOfPerforations ∧
      st.segphaserates_[well0.numberOfPhases * (segmentOffset wells w + s) + p]? =
        some (((List.range well.numberOfPerforations).map (fun i =>
          row.getD i 0 * st.perfPhaseRates.getD
            (well0.numberOfPhases * (perforationOffset wells w + i) + p) 0)).sum) ∧
      (∀ i, i < well.numberOfPerforations → ∃ x,
        st.perfPhaseRates[well0.numberOfPhases * (perforationOffset wells w + i) + p]? =
          some x) ∧
      (s = 0 → (∀ x, x ∈ row → x = 1) → 1 ≤ well.numberOfPerforations →
        ∃ r, st.wellRates[well0.numberOfPhases * w + p]? = some r ∧
          st.segphaserates_[well0.numberOfPhases * (segmentOffset wells w + s) + p]? =
            some r) ∧
      ((wells.map (fun v => v.name)).Nodup →
        ∃ e, mapFind st.segmentedWellMap_ well.name = some e ∧
          e.start_segment = segmentOffset wells w ∧
          e.start_perforation = perforationOffset wells w) := by
  have hg := init_of_empty h0 hp0 h
  obtain ⟨o1, -, -, o4⟩ := (initGuess_arrays hg w well hw).1 hopen
  obtain ⟨row, hrow, hlen, hv⟩ := o4 s p hs hp
  have hsum : dotUpTo well.numberOfPerforations row
      ((List.range well.numberOfPerforations).map (fun i =>
        st.perfPhaseRates.getD (well0.numberOfPhases * (i + perforationOffset wells w) + p) 0))
      = ((List.range well.numberOfPerforations).map (fun i =>
          row.getD i 0 * st.perfPhaseRates.getD
            (well0.numberOfPhases * (perforationOffset wells w + i) + p) 0)).sum := by
    unfold dotUpTo
    congr 1
    apply List.map_congr_left
    intro i hi
    rw [getD_map_range _ (List.mem_range.mp hi), Nat.add_comm i]
  rw [Nat.add_comm s, hsum] at hv
  refine ⟨row, hrow, hlen, hv, fun i hi => ?_, fun _ hones hk => ?_, fun hn => ?_⟩
  · obtain ⟨r, -, hx⟩ := o1 i p hi hp
    rw [Nat.add_comm i] at hx
    exact ⟨_, hx⟩
  · obtain ⟨r, hr, -⟩ := o1 0 p hk hp
    refine ⟨r, hr, ?_⟩
    rw [hv]
    congr 1
    apply sum_of_equal_shares _ hk
    intro i hi
    obtain ⟨r2, hr2, hv2⟩ := o1 i p hi hp
    rw [hr] at hr2
    rw [← Option.some.inj hr2, Nat.add_comm i] at hv2
    rw [getD_of_all_ones hones (by omega)]
    simp [List.getD_eq_getElem?_getD, hv2]
  · obtain ⟨e, he, ⟨-, l2, -, l4, -⟩, -⟩ := init_entry hn h hw
    exact ⟨e, he, l2, l4⟩

/-- Witness of C14: the top segment of well `A` of the scenario, whose row of the matrix
consists of ones. -/
theorem init_segment_aggregation_witness :
    (exWells.head? = some exA ∧ WellStateMultiSegment.empty.segmentedWellMap_ = [] ∧
      init WellStateMultiSegment.empty exWells exPressure WellStateMultiSegment.empty none
        = Except.ok exFresh ∧
      exWells[0]? = some exA ∧ exA.wellControls.well_is_stopped = false ∧
      0 < exA.numberOfSegments ∧ 0 < exA.numberOfPhases) ∧
    ∃ row, exA.p2s_gather[0]? = some row ∧ row.length = exA.numberOfPerforations ∧
      exFresh.segphaserates_[exA.numberOfPhases * (segmentOffset exWells 0 + 0) + 0]? =
        some (((List.range exA.numberOfPerforations).map (fun i =>
          row.getD i 0 * exFresh.perfPhaseRates.getD
            (exA.numberOfPhases * (perforationOffset exWells 0 + i) + 0) 0)).sum) ∧
      (∀ i, i < exA.numberOfPerforations → ∃ x,
        exFresh.perfPhaseRates[exA.numberOfPhases * (perforationOffset exWells 0 + i) + 0]? =
          some x) ∧
      (0 = 0 → (∀ x, x ∈ row → x = 1) → 1 ≤ exA.numberOfPerforations →
        ∃ r, exFresh.wellRates[exA.numberOfPhases * 0 + 0]? = some r ∧
          exFresh.segphaserates_[exA.numberOfPhases * (segmentOffset exWells 0 + 0) + 0]? =
            some r) ∧
      ((exWells.map (fun v => v.name)).Nodup →
        ∃ e, mapFind exFresh.segmentedWellMap_ exA.name = some e ∧
          e.start_segment = segmentOffset exWells 0 ∧
          e.start_perforation = perforationOffset exWells 0) :=
  have hs : 0 < exA.numberOfSegments := by decide
  have hp : 0 < exA.numberOfPhases := by decide
  ⟨⟨rfl, rfl, exFresh_eq, rfl, rfl, hs, hp⟩,
    init_segment_aggregation WellStateMultiSegment.empty WellStateMultiSegment.empty exFresh
      exWells exPressure none exA exA 0 0 0 rfl rfl exFresh_eq rfl rfl hs hp⟩

/-- C18 (initial guess of the perforation pressures). Let `init`, called on a state whose
perforation vectors are empty, as those of a freshly constructed state are, and with a
previous state whose map is empty, return. Then for every perforation `i` of the `w`-th
well: if the well is open and multi-segmented, `perfPress[perforationStart + i]` is the
reservoir pressure of the cell of the perforation times 1.01 for an injector and times 0.99
for a producer; if the well is open and not multi-segmented, it is that pressure; if the
well is stopped, it is the fill value `-1.0e100`, and the phase rates of the perforation
are 0. -/
theorem init_perforation_pressure (self prevState st : WellStateMultiSegment)
    (wells : List WellMultiSegment) (pressure : List ℚ) (legacy : Option Nat)
    (well0 well : WellMultiSegment) (w i : Nat)
    (h0 : wells.head? = some well0)
    (hf1 : self.perfPress = []) (hf2 : self.perfPhaseRates = [])
    (hp0 : prevState.segmentedWellMap_ = [])
    (h : init self wells pressure prevState legacy = Except.ok st)
    (hw : wells[w]? = some well)
    (hi : i < well.numberOfPerforations) :
    (well.wellControls.well_is_stopped = false → well.isMultiSegmented = true →
      ∃ c x, well.wellCells[i]? = some c ∧ pressure[c]? = some x ∧
        (well.wellType = WellType.INJECTOR →
          st.perfPress[perforationOffset wells w + i]? = some (101 / 100 * x)) ∧
        (well.wellType = WellType.PRODUCER →
          st.perfPress[perforationOffset wells w + i]? = some (99 / 100 * x))) ∧
    (well.wellControls.well_is_stopped = false → well.isMultiSegmented = false →
      ∃ c x, well.wellCells[i]? = some c ∧ pressure[c]? = some x ∧
        st.perfPress[perforationOffset wells w + i]? = some x) ∧
    (well.wellControls.well_is_stopped = true →
      st.perfPress[perforationOffset wells w + i]? = some (-(10 ^ 100)) ∧
      ∀ p, p < well0.numberOfPhases →
        st.perfPhaseRates[well0.numberOfPhases * (perforationOffset wells w + i) + p]? =
          some 0) := by
  have hg := init_of_empty h0 hp0 h
  obtain ⟨a1, a2⟩ := initGuess_arrays hg w well hw
  refine ⟨fun hopen hm => ?_, fun hopen hm => ?_, fun hst => ?_⟩
  · obtain ⟨-, o2, -, -⟩ := a1 hopen
    obtain ⟨c, x, hc, hx, hv⟩ := o2 i hi
    rw [if_pos hm, Nat.add_comm i] at hv
    refine ⟨c, x, hc, hx, fun ht => ?_, fun ht => ?_⟩
    · rw [hv]
      simp [safety_factor, ht]
    · rw [hv]
      simp [safety_factor, ht]
  · obtain ⟨-, o2, -, -⟩ := a1 hopen
    obtain ⟨c, x, hc, hx, hv⟩ := o2 i hi
    rw [hm, Nat.add_comm i] at hv
    exact ⟨c, x, hc, hx, by simpa using hv⟩
  · obtain ⟨b1, b2⟩ := a2 hst (by simpa using hf1) (by simpa using hf2)
    exact ⟨b1 i hi, fun p hp => b2 i p hi hp⟩

/-- Witness of C18: the one perforation of the stopped well `C` of the scenario. -/
theorem init_perforation_pressure_witness :
    (exWells.head? = some exA ∧ WellStateMultiSegment.empty.perfPress = [] ∧
      WellStateMultiSegment.empty.perfPhaseRates = [] ∧
      WellStateMultiSegment.empty.segmentedWellMap_ = [] ∧
      init WellStateMultiSegment.empty exWells exPressure WellStateMultiSegment.empty none
        = Except.ok exFresh ∧
      exWells[2]? = some exC ∧ 0 < exC.numberOfPerforations ∧
      exC.wellControls.well_is_stopped = true) ∧
    exFresh.perfPress[perforationOffset exWells 2 + 0]? = some (-(10 ^ 100)) ∧
    ∀ p, p < exA.numberOfPhases →
      exFresh.perfPhaseRates[exA.numberOfPhases * (perforationOffset exWells 2 + 0) + p]? =
        some 0 :=
  have hi : 0 < exC.numberOfPerforations := by decide
  ⟨⟨rfl, rfl, rfl, rfl, exFresh_eq, rfl, hi, rfl⟩,
    (init_perforation_pressure WellStateMultiSegment.empty WellStateMultiSegment.empty exFresh
      exWells exPressure none exA exC 2 0 rfl rfl rfl rfl exFresh_eq rfl hi).2.2 rfl⟩

/-! ## C13, C15, C19, C20: the further scenarios, evaluated -/

theorem exTwo_eq :
    init WellStateMultiSegment.empty [exX, exY] exPressure WellStateMultiSegment.empty none
      = Except.ok exTwo := by
  with_unfolding_all rfl

theorem exSingle_eq :
    init WellStateMultiSegment.empty [exA] exPressure WellStateMultiSegment.empty none
      = Except.ok exSingle := by
  with_unfolding_all rfl

theorem exCleared_eq :
    init exPrev [] exPressure WellStateMultiSegment.empty none = Except.ok exCleared := by
  with_unfolding_all rfl

theorem exLone_eq :
    init WellStateMultiSegment.empty [exC] exPressure WellStateMultiSegment.empty none
      = Except.ok exLone := by
  with_unfolding_all rfl

theorem exStale_eq :
    init exPrev [exC] exPressure WellStateMultiSegment.empty none = Except.ok exStale := by
  with_unfolding_all rfl

theorem exReused_eq :
    init exUsed exWells exPressure exPrev none = Except.ok exReused := by
  with_unfolding_all rfl

/-- C13, as stated, fails. Well `X` is open and its second segment, which is not the top
one, has no perforation; its `start_perforation_segment` is 2, the number of perforations
of the well, and its sub-slice `[2, 2 + 0)` is empty. With an empty previous state `init`
returns; line 221 has read `perfPress[0 + 2]` when this element, the perforation of the next
well `Y`, still held the fill value, so that after `init` `segPress[0 + 1]` is the fill
value `-1.0e100` while `perfPress[0 + 2]` is 130. -/
theorem segment_pressure_counterexample :
    [exX, exY][0]? = some exX ∧ exX.wellControls.well_is_stopped = false ∧
    1 < exX.numberOfSegments ∧
    WellStateMultiSegment.empty.segmentedWellMap_ = [] ∧
    init WellStateMultiSegment.empty [exX, exY] exPressure WellStateMultiSegment.empty none
      = Except.ok exTwo ∧
    mapFind exTwo.segmentedWellMap_ exX.name = some ⟨0, 0, 2, 0, 2, [0, 2], [2, 0]⟩ ∧
    exTwo.segpress_[0 + 1]? = some sentinel ∧
    exTwo.perfPress[0 + 2]? = some 130 ∧
    exTwo.segpress_[0 + 1]? ≠ exTwo.perfPress[0 + 2]? ∧
    ¬ (2 ≤ 2 ∧ 2 < 2 + 0) := by
  refine ⟨rfl, rfl, by decide, rfl, exTwo_eq, by decide, rfl, rfl, ?_, by decide⟩
  simp only [exTwo, sentinel]
  norm_num

/-- C15, as stated, fails. Called with no wells on the state `exPrev`, which an earlier call
of `init` has left, `init` returns a state whose vectors `bhp`, `thp`, `wellRates`,
`currentControls` and `topSegmentLoc` and whose well map are those of `exPrev`, not
empty. -/
theorem empty_network_counterexample :
    init exPrev [] exPressure WellStateMultiSegment.empty none = Except.ok exCleared ∧
    exCleared.bhp = [808 / 5, 160] ∧ exCleared.thp = [808 / 5, 160] ∧
    exCleared.wellRates = [30, 0, 0, 0] ∧ exCleared.currentControls = [0, 1] ∧
    exCleared.top_segment_loc_ = [0, 2] ∧
    exCleared.segmentedWellMap_.map Prod.fst = ["B", "A"] ∧
    exCleared.bhp ≠ [] ∧ exCleared.segmentedWellMap_ ≠ [] := by
  refine ⟨exCleared_eq, rfl, rfl, rfl, rfl, rfl, rfl, ?_, ?_⟩
  · exact fun h => absurd (congrArg List.length h) (by decide)
  · exact fun h => absurd (congrArg List.length h) (by decide)

/-- C15 as amended (empty network). For every state `init` is called on and every previous
state, `init` with no wells returns; it leaves `perfPhaseRates`, `perfPress`,
`segPhaseRates` and `segPress` empty and sets `numSegments()` and `numPerforations()` to 0;
the vectors `bhp`, `thp`, `wellRates`, `currentControls`, `topSegmentLoc` and
`temperature` and the well map keep what the state held before the call, so that they are
empty if they were empty before, as in a freshly constructed state. -/
theorem init_empty_network (self prevState : WellStateMultiSegment) (pressure : List ℚ)
    (legacy : Option Nat) :
    ∃ st, init self [] pressure prevState legacy = Except.ok st ∧
      st.perfPhaseRates = [] ∧ st.perfPress = [] ∧ st.segphaserates_ = [] ∧
      st.segpress_ = [] ∧ st.nseg_ = 0 ∧ st.nperf_ = 0 ∧
      st.bhp = self.bhp ∧ st.thp = self.thp ∧ st.wellRates = self.wellRates ∧
      st.currentControls = self.currentControls ∧
      st.top_segment_loc_ = self.top_segment_loc_ ∧ st.temperature = self.temperature ∧
      st.segmentedWellMap_ = self.segmentedWellMap_ ∧
      init WellStateMultiSegment.empty [] pressure prevState none =
        Except.ok WellStateMultiSegment.empty :=
  ⟨_, rfl, rfl, rfl, rfl, rfl, rfl, rfl, rfl, rfl, rfl, rfl, rfl, rfl, rfl, rfl⟩

/-- C19: the indexing of `init` is not safe for all inputs the claim admits. Well `X` alone
passes the checks of `init` (its type is valid, the sizes of its perforation lists add up to
its two perforations) and its inputs have the dimensions asked for: two valid cells, two
perforation lists, two distribution factors, a matrix of two rows and two columns. Its
second segment has no perforation, so `start_perforation_segment[1]` is 2, and line 221
reads `perfPress()[0 + 2]` in a vector of two elements: in the embedding the step of lines
218-223 and `init` as a whole fail with `outOfRange`. The same holds for well `Z` alone, an
open well without segments, for which line 218 writes `segpress_[0]` in an empty vector. -/
theorem init_reads_out_of_range :
    [exX] ≠ [] ∧ validWellType exX = true ∧
    perforationOffsetInWell exX exX.numberOfSegments = exX.numberOfPerforations ∧
    exX.wellCells.length = exX.numberOfPerforations ∧
    (∀ c, c ∈ exX.wellCells → c < exPressure.length) ∧
    exX.segmentPerforations.length = exX.numberOfSegments ∧
    exX.wellControls.current_distr.length = exX.numberOfPhases ∧
    exX.p2s_gather.length = exX.numberOfSegments ∧
    (∀ row, row ∈ exX.p2s_gather → row.length = exX.numberOfPerforations) ∧
    buildMapEntry exX 0 0 0 SegmentedMapentryType.fresh
      = Except.ok ⟨0, 0, 2, 0, 2, [0, 2], [2, 0]⟩ ∧
    openSegPress ⟨0, 0, 2, 0, 2, [0, 2], [2, 0]⟩ 0 0 0 [20000000] [1089 / 10, 594 / 5]
      [sentinel, sentinel] = Except.error InitError.outOfRange ∧
    init WellStateMultiSegment.empty [exX] exPressure WellStateMultiSegment.empty none
      = Except.error InitError.outOfRange ∧
    validWellType exZ = true ∧
    perforationOffsetInWell exZ exZ.numberOfSegments = exZ.numberOfPerforations ∧
    exZ.wellCells.length = exZ.numberOfPerforations ∧
    exZ.segmentPerforations.length = exZ.numberOfSegments ∧
    exZ.wellControls.current_distr.length = exZ.numberOfPhases ∧
    exZ.p2s_gather.length = exZ.numberOfSegments ∧
    init WellStateMultiSegment.empty [exZ] exPressure WellStateMultiSegment.empty none
      = Except.error InitError.outOfRange := by
  refine ⟨by decide, rfl, rfl, rfl, by decide, rfl, rfl, rfl, by decide, ?_, ?_, ?_, rfl, rfl,
    rfl, rfl, rfl, rfl, ?_⟩
  · with_unfolding_all rfl
  · with_unfolding_all rfl
  · with_unfolding_all rfl
  · with_unfolding_all rfl

/-- C20, as stated, fails. The state `exPrev` is left over from an earlier call of `init`
with the wells `B` and `A`. For the stopped well `C` alone, with the same reservoir
pressures and the same, empty, previous state, `init` called on a default-constructed state
and `init` called on `exPrev` return states that differ: the phase rates of the well are
`[0, 0]` against `[30, 0]`, the perforation and segment values are the fill values against
those `exPrev` held, and the well map has one entry against three. -/
theorem init_depends_on_state_counterexample :
    init WellStateMultiSegment.empty exPrevWells exPressure WellStateMultiSegment.empty none
      = Except.ok exPrev ∧
    init WellStateMultiSegment.empty [exC] exPressure WellStateMultiSegment.empty none
      = Except.ok exLone ∧
    init exPrev [exC] exPressure WellStateMultiSegment.empty none = Except.ok exStale ∧
    exLone.wellRates = [0, 0] ∧ exStale.wellRates = [30, 0] ∧
    exLone.perfPress = [sentinel] ∧ exStale.perfPress = [808 / 5] ∧
    exLone.segmentedWellMap_.map Prod.fst = ["C"] ∧
    exStale.segmentedWellMap_.map Prod.fst = ["B", "A", "C"] ∧
    exLone.wellRates ≠ exStale.wellRates ∧
    exLone.segmentedWellMap_ ≠ exStale.segmentedWellMap_ ∧
    exLone ≠ exStale := by
  have hmap : exLone.segmentedWellMap_ ≠ exStale.segmentedWellMap_ :=
    fun h => absurd (congrArg List.length h) (by decide)
  refine ⟨exPrev_eq, exLone_eq, exStale_eq, rfl, rfl, rfl, rfl, rfl, rfl, ?_, hmap, ?_⟩
  · simp only [exLone, exStale]
    norm_num
  · exact fun h => hmap (congrArg WellStateMultiSegment.segmentedWellMap_ h)

/-! ## The initial guess returns for consistent inputs -/

/-- Rule for a loop whose rounds either return, keeping an invariant, or fail with the
error `e`. -/
theorem forUpTo_ok_or_error {σ : Type} (Inv : Nat → σ → Prop) (e : InitError) {n : Nat}
    {body : Nat → σ → M σ} {s : σ} (h0 : Inv 0 s)
    (hstep : ∀ i u, i < n → Inv i u →
      (∃ v, body i u = Except.ok v ∧ Inv (i + 1) v) ∨ body i u = Except.error e) :
    (∃ t, forUpTo n body s = Except.ok t ∧ Inv n t) ∨ forUpTo n body s = Except.error e := by
  induction n with
  | zero => exact Or.inl ⟨s, rfl, h0⟩
  | succ n ih =>
    rcases ih (fun i u hi => hstep i u (Nat.lt_succ_of_lt hi)) with ⟨u, hu, hinv⟩ | herr
    · rcases hstep n u (Nat.lt_succ_self n) hinv with ⟨v, hv, hinv2⟩ | hberr
      · exact Or.inl ⟨v, forUpTo_succ_eq_ok.mpr ⟨u, hu, hv⟩, hinv2⟩
      · right
        rw [forUpTo, hu]
        exact hberr
    · right
      rw [forUpTo, herr]

theorem segmentLayout_returns {well : WellMultiSegment} {n : Nat} {starts counts : List Nat}
    (hs : starts.length = n) (hc : counts.length = n)
    (hl : n ≤ well.segmentPerforations.length) :
    ∃ t, forUpTo n (segmentLayoutStep well) (0, starts, counts) = Except.ok t := by
  obtain ⟨t, ht, -⟩ := @forUpTo_returns (Nat × List Nat × List Nat)
    (fun _ u => u.2.1.length = n ∧ u.2.2.length = n) n (segmentLayoutStep well)
    (0, starts, counts) ⟨hs, hc⟩
    (fun i u hi ⟨h1, h2⟩ => by
      have hlt : i < well.segmentPerforations.length := by omega
      unfold segmentLayoutStep
      simp only [writeAt_eq_ok.mpr ⟨(by omega : i < u.2.1.length), rfl⟩,
        readAt_eq_ok.mpr (List.getElem?_eq_getElem hlt),
        writeAt_eq_ok.mpr ⟨(by omega : i < u.2.2.length), rfl⟩, ok_bind]
      exact ⟨_, rfl, by simpa using h1, by simpa using h2⟩)
  exact ⟨t, ht⟩

/-- The map entry of a well with one perforation list per segment: it is built when the
sizes of the lists add up to the number of perforations, and the assertion of line 141 fails
otherwise. -/
theorem buildMapEntry_outcome {well : WellMultiSegment} {w ss sp : Nat}
    {e0 : SegmentedMapentryType}
    (hl : well.segmentPerforations.length = well.numberOfSegments) :
    (SumsConsistent well → ∃ e, buildMapEntry well w ss sp e0 = Except.ok e) ∧
    (¬ SumsConsistent well →
      buildMapEntry well w ss sp e0 = Except.error InitError.assertPerforationCount) := by
  obtain ⟨t, ht⟩ := @segmentLayout_returns well well.numberOfSegments
    (resize e0.start_perforation_segment well.numberOfSegments 0)
    (resize e0.number_of_perforations_segment well.numberOfSegments 0)
    (length_resize _ _ _) (length_resize _ _ _) (by omega)
  have h1 := (segmentLayout_loop (length_resize _ _ _) (length_resize _ _ _) ht).1
  unfold buildMapEntry SumsConsistent
  simp only [ht, ok_bind, h1]
  refine ⟨fun hs => ?_, fun hs => ?_⟩
  · have : assertThat (perforationOffsetInWell well well.numberOfSegments ==
        well.numberOfPerforations) InitError.assertPerforationCount = Except.ok () :=
      assertThat_eq_ok.mpr (by simpa using hs)
    rw [this]
    exact ⟨_, rfl⟩
  · have hb : (perforationOffsetInWell well well.numberOfSegments ==
        well.numberOfPerforations) = false := by simpa using hs
    rw [hb]
    rfl

theorem stoppedBhp_returns {wells : List WellMultiSegment} {ctrl : WellControls}
    {pressure : List ℚ} {w : Nat} {bhp : List ℚ} (hw : w < bhp.length)
    (hc : ctrl.current_type ≠ WellControlType.BHP →
      ∃ well0 c x, wells[0]? = some well0 ∧ well0.wellCells[0]? = some c ∧
        pressure[c]? = some x) :
    ∃ out, stoppedBhp wells ctrl pressure w bhp = Except.ok out := by
  unfold stoppedBhp
  by_cases hb : ctrl.current_type = WellControlType.BHP
  · rw [if_pos hb]
    exact ⟨_, writeAt_eq_ok.mpr ⟨hw, rfl⟩⟩
  · rw [if_neg hb]
    obtain ⟨well0, c, x, h1, h2, h3⟩ := hc hb
    simp only [readAt_eq_ok.mpr h1, readAt_eq_ok.mpr h2, readAt_eq_ok.mpr h3, ok_bind]
    exact ⟨_, writeAt_eq_ok.mpr ⟨hw, rfl⟩⟩

theorem initThp_returns {ctrl : WellControls} {w : Nat} {bhp thp : List ℚ}
    (hb : w < bhp.length) (ht : w < thp.length) :
    ∃ out, initThp ctrl w bhp thp = Except.ok out := by
  unfold initThp
  by_cases hc : ctrl.current_type = WellControlType.THP
  · rw [if_pos hc]
    exact ⟨_, writeAt_eq_ok.mpr ⟨ht, rfl⟩⟩
  · rw [if_neg hc]
    simp only [readAt_eq_ok.mpr (List.getElem?_eq_getElem hb), ok_bind]
    exact ⟨_, writeAt_eq_ok.mpr ⟨ht, rfl⟩⟩

theorem openWellRates_returns {well : WellMultiSegment} {np w : Nat} {wellRates : List ℚ}
    (hr : np * w + np ≤ wellRates.length)
    (hd : np ≤ well.wellControls.current_distr.length) :
    ∃ out, openWellRates well np w wellRates = Except.ok out := by
  unfold openWellRates
  by_cases hc : well.wellControls.current_type = WellControlType.SURFACE_RATE
  · rw [if_pos hc]
    apply writeLoop_returns
    · intro p hp
      omega
    · intro p hp
      have hlt : p < well.wellControls.current_distr.length := by omega
      exact ⟨_, by rw [readAt_eq_ok.mpr (List.getElem?_eq_getElem hlt)]; rfl⟩
  · rw [if_neg hc]
    apply writeLoop_returns
    · intro p hp
      omega
    · intro p hp
      exact ⟨_, rfl⟩

theorem openBhp_returns {well : WellMultiSegment} {pressure : List ℚ} {w : Nat}
    {bhp : List ℚ} (hw : w < bhp.length)
    (hc : well.wellControls.current_type ≠ WellControlType.BHP →
      ∃ c x, well.wellCells[0]? = some c ∧ pressure[c]? = some x) :
    ∃ out, openBhp well pressure w bhp = Except.ok out := by
  unfold openBhp
  by_cases hb : well.wellControls.current_type = WellControlType.BHP
  · rw [if_pos hb]
    exact ⟨_, writeAt_eq_ok.mpr ⟨hw, rfl⟩⟩
  · rw [if_neg hb]
    obtain ⟨c, x, h1, h2⟩ := hc hb
    simp only [readAt_eq_ok.mpr h1, readAt_eq_ok.mpr h2, ok_bind]
    exact ⟨_, writeAt_eq_ok.mpr ⟨hw, rfl⟩⟩

/-- A valid cell: the pressure of a cell of a well with consistent dimensions is there. -/
theorem cell_pressure {np : Nat} {pressure : List ℚ} {well : WellMultiSegment}
    (hd : DimensionsConsistent np pressure well) {i : Nat}
    (hi : i < well.numberOfPerforations) :
    ∃ c x, well.wellCells[i]? = some c ∧ pressure[c]? = some x := by
  obtain ⟨-, d2, d3, -⟩ := hd
  have hlt : i < well.wellCells.length := by omega
  have hc := d3 _ (List.getElem_mem hlt)
  exact ⟨_, _, List.getElem?_eq_getElem hlt, List.getElem?_eq_getElem hc⟩

theorem perfLoop_returns {well : WellMultiSegment} {np w sp nperf n : Nat}
    {pressure wellRates a b : List ℚ}
    (h1 : np * (sp + n) ≤ a.length) (h2 : sp + n ≤ b.length)
    (h3 : np * w + np ≤ wellRates.length)
    (h4 : ∀ i, i < n → ∃ c x, well.wellCells[i]? = some c ∧ pressure[c]? = some x) :
    ∃ t, forUpTo n (perfStep well np w sp nperf pressure wellRates) (a, b) = Except.ok t ∧
      t.1.length = a.length ∧ t.2.length = b.length := by
  apply @forUpTo_returns (List ℚ × List ℚ)
    (fun _ u => u.1.length = a.length ∧ u.2.length = b.length) n
    (perfStep well np w sp nperf pressure wellRates) (a, b) ⟨rfl, rfl⟩
  intro i u hi ⟨l1, l2⟩
  obtain ⟨c, x, hc, hx⟩ := h4 i hi
  obtain ⟨rates, hrates⟩ := @writeLoop_returns ℚ np (fun p => np * (i + sp) + p)
    (fun p => (readAt wellRates (np * w + p)).bind
      (fun r => Except.ok (r / (nperf : ℚ)))) u.1
    (fun p hp => by
      have := @slot_lt np (i + sp) (sp + n) p (by omega) hp
      simp only
      omega)
    (fun p hp => by
      have hlt : np * w + p < wellRates.length := by omega
      refine ⟨wellRates[np * w + p] / (nperf : ℚ), ?_⟩
      show (readAt wellRates (np * w + p)).bind _ = _
      rw [readAt_eq_ok.mpr (List.getElem?_eq_getElem hlt)]
      rfl)
  have hlen := (writeLoop_eq_ok hrates).1
  unfold perfStep
  simp only [hrates, readAt_eq_ok.mpr hc, readAt_eq_ok.mpr hx, ok_bind,
    writeAt_eq_ok.mpr ⟨(by omega : i + sp < u.2.length), rfl⟩]
  exact ⟨_, rfl, by simpa using hlen.trans l1, by simpa using l2⟩

theorem openSegPress_returns {e : SegmentedMapentryType} {ss sp w : Nat}
    {bhp perfPress segpress : List ℚ}
    (hw : w < bhp.length) (hs : ss < segpress.length)
    (hs2 : ss + e.number_of_segments ≤ segpress.length)
    (hoff : ∀ s, 1 ≤ s → s < e.number_of_segments →
      ∃ off, e.start_perforation_segment[s]? = some off ∧ sp + off < perfPress.length) :
    ∃ out, openSegPress e ss sp w bhp perfPress segpress = Except.ok out := by
  unfold openSegPress
  simp only [readAt_eq_ok.mpr (List.getElem?_eq_getElem hw), ok_bind,
    writeAt_eq_ok.mpr ⟨hs, rfl⟩]
  apply writeLoop_returns
  · intro k hk
    simp only [List.length_set]
    omega
  · intro k hk
    obtain ⟨off, ho, hlt⟩ := hoff (k + 1) (by omega) (by omega)
    exact ⟨_, by
      rw [readAt_eq_ok.mpr ho]
      exact readAt_eq_ok.mpr (List.getElem?_eq_getElem hlt)⟩

theorem matVec_returns {g : List (List ℚ)} {v : List ℚ}
    (h : ∀ row, row ∈ g → row.length = v.length) :
    ∃ out, matVec g v = Except.ok out ∧ out.length = g.length := by
  unfold matVec
  have hall : g.all (fun row => row.length == v.length) = true := by
    rw [List.all_eq_true]
    intro row hrow
    simpa using h row hrow
  rw [if_pos hall]
  exact ⟨_, rfl, by simp⟩

theorem segRatesStep_returns {well : WellMultiSegment} {np ss sp nseg nperf p : Nat}
    {perfPhaseRates seg : List ℚ} (hp : p < np)
    (h1 : np * (sp + nperf) ≤ perfPhaseRates.length)
    (h2 : np * (ss + nseg) ≤ seg.length)
    (hg : nseg ≤ well.p2s_gather.length)
    (hrow : ∀ row, row ∈ well.p2s_gather → row.length = nperf) :
    ∃ out, segRatesStep well np ss sp nseg nperf perfPhaseRates p seg = Except.ok out ∧
      out.length = seg.length := by
  obtain ⟨v, hv⟩ := @writeLoop_returns ℚ nperf (fun i => i)
    (fun i => readAt perfPhaseRates (np * (i + sp) + p)) (List.replicate nperf 0)
    (fun i hi => by simpa using hi)
    (fun i hi => by
      have := @slot_lt np (i + sp) (sp + nperf) p (by omega) hp
      have hlt : np * (i + sp) + p < perfPhaseRates.length := by omega
      exact ⟨_, readAt_eq_ok.mpr (List.getElem?_eq_getElem hlt)⟩)
  have hvlen : v.length = nperf := by
    have := (writeLoop_eq_ok hv).1
    simpa using this
  obtain ⟨vs, hvs, hvslen⟩ := @matVec_returns well.p2s_gather v
    (fun row hmem => by rw [hrow row hmem, hvlen])
  obtain ⟨out, hout⟩ := @writeLoop_returns ℚ nseg (fun i => np * (i + ss) + p)
    (fun i => readAt vs i) seg
    (fun i hi => by
      have := @slot_lt np (i + ss) (ss + nseg) p (by omega) hp
      simp only
      omega)
    (fun i hi => by
      have hlt : i < vs.length := by omega
      exact ⟨_, readAt_eq_ok.mpr (List.getElem?_eq_getElem hlt)⟩)
  unfold segRatesStep
  simp only [hv, hvs, ok_bind]
  exact ⟨out, hout, (writeLoop_eq_ok hout).1⟩

theorem segRatesLoop_returns {well : WellMultiSegment} {np ss sp nseg nperf : Nat}
    {perfPhaseRates seg : List ℚ}
    (h1 : np * (sp + nperf) ≤ perfPhaseRates.length)
    (h2 : np * (ss + nseg) ≤ seg.length)
    (hg : nseg ≤ well.p2s_gather.length)
    (hrow : ∀ row, row ∈ well.p2s_gather → row.length = nperf) :
    ∃ t, forUpTo np (segRatesStep well np ss sp nseg nperf perfPhaseRates) seg
      = Except.ok t := by
  obtain ⟨t, ht, -⟩ := @forUpTo_returns (List ℚ) (fun _ u => u.length = seg.length) np
    (segRatesStep well np ss sp nseg nperf perfPhaseRates) seg rfl
    (fun p u hp hlen => by
      obtain ⟨out, hout, hl⟩ := @segRatesStep_returns well np ss sp nseg nperf p
        perfPhaseRates u hp h1 (by rw [hlen]; exact h2) hg hrow
      exact ⟨out, hout, hl.trans hlen⟩)
  exact ⟨t, ht⟩

theorem initStopped_returns {wells : List WellMultiSegment} {well : WellMultiSegment}
    {pressure : List ℚ} {w : Nat} {st : WellStateMultiSegment}
    (b1 : w < st.bhp.length) (b2 : w < st.thp.length)
    (hc : well.wellControls.current_type ≠ WellControlType.BHP →
      ∃ well0 c x, wells[0]? = some well0 ∧ well0.wellCells[0]? = some c ∧
        pressure[c]? = some x) :
    ∃ out, initStopped wells well pressure w st = Except.ok out := by
  obtain ⟨bhp, hb⟩ := @stoppedBhp_returns wells well.wellControls pressure w st.bhp b1 hc
  have hlen : bhp.length = st.bhp.length := by
    obtain ⟨-, x, rfl, -⟩ := stoppedBhp_eq_ok hb
    simp
  obtain ⟨thp, ht⟩ := @initThp_returns well.wellControls w bhp st.thp (by omega) b2
  unfold initStopped
  simp only [hb, ht, ok_bind]
  exact ⟨_, rfl⟩

theorem initOpen_returns {well : WellMultiSegment}
    {e : SegmentedMapentryType} {np : Nat} {pressure : List ℚ} {w ss sp : Nat}
    {st : WellStateMultiSegment}
    (he3 : e.number_of_segments = well.numberOfSegments)
    (he5 : e.number_of_perforations = well.numberOfPerforations)
    (hstart : ∀ s, s < well.numberOfSegments →
      e.start_perforation_segment[s]? = some (perforationOffsetInWell well s))
    (hd : DimensionsConsistent np pressure well)
    (t1 : ss < st.segpress_.length)
    (t2 : ∀ s, 1 ≤ s → s < well.numberOfSegments →
      sp + perforationOffsetInWell well s < st.perfPress.length)
    (t3 : well.wellControls.current_type ≠ WellControlType.BHP →
      1 ≤ well.numberOfPerforations)
    (b1 : w < st.bhp.length) (b2 : w < st.thp.length)
    (b3 : np * w + np ≤ st.wellRates.length)
    (b4 : sp + well.numberOfPerforations ≤ st.perfPress.length)
    (b5 : np * (sp + well.numberOfPerforations) ≤ st.perfPhaseRates.length)
    (b6 : ss + well.numberOfSegments ≤ st.segpress_.length)
    (b7 : np * (ss + well.numberOfSegments) ≤ st.segphaserates_.length) :
    ∃ out, initOpen well e np pressure w ss sp st = Except.ok out := by
  have hd2 := hd
  obtain ⟨d1, d2, d3, d4, d5, d6⟩ := hd
  obtain ⟨wellRates, hr⟩ := @openWellRates_returns well np w st.wellRates b3 (by omega)
  have hrlen := (openWellRates_eq_ok hr).1
  obtain ⟨bhp, hb⟩ := @openBhp_returns well pressure w st.bhp b1
    (fun hne => cell_pressure hd2 (t3 hne))
  have hblen : bhp.length = st.bhp.length := by
    obtain ⟨-, x, rfl, -⟩ := openBhp_eq_ok hb
    simp
  obtain ⟨thp, hthp⟩ := @initThp_returns well.wellControls w bhp st.thp (by omega) b2
  obtain ⟨perfs, hperfs, hl1, hl2⟩ := @perfLoop_returns well np w sp
    well.numberOfPerforations well.numberOfPerforations pressure wellRates
    st.perfPhaseRates st.perfPress b5 b4 (by omega) (fun i hi => cell_pressure hd2 hi)
  obtain ⟨segpress, hsp⟩ := @openSegPress_returns e ss sp w bhp perfs.2 st.segpress_
    (by omega) t1 (by omega)
    (fun s hs1 hs2 => by
      rw [he3] at hs2
      exact ⟨_, hstart s hs2, by have := t2 s hs1 hs2; omega⟩)
  obtain ⟨segrates, hsr⟩ := @segRatesLoop_returns well np ss sp well.numberOfSegments
    well.numberOfPerforations perfs.1 st.segphaserates_ (by omega) b7 (by omega) d6
  unfold initOpen
  simp only [hr, hb, hthp, he5, he3, hperfs, hsp, hsr, ok_bind]
  exact ⟨_, rfl⟩

/-- A well with a consistent topology is indexed safely wherever it stands in the
sequence. -/
theorem indexSafe_of_topology {wells : List WellMultiSegment} {w : Nat}
    {well : WellMultiSegment} (hw : wells[w]? = some well)
    (ht : TopologyConsistent wells well) : IndexSafe wells w well := by
  have hlt := lt_length_of_getElem? hw
  have hse := segmentOffset_add_le hw hlt
  have hpe := perforationOffset_add_le hw hlt
  obtain ⟨t1, t2, t3, t4⟩ := ht
  exact ⟨fun hop => by have := t1 hop; omega,
    fun hop s h1 h2 => by have := t2 hop s h1 h2; omega, t3, t4⟩

/-- One round of the loop over the wells, for a well with a valid type and inputs of
consistent dimensions in a state with room for the wells: the round returns when the sizes
of the perforation lists add up to the number of perforations and the well is indexed
safely, and the assertion of line 141 fails when they do not add up. -/
theorem initWell_outcome {wells : List WellMultiSegment} {np : Nat} {pressure : List ℚ}
    {w : Nat} {L : InitLoop} {well : WellMultiSegment}
    (hw : wells[w]? = some well) (hv : validWellType well = true)
    (hdim : ∀ v, v ∈ wells → DimensionsConsistent np pressure v)
    (hsafe : SumsConsistent well → IndexSafe wells w well)
    (hsz : Sized wells np L.st)
    (hss : L.start_segment = segmentOffset wells w)
    (hsp : L.start_perforation = perforationOffset wells w) :
    (SumsConsistent well → ∃ out, initWell wells np pressure w L = Except.ok out) ∧
    (¬ SumsConsistent well →
      initWell wells np pressure w L = Except.error InitError.assertPerforationCount) := by
  have hlt := lt_length_of_getElem? hw
  have hmem : well ∈ wells := List.getElem?_mem hw
  have hd := hdim well hmem
  obtain ⟨z1, z2, z3, z4, z5, z6, z7, z8⟩ := hsz
  obtain ⟨o1, o2⟩ := @buildMapEntry_outcome well w L.start_segment L.start_perforation
    ((mapFind L.st.segmentedWellMap_ well.name).getD SegmentedMapentryType.fresh) hd.1
  unfold initWell
  simp only [readAt_eq_ok.mpr hw,
    (@assertThat_eq_ok (validWellType well) InitError.assertWellType ()).mpr hv, ok_bind,
    writeAt_eq_ok.mpr ⟨(by omega : w < L.st.top_segment_loc_.length), rfl⟩]
  refine ⟨fun hs => ?_, fun hs => ?_⟩
  · obtain ⟨e, he⟩ := o1 hs
    obtain ⟨i1, i2, i3, i4⟩ := hsafe hs
    obtain ⟨-, -, e3, -, e5, hlay⟩ := buildMapEntry_eq_ok he
    have hse := segmentOffset_add_le hw hlt
    have hpe := perforationOffset_add_le hw hlt
    have hse2 : np * (segmentOffset wells w + well.numberOfSegments) ≤
        np * segmentOffset wells wells.length := Nat.mul_le_mul_left np hse
    have hpe2 : np * (perforationOffset wells w + well.numberOfPerforations) ≤
        np * perforationOffset wells wells.length := Nat.mul_le_mul_left np hpe
    have hr : np * w + np ≤ np * wells.length := by
      have := Nat.mul_le_mul_left np (show w + 1 ≤ wells.length from hlt)
      rw [Nat.mul_succ] at this
      exact this
    simp only [he, ok_bind]
    have hval : ∃ st2, initValues wells well e np pressure w L.start_segment
        L.start_perforation
        { L.st with segmentedWellMap_ := mapSet L.st.segmentedWellMap_ well.name e,
                    top_segment_loc_ := L.st.top_segment_loc_.set w L.start_segment }
          = Except.ok st2 := by
      unfold initValues
      by_cases hst : well.wellControls.well_is_stopped = true
      · rw [if_pos hst]
        apply initStopped_returns
        · simp only
          omega
        · simp only
          omega
        · intro hne
          obtain ⟨well0, h0, hk⟩ := i4 hst hne
          have hw0 : wells[0]? = some well0 := by
            cases wells with
            | nil => simp at h0
            | cons a rest => simpa using h0
          obtain ⟨c, x, h1, h2⟩ := cell_pressure (hdim well0 (List.getElem?_mem hw0)) hk
          exact ⟨well0, c, x, hw0, h1, h2⟩
      · rw [if_neg hst]
        have hop : well.wellControls.well_is_stopped = false := by simpa using hst
        rw [hss, hsp]
        have j1 := i1 hop
        apply initOpen_returns e3 e5 (segmentLayout_offsets hlay).2 hd ?_
          (fun s h1 h2 => by
            have := i2 hop s h1 h2
            simp only
            omega) (i3 hop)
        all_goals simp only
        all_goals omega
    obtain ⟨st2, hst2⟩ := hval
    rw [hst2]
    exact ⟨_, rfl⟩
  · rw [o2 hs]
    rfl

/-- The state keeps its room for the wells through a round of the loop. -/
theorem sized_of_sameSizes {wells : List WellMultiSegment} {np : Nat}
    {a b : WellStateMultiSegment} (h : SameSizes a b) (hb : Sized wells np b) :
    Sized wells np a := by
  obtain ⟨a1, a2, a3, a4, a5, a6, a7, a8, a9, a10⟩ := h
  obtain ⟨z1, z2, z3, z4, z5, z6, z7, z8⟩ := hb
  exact ⟨by omega, by omega, by omega, by omega, by omega, by omega, by omega, by omega⟩

/-- The loop over the wells, for wells with valid types and consistent inputs: it returns
when every well has consistent sums, and the assertion of line 141 fails otherwise. -/
theorem mainLoop_outcome {wells : List WellMultiSegment} {np : Nat} {pressure : List ℚ}
    {s : WellStateMultiSegment}
    (hv : ∀ well, well ∈ wells → validWellType well = true)
    (hc : ConsistentInputs wells np pressure) (hsz : Sized wells np s) :
    ((∀ well, well ∈ wells → SumsConsistent well) →
      ∃ L, forUpTo wells.length (initWell wells np pressure) ⟨0, 0, s⟩ = Except.ok L) ∧
    ((∃ well, well ∈ wells ∧ ¬ SumsConsistent well) →
      forUpTo wells.length (initWell wells np pressure) ⟨0, 0, s⟩ =
        Except.error InitError.assertPerforationCount) := by
  have key := @forUpTo_ok_or_error InitLoop
    (fun m K => Sized wells np K.st ∧ K.start_segment = segmentOffset wells m ∧
      K.start_perforation = perforationOffset wells m ∧
      ∀ v, v < m → ∀ well, wells[v]? = some well → SumsConsistent well)
    InitError.assertPerforationCount wells.length (initWell wells np pressure) ⟨0, 0, s⟩
    ⟨hsz, (segmentOffset_zero wells).symm, (perforationOffset_zero wells).symm,
      fun v hv0 => absurd hv0 (Nat.not_lt_zero v)⟩
    (fun i K hi ⟨k1, k2, k3, k4⟩ => by
      have hw : wells[i]? = some wells[i] := List.getElem?_eq_getElem hi
      obtain ⟨o1, o2⟩ := @initWell_outcome wells np pressure i K wells[i] hw
        (hv _ (List.getElem_mem hi)) (fun v hv2 => (hc v hv2).1)
        (fun _ => indexSafe_of_topology hw (hc _ (List.getElem_mem hi)).2) k1 k2 k3
      by_cases hs : SumsConsistent wells[i]
      · obtain ⟨out, hout⟩ := o1 hs
        left
        obtain ⟨well, e, hw2, -, -, -, e1, e2, -⟩ := initWell_eq_ok hout
        rw [hw] at hw2
        have hwe := Option.some.inj hw2
        refine ⟨out, hout, sized_of_sameSizes (initWell_lengths hout) k1, ?_, ?_, ?_⟩
        · rw [segmentOffset_succ hw, e1, k2, hwe]
        · rw [perforationOffset_succ hw, e2, k3, hwe]
        · intro v hv1 well2 hw3
          rcases Nat.lt_succ_iff_lt_or_eq.mp hv1 with hlt | rfl
          · exact k4 v hlt well2 hw3
          · rw [hw] at hw3
            rw [← Option.some.inj hw3]
            exact hs
      · exact Or.inr (o2 hs))
  refine ⟨fun hall => ?_, fun ⟨well, hmem, hbad⟩ => ?_⟩
  · obtain ⟨t, ht, -⟩ := @forUpTo_returns InitLoop
      (fun m K => Sized wells np K.st ∧ K.start_segment = segmentOffset wells m ∧
        K.start_perforation = perforationOffset wells m) wells.length
      (initWell wells np pressure) ⟨0, 0, s⟩
      ⟨hsz, (segmentOffset_zero wells).symm, (perforationOffset_zero wells).symm⟩
      (fun i K hi ⟨k1, k2, k3⟩ => by
        have hw : wells[i]? = some wells[i] := List.getElem?_eq_getElem hi
        obtain ⟨o1, -⟩ := @initWell_outcome wells np pressure i K wells[i] hw
          (hv _ (List.getElem_mem hi)) (fun v hv2 => (hc v hv2).1)
          (fun _ => indexSafe_of_topology hw (hc _ (List.getElem_mem hi)).2) k1 k2 k3
        obtain ⟨out, hout⟩ := o1 (hall _ (List.getElem_mem hi))
        obtain ⟨well, e, hw2, -, -, -, e1, e2, -⟩ := initWell_eq_ok hout
        rw [hw] at hw2
        have hwe := Option.some.inj hw2
        refine ⟨out, hout, sized_of_sameSizes (initWell_lengths hout) k1, ?_, ?_⟩
        · rw [segmentOffset_succ hw, e1, k2, hwe]
        · rw [perforationOffset_succ hw, e2, k3, hwe])
    exact ⟨t, ht⟩
  · rcases key with ⟨L, hL, -, -, -, k4⟩ | herr
    · exfalso
      obtain ⟨v, hv1, hv2⟩ := List.getElem_of_mem hmem
      apply hbad
      apply k4 v hv1 well
      rw [← hv2]
      exact List.getElem?_eq_getElem hv1
    · exact herr

theorem setCurrentControls_returns {wells : List WellMultiSegment} {cc : List Int}
    (h : wells.length ≤ cc.length) : ∃ out, setCurrentControls wells cc = Except.ok out := by
  unfold setCurrentControls
  apply writeLoop_returns
  · intro i hi
    omega
  · intro i hi
    refine ⟨wells[i].wellControls.current, ?_⟩
    show (readAt wells i).bind _ = _
    rw [readAt_eq_ok.mpr (List.getElem?_eq_getElem hi)]
    rfl

/-- The loop of lines 104-106 returns when every well has a valid type, and its assertion
fails otherwise. -/
theorem checkWellTypes_outcome (wells : List WellMultiSegment) :
    ((∀ well, well ∈ wells → validWellType well = true) →
      checkWellTypes wells = Except.ok ()) ∧
    ((∃ well, well ∈ wells ∧ validWellType well = false) →
      checkWellTypes wells = Except.error InitError.assertWellType) := by
  have key := @forUpTo_ok_or_error Unit
    (fun m _ => ∀ v, v < m → ∀ well, wells[v]? = some well → validWellType well = true)
    InitError.assertWellType wells.length
    (fun iw _ => (readAt wells iw).bind
      (fun well => assertThat (validWellType well) InitError.assertWellType)) ()
    (fun v hv0 => absurd hv0 (Nat.not_lt_zero v))
    (fun i u hi hinv => by
      have hw : wells[i]? = some wells[i] := List.getElem?_eq_getElem hi
      by_cases hv : validWellType wells[i] = true
      · left
        refine ⟨(), ?_, ?_⟩
        · show (readAt wells i).bind _ = _
          rw [readAt_eq_ok.mpr hw]
          exact assertThat_eq_ok.mpr hv
        · intro v hv1 well hw2
          rcases Nat.lt_succ_iff_lt_or_eq.mp hv1 with hlt | rfl
          · exact hinv v hlt well hw2
          · rw [hw] at hw2
            rw [← Option.some.inj hw2]
            exact hv
      · right
        show (readAt wells i).bind _ = _
        rw [readAt_eq_ok.mpr hw]
        have hf : validWellType wells[i] = false := by simpa using hv
        show assertThat (validWellType wells[i]) InitError.assertWellType = _
        rw [hf]
        rfl)
  unfold checkWellTypes
  refine ⟨fun hall => ?_, fun ⟨well, hmem, hbad⟩ => ?_⟩
  · rcases key with ⟨t, ht, -⟩ | herr
    · exact ht
    · exfalso
      obtain ⟨t, ht, -⟩ := @forUpTo_returns Unit (fun _ _ => True) wells.length
        (fun iw _ => (readAt wells iw).bind
          (fun well => assertThat (validWellType well) InitError.assertWellType)) () trivial
        (fun i u hi _ => by
          refine ⟨(), ?_, trivial⟩
          show (readAt wells i).bind _ = _
          rw [readAt_eq_ok.mpr (List.getElem?_eq_getElem hi)]
          exact assertThat_eq_ok.mpr (hall _ (List.getElem_mem hi)))
      rw [ht] at herr
      cases herr
  · rcases key with ⟨t, ht, hinv⟩ | herr
    · exfalso
      obtain ⟨v, hv1, hv2⟩ := List.getElem_of_mem hmem
      have := hinv v hv1 well (by rw [← hv2]; exact List.getElem?_eq_getElem hv1)
      rw [hbad] at this
      cases this
    · exact herr

/-- The state the loop over the wells starts from has room for the wells. -/
theorem sized_resizeVectors (wells : List WellMultiSegment) (np : Nat)
    (s0 : WellStateMultiSegment) (cc : List Int) :
    Sized wells np
      (resizeVectors wells.length np { countSizes wells s0 with currentControls := cc }) := by
  simp only [Sized, resizeVectors, countSizes_eq, length_resize]
  refine ⟨Nat.le_refl _, Nat.le_refl _, Nat.le_refl _, ?_, by omega, ?_, by omega, ?_⟩
  · rw [Nat.mul_comm]
  · rw [Nat.add_mul, Nat.mul_comm np]
    omega
  · rw [Nat.add_mul, Nat.mul_comm np]
    omega

/-- The outcome of the initial guess: the assertion of line 105 fails when some well has
no valid type; for consistent inputs and valid types the assertion of line 141 fails when
some well has inconsistent sums, and the initial guess returns otherwise. -/
theorem initGuess_outcome (wells : List WellMultiSegment) (np : Nat) (pressure : List ℚ)
    (s0 : WellStateMultiSegment) :
    ((∃ well, well ∈ wells ∧ validWellType well = false) →
      initGuess wells np pressure s0 = Except.error InitError.assertWellType) ∧
    (ConsistentInputs wells np pressure →
      (∀ well, well ∈ wells → validWellType well = true) →
      (∃ well, well ∈ wells ∧ ¬ SumsConsistent well) →
      initGuess wells np pressure s0 = Except.error InitError.assertPerforationCount) ∧
    (ConsistentInputs wells np pressure →
      (∀ well, well ∈ wells → validWellType well = true) →
      (∀ well, well ∈ wells → SumsConsistent well) →
      ∃ st, initGuess wells np pressure s0 = Except.ok st) := by
  obtain ⟨cc, hcc⟩ := @setCurrentControls_returns wells
    (resize (countSizes wells s0).currentControls wells.length 0)
    (by rw [length_resize])
  obtain ⟨c1, c2⟩ := checkWellTypes_outcome wells
  unfold initGuess
  simp only [hcc, ok_bind]
  refine ⟨fun hbad => ?_, fun hc hv hbad => ?_, fun hc hv hall => ?_⟩
  · rw [c2 hbad]
    rfl
  · rw [c1 hv, ok_bind, (mainLoop_outcome hv hc (sized_resizeVectors wells np s0 cc)).2 hbad]
    rfl
  · obtain ⟨L, hL⟩ := (mainLoop_outcome hv hc (sized_resizeVectors wells np s0 cc)).1 hall
    obtain ⟨cc2, hcc2⟩ := @setCurrentControls_returns wells
      (resize L.st.currentControls wells.length 0) (by rw [length_resize])
    rw [c1 hv, ok_bind, hL, ok_bind, hcc2]
    exact ⟨_, rfl⟩

/-- The outcome of `init` for a non-empty sequence of wells: the assertion of line 105 fails
when some well has no valid type; for consistent inputs and valid types the assertion of
line 141 fails when some well has inconsistent sums; otherwise, for distinct names and a
well-formed previous state, `init` returns. -/
theorem init_outcome {self prevState : WellStateMultiSegment}
    {wells : List WellMultiSegment} {pressure : List ℚ} {legacy : Option Nat}
    {well0 : WellMultiSegment} (h0 : wells.head? = some well0) :
    ((∃ well, well ∈ wells ∧ validWellType well = false) →
      init self wells pressure prevState legacy = Except.error InitError.assertWellType) ∧
    (ConsistentInputs wells well0.numberOfPhases pressure →
      (∀ well, well ∈ wells → validWellType well = true) →
      (∃ well, well ∈ wells ∧ ¬ SumsConsistent well) →
      init self wells pressure prevState legacy =
        Except.error InitError.assertPerforationCount) ∧
    (ConsistentInputs wells well0.numberOfPhases pressure →
      (∀ well, well ∈ wells → validWellType well = true) →
      (∀ well, well ∈ wells → SumsConsistent well) →
      (prevState.segmentedWellMap_ = [] ∨
        ((wells.map (fun v => v.name)).Nodup ∧
          PrevWellFormed well0.numberOfPhases prevState)) →
      ∃ st, init self wells pressure prevState legacy = Except.ok st) := by
  cases wells with
  | nil => simp at h0
  | cons a rest =>
    simp only [List.head?_cons, Option.some.injEq] at h0
    subst h0
    obtain ⟨g1, g2, g3⟩ := initGuess_outcome (a :: rest) a.numberOfPhases pressure
      { self with wells_ := legacy, nseg_ := 0, nperf_ := 0 }
    unfold init
    refine ⟨fun hbad => ?_, fun hc hv hbad => ?_, fun hc hv hall hprev => ?_⟩
    · simp only
      rw [g1 hbad]
      rfl
    · simp only
      rw [g2 hc hv hbad]
      rfl
    · obtain ⟨st0, hst0⟩ := g3 hc hv hall
      simp only
      rw [hst0]
      rcases hprev with hp | ⟨hn, hwf⟩
      · refine ⟨st0, ?_⟩
        show carryOver (a :: rest) a.numberOfPhases prevState st0 = _
        unfold carryOver
        rw [hp]
        rfl
      · obtain ⟨st, hst⟩ := carryOver_returns hn hst0 hwf
        exact ⟨st, hst⟩

/-! ## Which errors the steps of `init` can fail with -/

theorem bind_eq_error {α β : Type} {x : M α} {f : α → M β} {e : InitError} :
    x.bind f = Except.error e ↔
      x = Except.error e ∨ ∃ a, x = Except.ok a ∧ f a = Except.error e := by
  cases x <;> simp [Except.bind]

theorem bind_eq_error2 {α β : Type} {x : M α} {f : α → M β} {e : InitError} :
    (x >>= f) = Except.error e ↔
      x = Except.error e ∨ ∃ a, x = Except.ok a ∧ f a = Except.error e := by
  cases x <;> simp [bind, Except.bind]

theorem not_isAssertion_outOfRange : ¬ IsAssertion InitError.outOfRange := by
  intro h
  rcases h with h | h | h <;> cases h

theorem not_isAssertion_dimensionMismatch : ¬ IsAssertion InitError.dimensionMismatch := by
  intro h
  rcases h with h | h | h <;> cases h

theorem readAt_error {α : Type} {v : List α} {i : Nat} {e : InitError}
    (h : readAt v i = Except.error e) : ¬ IsAssertion e := by
  unfold readAt at h
  split at h
  · cases h
  · cases h
    exact not_isAssertion_outOfRange

theorem writeAt_error {α : Type} {v : List α} {i : Nat} {x : α} {e : InitError}
    (h : writeAt v i x = Except.error e) : ¬ IsAssertion e := by
  unfold writeAt at h
  split at h
  · cases h
  · cases h
    exact not_isAssertion_outOfRange

theorem assertThat_error {c : Bool} {e0 e : InitError}
    (h : assertThat c e0 = Except.error e) : c = false ∧ e = e0 := by
  unfold assertThat at h
  split at h
  · cases h
  · cases h
    exact ⟨by simpa using ‹¬ c = true›, rfl⟩

/-- A loop that fails has failed in one of its rounds, the rounds before having
returned. -/
theorem forUpTo_eq_error {σ : Type} {n : Nat} {body : Nat → σ → M σ} {s : σ} {e : InitError}
    (h : forUpTo n body s = Except.error e) :
    ∃ i u, i < n ∧ forUpTo i body s = Except.ok u ∧ body i u = Except.error e := by
  induction n with
  | zero => cases h
  | succ n ih =>
    rw [forUpTo] at h
    cases hn : forUpTo n body s with
    | ok u =>
      rw [hn] at h
      exact ⟨n, u, Nat.lt_succ_self n, hn, h⟩
    | error e2 =>
      rw [hn] at h
      have he : e2 = e := Except.error.inj h
      subst he
      obtain ⟨i, u, hi, h1, h2⟩ := ih hn
      exact ⟨i, u, Nat.lt_succ_of_lt hi, h1, h2⟩

theorem forUpTo_error_of {σ : Type} {n : Nat} {body : Nat → σ → M σ} {s : σ} {e : InitError}
    (h : forUpTo n body s = Except.error e)
    (hbody : ∀ i u, i < n → body i u = Except.error e → ¬ IsAssertion e) :
    ¬ IsAssertion e := by
  obtain ⟨i, u, hi, -, h2⟩ := forUpTo_eq_error h
  exact hbody i u hi h2

theorem writeLoop_error {α : Type} {n : Nat} {idx : Nat → Nat} {val : Nat → M α}
    {dst : List α} {e : InitError} (h : writeLoop n idx val dst = Except.error e)
    (hval : ∀ i, i < n → val i = Except.error e → ¬ IsAssertion e) : ¬ IsAssertion e := by
  unfold writeLoop at h
  apply forUpTo_error_of h
  intro i u hi hb
  rcases bind_eq_error.mp hb with h1 | ⟨a, -, h2⟩
  · exact hval i hi h1
  · exact writeAt_error h2

theorem readThen_error {α β : Type} {v : List α} {i : Nat} {f : α → β} {e : InitError}
    (h : (readAt v i).bind (fun x => Except.ok (f x)) = Except.error e) :
    ¬ IsAssertion e := by
  rcases bind_eq_error.mp h with h1 | ⟨a, -, h2⟩
  · exact readAt_error h1
  · cases h2

theorem matVec_error {g : List (List ℚ)} {v : List ℚ} {e : InitError}
    (h : matVec g v = Except.error e) : ¬ IsAssertion e := by
  unfold matVec at h
  split at h
  · cases h
  · cases h
    exact not_isAssertion_dimensionMismatch

theorem setCurrentControls_error {wells : List WellMultiSegment} {cc : List Int}
    {e : InitError} (h : setCurrentControls wells cc = Except.error e) : ¬ IsAssertion e := by
  unfold setCurrentControls at h
  exact writeLoop_error h (fun i _ hv => readThen_error hv)

/-- The loop of lines 104-106 fails with an assertion only for a well without a valid
type. -/
theorem checkWellTypes_error {wells : List WellMultiSegment} {e : InitError}
    (h : checkWellTypes wells = Except.error e) (ha : IsAssertion e) :
    ∃ well, well ∈ wells ∧ validWellType well = false := by
  unfold checkWellTypes at h
  obtain ⟨i, u, hi, -, hb⟩ := forUpTo_eq_error h
  rcases bind_eq_error.mp hb with h1 | ⟨well, hw, h2⟩
  · exact absurd ha (readAt_error h1)
  · exact ⟨well, List.getElem?_mem (readAt_eq_ok.mp hw), (assertThat_error h2).1⟩

theorem segmentLayoutStep_error {well : WellMultiSegment} {i : Nat}
    {s : Nat × List Nat × List Nat} {e : InitError}
    (h : segmentLayoutStep well i s = Except.error e) : ¬ IsAssertion e := by
  unfold segmentLayoutStep at h
  rcases bind_eq_error2.mp h with h1 | ⟨a, -, h⟩
  · exact writeAt_error h1
  rcases bind_eq_error2.mp h with h1 | ⟨b, -, h⟩
  · exact readAt_error h1
  rcases bind_eq_error2.mp h with h1 | ⟨c, -, h⟩
  · exact writeAt_error h1
  cases h

/-- Building the map entry fails with an assertion only for a well with inconsistent
sums. -/
theorem buildMapEntry_error {well : WellMultiSegment} {w ss sp : Nat}
    {e0 : SegmentedMapentryType} {e : InitError}
    (h : buildMapEntry well w ss sp e0 = Except.error e) (ha : IsAssertion e) :
    ¬ SumsConsistent well := by
  unfold buildMapEntry at h
  rcases bind_eq_error2.mp h with h1 | ⟨t, ht, h⟩
  · exact absurd ha (forUpTo_error_of h1 (fun i u _ hb => segmentLayoutStep_error hb))
  have hsum := (segmentLayout_loop (length_resize _ _ _) (length_resize _ _ _) ht).1
  rcases bind_eq_error2.mp h with h1 | ⟨u, -, h⟩
  · have hf := (assertThat_error h1).1
    unfold SumsConsistent
    rw [← hsum]
    simpa using hf
  · cases h

theorem stoppedBhp_error {wells : List WellMultiSegment} {ctrl : WellControls}
    {pressure : List ℚ} {w : Nat} {bhp : List ℚ} {e : InitError}
    (h : stoppedBhp wells ctrl pressure w bhp = Except.error e) : ¬ IsAssertion e := by
  unfold stoppedBhp at h
  split at h
  · exact writeAt_error h
  rcases bind_eq_error2.mp h with h1 | ⟨a, -, h⟩
  · exact readAt_error h1
  rcases bind_eq_error2.mp h with h1 | ⟨b, -, h⟩
  · exact readAt_error h1
  rcases bind_eq_error2.mp h with h1 | ⟨c, -, h⟩
  · exact readAt_error h1
  exact writeAt_error h

theorem initThp_error {ctrl : WellControls} {w : Nat} {bhp thp : List ℚ} {e : InitError}
    (h : initThp ctrl w bhp thp = Except.error e) : ¬ IsAssertion e := by
  unfold initThp at h
  split at h
  · exact writeAt_error h
  rcases bind_eq_error2.mp h with h1 | ⟨a, -, h⟩
  · exact readAt_error h1
  exact writeAt_error h

theorem openWellRates_error {well : WellMultiSegment} {np w : Nat} {wellRates : List ℚ}
    {e : InitError} (h : openWellRates well np w wellRates = Except.error e) :
    ¬ IsAssertion e := by
  unfold openWellRates at h
  split at h
  · exact writeLoop_error h (fun i _ hv => readThen_error hv)
  · exact writeLoop_error h (fun i _ hv => by cases hv)

theorem openBhp_error {well : WellMultiSegment} {pressure : List ℚ} {w : Nat}
    {bhp : List ℚ} {e : InitError} (h : openBhp well pressure w bhp = Except.error e) :
    ¬ IsAssertion e := by
  unfold openBhp at h
  split at h
  · exact writeAt_error h
  rcases bind_eq_error2.mp h with h1 | ⟨a, -, h⟩
  · exact readAt_error h1
  rcases bind_eq_error2.mp h with h1 | ⟨b, -, h⟩
  · exact readAt_error h1
  exact writeAt_error h

theorem perfStep_error {well : WellMultiSegment} {np w sp nperf : Nat}
    {pressure wellRates : List ℚ} {i : Nat} {s : List ℚ × List ℚ} {e : InitError}
    (h : perfStep well np w sp nperf pressure wellRates i s = Except.error e) :
    ¬ IsAssertion e := by
  unfold perfStep at h
  rcases bind_eq_error2.mp h with h1 | ⟨a, -, h⟩
  · exact writeLoop_error h1 (fun i _ hv => readThen_error hv)
  rcases bind_eq_error2.mp h with h1 | ⟨b, -, h⟩
  · exact readAt_error h1
  rcases bind_eq_error2.mp h with h1 | ⟨c, -, h⟩
  · exact readAt_error h1
  rcases bind_eq_error2.mp h with h1 | ⟨d, -, h⟩
  · exact writeAt_error h1
  cases h

theorem openSegPress_error {e0 : SegmentedMapentryType} {ss sp w : Nat}
    {bhp perfPress segpress : List ℚ} {e : InitError}
    (h : openSegPress e0 ss sp w bhp perfPress segpress = Except.error e) :
    ¬ IsAssertion e := by
  unfold openSegPress at h
  rcases bind_eq_error2.mp h with h1 | ⟨a, -, h⟩
  · exact readAt_error h1
  rcases bind_eq_error2.mp h with h1 | ⟨b, -, h⟩
  · exact writeAt_error h1
  refine writeLoop_error h (fun i _ hv => ?_)
  rcases bind_eq_error.mp hv with h1 | ⟨c, -, h2⟩
  · exact readAt_error h1
  · exact readAt_error h2

theorem segRatesStep_error {well : WellMultiSegment} {np ss sp nseg nperf p : Nat}
    {perfPhaseRates seg : List ℚ} {e : InitError}
    (h : segRatesStep well np ss sp nseg nperf perfPhaseRates p seg = Except.error e) :
    ¬ IsAssertion e := by
  unfold segRatesStep at h
  rcases bind_eq_error2.mp h with h1 | ⟨a, -, h⟩
  · exact writeLoop_error h1 (fun i _ hv => readAt_error hv)
  rcases bind_eq_error2.mp h with h1 | ⟨b, -, h⟩
  · exact matVec_error h1
  exact writeLoop_error h (fun i _ hv => readAt_error hv)

theorem initValues_error {wells : List WellMultiSegment} {well : WellMultiSegment}
    {e0 : SegmentedMapentryType} {np : Nat} {pressure : List ℚ} {w ss sp : Nat}
    {st : WellStateMultiSegment} {e : InitError}
    (h : initValues wells well e0 np pressure w ss sp st = Except.error e) :
    ¬ IsAssertion e := by
  unfold initValues at h
  split at h
  · unfold initStopped at h
    rcases bind_eq_error2.mp h with h1 | ⟨a, -, h⟩
    · exact stoppedBhp_error h1
    rcases bind_eq_error2.mp h with h1 | ⟨b, -, h⟩
    · exact initThp_error h1
    cases h
  · unfold initOpen at h
    rcases bind_eq_error2.mp h with h1 | ⟨a, -, h⟩
    · exact openWellRates_error h1
    rcases bind_eq_error2.mp h with h1 | ⟨b, -, h⟩
    · exact openBhp_error h1
    rcases bind_eq_error2.mp h with h1 | ⟨c, -, h⟩
    · exact initThp_error h1
    rcases bind_eq_error2.mp h with h1 | ⟨d, -, h⟩
    · exact forUpTo_error_of h1 (fun i u _ hb => perfStep_error hb)
    rcases bind_eq_error2.mp h with h1 | ⟨f, -, h⟩
    · exact openSegPress_error h1
    rcases bind_eq_error2.mp h with h1 | ⟨g, -, h⟩
    · exact forUpTo_error_of h1 (fun i u _ hb => segRatesStep_error hb)
    cases h

/-- A round of the loop over the wells fails with an assertion only for a well without a
valid type or with inconsistent sums. -/
theorem initWell_error {wells : List WellMultiSegment} {np : Nat} {pressure : List ℚ}
    {w : Nat} {L : InitLoop} {e : InitError}
    (h : initWell wells np pressure w L = Except.error e) (ha : IsAssertion e) :
    ∃ well, wells[w]? = some well ∧
      (validWellType well = false ∨ ¬ SumsConsistent well) := by
  unfold initWell at h
  rcases bind_eq_error2.mp h with h1 | ⟨well, hw, h⟩
  · exact absurd ha (readAt_error h1)
  have hmem : wells[w]? = some well := readAt_eq_ok.mp hw
  rcases bind_eq_error2.mp h with h1 | ⟨u, -, h⟩
  · exact ⟨well, hmem, Or.inl (assertThat_error h1).1⟩
  rcases bind_eq_error2.mp h with h1 | ⟨top, -, h⟩
  · exact absurd ha (writeAt_error h1)
  rcases bind_eq_error2.mp h with h1 | ⟨e1, -, h⟩
  · exact ⟨well, hmem, Or.inr (buildMapEntry_error h1 ha)⟩
  rcases bind_eq_error2.mp h with h1 | ⟨st2, -, h⟩
  · exact absurd ha (initValues_error h1)
  cases h

/-- The initial guess fails with an assertion only when some well has no valid type or
inconsistent sums. -/
theorem initGuess_error {wells : List WellMultiSegment} {np : Nat} {pressure : List ℚ}
    {s0 : WellStateMultiSegment} {e : InitError}
    (h : initGuess wells np pressure s0 = Except.error e) (ha : IsAssertion e) :
    ∃ well, well ∈ wells ∧ (validWellType well = false ∨ ¬ SumsConsistent well) := by
  unfold initGuess at h
  rcases bind_eq_error2.mp h with h1 | ⟨cc, -, h⟩
  · exact absurd ha (setCurrentControls_error h1)
  rcases bind_eq_error2.mp h with h1 | ⟨u, -, h⟩
  · obtain ⟨well, hmem, hbad⟩ := checkWellTypes_error h1 ha
    exact ⟨well, hmem, Or.inl hbad⟩
  rcases bind_eq_error2.mp h with h1 | ⟨L, -, h⟩
  · obtain ⟨i, K, -, -, hb⟩ := forUpTo_eq_error h1
    obtain ⟨well, hw, hbad⟩ := initWell_error hb ha
    exact ⟨well, List.getElem?_mem hw, hbad⟩
  rcases bind_eq_error2.mp h with h1 | ⟨cc2, -, h⟩
  · exact absurd ha (setCurrentControls_error h1)
  cases h

/-- The initial guess does not fail with the assertion of line 264. -/
theorem initGuess_ne_assertWellInMap {wells : List WellMultiSegment} {np : Nat}
    {pressure : List ℚ} {s0 : WellStateMultiSegment} :
    initGuess wells np pressure s0 ≠ Except.error InitError.assertWellInMap := by
  intro h
  unfold initGuess at h
  rcases bind_eq_error2.mp h with h1 | ⟨cc, -, h⟩
  · exact setCurrentControls_error h1 (Or.inr (Or.inr rfl))
  rcases bind_eq_error2.mp h with h1 | ⟨u, -, h⟩
  · unfold checkWellTypes at h1
    obtain ⟨i, u, hi, -, hb⟩ := forUpTo_eq_error h1
    rcases bind_eq_error.mp hb with h2 | ⟨well, hw, h2⟩
    · exact readAt_error h2 (Or.inr (Or.inr rfl))
    · cases (assertThat_error h2).2
  rcases bind_eq_error2.mp h with h1 | ⟨L, -, h⟩
  · obtain ⟨i, K, -, -, hb⟩ := forUpTo_eq_error h1
    unfold initWell at hb
    rcases bind_eq_error2.mp hb with h2 | ⟨well, hw, hb⟩
    · exact readAt_error h2 (Or.inr (Or.inr rfl))
    rcases bind_eq_error2.mp hb with h2 | ⟨u2, -, hb⟩
    · cases (assertThat_error h2).2
    rcases bind_eq_error2.mp hb with h2 | ⟨top, -, hb⟩
    · exact writeAt_error h2 (Or.inr (Or.inr rfl))
    rcases bind_eq_error2.mp hb with h2 | ⟨e1, -, hb⟩
    · unfold buildMapEntry at h2
      rcases bind_eq_error2.mp h2 with h3 | ⟨t, ht, h2⟩
      · exact forUpTo_error_of h3 (fun i u _ hb => segmentLayoutStep_error hb)
          (Or.inr (Or.inr rfl))
      rcases bind_eq_error2.mp h2 with h3 | ⟨u3, -, h2⟩
      · cases (assertThat_error h3).2
      · cases h2
    rcases bind_eq_error2.mp hb with h2 | ⟨st2, -, hb⟩
    · exact initValues_error h2 (Or.inr (Or.inr rfl))
    cases hb
  rcases bind_eq_error2.mp h with h1 | ⟨cc2, -, h⟩
  · exact setCurrentControls_error h1 (Or.inr (Or.inr rfl))
  cases h

theorem carryOverControl_error {well : WellMultiSegment} {prevState : WellStateMultiSegment}
    {oldIndex newIndex : Nat} {cc : List Int} {e : InitError}
    (h : carryOverControl well prevState oldIndex newIndex cc = Except.error e) :
    ¬ IsAssertion e := by
  unfold carryOverControl at h
  rcases bind_eq_error2.mp h with h1 | ⟨a, -, h⟩
  · exact readAt_error h1
  split at h
  · exact writeAt_error h
  · cases h

theorem carryOverStructure_error {well : WellMultiSegment} {np : Nat}
    {prevState : WellStateMultiSegment} {old this : SegmentedMapentryType} {newIndex : Nat}
    {st : WellStateMultiSegment} {e : InitError}
    (h : carryOverStructure well np prevState old this newIndex st = Except.error e) :
    ¬ IsAssertion e := by
  unfold carryOverStructure at h
  rcases bind_eq_error2.mp h with h1 | ⟨a, -, h⟩
  · exact writeLoop_error h1 (fun i _ hv => readAt_error hv)
  rcases bind_eq_error2.mp h with h1 | ⟨b, -, h⟩
  · exact writeLoop_error h1 (fun i _ hv => readAt_error hv)
  rcases bind_eq_error2.mp h with h1 | ⟨c, -, h⟩
  · exact writeLoop_error h1 (fun i _ hv => readAt_error hv)
  rcases bind_eq_error2.mp h with h1 | ⟨d, -, h⟩
  · exact writeLoop_error h1 (fun i _ hv => readAt_error hv)
  rcases bind_eq_error2.mp h with h1 | ⟨f, -, h⟩
  · exact carryOverControl_error h1
  cases h

theorem carryOverFound_error {well : WellMultiSegment} {np : Nat}
    {prevState : WellStateMultiSegment} {old this : SegmentedMapentryType} {w : Nat}
    {st : WellStateMultiSegment} {e : InitError}
    (h : carryOverFound well np prevState old this w st = Except.error e) :
    ¬ IsAssertion e := by
  unfold carryOverFound at h
  rcases bind_eq_error2.mp h with h1 | ⟨a, -, h⟩
  · exact readAt_error h1
  rcases bind_eq_error2.mp h with h1 | ⟨b, -, h⟩
  · exact writeAt_error h1
  rcases bind_eq_error2.mp h with h1 | ⟨c, -, h⟩
  · exact writeLoop_error h1 (fun i _ hv => readAt_error hv)
  split at h
  · exact carryOverStructure_error h
  · cases h

/-- A round of the continuation does not fail with an assertion when the map of the state
holds the name of every well. -/
theorem carryOverWell_error {wells : List WellMultiSegment} {np : Nat}
    {prevState st : WellStateMultiSegment} {w : Nat} {e : InitError}
    (hmap : ∀ well, well ∈ wells → ∃ this, mapFind st.segmentedWellMap_ well.name = some this)
    (h : carryOverWell wells np prevState w st = Except.error e) : ¬ IsAssertion e := by
  unfold carryOverWell at h
  rcases bind_eq_error2.mp h with h1 | ⟨well, hw, h⟩
  · exact readAt_error h1
  obtain ⟨this, hthis⟩ := hmap well (List.getElem?_mem (readAt_eq_ok.mp hw))
  rw [hthis] at h
  simp only at h
  cases hold : mapFind prevState.segmentedWellMap_ well.name with
  | none =>
    rw [hold] at h
    cases h
  | some old =>
    rw [hold] at h
    exact carryOverFound_error h

/-- After the loop over the wells the map holds the name of every well treated. -/
theorem mainLoop_entries {wells : List WellMultiSegment} {np : Nat} {pressure : List ℚ}
    {n : Nat} {s : WellStateMultiSegment} {L : InitLoop}
    (h : forUpTo n (initWell wells np pressure) ⟨0, 0, s⟩ = Except.ok L) :
    ∀ (v : Nat) (well : WellMultiSegment), v < n → wells[v]? = some well →
      ∃ this, mapFind L.st.segmentedWellMap_ well.name = some this := by
  refine (mainLoop_inv
    (fun m st => ∀ (v : Nat) (well : WellMultiSegment), v < m → wells[v]? = some well →
      ∃ this, mapFind st.segmentedWellMap_ well.name = some this) h
    (fun v _ hv => absurd hv (Nat.not_lt_zero v)) ?_).1
  intro i st st2 hi hinv hbody v well2 hv hw2
  obtain ⟨well, e, R⟩ := initWell_round hbody
  rw [R.map_eq, mapFind_mapSet]
  by_cases hname : well.name = well2.name
  · rw [if_pos hname]
    exact ⟨e, rfl⟩
  · rw [if_neg hname]
    rcases Nat.lt_succ_iff_lt_or_eq.mp hv with hlt | rfl
    · exact hinv v well2 hlt hw2
    · rw [R.well_eq] at hw2
      exact absurd (congrArg WellMultiSegment.name (Option.some.inj hw2)) hname

/-- After the initial guess the map holds the name of every well. -/
theorem initGuess_entries {wells : List WellMultiSegment} {np : Nat} {pressure : List ℚ}
    {s0 st : WellStateMultiSegment} (h : initGuess wells np pressure s0 = Except.ok st) :
    ∀ well, well ∈ wells → ∃ this, mapFind st.segmentedWellMap_ well.name = some this := by
  obtain ⟨cc, L, cc2, -, -, hloop, -, rfl⟩ := initGuess_eq_ok h
  intro well hmem
  obtain ⟨v, hv1, hv2⟩ := List.getElem_of_mem hmem
  exact mainLoop_entries hloop v well hv1 (by rw [← hv2]; exact List.getElem?_eq_getElem hv1)

/-- The continuation does not fail with an assertion: the assertion of line 264 holds for
every well. -/
theorem carryOver_error {wells : List WellMultiSegment} {np : Nat} {pressure : List ℚ}
    {s0 st0 prevState : WellStateMultiSegment} {e : InitError}
    (hg : initGuess wells np pressure s0 = Except.ok st0)
    (h : carryOver wells np prevState st0 = Except.error e) : ¬ IsAssertion e := by
  unfold carryOver at h
  split at h
  · cases h
  obtain ⟨i, u, hi, hu, hb⟩ := forUpTo_eq_error h
  have hmap : u.segmentedWellMap_ = st0.segmentedWellMap_ := by
    apply forUpTo_inv (fun _ (t : WellStateMultiSegment) =>
      t.segmentedWellMap_ = st0.segmentedWellMap_) hu rfl
    intro j a b _ ha hbody
    obtain ⟨well, this, R⟩ := carryOverWell_round hbody
    exact R.map_eq.trans ha
  apply carryOverWell_error ?_ hb
  rw [hmap]
  exact initGuess_entries hg

/-- When `init` fails with an assertion, some well has no valid type or inconsistent sums;
the assertion is not that of line 264. -/
theorem init_error {self prevState : WellStateMultiSegment} {wells : List WellMultiSegment}
    {pressure : List ℚ} {legacy : Option Nat} {e : InitError}
    (h : init self wells pressure prevState legacy = Except.error e) (ha : IsAssertion e) :
    e ≠ InitError.assertWellInMap ∧
    ∃ well, well ∈ wells ∧ (validWellType well = false ∨ ¬ SumsConsistent well) := by
  cases wells with
  | nil => cases h
  | cons a rest =>
    unfold init at h
    simp only at h
    rcases bind_eq_error.mp h with h1 | ⟨st0, hg, h2⟩
    · refine ⟨?_, initGuess_error h1 ha⟩
      intro he
      rw [he] at h1
      exact initGuess_ne_assertWellInMap h1
    · exact absurd ha (carryOver_error hg h2)

/-! ## How far the loop over the wells gets -/

/-- A loop fails when one of its rounds fails, the rounds before having returned. -/
theorem forUpTo_error_after {σ : Type} {n k : Nat} {body : Nat → σ → M σ} {s u : σ}
    {e : InitError} (hk : k < n) (hu : forUpTo k body s = Except.ok u)
    (hb : body k u = Except.error e) : forUpTo n body s = Except.error e := by
  induction n with
  | zero => omega
  | succ n ih =>
    rw [forUpTo]
    rcases Nat.lt_succ_iff_lt_or_eq.mp hk with hlt | rfl
    · rw [ih hlt]
    · rw [hu]
      exact hb

/-- The rounds of the wells before well number `k` return when these wells have valid
types, consistent sums and are indexed safely. -/
theorem mainLoop_upTo {wells : List WellMultiSegment} {np : Nat} {pressure : List ℚ}
    {s : WellStateMultiSegment} (k : Nat) (hk : k ≤ wells.length)
    (hdim : ∀ v, v ∈ wells → DimensionsConsistent np pressure v) (hsz : Sized wells np s)
    (hgood : ∀ (v : Nat) (wv : WellMultiSegment), v < k → wells[v]? = some wv →
      validWellType wv = true ∧ SumsConsistent wv ∧ IndexSafe wells v wv) :
    ∃ K, forUpTo k (initWell wells np pressure) ⟨0, 0, s⟩ = Except.ok K ∧
      Sized wells np K.st ∧ K.start_segment = segmentOffset wells k ∧
      K.start_perforation = perforationOffset wells k := by
  apply @forUpTo_returns InitLoop
    (fun m K => Sized wells np K.st ∧ K.start_segment = segmentOffset wells m ∧
      K.start_perforation = perforationOffset wells m) k
    (initWell wells np pressure) ⟨0, 0, s⟩
    ⟨hsz, (segmentOffset_zero wells).symm, (perforationOffset_zero wells).symm⟩
  intro i K hi ⟨k1, k2, k3⟩
  have hlt : i < wells.length := by omega
  have hw : wells[i]? = some wells[i] := List.getElem?_eq_getElem hlt
  obtain ⟨g1, g2, g3⟩ := hgood i _ hi hw
  obtain ⟨o1, -⟩ := @initWell_outcome wells np pressure i K wells[i] hw g1 hdim
    (fun _ => g3) k1 k2 k3
  obtain ⟨out, hout⟩ := o1 g2
  obtain ⟨well, e, hw2, -, -, -, e1, e2, -⟩ := initWell_eq_ok hout
  rw [hw] at hw2
  have hwe := Option.some.inj hw2
  refine ⟨out, hout, sized_of_sameSizes (initWell_lengths hout) k1, ?_, ?_⟩
  · rw [segmentOffset_succ hw, e1, k2, hwe]
  · rw [perforationOffset_succ hw, e2, k3, hwe]

/-- The assertion of line 141 fails when the loop over the wells gets to a well with
inconsistent sums. -/
theorem mainLoop_reaches {wells : List WellMultiSegment} {np : Nat} {pressure : List ℚ}
    {s : WellStateMultiSegment}
    (hv : ∀ well, well ∈ wells → validWellType well = true)
    (hdim : ∀ v, v ∈ wells → DimensionsConsistent np pressure v) (hsz : Sized wells np s)
    (hr : ReachesInconsistentSums wells) :
    forUpTo wells.length (initWell wells np pressure) ⟨0, 0, s⟩ =
      Except.error InitError.assertPerforationCount := by
  obtain ⟨k, well, hw, hbad, hpre⟩ := hr
  have hlt := lt_length_of_getElem? hw
  obtain ⟨K, hK, k1, k2, k3⟩ := @mainLoop_upTo wells np pressure s k (by omega) hdim hsz
    (fun v wv hv1 hwv => ⟨hv wv (List.getElem?_mem hwv), hpre v wv hv1 hwv⟩)
  obtain ⟨-, o2⟩ := @initWell_outcome wells np pressure k K well hw
    (hv well (List.getElem?_mem hw)) hdim (fun hs => absurd hs hbad) k1 k2 k3
  exact forUpTo_error_after hlt hK (o2 hbad)

/-- What a round of the loop over the wells that returns has indexed. -/
theorem initWell_safe {wells : List WellMultiSegment} {np : Nat} {pressure : List ℚ}
    {w ss sp ss2 sp2 : Nat} {st st2 : WellStateMultiSegment} {well : WellMultiSegment}
    (hdim : ∀ v, v ∈ wells → DimensionsConsistent np pressure v)
    (hw : wells[w]? = some well)
    (h : initWell wells np pressure w ⟨ss, sp, st⟩ = Except.ok ⟨ss2, sp2, st2⟩) :
    (well.wellControls.well_is_stopped = false → ss < st.segpress_.length) ∧
    (well.wellControls.well_is_stopped = false → ∀ s, 1 ≤ s → s < well.numberOfSegments →
      sp + perforationOffsetInWell well s < st.perfPress.length) ∧
    (well.wellControls.well_is_stopped = false →
      well.wellControls.current_type ≠ WellControlType.BHP →
      1 ≤ well.numberOfPerforations) ∧
    (well.wellControls.well_is_stopped = true →
      well.wellControls.current_type ≠ WellControlType.BHP →
      ∃ well0, wells.head? = some well0 ∧ 1 ≤ well0.numberOfPerforations) := by
  obtain ⟨well1, e, R⟩ := initWell_round h
  have hwe : well1 = well := by
    have := R.well_eq
    rw [hw] at this
    exact (Option.some.inj this).symm
  subst hwe
  obtain ⟨x, -, -, g2, g3⟩ := R.bhp_eq
  refine ⟨fun hop => ?_, fun hop s hs1 hs2 => ?_, fun hop hne => ?_, fun hst hne => ?_⟩
  · obtain ⟨b, -, hb⟩ := R.segpress_open hop
    have := lt_length_of_getElem? hb
    rw [R.segpress_length] at this
    exact this
  · obtain ⟨well2, e2, hw2, -, -, he, -, -, hval⟩ := initWell_eq_ok h
    rw [hw] at hw2
    have hwe := Option.some.inj hw2
    subst hwe
    simp only at he hval
    unfold initValues at hval
    rw [if_neg (by simp [hop])] at hval
    obtain ⟨wellRates, bhp, thp, perfs, segpress, segphaserates, -, -, -, hpl, hsp, -, -⟩ :=
      initOpen_eq_ok hval
    obtain ⟨-, -, e3, -, -, hlay⟩ := buildMapEntry_eq_ok he
    obtain ⟨-, -, -, -, q5⟩ := openSegPress_eq_ok hsp
    obtain ⟨off, y, ho, hy, -⟩ := q5 s hs1 (by rw [e3]; exact hs2)
    rw [(segmentLayout_offsets hlay).2 s hs2] at ho
    have hoe := Option.some.inj ho
    subst hoe
    have hlen := (perfLoop_lengths hpl).2
    have := lt_length_of_getElem? hy
    simp only at hlen
    omega
  · obtain ⟨c, p, hc, -⟩ := g3 hne hop
    have := lt_length_of_getElem? hc
    have hd := (hdim well1 (List.getElem?_mem hw)).2.1
    omega
  · obtain ⟨well0, c, hw0, hc, -⟩ := g2 hne hst
    have := lt_length_of_getElem? hc
    have hd := (hdim well0 (List.getElem?_mem hw0)).2.1
    refine ⟨well0, ?_, by omega⟩
    cases wells with
    | nil => simp at hw0
    | cons a rest => simpa using hw0

/-- Every well the loop over the wells has treated was indexed inside the vectors the loop
started with. -/
theorem mainLoop_safe {wells : List WellMultiSegment} {np : Nat} {pressure : List ℚ}
    {n : Nat} {s : WellStateMultiSegment} {L : InitLoop}
    (hdim : ∀ v, v ∈ wells → DimensionsConsistent np pressure v)
    (hp : s.perfPress.length = perforationOffset wells wells.length)
    (hs : s.segpress_.length = segmentOffset wells wells.length)
    (h : forUpTo n (initWell wells np pressure) ⟨0, 0, s⟩ = Except.ok L) :
    ∀ (v : Nat) (well : WellMultiSegment), v < n → wells[v]? = some well →
      IndexSafe wells v well := by
  refine (mainLoop_inv
    (fun m st => st.perfPress.length = s.perfPress.length ∧
      st.segpress_.length = s.segpress_.length ∧
      ∀ (v : Nat) (well : WellMultiSegment), v < m → wells[v]? = some well →
        IndexSafe wells v well) h
    ⟨rfl, rfl, fun v _ hv => absurd hv (Nat.not_lt_zero v)⟩ ?_).1.2.2
  intro i st st2 hi ⟨l1, l2, hinv⟩ hbody
  obtain ⟨-, -, -, -, -, -, -, a8, -, a10⟩ := initWell_lengths hbody
  simp only at a8 a10
  refine ⟨a8.trans l1, a10.trans l2, fun v well hv hw => ?_⟩
  rcases Nat.lt_succ_iff_lt_or_eq.mp hv with hlt | rfl
  · exact hinv v well hlt hw
  · obtain ⟨c1, c2, c3, c4⟩ := initWell_safe hdim hw hbody
    rw [l2, hs] at c1
    rw [l1, hp] at c2
    exact ⟨c1, c2, c3, c4⟩

/-- The first well with inconsistent sums. -/
theorem exists_first_inconsistent {wells : List WellMultiSegment}
    (h : ∃ well, well ∈ wells ∧ ¬ SumsConsistent well) :
    ∃ (k : Nat) (well : WellMultiSegment), wells[k]? = some well ∧ ¬ SumsConsistent well ∧
      ∀ (v : Nat) (wv : WellMultiSegment), v < k → wells[v]? = some wv →
        SumsConsistent wv := by
  obtain ⟨well, hmem, hbad⟩ := h
  obtain ⟨k0, hk0, hget⟩ := List.getElem_of_mem hmem
  have hex : ∃ k, ∃ wk, wells[k]? = some wk ∧ ¬ SumsConsistent wk :=
    ⟨k0, well, by rw [← hget]; exact List.getElem?_eq_getElem hk0, hbad⟩
  classical
  obtain ⟨wk, hwk, hbk⟩ := Nat.find_spec hex
  refine ⟨Nat.find hex, wk, hwk, hbk, fun v wv hv hwv => ?_⟩
  by_contra hne
  exact Nat.find_min hex hv ⟨wv, hwv, hne⟩

/-- For inputs of consistent dimensions and wells with valid types, `init` fails with the
assertion of line 141 when the loop over the wells gets to a well with inconsistent sums,
and only then does it fail with an assertion. -/
theorem init_reaches {self prevState : WellStateMultiSegment}
    {wells : List WellMultiSegment} {pressure : List ℚ} {legacy : Option Nat}
    {well0 : WellMultiSegment} (h0 : wells.head? = some well0)
    (hdim : ∀ v, v ∈ wells → DimensionsConsistent well0.numberOfPhases pressure v)
    (hv : ∀ well, well ∈ wells → validWellType well = true) :
    (ReachesInconsistentSums wells →
      init self wells pressure prevState legacy =
        Except.error InitError.assertPerforationCount) ∧
    (∀ e, init self wells pressure prevState legacy = Except.error e → IsAssertion e →
      ReachesInconsistentSums wells) := by
  cases wells with
  | nil => simp at h0
  | cons a rest =>
    simp only [List.head?_cons, Option.some.injEq] at h0
    subst h0
    obtain ⟨cc, hcc⟩ := @setCurrentControls_returns (a :: rest)
      (resize (countSizes (a :: rest)
        { self with wells_ := legacy, nseg_ := 0, nperf_ := 0 }).currentControls
        (a :: rest).length 0)
      (by rw [length_resize])
    have hcheck := (checkWellTypes_outcome (a :: rest)).1 hv
    refine ⟨fun hr => ?_, fun e he ha => ?_⟩
    · have hloop := mainLoop_reaches hv hdim
        (sized_resizeVectors (a :: rest) a.numberOfPhases
          { self with wells_ := legacy, nseg_ := 0, nperf_ := 0 } cc) hr
      unfold init
      simp only
      unfold initGuess
      simp only [hcc, ok_bind, hcheck, hloop]
      rfl
    · unfold init at he
      simp only at he
      rcases bind_eq_error.mp he with h1 | ⟨st0, hg, h2⟩
      · unfold initGuess at h1
        simp only [hcc, ok_bind, hcheck] at h1
        rcases bind_eq_error2.mp h1 with h3 | ⟨L, -, h1⟩
        · obtain ⟨i, K, hi, hK, hb⟩ := forUpTo_eq_error h3
          obtain ⟨well, hw, hbad⟩ := initWell_error hb ha
          have hbad2 : ¬ SumsConsistent well := by
            rcases hbad with hbad | hbad
            · rw [hv well (List.getElem?_mem hw)] at hbad
              cases hbad
            · exact hbad
          have hsums := mainLoop_sums hK
          have hsafe := mainLoop_safe hdim
            (by simp [resizeVectors, countSizes_eq, length_resize])
            (by simp [resizeVectors, countSizes_eq, length_resize]) hK
          exact ⟨i, well, hw, hbad2, fun v wv hv1 hwv =>
            ⟨(hsums v wv hv1 hwv).2.1, hsafe v wv hv1 hwv⟩⟩
        · rcases bind_eq_error2.mp h1 with h3 | ⟨cc2, -, h1⟩
          · exact absurd ha (setCurrentControls_error h3)
          · cases h1
      · exact absurd ha (carryOver_error hg h2)

/-- For inputs of consistent dimensions, `init` returns when every well has a valid type and
consistent sums and is indexed safely, for an empty previous state or for distinct names and
a well-formed previous state. -/
theorem init_returns_of_safe {self prevState : WellStateMultiSegment}
    {wells : List WellMultiSegment} {pressure : List ℚ} {legacy : Option Nat}
    {well0 : WellMultiSegment} (h0 : wells.head? = some well0)
    (hdim : ∀ v, v ∈ wells → DimensionsConsistent well0.numberOfPhases pressure v)
    (hv : ∀ well, well ∈ wells → validWellType well = true)
    (hs : ∀ well, well ∈ wells → SumsConsistent well)
    (hsafe : ∀ (w : Nat) (well : WellMultiSegment), wells[w]? = some well →
      IndexSafe wells w well)
    (hprev : prevState.segmentedWellMap_ = [] ∨
      ((wells.map (fun v => v.name)).Nodup ∧
        PrevWellFormed well0.numberOfPhases prevState)) :
    ∃ st, init self wells pressure prevState legacy = Except.ok st := by
  cases wells with
  | nil => simp at h0
  | cons a rest =>
    simp only [List.head?_cons, Option.some.injEq] at h0
    subst h0
    obtain ⟨cc, hcc⟩ := @setCurrentControls_returns (a :: rest)
      (resize (countSizes (a :: rest)
        { self with wells_ := legacy, nseg_ := 0, nperf_ := 0 }).currentControls
        (a :: rest).length 0)
      (by rw [length_resize])
    have hcheck := (checkWellTypes_outcome (a :: rest)).1 hv
    obtain ⟨L, hL, -⟩ := @mainLoop_upTo (a :: rest) a.numberOfPhases pressure _
      (a :: rest).length (Nat.le_refl _) hdim
      (sized_resizeVectors (a :: rest) a.numberOfPhases
        { self with wells_ := legacy, nseg_ := 0, nperf_ := 0 } cc)
      (fun v wv _ hwv => ⟨hv wv (List.getElem?_mem hwv), hs wv (List.getElem?_mem hwv),
        hsafe v wv hwv⟩)
    obtain ⟨cc2, hcc2⟩ := @setCurrentControls_returns (a :: rest)
      (resize L.st.currentControls (a :: rest).length 0) (by rw [length_resize])
    have hg : initGuess (a :: rest) a.numberOfPhases pressure
        { self with wells_ := legacy, nseg_ := 0, nperf_ := 0 } =
        Except.ok { L.st with currentControls := cc2 } := by
      unfold initGuess
      simp only [hcc, ok_bind, hcheck, hL, hcc2]
      rfl
    unfold init
    simp only
    rw [hg]
    rcases hprev with hp | ⟨hn, hwf⟩
    · have hco : carryOver (a :: rest) a.numberOfPhases prevState
          { L.st with currentControls := cc2 } =
          Except.ok { L.st with currentControls := cc2 } := by
        unfold carryOver
        rw [hp]
        rfl
      exact ⟨_, hco⟩
    · obtain ⟨st, hst⟩ := carryOver_returns hn hg hwf
      exact ⟨st, hst⟩
/-! ## C16: the assertions -/

theorem exA_consistent (wells : List WellMultiSegment) :
    DimensionsConsistent 2 exPressure exA ∧ TopologyConsistent wells exA := by
  refine ⟨⟨rfl, rfl, by decide, rfl, rfl, by decide⟩, fun _ => by decide, ?_,
    fun _ h => absurd rfl h, fun h => by cases h⟩
  intro _ s h1 h2
  have h3 : s < 3 := h2
  interval_cases s <;> decide

theorem exD_consistent (wells : List WellMultiSegment) :
    DimensionsConsistent 2 exPressure exD ∧ TopologyConsistent wells exD := by
  refine ⟨⟨rfl, rfl, by decide, rfl, rfl, by decide⟩, fun _ => by decide, ?_,
    fun _ h => absurd rfl h, fun h => by cases h⟩
  intro _ s h1 h2
  have h3 : s < 1 := h2
  omega

/-- When the assertions of `init` fail. For every non-empty sequence of wells, every state,
previous state and reservoir state: when `init` fails with one of its assertions, some well
has a type that is neither injector nor producer or perforation lists whose sizes do not add
up to its number of perforations, and the assertion is not the one of line 264 that the well
is in the current well map, which never fails; when some well has no valid type, the
assertion of line 105 fails. For inputs of consistent dimensions, an assertion fails if and
only if some well has no valid type or the loop over the wells gets to a well with
inconsistent sums, every well before the first such well being indexed safely; with valid
types, the assertion of line 141 fails exactly then. So when every well with consistent sums
is indexed safely, an assertion fails if and only if some well has no valid type or
inconsistent sums; and with valid types, consistent sums and every well indexed safely
`init` returns, for an empty previous state or for distinct names and a well-formed previous
state. -/
theorem init_assertion_outcomes (self prevState : WellStateMultiSegment)
    (wells : List WellMultiSegment) (pressure : List ℚ) (legacy : Option Nat)
    (well0 : WellMultiSegment) (h0 : wells.head? = some well0) :
    (∀ e, init self wells pressure prevState legacy = Except.error e → IsAssertion e →
      e ≠ InitError.assertWellInMap ∧
      ∃ well, well ∈ wells ∧ (validWellType well = false ∨ ¬ SumsConsistent well)) ∧
    init self wells pressure prevState legacy ≠ Except.error InitError.assertWellInMap ∧
    ((∃ well, well ∈ wells ∧ validWellType well = false) →
      init self wells pressure prevState legacy = Except.error InitError.assertWellType) ∧
    ((∀ well, well ∈ wells → DimensionsConsistent well0.numberOfPhases pressure well) →
      ((∃ e, IsAssertion e ∧ init self wells pressure prevState legacy = Except.error e) ↔
        ((∃ well, well ∈ wells ∧ validWellType well = false) ∨
          ReachesInconsistentSums wells)) ∧
      ((∀ well, well ∈ wells → validWellType well = true) →
        (init self wells pressure prevState legacy =
            Except.error InitError.assertPerforationCount ↔
          ReachesInconsistentSums wells)) ∧
      ((∀ (w : Nat) (well : WellMultiSegment), wells[w]? = some well →
          SumsConsistent well → IndexSafe wells w well) →
        ((∃ e, IsAssertion e ∧ init self wells pressure prevState legacy = Except.error e) ↔
          ∃ well, well ∈ wells ∧ (validWellType well = false ∨ ¬ SumsConsistent well))) ∧
      ((∀ well, well ∈ wells → validWellType well = true) →
        (∀ well, well ∈ wells → SumsConsistent well) →
        (∀ (w : Nat) (well : WellMultiSegment), wells[w]? = some well →
          IndexSafe wells w well) →
        (prevState.segmentedWellMap_ = [] ∨
          ((wells.map (fun v => v.name)).Nodup ∧
            PrevWellFormed well0.numberOfPhases prevState)) →
        ∃ st, init self wells pressure prevState legacy = Except.ok st)) := by
  obtain ⟨o1, -, -⟩ := @init_outcome self prevState wells pressure legacy well0 h0
  have hall : (¬ ∃ v, v ∈ wells ∧ validWellType v = false) →
      ∀ v, v ∈ wells → validWellType v = true := by
    intro hno v hv2
    by_contra hne
    exact hno ⟨v, hv2, by simpa using hne⟩
  have hfail : (∀ well, well ∈ wells → DimensionsConsistent well0.numberOfPhases pressure well)
      → ((∃ well, well ∈ wells ∧ validWellType well = false) ∨
        ReachesInconsistentSums wells) →
      ∃ e, IsAssertion e ∧ init self wells pressure prevState legacy = Except.error e := by
    intro hdim hbad
    by_cases hinv : ∃ v, v ∈ wells ∧ validWellType v = false
    · exact ⟨_, Or.inl rfl, o1 hinv⟩
    · rcases hbad with hbad | hr
      · exact absurd hbad hinv
      · exact ⟨_, Or.inr (Or.inl rfl), (init_reaches h0 hdim (hall hinv)).1 hr⟩
  refine ⟨fun e he ha => init_error he ha, fun he => ?_, o1,
    fun hdim => ⟨⟨?_, hfail hdim⟩, fun hv => ⟨?_, (init_reaches h0 hdim hv).1⟩,
      fun hsafe => ⟨?_, ?_⟩, fun hv hs hsafe hprev =>
        init_returns_of_safe h0 hdim hv hs hsafe hprev⟩⟩
  · exact (init_error he (Or.inr (Or.inr rfl))).1 rfl
  · rintro ⟨e, ha, he⟩
    by_cases hinv : ∃ v, v ∈ wells ∧ validWellType v = false
    · exact Or.inl hinv
    · exact Or.inr ((init_reaches h0 hdim (hall hinv)).2 e he ha)
  · intro he
    exact (init_reaches h0 hdim hv).2 _ he (Or.inr (Or.inl rfl))
  · rintro ⟨e, ha, he⟩
    exact (init_error he ha).2
  · rintro ⟨well, hmem, hbad⟩
    apply hfail hdim
    by_cases hinv : ∃ v, v ∈ wells ∧ validWellType v = false
    · exact Or.inl hinv
    · right
      have hbad2 : ¬ SumsConsistent well := by
        rcases hbad with hbad | hbad
        · rw [hall hinv well hmem] at hbad
          cases hbad
        · exact hbad
      obtain ⟨k, wk, hwk, hbk, hpre⟩ := exists_first_inconsistent ⟨well, hmem, hbad2⟩
      exact ⟨k, wk, hwk, hbk, fun v wv hv1 hwv =>
        ⟨hpre v wv hv1 hwv, hsafe v wv hwv (hpre v wv hv1 hwv)⟩⟩

/-- An instance: well `A` of the scenario followed by well `D`, whose one segment lists two
perforations while the well declares three. The dimensions are consistent and the types
valid, well `A` has consistent sums and is indexed safely, so the loop gets to well `D` and
the assertion of line 141 fails. -/
theorem init_assertion_outcomes_example :
    ([exA, exD].head? = some exA ∧
      (∀ well, well ∈ [exA, exD] →
        DimensionsConsistent exA.numberOfPhases exPressure well) ∧
      (∀ well, well ∈ [exA, exD] → validWellType well = true) ∧
      ReachesInconsistentSums [exA, exD]) ∧
    init WellStateMultiSegment.empty [exA, exD] exPressure exPrev none =
      Except.error InitError.assertPerforationCount :=
  have hdim : ∀ well, well ∈ [exA, exD] →
      DimensionsConsistent exA.numberOfPhases exPressure well := by
    intro well hmem
    simp only [List.mem_cons, List.mem_singleton, List.not_mem_nil, or_false] at hmem
    rcases hmem with rfl | rfl
    · exact (exA_consistent []).1
    · exact (exD_consistent []).1
  have hv : ∀ well, well ∈ [exA, exD] → validWellType well = true := by
    intro well hmem
    simp only [List.mem_cons, List.mem_singleton, List.not_mem_nil, or_false] at hmem
    rcases hmem with rfl | rfl <;> rfl
  have hbad : ¬ SumsConsistent exD := by
    unfold SumsConsistent
    decide
  have hsafe : IndexSafe [exA, exD] 0 exA := by
    refine ⟨fun _ => by decide, ?_, fun _ h => absurd rfl h, fun h => by cases h⟩
    intro _ s h1 h2
    have h3 : s < 3 := h2
    interval_cases s <;> decide
  have hr : ReachesInconsistentSums [exA, exD] := by
    refine ⟨1, exD, rfl, hbad, fun v wv hv1 hwv => ?_⟩
    have hv0 : v = 0 := by omega
    subst hv0
    have hwe : wv = exA := (Option.some.inj hwv).symm
    subst hwe
    exact ⟨by unfold SumsConsistent; decide, hsafe⟩
  ⟨⟨rfl, hdim, hv, hr⟩,
    (((init_assertion_outcomes WellStateMultiSegment.empty exPrev [exA, exD] exPressure none
      exA rfl).2.2.2 hdim).2.1 hv).mpr hr⟩

/-! ## C17: one producer with three segments -/

/-- C17 (end-to-end scenario). Take one well: an open producer with 2 phases and 3 segments,
the top one without perforations and the two others with the perforations 0, 1 and 2, 3 of
the 4 perforations of the well, under a bottom-hole-pressure control with target `200e5`
and with inputs of consistent dimensions. On a freshly constructed state and with an empty
previous state `init` returns, and in the state it returns `bhp[0]` and `segPress[0]` are
`200e5`, `segPress[1]` is `perfPress[0]`, `segPress[2]` is `perfPress[2]`, every phase rate
of a perforation is `-1e-14 / 4`, and for each phase the rate of the well is `-1e-14` and
is the sum of the rates of the four perforations. -/
theorem init_single_producer_scenario (well : WellMultiSegment) (pressure : List ℚ)
    (prevState : WellStateMultiSegment) (legacy : Option Nat)
    (hprod : well.wellType = WellType.PRODUCER) (hnp : well.numberOfPhases = 2)
    (hseg : well.numberOfSegments = 3) (hperf : well.numberOfPerforations = 4)
    (hlists : well.segmentPerforations = [[], [0, 1], [2, 3]])
    (hopen : well.wellControls.well_is_stopped = false)
    (hbhp : well.wellControls.current_type = WellControlType.BHP)
    (htarget : well.wellControls.current_target = 20000000)
    (hd : DimensionsConsistent 2 pressure well)
    (hp0 : prevState.segmentedWellMap_ = []) :
    ∃ st, init WellStateMultiSegment.empty [well] pressure prevState legacy = Except.ok st ∧
      st.bhp[0]? = some 20000000 ∧ st.segpress_[0]? = some 20000000 ∧
      (∃ x, st.perfPress[0]? = some x ∧ st.segpress_[1]? = some x) ∧
      (∃ x, st.perfPress[2]? = some x ∧ st.segpress_[2]? = some x) ∧
      (∀ i p, i < 4 → p < 2 →
        st.perfPhaseRates[2 * i + p]? = some ((-(1 / 100000000000000) / 4 : ℚ))) ∧
      (∀ p, p < 2 → st.wellRates[p]? = some ((-(1 / 100000000000000) : ℚ)) ∧
        ((List.range 4).map (fun i => st.perfPhaseRates.getD (2 * i + p) 0)).sum =
          -(1 / 100000000000000)) := by
  have h0 : [well].head? = some well := rfl
  have hw : [well][0]? = some well := rfl
  have hoff1 : perforationOffsetInWell well 1 = 0 := by
    simp [perforationOffsetInWell, hlists]
  have hoff2 : perforationOffsetInWell well 2 = 2 := by
    simp [perforationOffsetInWell, hlists]
  have hoff3 : perforationOffsetInWell well 3 = 4 := by
    simp [perforationOffsetInWell, hlists]
  have hv : ∀ v, v ∈ [well] → validWellType v = true := by
    intro v hv
    rw [List.mem_singleton.mp hv]
    simp [validWellType, hprod]
  have hs : ∀ v, v ∈ [well] → SumsConsistent v := by
    intro v hv
    rw [List.mem_singleton.mp hv]
    unfold SumsConsistent
    rw [hseg, hperf, hoff3]
  have ht : TopologyConsistent [well] well := by
    refine ⟨fun _ => by omega, fun _ s h1 h2 => ?_, fun _ hne => absurd hbhp hne,
      fun hst => by rw [hopen] at hst; cases hst⟩
    rw [hseg] at h2
    rw [hperf]
    interval_cases s
    · rw [hoff1]
      omega
    · rw [hoff2]
      omega
  have hc : ConsistentInputs [well] well.numberOfPhases pressure := by
    intro v hv
    rw [List.mem_singleton.mp hv, hnp]
    exact ⟨hd, ht⟩
  obtain ⟨st, hst⟩ := (@init_outcome WellStateMultiSegment.empty prevState [well] pressure
    legacy well h0).2.2 hc hv hs (Or.inl hp0)
  have hg := init_of_empty h0 hp0 hst
  rw [hnp] at hg
  obtain ⟨x, hx, g1, -, -⟩ := initGuess_bhp hg 0 well hw
  obtain ⟨b, hb1, hb2⟩ := initGuess_top hg 0 well hw hopen (by omega)
  obtain ⟨o1, -, o3, -⟩ := (initGuess_arrays hg 0 well hw).1 hopen
  have hrate : ∀ p, p < 2 → st.wellRates[p]? = some ((-(1 / 100000000000000) : ℚ)) := by
    intro p hp
    obtain ⟨r, hr, -, hr2⟩ := (initGuess_rates rfl hg 0 well p hw hp).2 hopen
    have hne : well.wellControls.current_type ≠ WellControlType.SURFACE_RATE := by
      rw [hbhp]
      decide
    rw [hr2 hne] at hr
    simp only [Nat.mul_zero, Nat.zero_add] at hr
    rw [hr]
    simp [small_rate, rateSign, hprod]
  have hperfs : ∀ i p, i < 4 → p < 2 →
      st.perfPhaseRates[2 * i + p]? = some ((-(1 / 100000000000000) / 4 : ℚ)) := by
    intro i p hi hp
    obtain ⟨r, hr, hv2⟩ := o1 i p (by omega) hp
    simp only [Nat.mul_zero, Nat.zero_add, perforationOffset_zero, Nat.add_zero] at hr hv2
    rw [hrate p hp] at hr
    rw [hv2, ← Option.some.inj hr, hperf]
    norm_num
  rw [hx, g1 hbhp, htarget] at hb1
  rw [segmentOffset_zero, ← hb1] at hb2
  refine ⟨st, hst, ?_, hb2, ?_, ?_, hperfs, fun p hp => ⟨hrate p hp, ?_⟩⟩
  · rw [hx, g1 hbhp, htarget]
  · obtain ⟨y, hy1, hy2⟩ := o3 1 (by omega) (by omega) (by omega)
    rw [hoff1] at hy1
    simp only [perforationOffset_zero, segmentOffset_zero, Nat.add_zero] at hy1 hy2
    exact ⟨y, hy1, hy2⟩
  · obtain ⟨y, hy1, hy2⟩ := o3 2 (by omega) (by omega) (by omega)
    rw [hoff2] at hy1
    simp only [perforationOffset_zero, segmentOffset_zero, Nat.add_zero, Nat.zero_add]
      at hy1 hy2
    exact ⟨y, hy1, hy2⟩
  · apply sum_of_equal_shares 4 (by omega)
    intro i hi
    rw [List.getD_eq_getElem?_getD, hperfs i p hi hp]
    norm_num

/-- Witness of C17: well `A` of the scenario alone. -/
theorem init_single_producer_scenario_witness :
    (exA.wellType = WellType.PRODUCER ∧ exA.numberOfPhases = 2 ∧ exA.numberOfSegments = 3 ∧
      exA.numberOfPerforations = 4 ∧ exA.segmentPerforations = [[], [0, 1], [2, 3]] ∧
      exA.wellControls.well_is_stopped = false ∧
      exA.wellControls.current_type = WellControlType.BHP ∧
      exA.wellControls.current_target = 20000000 ∧
      DimensionsConsistent 2 exPressure exA ∧
      WellStateMultiSegment.empty.segmentedWellMap_ = []) ∧
    ∃ st, init WellStateMultiSegment.empty [exA] exPressure WellStateMultiSegment.empty none
        = Except.ok st ∧
      st.bhp[0]? = some 20000000 ∧ st.segpress_[0]? = some 20000000 ∧
      (∃ x, st.perfPress[0]? = some x ∧ st.segpress_[1]? = some x) ∧
      (∃ x, st.perfPress[2]? = some x ∧ st.segpress_[2]? = some x) ∧
      (∀ i p, i < 4 → p < 2 →
        st.perfPhaseRates[2 * i + p]? = some ((-(1 / 100000000000000) / 4 : ℚ))) ∧
      (∀ p, p < 2 → st.wellRates[p]? = some ((-(1 / 100000000000000) : ℚ)) ∧
        ((List.range 4).map (fun i => st.perfPhaseRates.getD (2 * i + p) 0)).sum =
          -(1 / 100000000000000)) :=
  ⟨⟨rfl, rfl, rfl, rfl, rfl, rfl, rfl, rfl, (exA_consistent []).1, rfl⟩,
    init_single_producer_scenario exA exPressure WellStateMultiSegment.empty none rfl rfl rfl
      rfl rfl rfl rfl rfl (exA_consistent []).1 rfl⟩

/-! ## Two calls of `init` with the same arguments -/

theorem bhpGuess_unique {wells : List WellMultiSegment} {pressure : List ℚ}
    {well : WellMultiSegment} {x y : ℚ} (hx : BhpGuess wells pressure well x)
    (hy : BhpGuess wells pressure well y) : x = y := by
  obtain ⟨x1, x2, x3⟩ := hx
  obtain ⟨y1, y2, y3⟩ := hy
  by_cases hb : well.wellControls.current_type = WellControlType.BHP
  · rw [x1 hb, y1 hb]
  · cases hs : well.wellControls.well_is_stopped with
    | true =>
      obtain ⟨a, c, ha, hc, hp⟩ := x2 hb hs
      obtain ⟨a2, c2, ha2, hc2, hp2⟩ := y2 hb hs
      rw [ha] at ha2
      have e1 := Option.some.inj ha2
      subst e1
      rw [hc] at hc2
      have e2 := Option.some.inj hc2
      subst e2
      rw [hp] at hp2
      exact Option.some.inj hp2
    | false =>
      obtain ⟨c, p, hc, hp, hxp⟩ := x3 hb hs
      obtain ⟨c2, p2, hc2, hp2, hyp⟩ := y3 hb hs
      rw [hc] at hc2
      have e2 := Option.some.inj hc2
      subst e2
      rw [hp] at hp2
      have e3 := Option.some.inj hp2
      subst e3
      rw [hxp, hyp]

/-- The initial guess keeps the clone of the legacy wells. -/
theorem initGuess_wells {wells : List WellMultiSegment} {np : Nat} {pressure : List ℚ}
    {s0 st : WellStateMultiSegment} (h : initGuess wells np pressure s0 = Except.ok st) :
    st.wells_ = s0.wells_ := by
  obtain ⟨cc, L, cc2, -, -, hloop, -, rfl⟩ := initGuess_eq_ok h
  have key := (mainLoop_inv (fun _ t => t.wells_ = s0.wells_) hloop
    (by simp [resizeVectors, countSizes_eq]) ?_).1
  · exact key
  intro i t t2 hi h1 hbody
  obtain ⟨well, e, R⟩ := initWell_round hbody
  exact R.wells_eq.trans h1

/-- Two lists of the same length with the same elements at the positions below it. -/
theorem list_eq_of_getElem? {α : Type} {a b : List α} {n : Nat} (ha : a.length = n)
    (hb : b.length = n) (h : ∀ i, i < n → a[i]? = b[i]?) : a = b := by
  apply List.ext_getElem?
  intro i
  by_cases hi : i < n
  · exact h i hi
  · rw [List.getElem?_eq_none (by omega), List.getElem?_eq_none (by omega)]

/-- The initial guess for the same wells and reservoir pressures from two states with the
same counts: the bottom-hole and tubing-head pressures, the control indices, the
top-segment locations, the counts and the sizes of all vectors are the same. -/
theorem initGuess_agree {wells : List WellMultiSegment} {np : Nat} {pressure : List ℚ}
    {s1 s2 a b : WellStateMultiSegment}
    (hs1 : s1.nseg_ = s2.nseg_) (hs2 : s1.nperf_ = s2.nperf_)
    (ha : initGuess wells np pressure s1 = Except.ok a)
    (hb : initGuess wells np pressure s2 = Except.ok b) :
    a.bhp = b.bhp ∧ a.thp = b.thp ∧ a.currentControls = b.currentControls ∧
    a.top_segment_loc_ = b.top_segment_loc_ ∧ a.nseg_ = b.nseg_ ∧ a.nperf_ = b.nperf_ ∧
    SameSizes a b := by
  obtain ⟨a1, a2, a3, a4, a5, a6, a7, a8, a9, a10⟩ := initGuess_lengths ha
  obtain ⟨b1, b2, b3, b4, b5, b6, b7, b8, b9, b10⟩ := initGuess_lengths hb
  obtain ⟨c1, c2⟩ := initGuess_counts ha
  obtain ⟨d1, d2⟩ := initGuess_counts hb
  have hseg : a.nseg_ = b.nseg_ := by rw [c1, d1, hs1]
  have hperf : a.nperf_ = b.nperf_ := by rw [c2, d2, hs2]
  have hbhp : a.bhp = b.bhp := by
    apply list_eq_of_getElem? a1 b1
    intro i hi
    have hw : wells[i]? = some wells[i] := List.getElem?_eq_getElem hi
    obtain ⟨x, hx, gx⟩ := initGuess_bhp ha i _ hw
    obtain ⟨y, hy, gy⟩ := initGuess_bhp hb i _ hw
    rw [hx, hy, bhpGuess_unique gx gy]
  refine ⟨hbhp, ?_, ?_, ?_, hseg, hperf, ?_⟩
  · apply list_eq_of_getElem? a2 b2
    intro i hi
    have hw : wells[i]? = some wells[i] := List.getElem?_eq_getElem hi
    obtain ⟨x, hx, x1, x2⟩ := initGuess_thp ha i _ hw
    obtain ⟨y, hy, y1, y2⟩ := initGuess_thp hb i _ hw
    rw [hx, hy]
    by_cases ht : wells[i].wellControls.current_type = WellControlType.THP
    · rw [x1 ht, y1 ht]
    · have e1 := x2 ht
      rw [hbhp, y2 ht] at e1
      exact e1.symm
  · apply list_eq_of_getElem? a6 b6
    intro i hi
    have hw : wells[i]? = some wells[i] := List.getElem?_eq_getElem hi
    rw [initGuess_cc ha i _ hw, initGuess_cc hb i _ hw]
  · apply list_eq_of_getElem? a3 b3
    intro i hi
    rw [initGuess_topLoc ha i hi, initGuess_topLoc hb i hi]
  · refine ⟨by omega, by omega, by omega, by omega, by omega, by omega, ?_, by omega, ?_,
      by omega⟩
    · rw [a7, b7, hperf]
    · rw [a9, b9, hseg]

/-- The layout determines the map entry of a well. -/
theorem entry_unique {wells : List WellMultiSegment} {w : Nat} {well : WellMultiSegment}
    {e1 e2 : SegmentedMapentryType} (h1 : WellLayout wells w well e1)
    (g1 : SegmentLayout well e1) (h2 : WellLayout wells w well e2)
    (g2 : SegmentLayout well e2) : e1 = e2 := by
  obtain ⟨a1, a2, a3, a4, a5⟩ := h1
  obtain ⟨b1, b2, b3, b4, b5⟩ := h2
  have hs1 := (segmentLayout_offsets g1).2
  have hs2 := (segmentLayout_offsets g2).2
  obtain ⟨p1, p2, p3, -, -⟩ := g1
  obtain ⟨q1, q2, q3, -, -⟩ := g2
  have hstart : e1.start_perforation_segment = e2.start_perforation_segment := by
    apply list_eq_of_getElem? p1 q1
    intro i hi
    rw [hs1 i hi, hs2 i hi]
  have hcount : e1.number_of_perforations_segment = e2.number_of_perforations_segment := by
    apply list_eq_of_getElem? p2 q2
    intro i hi
    obtain ⟨l, hl, hc⟩ := p3 i hi
    obtain ⟨l2, hl2, hc2⟩ := q3 i hi
    rw [hl] at hl2
    rw [hc, hc2, Option.some.inj hl2]
  cases e1
  cases e2
  simp only at a1 a2 a3 a4 a5 b1 b2 b3 b4 b5 hstart hcount
  subst a1 a2 a3 a4 a5 hstart hcount
  simp [b1, b2, b3, b4, b5]

/-- The bottom-hole pressure and the control index of a well after `init`, for the same
arguments and two states `init` is called on, are the same. -/
theorem init_slot_agree {r1 r2 prevState st1 st2 : WellStateMultiSegment}
    {wells : List WellMultiSegment} {pressure : List ℚ} {legacy : Option Nat}
    {well0 : WellMultiSegment} (h0 : wells.head? = some well0)
    (hn : (wells.map (fun v => v.name)).Nodup)
    (h1 : init r1 wells pressure prevState legacy = Except.ok st1)
    (h2 : init r2 wells pressure prevState legacy = Except.ok st2)
    {w : Nat} {well : WellMultiSegment} (hw : wells[w]? = some well) :
    st1.bhp[w]? = st2.bhp[w]? ∧ st1.currentControls[w]? = st2.currentControls[w]? := by
  obtain ⟨sta, ea, sa, sb, hga, -, hla, s1a, Ra, s2a⟩ := init_target h0 hn h1 hw
  obtain ⟨stb, eb, ta, tb, hgb, -, hlb, s1b, Rb, s2b⟩ := init_target h0 hn h2 hw
  obtain ⟨g1, -, g3, -⟩ := initGuess_agree (by rfl) (by rfl) hga hgb
  obtain ⟨u1, -, u3, -⟩ := s1a
  obtain ⟨v1, -, v3, -⟩ := s2a
  obtain ⟨x1, -, x3, -⟩ := s1b
  obtain ⟨y1, -, y3, -⟩ := s2b
  rw [v1, v3, y1, y3]
  cases hold : mapFind prevState.segmentedWellMap_ well.name with
  | none =>
    rw [Ra.absent hold, Rb.absent hold, u1, u3, x1, x3, g1, g3]
    exact ⟨rfl, rfl⟩
  | some old =>
    have hbhp : sb.bhp[w]? = tb.bhp[w]? := by
      obtain ⟨x, hx1, hx2⟩ := (Ra.bhp old hold).2.2 0 (by omega)
      obtain ⟨y, hy1, hy2⟩ := (Rb.bhp old hold).2.2 0 (by omega)
      rw [hx1] at hy1
      rw [Nat.add_zero] at hx2 hy2
      rw [hx2, hy2, Option.some.inj hy1]
    refine ⟨hbhp, ?_⟩
    have hcc0 : sa.currentControls[w]? = ta.currentControls[w]? := by
      rw [u3, x3, g3]
    by_cases hm : Matched old ea
    · have hm2 : Matched old eb := by
        unfold Matched at hm ⊢
        rw [hlb.2.2.2.2, hlb.2.2.1, ← hla.2.2.2.2, ← hla.2.2.1]
        exact hm
      obtain ⟨c, hc, c1, c2⟩ := Ra.control old hold hm
      obtain ⟨d, hd, d1, d2⟩ := Rb.control old hold hm2
      rw [hc] at hd
      have hcd := Option.some.inj hd
      subst hcd
      by_cases hlt : c < well.wellControls.num
      · obtain ⟨k1, k2⟩ := c1 hlt
        obtain ⟨k3, k4⟩ := d1 hlt
        rw [k2, k4]
        simp [k1, k3]
      · rw [c2 hlt, d2 hlt]
        exact hcc0
    · have hm2 : ¬ Matched old eb := by
        intro hmb
        apply hm
        unfold Matched at hmb ⊢
        rw [hla.2.2.2.2, hla.2.2.1, ← hlb.2.2.2.2, ← hlb.2.2.1]
        exact hmb
      rw [(Ra.mismatch old hold hm).2.2.2.2, (Rb.mismatch old hold hm2).2.2.2.2]
      exact hcc0

/-! ## The outcome of `init` and the well slots of the state it is called on -/

theorem sameOutcome_ok {α : Type} {P : α → α → Prop} {u v : α} (h : P u v) :
    SameOutcome P (Except.ok u) (Except.ok v) := h

theorem sameOutcome_refl {α : Type} {P : α → α → Prop} (x : M α) (h : ∀ u, P u u) :
    SameOutcome P x x := by
  cases x with
  | ok u => exact h u
  | error e => exact rfl

theorem sameOutcome_bind {α β : Type} {P : α → α → Prop} {Q : β → β → Prop} {x y : M α}
    {f g : α → M β} (h : SameOutcome P x y)
    (hf : ∀ u v, P u v → SameOutcome Q (f u) (g v)) : SameOutcome Q (x >>= f) (y >>= g) := by
  cases x with
  | ok u =>
    cases y with
    | ok v => exact hf u v h
    | error e => exact h.elim
  | error e =>
    cases y with
    | ok v => exact h.elim
    | error f => exact h

theorem sameOutcome_eq {α : Type} {P : α → α → Prop} {x y : M α} (h : SameOutcome P x y)
    (hP : ∀ u v, P u v → u = v) : x = y := by
  cases x with
  | ok u =>
    cases y with
    | ok v => exact congrArg Except.ok (hP u v h)
    | error e => exact h.elim
  | error e =>
    cases y with
    | ok v => exact h.elim
    | error f => exact congrArg Except.error h

theorem sameOutcome_forUpTo {σ : Type} (P : Nat → σ → σ → Prop) {n : Nat}
    {body1 body2 : Nat → σ → M σ} {s t : σ} (h0 : P 0 s t)
    (hstep : ∀ i u v, i < n → P i u v → SameOutcome (P (i + 1)) (body1 i u) (body2 i v)) :
    SameOutcome (P n) (forUpTo n body1 s) (forUpTo n body2 t) := by
  induction n with
  | zero => exact h0
  | succ n ih =>
    have h1 := ih (fun i u v hi => hstep i u v (Nat.lt_succ_of_lt hi))
    rw [forUpTo, forUpTo]
    cases hx : forUpTo n body1 s with
    | ok u =>
      cases hy : forUpTo n body2 t with
      | ok v =>
        rw [hx, hy] at h1
        exact hstep n u v (Nat.lt_succ_self n) h1
      | error e =>
        rw [hx, hy] at h1
        exact h1.elim
    | error e =>
      cases hy : forUpTo n body2 t with
      | ok v =>
        rw [hx, hy] at h1
        exact h1.elim
      | error f =>
        rw [hx, hy] at h1
        exact h1

theorem readAt_congr {α : Type} {x y : List α} {i : Nat} (h : x[i]? = y[i]?) :
    readAt x i = readAt y i := by
  unfold readAt
  rw [h]

theorem agreeBelow_eq {α : Type} {n : Nat} {x y : List α} (h : AgreeBelow n n x y) : x = y :=
  list_eq_of_getElem? h.1 h.2.1 h.2.2

theorem writeAt_agree {α : Type} {n w : Nat} {x y : List α} (v : α)
    (h : AgreeBelow n w x y) :
    SameOutcome (AgreeBelow n (w + 1)) (writeAt x w v) (writeAt y w v) := by
  obtain ⟨hx, hy, hxy⟩ := h
  unfold writeAt
  by_cases hw : w < n
  · rw [if_pos (by omega), if_pos (by omega)]
    refine sameOutcome_ok ⟨by simp [hx], by simp [hy], fun j hj => ?_⟩
    rcases Nat.lt_succ_iff_lt_or_eq.mp hj with hlt | rfl
    · rw [List.getElem?_set_ne (by omega), List.getElem?_set_ne (by omega)]
      exact hxy j hlt
    · rw [List.getElem?_set_self (by omega), List.getElem?_set_self (by omega)]
  · rw [if_neg (by omega), if_neg (by omega)]
    exact rfl

theorem stoppedBhp_agree {wells : List WellMultiSegment} {ctrl : WellControls}
    {pressure : List ℚ} {n w : Nat} {x y : List ℚ} (h : AgreeBelow n w x y) :
    SameOutcome (AgreeBelow n (w + 1)) (stoppedBhp wells ctrl pressure w x)
      (stoppedBhp wells ctrl pressure w y) := by
  unfold stoppedBhp
  split
  · exact writeAt_agree _ h
  · apply sameOutcome_bind (sameOutcome_refl _ (fun _ => rfl))
    rintro u _ rfl
    apply sameOutcome_bind (sameOutcome_refl _ (fun _ => rfl))
    rintro c _ rfl
    apply sameOutcome_bind (sameOutcome_refl _ (fun _ => rfl))
    rintro p _ rfl
    exact writeAt_agree _ h

theorem openBhp_agree {well : WellMultiSegment} {pressure : List ℚ} {n w : Nat}
    {x y : List ℚ} (h : AgreeBelow n w x y) :
    SameOutcome (AgreeBelow n (w + 1)) (openBhp well pressure w x)
      (openBhp well pressure w y) := by
  unfold openBhp
  split
  · exact writeAt_agree _ h
  · apply sameOutcome_bind (sameOutcome_refl _ (fun _ => rfl))
    rintro c _ rfl
    apply sameOutcome_bind (sameOutcome_refl _ (fun _ => rfl))
    rintro p _ rfl
    exact writeAt_agree _ h

theorem initThp_agree {ctrl : WellControls} {n w : Nat} {b1 b2 t1 t2 : List ℚ}
    (hb : AgreeBelow n (w + 1) b1 b2) (ht : AgreeBelow n w t1 t2) :
    SameOutcome (AgreeBelow n (w + 1)) (initThp ctrl w b1 t1) (initThp ctrl w b2 t2) := by
  unfold initThp
  split
  · exact writeAt_agree _ ht
  · rw [readAt_congr (hb.2.2 w (Nat.lt_succ_self w))]
    apply sameOutcome_bind (sameOutcome_refl _ (fun _ => rfl))
    rintro b _ rfl
    exact writeAt_agree _ ht

theorem openSegPress_congr {e : SegmentedMapentryType} {ss sp w : Nat}
    {b1 b2 perfPress segpress : List ℚ} (h : b1[w]? = b2[w]?) :
    openSegPress e ss sp w b1 perfPress segpress
      = openSegPress e ss sp w b2 perfPress segpress := by
  unfold openSegPress
  rw [readAt_congr h]

theorem initStopped_agree {wells : List WellMultiSegment} {well : WellMultiSegment}
    {pressure : List ℚ} {n w : Nat} {a : WellStateMultiSegment} {b1 b2 t1 t2 : List ℚ}
    {p1 p2 : List Nat} (hb : AgreeBelow n w b1 b2) (ht : AgreeBelow n w t1 t2)
    (hp : AgreeBelow n (w + 1) p1 p2) :
    SameOutcome (AgreeButWellSlots n (w + 1))
      (initStopped wells well pressure w
        { a with bhp := b1, thp := t1, top_segment_loc_ := p1 })
      (initStopped wells well pressure w
        { a with bhp := b2, thp := t2, top_segment_loc_ := p2 }) := by
  unfold initStopped
  apply sameOutcome_bind (stoppedBhp_agree hb)
  intro x1 x2 hx
  apply sameOutcome_bind (initThp_agree hx ht)
  intro y1 y2 hy
  exact sameOutcome_ok ⟨a, x1, x2, y1, y2, p1, p2, rfl, rfl, hx, hy, hp⟩

theorem initOpen_agree {well : WellMultiSegment} {e : SegmentedMapentryType} {np : Nat}
    {pressure : List ℚ} {n w ss sp : Nat} {a : WellStateMultiSegment} {b1 b2 t1 t2 : List ℚ}
    {p1 p2 : List Nat} (hb : AgreeBelow n w b1 b2) (ht : AgreeBelow n w t1 t2)
    (hp : AgreeBelow n (w + 1) p1 p2) :
    SameOutcome (AgreeButWellSlots n (w + 1))
      (initOpen well e np pressure w ss sp
        { a with bhp := b1, thp := t1, top_segment_loc_ := p1 })
      (initOpen well e np pressure w ss sp
        { a with bhp := b2, thp := t2, top_segment_loc_ := p2 }) := by
  unfold initOpen
  apply sameOutcome_bind (sameOutcome_refl _ (fun _ => rfl))
  rintro wellRates _ rfl
  apply sameOutcome_bind (openBhp_agree hb)
  intro x1 x2 hx
  apply sameOutcome_bind (initThp_agree hx ht)
  intro y1 y2 hy
  apply sameOutcome_bind (sameOutcome_refl _ (fun _ => rfl))
  rintro perfs _ rfl
  simp only
  rw [openSegPress_congr (hx.2.2 w (Nat.lt_succ_self w))]
  apply sameOutcome_bind (sameOutcome_refl _ (fun _ => rfl))
  rintro segpress _ rfl
  apply sameOutcome_bind (sameOutcome_refl _ (fun _ => rfl))
  rintro segphaserates _ rfl
  exact sameOutcome_ok
    ⟨{ a with wellRates := wellRates, perfPhaseRates := perfs.1, perfPress := perfs.2,
              segpress_ := segpress, segphaserates_ := segphaserates },
      x1, x2, y1, y2, p1, p2, rfl, rfl, hx, hy, hp⟩

theorem initValues_agree {wells : List WellMultiSegment} {well : WellMultiSegment}
    {e : SegmentedMapentryType} {np : Nat}
    {pressure : List ℚ} {n w ss sp : Nat} {a : WellStateMultiSegment} {b1 b2 t1 t2 : List ℚ}
    {p1 p2 : List Nat} (hb : AgreeBelow n w b1 b2) (ht : AgreeBelow n w t1 t2)
    (hp : AgreeBelow n (w + 1) p1 p2) :
    SameOutcome (AgreeButWellSlots n (w + 1))
      (initValues wells well e np pressure w ss sp
        { a with bhp := b1, thp := t1, top_segment_loc_ := p1 })
      (initValues wells well e np pressure w ss sp
        { a with bhp := b2, thp := t2, top_segment_loc_ := p2 }) := by
  unfold initValues
  split
  · exact initStopped_agree hb ht hp
  · exact initOpen_agree hb ht hp

/-- One round of the loop of lines 117-242 on two states that are the same but for the
slots of the wells not yet treated in `bhp`, `thp` and `top_segment_loc_`: the outcome is the
same, but for the slots of the wells after this one. -/
theorem initWell_agree {wells : List WellMultiSegment} {np : Nat} {pressure : List ℚ}
    {n w ss sp : Nat} {s1 s2 : WellStateMultiSegment} (h : AgreeButWellSlots n w s1 s2) :
    SameOutcome
      (fun K1 K2 => K1.start_segment = K2.start_segment ∧
        K1.start_perforation = K2.start_perforation ∧ AgreeButWellSlots n (w + 1) K1.st K2.st)
      (initWell wells np pressure w ⟨ss, sp, s1⟩) (initWell wells np pressure w ⟨ss, sp, s2⟩) := by
  obtain ⟨a, b1, b2, t1, t2, p1, p2, rfl, rfl, hb, ht, hp⟩ := h
  unfold initWell
  apply sameOutcome_bind (sameOutcome_refl _ (fun _ => rfl))
  rintro well _ rfl
  apply sameOutcome_bind (sameOutcome_refl _ (fun _ => rfl))
  rintro u _ rfl
  apply sameOutcome_bind (writeAt_agree _ hp)
  intro q1 q2 hq
  apply sameOutcome_bind (sameOutcome_refl _ (fun _ => rfl))
  rintro e _ rfl
  refine sameOutcome_bind
    (@initValues_agree wells well e np pressure n w ss sp
      { a with segmentedWellMap_ := mapSet a.segmentedWellMap_ well.name e }
      b1 b2 t1 t2 q1 q2 hb ht hq) ?_
  intro st1 st2 hst
  exact sameOutcome_ok ⟨rfl, rfl, hst⟩

/-- The loop of lines 117-242 on two states that are the same but for `bhp`, `thp` and
`top_segment_loc_`, which have one element per well in both: the outcome is the same. -/
theorem mainLoop_agree {wells : List WellMultiSegment} {np : Nat} {pressure : List ℚ}
    {s1 s2 : WellStateMultiSegment} (h : AgreeButWellSlots wells.length 0 s1 s2) :
    forUpTo wells.length (initWell wells np pressure) ⟨0, 0, s1⟩
      = forUpTo wells.length (initWell wells np pressure) ⟨0, 0, s2⟩ := by
  have key := @sameOutcome_forUpTo InitLoop
    (fun m K1 K2 => K1.start_segment = K2.start_segment ∧
      K1.start_perforation = K2.start_perforation ∧
      AgreeButWellSlots wells.length m K1.st K2.st)
    wells.length (initWell wells np pressure) (initWell wells np pressure) ⟨0, 0, s1⟩
    ⟨0, 0, s2⟩ ⟨rfl, rfl, h⟩ ?_
  · apply sameOutcome_eq key
    rintro ⟨ss1, sp1, u1⟩ ⟨ss2, sp2, u2⟩ ⟨e1, e2, a, b1, b2, t1, t2, p1, p2, e3, e4, hb, ht, hp⟩
    simp only at e1 e2 e3 e4
    subst e1 e2 e3 e4
    rw [agreeBelow_eq hb, agreeBelow_eq ht, agreeBelow_eq hp]
  · rintro i ⟨ss1, sp1, u1⟩ ⟨ss2, sp2, u2⟩ hi ⟨e1, e2, hu⟩
    simp only at e1 e2 hu
    subst e1 e2
    exact initWell_agree hu

/-- The loops of lines 100-102 and 248-250 overwrite every control index. -/
theorem setCurrentControls_eq {wells : List WellMultiSegment} {cc : List Int}
    (h : cc.length = wells.length) :
    setCurrentControls wells cc
      = Except.ok (wells.map (fun well => well.wellControls.current)) := by
  obtain ⟨out, hout⟩ := @setCurrentControls_returns wells cc (by omega)
  obtain ⟨hlen, hval⟩ := setCurrentControls_eq_ok hout
  rw [hout]
  congr 1
  apply list_eq_of_getElem? (hlen.trans h) (List.length_map _ _)
  intro i hi
  rw [hval i _ (List.getElem?_eq_getElem hi), List.getElem?_map,
    List.getElem?_eq_getElem hi]
  rfl

/-- The initial guess does not depend on what the state it starts from holds in `bhp`,
`thp`, `currentControls` and `top_segment_loc_`. -/
theorem initGuess_agree_of_kept {wells : List WellMultiSegment} {np : Nat}
    {pressure : List ℚ} {s1 s2 : WellStateMultiSegment}
    (e0 : s1.wells_ = s2.wells_) (e1 : s1.temperature = s2.temperature)
    (e2 : s1.wellRates = s2.wellRates) (e3 : s1.perfPhaseRates = s2.perfPhaseRates)
    (e4 : s1.perfPress = s2.perfPress) (e5 : s1.segpress_ = s2.segpress_)
    (e6 : s1.segphaserates_ = s2.segphaserates_)
    (e7 : s1.segmentedWellMap_ = s2.segmentedWellMap_) (e8 : s1.nseg_ = s2.nseg_)
    (e9 : s1.nperf_ = s2.nperf_) :
    initGuess wells np pressure s1 = initGuess wells np pressure s2 := by
  unfold initGuess
  rw [setCurrentControls_eq (length_resize _ _ _), setCurrentControls_eq (length_resize _ _ _)]
  show (checkWellTypes wells >>= _) = (checkWellTypes wells >>= _)
  congr 1
  funext _
  rw [@mainLoop_agree wells np pressure
    (resizeVectors wells.length np { countSizes wells s1 with
      currentControls := wells.map (fun well => well.wellControls.current) })
    (resizeVectors wells.length np { countSizes wells s2 with
      currentControls := wells.map (fun well => well.wellControls.current) })]
  obtain ⟨w1, b1, t1, tmp1, wr1, c1, ppr1, pp1, sg1, sgr1, tp1, mp1, ns1, npf1⟩ := s1
  obtain ⟨w2, b2, t2, tmp2, wr2, c2, ppr2, pp2, sg2, sgr2, tp2, mp2, ns2, npf2⟩ := s2
  simp only at e0 e1 e2 e3 e4 e5 e6 e7 e8 e9
  subst e0 e1 e2 e3 e4 e5 e6 e7 e8 e9
  refine ⟨resizeVectors wells.length np { countSizes wells
      ⟨w1, b1, t1, tmp1, wr1, c1, ppr1, pp1, sg1, sgr1, tp1, mp1, ns1, npf1⟩ with
      currentControls := wells.map (fun well => well.wellControls.current) },
    resize b1 wells.length 0, resize b2 wells.length 0, resize t1 wells.length 0,
    resize t2 wells.length 0, resize tp1 wells.length 0, resize tp2 wells.length 0, ?_, ?_,
    ⟨length_resize _ _ _, length_resize _ _ _, fun j hj => absurd hj (Nat.not_lt_zero j)⟩,
    ⟨length_resize _ _ _, length_resize _ _ _, fun j hj => absurd hj (Nat.not_lt_zero j)⟩,
    ⟨length_resize _ _ _, length_resize _ _ _, fun j hj => absurd hj (Nat.not_lt_zero j)⟩⟩
  · simp only [countSizes_eq, resizeVectors]
  · simp only [countSizes_eq, resizeVectors]

/-- For a non-empty sequence of wells, the outcome of `init` does not depend on what the
state it is called on holds in `bhp`, `thp`, `currentControls`, `top_segment_loc_`, the
counts and the clone of the legacy wells. -/
theorem init_agree_of_kept {r1 r2 : WellStateMultiSegment} {wells : List WellMultiSegment}
    (pressure : List ℚ) (prevState : WellStateMultiSegment) (legacy : Option Nat)
    (hne : wells ≠ [])
    (e1 : r1.temperature = r2.temperature)
    (e2 : r1.wellRates = r2.wellRates) (e3 : r1.perfPhaseRates = r2.perfPhaseRates)
    (e4 : r1.perfPress = r2.perfPress) (e5 : r1.segpress_ = r2.segpress_)
    (e6 : r1.segphaserates_ = r2.segphaserates_)
    (e7 : r1.segmentedWellMap_ = r2.segmentedWellMap_) :
    init r1 wells pressure prevState legacy = init r2 wells pressure prevState legacy := by
  cases wells with
  | nil => exact absurd rfl hne
  | cons well0 rest =>
    unfold init
    simp only
    rw [@initGuess_agree_of_kept (well0 :: rest) well0.numberOfPhases pressure
      { r1 with wells_ := legacy, nseg_ := 0, nperf_ := 0 }
      { r2 with wells_ := legacy, nseg_ := 0, nperf_ := 0 } rfl e1 e2 e3 e4 e5 e6 e7 rfl rfl]

/-! ## What the initial guess and the continuation leave alone -/

/-- A resized vector holds, below its new size, what it held before, and the fill value
where it held nothing. -/
theorem takenOver_resize {α : Type} (old : List α) {n j : Nat} (fill : α) (hj : j < n) :
    TakenOver old (resize old n fill) fill j := by
  unfold TakenOver resize
  by_cases h : j < old.length
  · rw [List.getElem?_append_left (by simp; omega), List.getElem?_take_of_lt hj,
      List.getElem?_eq_getElem h]
    rfl
  · have hnone : old[j]? = none := List.getElem?_eq_none (by omega)
    rw [List.getElem?_append_right (by simp; omega), hnone]
    simp only [List.length_take, Option.getD_none]
    apply getElem?_replicate_of_lt
    omega

/-- What one round of the loop of lines 117-242 leaves alone in the segment pressures:
everything for a stopped well; for an open well everything but its own slice and the element
at the start of that slice. -/
theorem initWell_segpress {wells : List WellMultiSegment} {np : Nat} {pressure : List ℚ}
    {w ss sp ss2 sp2 : Nat} {st st2 : WellStateMultiSegment}
    (h : initWell wells np pressure w ⟨ss, sp, st⟩ = Except.ok ⟨ss2, sp2, st2⟩) :
    ∃ well, wells[w]? = some well ∧
      (well.wellControls.well_is_stopped = true → st2.segpress_ = st.segpress_) ∧
      (∀ j, (j < ss ∨ (ss + well.numberOfSegments ≤ j ∧ j ≠ ss)) →
        st2.segpress_[j]? = st.segpress_[j]?) := by
  obtain ⟨well, e, hw, hv, htop, he, -, -, hval⟩ := initWell_eq_ok h
  simp only at htop he hval
  refine ⟨well, hw, ?_⟩
  unfold initValues at hval
  by_cases hs : well.wellControls.well_is_stopped = true
  · rw [if_pos hs] at hval
    obtain ⟨bhp, thp, hb, ht, rfl⟩ := initStopped_eq_ok hval
    exact ⟨fun _ => rfl, fun _ _ => rfl⟩
  · rw [if_neg hs] at hval
    obtain ⟨wellRates, bhp, thp, perfs, segpress, segphaserates, -, -, -, -, hsp, -, rfl⟩ :=
      initOpen_eq_ok hval
    obtain ⟨-, -, e3, -, -, -⟩ := buildMapEntry_eq_ok he
    simp only at hsp
    obtain ⟨-, -, q3, -, -⟩ := openSegPress_eq_ok hsp
    rw [e3] at q3
    exact ⟨fun hst => absurd hst hs, q3⟩

/-- What the loop over the wells leaves alone: the temperatures, the map entries of the keys
that are not names of the wells treated, and the segment values outside the slices of the
open wells (for the pressures, also outside the starts of those slices). -/
theorem mainLoop_untouched {wells : List WellMultiSegment} {np : Nat} {pressure : List ℚ}
    {n : Nat} {s : WellStateMultiSegment} {L : InitLoop}
    (h : forUpTo n (initWell wells np pressure) ⟨0, 0, s⟩ = Except.ok L) :
    L.st.temperature = s.temperature ∧
    (∀ k, (∀ (v : Nat) (well : WellMultiSegment), v < n → wells[v]? = some well →
        well.name ≠ k) →
      mapFind L.st.segmentedWellMap_ k = mapFind s.segmentedWellMap_ k) ∧
    (∀ j, (∀ (v : Nat) (well : WellMultiSegment), v < n → wells[v]? = some well →
        well.wellControls.well_is_stopped = false →
        (j < segmentOffset wells v ∨
          (segmentOffset wells v + well.numberOfSegments ≤ j ∧ j ≠ segmentOffset wells v))) →
      L.st.segpress_[j]? = s.segpress_[j]?) ∧
    (∀ j, (∀ (v : Nat) (well : WellMultiSegment), v < n → wells[v]? = some well →
        well.wellControls.well_is_stopped = false →
        (j < np * segmentOffset wells v ∨
          np * (segmentOffset wells v + well.numberOfSegments) ≤ j)) →
      L.st.segphaserates_[j]? = s.segphaserates_[j]?) := by
  refine (mainLoop_inv
    (fun m st =>
      st.temperature = s.temperature ∧
      (∀ k, (∀ (v : Nat) (well : WellMultiSegment), v < m → wells[v]? = some well →
          well.name ≠ k) →
        mapFind st.segmentedWellMap_ k = mapFind s.segmentedWellMap_ k) ∧
      (∀ j, (∀ (v : Nat) (well : WellMultiSegment), v < m → wells[v]? = some well →
          well.wellControls.well_is_stopped = false →
          (j < segmentOffset wells v ∨
            (segmentOffset wells v + well.numberOfSegments ≤ j ∧
              j ≠ segmentOffset wells v))) →
        st.segpress_[j]? = s.segpress_[j]?) ∧
      (∀ j, (∀ (v : Nat) (well : WellMultiSegment), v < m → wells[v]? = some well →
          well.wellControls.well_is_stopped = false →
          (j < np * segmentOffset wells v ∨
            np * (segmentOffset wells v + well.numberOfSegments) ≤ j)) →
        st.segphaserates_[j]? = s.segphaserates_[j]?)) h
    ⟨rfl, fun _ _ => rfl, fun _ _ => rfl, fun _ _ => rfl⟩ ?_).1
  intro i st st2 hi ⟨i1, i2, i3, i4⟩ hbody
  obtain ⟨well, e, R⟩ := initWell_round hbody
  obtain ⟨well1, hw1, A⟩ := initWell_arrays hbody
  obtain ⟨well2, hw2, S1, S2⟩ := initWell_segpress hbody
  have hwe : well1 = well := by
    rw [R.well_eq] at hw1
    exact (Option.some.inj hw1).symm
  have hwe2 : well2 = well := by
    rw [R.well_eq] at hw2
    exact (Option.some.inj hw2).symm
  subst hwe
  subst hwe2
  refine ⟨R.temperature_eq.trans i1, ?_, ?_, ?_⟩
  · intro k hk
    rw [R.map_eq, mapFind_mapSet, if_neg (hk i well2 (Nat.lt_succ_self i) hw1)]
    exact i2 k (fun v wv hv hwv => hk v wv (Nat.lt_succ_of_lt hv) hwv)
  · intro j hj
    have hrest := i3 j (fun v wv hv hwv hop => hj v wv (Nat.lt_succ_of_lt hv) hwv hop)
    cases hst : well2.wellControls.well_is_stopped with
    | true => rw [S1 hst]; exact hrest
    | false => rw [S2 j (hj i well2 (Nat.lt_succ_self i) hw1 hst)]; exact hrest
  · intro j hj
    have hrest := i4 j (fun v wv hv hwv hop => hj v wv (Nat.lt_succ_of_lt hv) hwv hop)
    cases hst : well2.wellControls.well_is_stopped with
    | true => rw [(A.stopped hst).2.2]; exact hrest
    | false => rw [A.segRates_frame j (hj i well2 (Nat.lt_succ_self i) hw1 hst)]; exact hrest

/-- What the initial guess takes over from the state `s0` it starts from: the temperatures,
the map entries of the keys that are not names of the wells, and the phase rates and the
perforation and segment values of the stopped wells. A segment pressure at the start of the
slice of a stopped well is taken over when no open well without segments comes before. -/
theorem initGuess_taken_over {wells : List WellMultiSegment} {np : Nat} {pressure : List ℚ}
    {s0 st : WellStateMultiSegment} (h : initGuess wells np pressure s0 = Except.ok st) :
    (∀ j, j < wells.length → TakenOver s0.temperature st.temperature (27315 / 100 + 20) j) ∧
    (∀ k, k ∉ wells.map (fun v => v.name) →
      mapFind st.segmentedWellMap_ k = mapFind s0.segmentedWellMap_ k) ∧
    (∀ (w : Nat) (well : WellMultiSegment), wells[w]? = some well →
      well.wellControls.well_is_stopped = true →
      (∀ p, p < np → TakenOver s0.wellRates st.wellRates 0 (np * w + p)) ∧
      (∀ i, i < well.numberOfPerforations →
        TakenOver s0.perfPress st.perfPress sentinel (perforationOffset wells w + i) ∧
        ∀ p, p < np → TakenOver s0.perfPhaseRates st.perfPhaseRates 0
          (np * (perforationOffset wells w + i) + p)) ∧
      (∀ s, s < well.numberOfSegments →
        (∀ p, p < np → TakenOver s0.segphaserates_ st.segphaserates_ 0
          (np * (segmentOffset wells w + s) + p)) ∧
        ((1 ≤ s ∨ ∀ (v : Nat) (wv : WellMultiSegment), wells[v]? = some wv →
            wv.wellControls.well_is_stopped = false → 1 ≤ wv.numberOfSegments) →
          TakenOver s0.segpress_ st.segpress_ sentinel (segmentOffset wells w + s)))) := by
  obtain ⟨cc, L, cc2, -, -, hloop, -, rfl⟩ := initGuess_eq_ok h
  obtain ⟨u1, u2, u3, u4⟩ := mainLoop_untouched hloop
  obtain ⟨-, -, m3, -⟩ := mainLoop_arrays hloop
  obtain ⟨-, -, r3⟩ := mainLoop_rates hloop
  simp only [resizeVectors, countSizes_eq] at u1 u2 u3 u4 m3 r3
  refine ⟨?_, ?_, ?_⟩
  · intro j hj
    unfold TakenOver
    simp only
    rw [u1]
    exact takenOver_resize _ _ hj
  · intro k hk
    apply u2 k
    intro v well _ hv hname
    exact hk (List.mem_map.mpr ⟨well, List.getElem?_mem hv, hname⟩)
  · intro w well hw hst
    have hlt := lt_length_of_getElem? hw
    have hpe : perforationOffset wells w + well.numberOfPerforations ≤
        perforationOffset wells wells.length := by
      rw [← perforationOffset_succ hw]
      exact perforationOffset_mono wells hlt
    have hse : segmentOffset wells w + well.numberOfSegments ≤
        segmentOffset wells wells.length := by
      rw [← segmentOffset_succ hw]
      exact segmentOffset_mono wells hlt
    obtain ⟨a1, a2⟩ := m3 w well hlt hw hst
    refine ⟨?_, ?_, ?_⟩
    · intro p hp
      unfold TakenOver
      simp only
      rw [(r3 w well p hlt hw hp).1 hst]
      apply takenOver_resize
      rw [Nat.mul_comm wells.length np]
      exact slot_lt hlt hp
    · intro i hi
      refine ⟨?_, fun p hp => ?_⟩
      · unfold TakenOver
        simp only
        rw [a1 _ (by omega) (by omega)]
        apply takenOver_resize
        omega
      · have hidx : np * (perforationOffset wells w + i) + p <
            np * (perforationOffset wells w + well.numberOfPerforations) :=
          slot_lt (by omega) hp
        have hle2 : np * (perforationOffset wells w + well.numberOfPerforations) ≤
            np * perforationOffset wells wells.length := Nat.mul_le_mul_left np hpe
        have hle3 : np * perforationOffset wells w ≤ np * (perforationOffset wells w + i) :=
          Nat.mul_le_mul_left np (by omega)
        unfold TakenOver
        simp only
        rw [a2 _ (by omega) hidx]
        apply takenOver_resize
        have e1 : (s0.nperf_ + perforationOffset wells wells.length) * np =
            np * s0.nperf_ + np * perforationOffset wells wells.length := by ring
        omega
    · intro s hs
      have hopen : ∀ (v : Nat) (wv : WellMultiSegment), wells[v]? = some wv →
          wv.wellControls.well_is_stopped = false → v ≠ w := by
        intro v wv hv hop hvw
        rw [hvw, hw] at hv
        have := Option.some.inj hv
        subst this
        rw [hst] at hop
        cases hop
      refine ⟨fun p hp => ?_, fun hcond => ?_⟩
      · have hidx : np * (segmentOffset wells w + s) + p <
            np * (segmentOffset wells w + well.numberOfSegments) :=
          slot_lt (by omega) hp
        have hle2 : np * (segmentOffset wells w + well.numberOfSegments) ≤
            np * segmentOffset wells wells.length := Nat.mul_le_mul_left np hse
        have hle3 : np * segmentOffset wells w ≤ np * (segmentOffset wells w + s) :=
          Nat.mul_le_mul_left np (by omega)
        unfold TakenOver
        simp only
        rw [u4]
        · apply takenOver_resize
          have e1 : (s0.nseg_ + segmentOffset wells wells.length) * np =
              np * s0.nseg_ + np * segmentOffset wells wells.length := by ring
          omega
        · intro v wv _ hv hop
          rcases Nat.lt_or_gt_of_ne (hopen v wv hv hop) with hlt2 | hgt
          · right
            have := Nat.mul_le_mul_left np (segmentOffset_add_le hv hlt2)
            omega
          · left
            have := Nat.mul_le_mul_left np (segmentOffset_add_le hw hgt)
            omega
      · unfold TakenOver
        simp only
        rw [u3]
        · apply takenOver_resize
          omega
        · intro v wv _ hv hop
          rcases Nat.lt_or_gt_of_ne (hopen v wv hv hop) with hlt2 | hgt
          · right
            have h1 := segmentOffset_add_le hv hlt2
            refine ⟨by omega, ?_⟩
            rcases hcond with h2 | h2
            · omega
            · have := h2 v wv hv hop
              omega
          · left
            have := segmentOffset_add_le hw hgt
            omega

/-- What the continuation leaves of the initial guess `st0` for one well: the temperatures
and the map altogether; the phase rates of a well the previous state does not hold; the
perforation and segment values of a well that is not carried over. -/
theorem init_kept {self prevState st : WellStateMultiSegment}
    {wells : List WellMultiSegment} {pressure : List ℚ} {legacy : Option Nat}
    {well0 : WellMultiSegment} (h0 : wells.head? = some well0)
    (hn : (wells.map (fun well => well.name)).Nodup)
    (h : init self wells pressure prevState legacy = Except.ok st)
    {w : Nat} {well : WellMultiSegment} (hw : wells[w]? = some well) :
    ∃ st0,
      initGuess wells well0.numberOfPhases pressure
        { self with wells_ := legacy, nseg_ := 0, nperf_ := 0 } = Except.ok st0 ∧
      st.temperature = st0.temperature ∧ st.segmentedWellMap_ = st0.segmentedWellMap_ ∧
      (mapFind prevState.segmentedWellMap_ well.name = none →
        ∀ p, p < well0.numberOfPhases →
          st.wellRates[well0.numberOfPhases * w + p]?
            = st0.wellRates[well0.numberOfPhases * w + p]?) ∧
      (¬ CarriedOver prevState well →
        (∀ i, i < well.numberOfPerforations →
          st.perfPress[perforationOffset wells w + i]?
            = st0.perfPress[perforationOffset wells w + i]? ∧
          ∀ p, p < well0.numberOfPhases →
            st.perfPhaseRates[well0.numberOfPhases * (perforationOffset wells w + i) + p]?
              = st0.perfPhaseRates[well0.numberOfPhases * (perforationOffset wells w + i) + p]?) ∧
        (∀ s, s < well.numberOfSegments →
          (∀ p, p < well0.numberOfPhases →
            st.segphaserates_[well0.numberOfPhases * (segmentOffset wells w + s) + p]?
              = st0.segphaserates_[well0.numberOfPhases * (segmentOffset wells w + s) + p]?) ∧
          st.segpress_[segmentOffset wells w + s]?
            = st0.segpress_[segmentOffset wells w + s]?)) := by
  obtain ⟨st0, e, sa, sb, hg, he, hl, s1, R, s2⟩ := init_target h0 hn h hw
  obtain ⟨st0b, hgb, hc⟩ := init_eq_ok h0 h
  have hsame : st0b = st0 := by
    rw [hg] at hgb
    exact (Except.ok.inj hgb).symm
  subst hsame
  obtain ⟨g1, -, -, -, -, g6, -⟩ := carryOver_global hc
  obtain ⟨l1, l2, l3, l4, l5⟩ := hl
  obtain ⟨-, a2, -, a4, a5, a6, a7⟩ := s1
  obtain ⟨-, t2, -, t4, t5, t6, t7⟩ := s2
  rw [l2, l3] at a4 a5 t4 t5
  rw [l4, l5] at a6 a7 t6 t7
  refine ⟨st0b, hg, g6, g1, ?_, ?_⟩
  · intro hold p hp
    rw [Nat.mul_comm, t2 p hp, R.absent hold, a2 p hp]
  · intro hnot
    have hfour : sb.segpress_ = sa.segpress_ ∧ sb.segphaserates_ = sa.segphaserates_ ∧
        sb.perfPress = sa.perfPress ∧ sb.perfPhaseRates = sa.perfPhaseRates := by
      cases hold : mapFind prevState.segmentedWellMap_ well.name with
      | none =>
        rw [R.absent hold]
        exact ⟨rfl, rfl, rfl, rfl⟩
      | some old =>
        have hm : ¬ Matched old e := by
          intro hm
          exact hnot ⟨old, hold, hm.1.trans l5, hm.2.trans l3⟩
        obtain ⟨m1, m2, m3, m4, -⟩ := R.mismatch old hold hm
        exact ⟨m1, m2, m3, m4⟩
    obtain ⟨f1, f2, f3, f4⟩ := hfour
    refine ⟨fun i hi => ⟨?_, fun p hp => ?_⟩, fun s hs => ⟨fun p hp => ?_, ?_⟩⟩
    · rw [t6 i hi, f3, a6 i hi]
    · rw [flat_index, t7 _ (flat_lt hi hp), f4, a7 _ (flat_lt hi hp)]
    · rw [flat_index, t5 _ (flat_lt hs hp), f2, a5 _ (flat_lt hs hp)]
    · rw [t4 s hs, f1, a4 s hs]

/-- What the continuation copies from the previous state for one well: the phase rates of a
well the previous state holds, and the perforation and segment values of a well that is
carried over. Two calls of `init` with the same previous state hence agree on them. -/
theorem init_copied_agree {r1 r2 prevState st1 st2 : WellStateMultiSegment}
    {wells : List WellMultiSegment} {pressure : List ℚ} {legacy : Option Nat}
    {well0 : WellMultiSegment} (h0 : wells.head? = some well0)
    (hn : (wells.map (fun well => well.name)).Nodup)
    (h1 : init r1 wells pressure prevState legacy = Except.ok st1)
    (h2 : init r2 wells pressure prevState legacy = Except.ok st2)
    {w : Nat} {well : WellMultiSegment} (hw : wells[w]? = some well) :
    ((mapFind prevState.segmentedWellMap_ well.name).isSome →
      ∀ p, p < well0.numberOfPhases →
        st1.wellRates[well0.numberOfPhases * w + p]?
          = st2.wellRates[well0.numberOfPhases * w + p]?) ∧
    (CarriedOver prevState well →
      (∀ i, i < well.numberOfPerforations →
        st1.perfPress[perforationOffset wells w + i]?
          = st2.perfPress[perforationOffset wells w + i]? ∧
        ∀ p, p < well0.numberOfPhases →
          st1.perfPhaseRates[well0.numberOfPhases * (perforationOffset wells w + i) + p]?
            = st2.perfPhaseRates[well0.numberOfPhases * (perforationOffset wells w + i) + p]?) ∧
      (∀ s, s < well.numberOfSegments →
        (∀ p, p < well0.numberOfPhases →
          st1.segphaserates_[well0.numberOfPhases * (segmentOffset wells w + s) + p]?
            = st2.segphaserates_[well0.numberOfPhases * (segmentOffset wells w + s) + p]?) ∧
        st1.segpress_[segmentOffset wells w + s]?
          = st2.segpress_[segmentOffset wells w + s]?)) := by
  obtain ⟨sta, ea, sa, sb, -, -, hla, -, Ra, s2a⟩ := init_target h0 hn h1 hw
  obtain ⟨stb, eb, ta, tb, -, -, hlb, -, Rb, s2b⟩ := init_target h0 hn h2 hw
  obtain ⟨-, k2, k3, k4, k5⟩ := hla
  obtain ⟨-, l2, l3, l4, l5⟩ := hlb
  obtain ⟨-, a2, -, a4, a5, a6, a7⟩ := s2a
  obtain ⟨-, b2, -, b4, b5, b6, b7⟩ := s2b
  rw [k2, k3] at a4 a5
  rw [k4, k5] at a6 a7
  rw [l2, l3] at b4 b5
  rw [l4, l5] at b6 b7
  have both : ∀ {α : Type} {src x y : List α} {i j : Nat},
      (∃ v, src[i]? = some v ∧ x[j]? = some v) → (∃ v, src[i]? = some v ∧ y[j]? = some v) →
      x[j]? = y[j]? := by
    intro α src x y i j ⟨v, hv1, hv2⟩ ⟨u, hu1, hu2⟩
    rw [hv1] at hu1
    rw [hv2, hu2, Option.some.inj hu1]
  refine ⟨?_, ?_⟩
  · intro hsome p hp
    obtain ⟨old, hold⟩ := Option.isSome_iff_exists.mp hsome
    rw [Nat.mul_comm, a2 p hp, b2 p hp]
    exact both ((Ra.rates old hold).2.2 p hp) ((Rb.rates old hold).2.2 p hp)
  · rintro ⟨old, hold, hperf, hseg⟩
    have hma : Matched old ea := ⟨hperf.trans k5.symm, hseg.trans k3.symm⟩
    have hmb : Matched old eb := ⟨hperf.trans l5.symm, hseg.trans l3.symm⟩
    have c1 := (Ra.segpress old hold hma).2.2
    have c2 := (Ra.segphaserates old hold hma).2.2
    have c3 := (Ra.perfPress old hold hma).2.2
    have c4 := (Ra.perfPhaseRates old hold hma).2.2
    have d1 := (Rb.segpress old hold hmb).2.2
    have d2 := (Rb.segphaserates old hold hmb).2.2
    have d3 := (Rb.perfPress old hold hmb).2.2
    have d4 := (Rb.perfPhaseRates old hold hmb).2.2
    rw [k2, k3] at c1 c2
    rw [k4, k5] at c3 c4
    rw [l2, l3] at d1 d2
    rw [l4, l5] at d3 d4
    refine ⟨fun i hi => ⟨?_, fun p hp => ?_⟩, fun s hs => ⟨fun p hp => ?_, ?_⟩⟩
    · rw [a6 i hi, b6 i hi]
      exact both (c3 i hi) (d3 i hi)
    · rw [flat_index, a7 _ (flat_lt hi hp), b7 _ (flat_lt hi hp)]
      exact both (c4 _ (flat_lt hi hp)) (d4 _ (flat_lt hi hp))
    · rw [flat_index, a5 _ (flat_lt hs hp), b5 _ (flat_lt hs hp)]
      exact both (c2 _ (flat_lt hs hp)) (d2 _ (flat_lt hs hp))
    · rw [a4 s hs, b4 s hs]
      exact both (c1 s hs) (d1 s hs)

/-! ## The values of the open wells in two calls -/

theorem openRateGuess_unique {well : WellMultiSegment} {p : Nat} {x y : ℚ}
    (hx : OpenRateGuess well p x) (hy : OpenRateGuess well p y) : x = y := by
  obtain ⟨x1, x2⟩ := hx
  obtain ⟨y1, y2⟩ := hy
  by_cases hc : well.wellControls.current_type = WellControlType.SURFACE_RATE
  · obtain ⟨d, hd, hxd⟩ := x1 hc
    obtain ⟨d2, hd2, hyd⟩ := y1 hc
    rw [hd] at hd2
    rw [hxd, hyd, Option.some.inj hd2]
  · rw [x2 hc, y2 hc]

/-- The perforation and segment values of an open well are determined by its phase rates. -/
theorem openArrays_agree {np : Nat} {pressure : List ℚ} {well : WellMultiSegment}
    {w ss sp : Nat} {a b : WellStateMultiSegment}
    (hr : ∀ p, p < np → a.wellRates[np * w + p]? = b.wellRates[np * w + p]?)
    (ha : OpenArrays np pressure well w ss sp a) (hb : OpenArrays np pressure well w ss sp b) :
    (∀ i p, i < well.numberOfPerforations → p < np →
      a.perfPhaseRates[np * (i + sp) + p]? = b.perfPhaseRates[np * (i + sp) + p]?) ∧
    (∀ i, i < well.numberOfPerforations → a.perfPress[i + sp]? = b.perfPress[i + sp]?) ∧
    (∀ s, 1 ≤ s → s < well.numberOfSegments →
      perforationOffsetInWell well s < well.numberOfPerforations →
      a.segpress_[s + ss]? = b.segpress_[s + ss]?) ∧
    (∀ s p, s < well.numberOfSegments → p < np →
      a.segphaserates_[np * (s + ss) + p]? = b.segphaserates_[np * (s + ss) + p]?) := by
  obtain ⟨o1, o2, o3, o4⟩ := ha
  obtain ⟨q1, q2, q3, q4⟩ := hb
  have hrates : ∀ i p, i < well.numberOfPerforations → p < np →
      a.perfPhaseRates[np * (i + sp) + p]? = b.perfPhaseRates[np * (i + sp) + p]? := by
    intro i p hi hp
    obtain ⟨r, hr1, hr2⟩ := o1 i p hi hp
    obtain ⟨r2, hr3, hr4⟩ := q1 i p hi hp
    rw [hr p hp, hr3] at hr1
    rw [hr2, hr4, Option.some.inj hr1]
  have hpress : ∀ i, i < well.numberOfPerforations →
      a.perfPress[i + sp]? = b.perfPress[i + sp]? := by
    intro i hi
    obtain ⟨c, x, hc, hx, hxx⟩ := o2 i hi
    obtain ⟨c2, x2, hc2, hx2, hxx2⟩ := q2 i hi
    rw [hc] at hc2
    have e1 := Option.some.inj hc2
    subst e1
    rw [hx] at hx2
    have e2 := Option.some.inj hx2
    subst e2
    rw [hxx, hxx2]
  refine ⟨hrates, hpress, ?_, ?_⟩
  · intro s hs1 hs2 hs3
    obtain ⟨x, hx1, hx2⟩ := o3 s hs1 hs2 hs3
    obtain ⟨y, hy1, hy2⟩ := q3 s hs1 hs2 hs3
    have := hpress _ hs3
    rw [Nat.add_comm, hx1, hy1] at this
    rw [hx2, hy2, Option.some.inj this]
  · intro s p hs hp
    obtain ⟨row, hr1, -, hv⟩ := o4 s p hs hp
    obtain ⟨row2, hr2, -, hv2⟩ := q4 s p hs hp
    rw [hr1] at hr2
    have e1 := Option.some.inj hr2
    subst e1
    have e : (List.range well.numberOfPerforations).map
          (fun i => a.perfPhaseRates.getD (np * (i + sp) + p) 0) =
        (List.range well.numberOfPerforations).map
          (fun i => b.perfPhaseRates.getD (np * (i + sp) + p) 0) := by
      apply List.map_congr_left
      intro i hi
      simp only [List.getD_eq_getElem?_getD]
      rw [hrates i p (List.mem_range.mp hi) hp]
    rw [hv, hv2, e]

/-- The phase rates of the open wells after the initial guess. -/
theorem initGuess_open_rates {wells : List WellMultiSegment} {np : Nat} {pressure : List ℚ}
    {s0 st : WellStateMultiSegment} (h : initGuess wells np pressure s0 = Except.ok st) :
    ∀ (w : Nat) (well : WellMultiSegment) (p : Nat), wells[w]? = some well → p < np →
      well.wellControls.well_is_stopped = false →
      ∃ x, st.wellRates[np * w + p]? = some x ∧ OpenRateGuess well p x := by
  obtain ⟨cc, L, cc2, -, -, hloop, -, rfl⟩ := initGuess_eq_ok h
  intro w well p hw hp
  exact ((mainLoop_rates hloop).2.2 w well p (lt_length_of_getElem? hw) hw hp).2

/-- The initial guesses for the same wells and reservoir pressures from two states agree on
the values of an open well: its phase rates, the pressures and phase rates of its
perforations, the phase rates of its segments, the pressure of its top segment and the
pressure of every other segment that starts inside the perforations of the well. -/
theorem initGuess_open_agree {wells : List WellMultiSegment} {np : Nat} {pressure : List ℚ}
    {s1 s2 a b : WellStateMultiSegment}
    (ha : initGuess wells np pressure s1 = Except.ok a)
    (hb : initGuess wells np pressure s2 = Except.ok b)
    {w : Nat} {well : WellMultiSegment} (hw : wells[w]? = some well)
    (hop : well.wellControls.well_is_stopped = false) :
    (∀ p, p < np → a.wellRates[np * w + p]? = b.wellRates[np * w + p]?) ∧
    (∀ i, i < well.numberOfPerforations →
      a.perfPress[perforationOffset wells w + i]?
        = b.perfPress[perforationOffset wells w + i]? ∧
      ∀ p, p < np →
        a.perfPhaseRates[np * (perforationOffset wells w + i) + p]?
          = b.perfPhaseRates[np * (perforationOffset wells w + i) + p]?) ∧
    (∀ s, s < well.numberOfSegments →
      (∀ p, p < np →
        a.segphaserates_[np * (segmentOffset wells w + s) + p]?
          = b.segphaserates_[np * (segmentOffset wells w + s) + p]?) ∧
      ((s = 0 ∨ perforationOffsetInWell well s < well.numberOfPerforations) →
        a.segpress_[segmentOffset wells w + s]? = b.segpress_[segmentOffset wells w + s]?)) := by
  have hrates : ∀ p, p < np → a.wellRates[np * w + p]? = b.wellRates[np * w + p]? := by
    intro p hp
    obtain ⟨x, hx, gx⟩ := initGuess_open_rates ha w well p hw hp hop
    obtain ⟨y, hy, gy⟩ := initGuess_open_rates hb w well p hw hp hop
    rw [hx, hy, openRateGuess_unique gx gy]
  obtain ⟨c1, c2, c3, c4⟩ := openArrays_agree hrates ((initGuess_arrays ha w well hw).1 hop)
    ((initGuess_arrays hb w well hw).1 hop)
  refine ⟨hrates, fun i hi => ⟨?_, fun p hp => ?_⟩, fun s hs => ⟨fun p hp => ?_, fun hcond => ?_⟩⟩
  · rw [Nat.add_comm]
    exact c2 i hi
  · rw [Nat.add_comm (perforationOffset wells w) i]
    exact c1 i p hi hp
  · rw [Nat.add_comm (segmentOffset wells w) s]
    exact c4 s p hs hp
  · rcases Nat.eq_zero_or_pos s with h0 | hpos
    · subst h0
      obtain ⟨x, hx1, hx2⟩ := initGuess_top ha w well hw hop (by omega)
      obtain ⟨y, hy1, hy2⟩ := initGuess_top hb w well hw hop (by omega)
      obtain ⟨u, hu, gu⟩ := initGuess_bhp ha w well hw
      obtain ⟨v, hv, gv⟩ := initGuess_bhp hb w well hw
      rw [hx1] at hu
      rw [hy1] at hv
      have e1 := Option.some.inj hu
      have e2 := Option.some.inj hv
      subst e1 e2
      rw [Nat.add_zero, hx2, hy2, bhpGuess_unique gu gv]
    · rw [Nat.add_comm (segmentOffset wells w) s]
      apply c3 s hpos hs
      rcases hcond with h0 | h1
      · omega
      · exact h1

/-! ## C20: what `init` resets and what it takes over -/

/-- C20 as amended (what `init` resets and what it takes over). Let `init`, called on the
state `r1` with a non-empty sequence of wells with distinct names, return `st1`, and let `np`
be the number of phases (of the first well).

Agreement: when `init`, called on any state `r2` with the same wells, reservoir pressures and
previous state, returns `st2`, then `st1` and `st2` are equal in `bhp`, `thp`,
`currentControls`, `topSegmentLoc`, the segment and perforation counts and the clone of the
legacy wells, all their vectors have the same sizes, and for every well of the sequence: the
map holds the same entry; the phase rates are the same when the well is open or the previous
state holds it; the pressures and phase rates of its perforations and the phase rates of its
segments are the same when the well is open or carried over from the previous state; and the
pressure of a segment is the same when the well is carried over, or when it is open and the
segment is the top one or starts inside the perforations of the well.

Taken over: `st1` holds the temperature `r1` held for each well (293.15 where it held none);
for a key that is not the name of a well, the map entry `r1` held; and for every stopped
well, at every position of its slot and slices, the element `r1` held there, or the fill
value of the resize where `r1` held none: the phase rates when the previous state does not
hold the well, and the perforation pressures and phase rates and the segment phase rates and
pressures when the well is not carried over (for the pressure of its first segment: when
every open well has a segment).

Independence: `init`, called on any state that holds the same temperatures, phase rates,
perforation and segment vectors and map as `r1`, returns `st1` as well, whatever that state
holds in `bhp`, `thp`, `currentControls`, `topSegmentLoc`, the counts and the clone of the
legacy wells. -/
theorem init_reset_agreement (r1 prevState st1 : WellStateMultiSegment)
    (wells : List WellMultiSegment) (pressure : List ℚ) (legacy : Option Nat)
    (well0 : WellMultiSegment) (h0 : wells.head? = some well0)
    (hn : (wells.map (fun v => v.name)).Nodup)
    (h1 : init r1 wells pressure prevState legacy = Except.ok st1) :
    (∀ r2 st2 : WellStateMultiSegment,
      init r2 wells pressure prevState legacy = Except.ok st2 →
      st1.bhp = st2.bhp ∧ st1.thp = st2.thp ∧ st1.currentControls = st2.currentControls ∧
      st1.top_segment_loc_ = st2.top_segment_loc_ ∧ st1.nseg_ = st2.nseg_ ∧
      st1.nperf_ = st2.nperf_ ∧ st1.wells_ = st2.wells_ ∧ SameSizes st1 st2 ∧
      ∀ (w : Nat) (well : WellMultiSegment), wells[w]? = some well →
        (∃ e, mapFind st1.segmentedWellMap_ well.name = some e ∧
          mapFind st2.segmentedWellMap_ well.name = some e) ∧
        ((well.wellControls.well_is_stopped = false ∨
            (mapFind prevState.segmentedWellMap_ well.name).isSome) →
          ∀ p, p < well0.numberOfPhases →
            st1.wellRates[well0.numberOfPhases * w + p]?
              = st2.wellRates[well0.numberOfPhases * w + p]?) ∧
        ((well.wellControls.well_is_stopped = false ∨ CarriedOver prevState well) →
          (∀ i, i < well.numberOfPerforations →
            st1.perfPress[perforationOffset wells w + i]?
              = st2.perfPress[perforationOffset wells w + i]? ∧
            ∀ p, p < well0.numberOfPhases →
              st1.perfPhaseRates[well0.numberOfPhases * (perforationOffset wells w + i) + p]?
                = st2.perfPhaseRates[
                    well0.numberOfPhases * (perforationOffset wells w + i) + p]?) ∧
          (∀ s, s < well.numberOfSegments →
            (∀ p, p < well0.numberOfPhases →
              st1.segphaserates_[well0.numberOfPhases * (segmentOffset wells w + s) + p]?
                = st2.segphaserates_[
                    well0.numberOfPhases * (segmentOffset wells w + s) + p]?) ∧
            ((CarriedOver prevState well ∨ s = 0 ∨
                perforationOffsetInWell well s < well.numberOfPerforations) →
              st1.segpress_[segmentOffset wells w + s]?
                = st2.segpress_[segmentOffset wells w + s]?)))) ∧
    (∀ j, j < wells.length → TakenOver r1.temperature st1.temperature (27315 / 100 + 20) j) ∧
    (∀ k, k ∉ wells.map (fun v => v.name) →
      mapFind st1.segmentedWellMap_ k = mapFind r1.segmentedWellMap_ k) ∧
    (∀ (w : Nat) (well : WellMultiSegment), wells[w]? = some well →
      well.wellControls.well_is_stopped = true →
      (mapFind prevState.segmentedWellMap_ well.name = none →
        ∀ p, p < well0.numberOfPhases →
          TakenOver r1.wellRates st1.wellRates 0 (well0.numberOfPhases * w + p)) ∧
      (¬ CarriedOver prevState well →
        (∀ i, i < well.numberOfPerforations →
          TakenOver r1.perfPress st1.perfPress sentinel (perforationOffset wells w + i) ∧
          ∀ p, p < well0.numberOfPhases →
            TakenOver r1.perfPhaseRates st1.perfPhaseRates 0
              (well0.numberOfPhases * (perforationOffset wells w + i) + p)) ∧
        (∀ s, s < well.numberOfSegments →
          (∀ p, p < well0.numberOfPhases →
            TakenOver r1.segphaserates_ st1.segphaserates_ 0
              (well0.numberOfPhases * (segmentOffset wells w + s) + p)) ∧
          ((1 ≤ s ∨ ∀ (v : Nat) (wv : WellMultiSegment), wells[v]? = some wv →
              wv.wellControls.well_is_stopped = false → 1 ≤ wv.numberOfSegments) →
            TakenOver r1.segpress_ st1.segpress_ sentinel (segmentOffset wells w + s))))) ∧
    (∀ r2 : WellStateMultiSegment, r2.temperature = r1.temperature →
      r2.wellRates = r1.wellRates → r2.perfPhaseRates = r1.perfPhaseRates →
      r2.perfPress = r1.perfPress → r2.segpress_ = r1.segpress_ →
      r2.segphaserates_ = r1.segphaserates_ →
      r2.segmentedWellMap_ = r1.segmentedWellMap_ →
      init r2 wells pressure prevState legacy = Except.ok st1) := by
  refine ⟨?_, ?_, ?_, ?_, ?_⟩
  · intro r2 st2 h2
    obtain ⟨sta, hga, hca⟩ := init_eq_ok h0 h1
    obtain ⟨stb, hgb, hcb⟩ := init_eq_ok h0 h2
    obtain ⟨g1, g2, g3, g4, g5, g6, g7⟩ := initGuess_agree (by rfl) (by rfl) hga hgb
    obtain ⟨-, a2, a3, a4, a5, -, a7⟩ := carryOver_global hca
    obtain ⟨-, b2, b3, b4, b5, -, b7⟩ := carryOver_global hcb
    have hsz : SameSizes st1 st2 :=
      sameSizes_trans (carryOver_lengths hca)
        (sameSizes_trans g7 (by
          obtain ⟨c1, c2, c3, c4, c5, c6, c7, c8, c9, c10⟩ := carryOver_lengths hcb
          exact ⟨c1.symm, c2.symm, c3.symm, c4.symm, c5.symm, c6.symm, c7.symm, c8.symm,
            c9.symm, c10.symm⟩))
    obtain ⟨l1, -, -, -, -, l6, -⟩ := init_lengths h0 h1
    obtain ⟨m1, -, -, -, -, m6, -⟩ := init_lengths h0 h2
    refine ⟨?_, by rw [a2, b2, g2], ?_, by rw [a3, b3, g4], by rw [a4, b4, g5],
      by rw [a5, b5, g6], ?_, hsz, ?_⟩
    · apply list_eq_of_getElem? l1 m1
      intro i hi
      exact (init_slot_agree h0 hn h1 h2 (List.getElem?_eq_getElem hi)).1
    · apply list_eq_of_getElem? l6 m6
      intro i hi
      exact (init_slot_agree h0 hn h1 h2 (List.getElem?_eq_getElem hi)).2
    · rw [a7, b7, initGuess_wells hga, initGuess_wells hgb]
    · intro w well hw
      obtain ⟨c1, c2⟩ := init_copied_agree h0 hn h1 h2 hw
      obtain ⟨u0, hu0, -, -, u1, u2⟩ := init_kept h0 hn h1 hw
      obtain ⟨v0, hv0, -, -, v1, v2⟩ := init_kept h0 hn h2 hw
      refine ⟨?_, ?_, ?_⟩
      · obtain ⟨e, he, hl, hs⟩ := init_entry hn h1 hw
        obtain ⟨e2, he2, hl2, hs2⟩ := init_entry hn h2 hw
        exact ⟨e, he, by rw [he2, entry_unique hl2 hs2 hl hs]⟩
      · intro hcond p hp
        cases hold : mapFind prevState.segmentedWellMap_ well.name with
        | some old => exact c1 (by rw [hold]; rfl) p hp
        | none =>
          have hop : well.wellControls.well_is_stopped = false := by
            rcases hcond with h | h
            · exact h
            · rw [hold] at h
              cases h
          rw [u1 hold p hp, v1 hold p hp]
          exact (initGuess_open_agree hu0 hv0 hw hop).1 p hp
      · intro hcond
        by_cases hc : CarriedOver prevState well
        · obtain ⟨d1, d2⟩ := c2 hc
          exact ⟨d1, fun s hs => ⟨(d2 s hs).1, fun _ => (d2 s hs).2⟩⟩
        · have hop : well.wellControls.well_is_stopped = false := by
            rcases hcond with h | h
            · exact h
            · exact absurd h hc
          obtain ⟨x1, x2⟩ := u2 hc
          obtain ⟨y1, y2⟩ := v2 hc
          obtain ⟨-, o2, o3⟩ := initGuess_open_agree hu0 hv0 hw hop
          refine ⟨fun i hi => ⟨?_, fun p hp => ?_⟩,
            fun s hs => ⟨fun p hp => ?_, fun hseg => ?_⟩⟩
          · rw [(x1 i hi).1, (y1 i hi).1]
            exact (o2 i hi).1
          · rw [(x1 i hi).2 p hp, (y1 i hi).2 p hp]
            exact (o2 i hi).2 p hp
          · rw [(x2 s hs).1 p hp, (y2 s hs).1 p hp]
            exact (o3 s hs).1 p hp
          · rw [(x2 s hs).2, (y2 s hs).2]
            apply (o3 s hs).2
            rcases hseg with h | h
            · exact absurd h hc
            · exact h
  · intro j hj
    have hlt : 0 < wells.length := by
      cases wells with
      | nil => simp at h0
      | cons a rest => simp
    obtain ⟨u0, hu0, ut, -, -, -⟩ := init_kept h0 hn h1 (List.getElem?_eq_getElem hlt)
    unfold TakenOver
    rw [ut]
    exact (initGuess_taken_over hu0).1 j hj
  · intro k hk
    have hlt : 0 < wells.length := by
      cases wells with
      | nil => simp at h0
      | cons a rest => simp
    obtain ⟨u0, hu0, -, um, -, -⟩ := init_kept h0 hn h1 (List.getElem?_eq_getElem hlt)
    rw [um]
    exact (initGuess_taken_over hu0).2.1 k hk
  · intro w well hw hst
    obtain ⟨u0, hu0, -, -, u1, u2⟩ := init_kept h0 hn h1 hw
    obtain ⟨t1, t2, t3⟩ := (initGuess_taken_over hu0).2.2 w well hw hst
    refine ⟨fun hold p hp => ?_, fun hc => ?_⟩
    · unfold TakenOver
      rw [u1 hold p hp]
      exact t1 p hp
    · obtain ⟨x1, x2⟩ := u2 hc
      refine ⟨fun i hi => ⟨?_, fun p hp => ?_⟩,
        fun s hs => ⟨fun p hp => ?_, fun hcond => ?_⟩⟩
      · unfold TakenOver
        rw [(x1 i hi).1]
        exact (t2 i hi).1
      · unfold TakenOver
        rw [(x1 i hi).2 p hp]
        exact (t2 i hi).2 p hp
      · unfold TakenOver
        rw [(x2 s hs).1 p hp]
        exact (t3 s hs).1 p hp
      · unfold TakenOver
        rw [(x2 s hs).2]
        exact (t3 s hs).2 hcond
  · intro r2 e1 e2 e3 e4 e5 e6 e7
    have hne : wells ≠ [] := by
      intro hnil
      rw [hnil] at h0
      simp at h0
    rw [init_agree_of_kept pressure prevState legacy hne e1 e2 e3 e4 e5 e6 e7]
    exact h1

/-- Witness of C20 as amended: the wells of the scenario with the previous state `exPrev`,
`init` called on the used state `exUsed` and on a default-constructed state. Well `B` is open
and well `C` is stopped and not held by the previous state: the two results agree on the
perforation values of `B`, and the result of the call on `exUsed` holds for `C` the phase
rates 15 and 16 of `exUsed`, and the temperatures 300 and 301 and the map entry of the key
`Q` of `exUsed`. -/
theorem init_reset_agreement_witness :
    (exWells.head? = some exA ∧ (exWells.map (fun v => v.name)).Nodup ∧
      init exUsed exWells exPressure exPrev none = Except.ok exReused) ∧
    (exReused.bhp = exCont.bhp ∧ exReused.thp = exCont.thp ∧
      exReused.currentControls = exCont.currentControls ∧
      exReused.top_segment_loc_ = exCont.top_segment_loc_) ∧
    (∀ i, i < exB.numberOfPerforations →
      exReused.perfPress[perforationOffset exWells 1 + i]?
        = exCont.perfPress[perforationOffset exWells 1 + i]? ∧
      ∀ p, p < exA.numberOfPhases →
        exReused.perfPhaseRates[exA.numberOfPhases * (perforationOffset exWells 1 + i) + p]?
          = exCont.perfPhaseRates[
              exA.numberOfPhases * (perforationOffset exWells 1 + i) + p]?) ∧
    TakenOver exUsed.temperature exReused.temperature (27315 / 100 + 20) 0 ∧
    mapFind exReused.segmentedWellMap_ "Q" = mapFind exUsed.segmentedWellMap_ "Q" ∧
    (∀ p, p < exA.numberOfPhases →
      TakenOver exUsed.wellRates exReused.wellRates 0 (exA.numberOfPhases * 2 + p)) ∧
    init { exUsed with bhp := [], thp := [], currentControls := [], top_segment_loc_ := [] }
      exWells exPressure exPrev none = Except.ok exReused :=
  have key := init_reset_agreement exUsed exPrev exReused exWells exPressure none exA rfl
    exWells_nodup exReused_eq
  have agree := key.1 WellStateMultiSegment.empty exCont exCont_eq
  ⟨⟨rfl, exWells_nodup, exReused_eq⟩,
    ⟨agree.1, agree.2.1, agree.2.2.1, agree.2.2.2.1⟩,
    ((agree.2.2.2.2.2.2.2.2 1 exB rfl).2.2 (Or.inl rfl)).1,
    key.2.1 0 (by decide),
    key.2.2.1 "Q" (by decide),
    (key.2.2.2.1 2 exC rfl rfl).1 rfl,
    key.2.2.2.2 _ rfl rfl rfl rfl rfl rfl rfl⟩

end Opm
